import Mathlib

/-!
# EduBtM: leaf/internal insertion and cursor navigation

A shallow embedding of `edubtm_Insert.c` (`edubtm_Insert`, `edubtm_InsertLeaf`,
`edubtm_InsertInternal`) and `EduBtM_FetchNext.c` (`EduBtM_FetchNext`,
`edubtm_FetchNext`).

Conventions of the embedding.

* A C function that returns an error code and writes through pointers becomes a
  function returning a record of the error code and of every object it may have written.
* `Two` values are integers; a computed value assigned to a `Two` variable or field is
  reduced to 16 bits with `toTwo` (the counter of the slot-shift loop apart, which stays
  between the bounds of the loop).
* The entry area of a page is a byte memory (little-endian fields); the slot directory
  `slot[-i]` is kept as a separate cell store indexed by the logical index `i`, so the
  embedding describes pages whose entry area and slot directory do not overlap.
* `ERR(e)` is `return e`.
* Routines and constants whose definitions are not in the two source files are either
  fields of `Env` (a parameter of every embedded function) or definitions whose doc
  comment says where they come from.
-/

namespace EduBtM

/-! ## Machine integers and byte memory -/

/-- Conversion of an `int` value to the 16-bit signed type `Two`. -/
def toTwo (x : Int) : Int := (x + 32768) % 65536 - 32768

/-- Byte memory of a page's `data` area, addressed by byte offset. -/
abbrev Mem := Int → Nat

/-- The `n` bytes of `m` starting at offset `off`. -/
def rdBytes (m : Mem) (off : Int) (n : Nat) : List Nat :=
  (List.range n).map fun (i : Nat) => m (off + (i : Int))

/-- `memcpy` of the byte list `bs` to offset `off`. -/
def wrBytes (m : Mem) (off : Int) (bs : List Nat) : Mem :=
  fun a => if off ≤ a ∧ a < off + (bs.length : Int) then bs.getD (a - off).toNat 0 else m a

/-- Little-endian two's-complement image of `v` in `n` bytes. -/
def encInt (n : Nat) (v : Int) : List Nat :=
  (List.range n).map fun (i : Nat) => ((v / (256 : Int) ^ i) % 256).toNat

/-- Unsigned little-endian value of a byte list. -/
def decNat : List Nat → Nat
  | [] => 0
  | b :: bs => b % 256 + 256 * decNat bs

/-- Signed little-endian value of a byte list. -/
def decInt (bs : List Nat) : Int :=
  let u : Int := (decNat bs : Int)
  if 2 * u < (256 : Int) ^ bs.length then u else u - (256 : Int) ^ bs.length

/-- Read a `Two` field stored at offset `off`. -/
def rdTwo (m : Mem) (off : Int) : Int := decInt (rdBytes m off 2)

/-- Store a `Two` field at offset `off`. -/
def wrTwo (m : Mem) (off : Int) (v : Int) : Mem := wrBytes m off (encInt 2 v)

/-- The first `n` bytes of a C character array given as a list (bytes past its end read 0). -/
def bytesOf (src : List Nat) (n : Nat) : List Nat :=
  (List.range n).map fun (i : Nat) => src.getD i 0

/-- Update of one cell of a cell store. -/
def setCell {α β : Type} [DecidableEq α] (f : α → β) (a : α) (v : β) : α → β :=
  fun b => if b = a then v else f b

/-! ## Constants of the system headers -/

/-- Modelled from the spec: the null page number `NIL` ("if none"); its header is not among
the sources. -/
def NIL : Int := -1

/-- Modelled from the spec: tag of the comparison operator "equal". The header numbering the
operators is not among the sources; only the pairwise distinctness of the tags is used. -/
def SM_EQ : Int := 1
/-- Modelled from the spec: tag of the comparison operator "less-than". -/
def SM_LT : Int := 2
/-- Modelled from the spec: tag of the comparison operator "less-or-equal". -/
def SM_LE : Int := 3
/-- Modelled from the spec: tag of the comparison operator "greater-than". -/
def SM_GT : Int := 4
/-- Modelled from the spec: tag of the comparison operator "greater-or-equal". -/
def SM_GE : Int := 5
/-- Modelled from the spec: tag of the comparison operator "scan-to-end". -/
def SM_EOF : Int := 16
/-- Modelled from the spec: tag of the comparison operator "scan-from-start". -/
def SM_BOF : Int := 32

/-- Modelled from the spec: key-part type tag "Integer"; only its distinctness from
`SM_VARSTRING` is used. -/
def SM_INT : Int := 1
/-- Modelled from the spec: key-part type tag "VariableString". -/
def SM_VARSTRING : Int := 6

/-- Modelled from the spec: cursor state flag "Positioned". -/
def CURSOR_ON : Int := 2
/-- Modelled from the spec: cursor state flag "EndOfScan". -/
def CURSOR_EOS : Int := 3

/-- Modelled from the spec: page-kind bit "Internal" of the header field `type`. -/
def INTERNAL : Nat := 1
/-- Modelled from the spec: page-kind bit "Leaf" of the header field `type`. -/
def LEAF : Nat := 2

/-- Modelled from the spec: results of the key comparator, `{Less, Equal, Greater}`. -/
inductive CmpResult
  | EQUAL
  | LESS
  | GREATER
  deriving DecidableEq, Repr

/-- Error codes returned by the embedded functions. `eEXTERNAL` stands for the
"errors caused by function calls" of the routines outside the two source files. -/
inductive ErrCode
  | eNOERROR
  | eBADPARAMETER_BTM
  | eBADCURSOR
  | eNOTSUPPORTED_EDUBTM
  | eDUPLICATEDKEY_BTM
  | eBADCOMPOP_BTM
  | eBADBTREEPAGE_BTM
  | eEXTERNAL (code : Int)
  deriving DecidableEq, Repr

/-! ## Data model -/

/-- One part of a key descriptor (`kdesc->kpart[i]`). -/
structure KeyPart where
  type : Int
  offset : Int
  length : Int
  deriving DecidableEq, Repr

/-- Key descriptor `KeyDesc`. -/
structure KeyDesc where
  flag : Int
  nparts : Int
  kpart : List KeyPart
  deriving DecidableEq, Repr

/-- The array cell `kdesc->kpart[i]`. -/
def KeyDesc.part (kdesc : KeyDesc) (i : Nat) : KeyPart :=
  kdesc.kpart.getD i ⟨0, 0, 0⟩

/-- Key value `KeyValue`: a length and the character array `val`. -/
structure KeyValue where
  len : Int
  val : List Nat
  deriving DecidableEq, Repr

/-- Object identifier, kept as its object representation (the bytes `memcpy` moves). -/
structure ObjectID where
  bytes : List Nat
  deriving DecidableEq, Repr

/-- Page identifier `PageID`. -/
structure PageID where
  pageNo : Int
  volNo : Int
  deriving DecidableEq, Repr

/-- `MAKE_PAGEID(pid, volNo, pageNo)`. -/
def MAKE_PAGEID (volNo pageNo : Int) : PageID := ⟨pageNo, volNo⟩

/-- The fields of `BtreeCursor` that the navigator reads or writes. -/
structure BtreeCursor where
  flag : Int
  oid : ObjectID
  key : KeyValue
  leaf : PageID
  slotNo : Int
  deriving DecidableEq, Repr

/-- Item handed to the parent after a split (`InternalItem`). -/
structure InternalItem where
  spid : Int
  klen : Int
  kval : List Nat
  deriving DecidableEq, Repr

/-- Item handed to the leaf split (`LeafItem`). -/
structure LeafItem where
  oid : ObjectID
  nObjects : Int
  klen : Int
  kval : List Nat
  deriving DecidableEq, Repr

/-- A B+-tree page (the union `BtreePage`): the header fields of the leaf and internal
views, the byte memory `data` and the slot directory, `slot i` being the C cell
`slot[-i]`. -/
structure BtreePage where
  type : Nat
  p0 : Int
  nSlots : Int
  free : Int
  unused : Int
  prevPage : Int
  nextPage : Int
  data : Mem
  slot : Int → Int

/-- Modelled from the spec: the page store of section 6 (`acquire` pins and loads, `release`
unpins, `markDirty`); the buffer manager is not among the sources. `fixed` counts the pins
of each page. -/
structure Store where
  page : PageID → Option BtreePage
  fixed : PageID → Nat
  dirty : PageID → Bool

/-- Modelled from the spec: `acquire(pageId)`; fails when the store has no such page. -/
def BfM_GetTrain (st : Store) (pid : PageID) : Except ErrCode (Store × BtreePage) :=
  match st.page pid with
  | none => .error (ErrCode.eEXTERNAL 1)
  | some p => .ok ({ st with fixed := setCell st.fixed pid (st.fixed pid + 1) }, p)

/-- The store with one more pin on `pid`. -/
abbrev Store.pin (st : Store) (pid : PageID) : Store :=
  { st with fixed := setCell st.fixed pid (st.fixed pid + 1) }

/-- Modelled from the spec: `release(pageId)`; fails when the page is not pinned. -/
def BfM_FreeTrain (st : Store) (pid : PageID) : Except ErrCode Store :=
  if st.fixed pid = 0 then .error (ErrCode.eEXTERNAL 2)
  else .ok { st with fixed := setCell st.fixed pid (st.fixed pid - 1) }

/-- Modelled from the spec: `markDirty(pageId)`; fails when the page is not pinned. -/
def BfM_SetDirty (st : Store) (pid : PageID) : Except ErrCode Store :=
  if st.fixed pid = 0 then .error (ErrCode.eEXTERNAL 3)
  else .ok { st with dirty := setCell st.dirty pid true }

/-- Write of the buffer frame of `pid` (a store through the pointer `apage`). -/
def Store.setPage (st : Store) (pid : PageID) (p : BtreePage) : Store :=
  { st with page := setCell st.page pid (some p) }

/-- Outcome of a split routine: its error code, the store it leaves, the page it was given
and the item for the parent. -/
structure SplitResult where
  e : ErrCode
  st : Store
  page : BtreePage
  item : InternalItem

/-- Sizes and routines that the two source files use and do not define. -/
structure Env where
  /-- The alignment unit of `ALIGNED_LENGTH`. -/
  ALIGN : Nat
  /-- The value of `sizeof(ObjectID)`. -/
  OBJECTID_SIZE : Nat
  /-- The value of `sizeof(ShortPageID)`. -/
  SHORTPAGEID_SIZE : Nat
  /-- The constant `MAXKEYLEN`. -/
  MAXKEYLEN : Nat
  /-- The value of `PAGESIZE - BL_FIXED`, the bytes shared by entries and slots of a leaf. -/
  BL_SPACE : Int
  /-- The value of `PAGESIZE - BI_FIXED`, the same for an internal page. -/
  BI_SPACE : Int
  edubtm_KeyCompare : KeyDesc → KeyValue → KeyValue → CmpResult
  btm_BinarySearchLeaf : BtreePage → KeyDesc → KeyValue → Bool × Int
  edubtm_BinarySearchInternal : BtreePage → KeyDesc → KeyValue → Bool × Int
  edubtm_CompactLeafPage : BtreePage → Int → BtreePage
  edubtm_CompactInternalPage : BtreePage → Int → BtreePage
  edubtm_SplitLeaf : Store → ObjectID → PageID → BtreePage → Int → LeafItem → SplitResult
  edubtm_SplitInternal : Store → ObjectID → BtreePage → Int → InternalItem → SplitResult

/-- Modelled from the spec: `ALIGNED_LENGTH`, "key bytes padded to a fixed alignment
boundary": the least multiple of the alignment unit that is at least `l`. -/
def ALIGNED_LENGTH (align : Nat) (l : Int) : Int :=
  if l % (align : Int) = 0 then l else l + (align : Int) - l % (align : Int)

/-- Modelled from the spec: `contiguousFreeBytes` of a leaf (`BL_CFREE`). -/
def BL_CFREE (x : Env) (p : BtreePage) : Int := x.BL_SPACE - p.free - p.nSlots * 2

/-- Modelled from the spec: `freeBytes` of a leaf (`BL_FREE`), contiguous plus fragmented. -/
def BL_FREE (x : Env) (p : BtreePage) : Int := BL_CFREE x p + p.unused

/-- Modelled from the spec: `contiguousFreeBytes` of an internal page (`BI_CFREE`). -/
def BI_CFREE (x : Env) (p : BtreePage) : Int := x.BI_SPACE - p.free - p.nSlots * 2

/-- Modelled from the spec: `freeBytes` of an internal page (`BI_FREE`). -/
def BI_FREE (x : Env) (p : BtreePage) : Int := BI_CFREE x p + p.unused

/-- The check loop at the head of every function: `true` when no part of the descriptor
has a type other than `SM_INT` and `SM_VARSTRING`. -/
def kdescSupported (kdesc : KeyDesc) : Bool :=
  (List.range kdesc.nparts.toNat).all fun (i : Nat) =>
    !(decide ((kdesc.part i).type ≠ SM_INT) && decide ((kdesc.part i).type ≠ SM_VARSTRING))

/-! ## `EduBtM_FetchNext.c` -/

/-- Outcome of the navigator: the error code, the store and the cursor `*next`. -/
structure FetchResult where
  e : ErrCode
  st : Store
  next : BtreeCursor

/-- Lines 174-178 of `edubtm_FetchNext`: the index `idx` and the flag of `next` after the
direction rule. -/
def fetchDirection (compOp slotNo flag : Int) : Int × Int :=
  if compOp = SM_EQ then (slotNo, CURSOR_EOS)
  else if compOp = SM_LT ∨ compOp = SM_LE ∨ compOp = SM_EOF then (toTwo (slotNo + 1), flag)
  else if compOp = SM_GT ∨ compOp = SM_GE ∨ compOp = SM_BOF then (toTwo (slotNo - 1), flag)
  else (slotNo, flag)

/-- State of `edubtm_FetchNext` after the boundary step: error code of the step, store,
the page `apage` points to, `nextLeaf`, `idx` and the flag of `next`. -/
structure Located where
  e : ErrCode
  st : Store
  apage : BtreePage
  nextLeaf : PageID
  idx : Int
  flag : Int

/-- The release of `curLeaf` followed by the acquisition of `nextLeaf` (lines 187-190,
203-206 and 216-219); `newIdx` computes `idx` from the page acquired. -/
def fetchHop (st : Store) (curLeaf nextLeaf : PageID) (apage : BtreePage) (idx flag : Int)
    (newIdx : BtreePage → Int) : Located :=
  match BfM_FreeTrain st curLeaf with
  | .error e => ⟨e, st, apage, nextLeaf, idx, flag⟩
  | .ok st1 =>
    match BfM_GetTrain st1 nextLeaf with
    | .error e => ⟨e, st1, apage, nextLeaf, idx, flag⟩
    | .ok (st2, np) => ⟨ErrCode.eNOERROR, st2, np, nextLeaf, newIdx np, flag⟩

/-- Lines 180-220 of `edubtm_FetchNext`: leave the current leaf when `idx` is outside it. -/
def fetchBoundary (st : Store) (curLeaf : PageID) (apage : BtreePage) (idx flag : Int) :
    Located :=
  if flag = CURSOR_EOS then ⟨ErrCode.eNOERROR, st, apage, curLeaf, idx, flag⟩
  else if idx < 0 then
    if apage.prevPage ≠ NIL then
      fetchHop st curLeaf (MAKE_PAGEID curLeaf.volNo apage.prevPage) apage idx flag
        (fun np => toTwo (np.nSlots - 1))
    else ⟨ErrCode.eNOERROR, st, apage, curLeaf, idx, CURSOR_EOS⟩
  else if idx ≥ apage.nSlots then
    if apage.nextPage ≠ NIL then
      fetchHop st curLeaf (MAKE_PAGEID curLeaf.volNo apage.nextPage) apage idx flag
        (fun _ => 0)
    else ⟨ErrCode.eNOERROR, st, apage, curLeaf, idx, CURSOR_EOS⟩
  else fetchHop st curLeaf curLeaf apage idx flag (fun _ => idx)

/-- The key copied by `memcpy(&next->key, &entry->klen, sizeof(KeyValue))` from the entry
of logical slot `idx`. -/
def leafEntryKey (maxKeyLen : Nat) (p : BtreePage) (idx : Int) : KeyValue :=
  ⟨rdTwo p.data (p.slot idx + 2), rdBytes p.data (p.slot idx + 4) maxKeyLen⟩

/-- The object identifier copied from `&entry->kval + alignedKlen` of logical slot `idx`
(`kval` is the one-character array that ends `btm_LeafEntry`, so the sum is a byte offset). -/
def leafEntryOid (align oidSize : Nat) (p : BtreePage) (idx : Int) : ObjectID :=
  ⟨rdBytes p.data
    (p.slot idx + 4 + toTwo (ALIGNED_LENGTH align (rdTwo p.data (p.slot idx + 2))))
    oidSize⟩

/-- Lines 238-241 of `edubtm_FetchNext`: the stop condition fails for the comparison
result `cmp`. -/
def stopFails (compOp : Int) (cmp : CmpResult) : Bool :=
  (decide (compOp = SM_LT) && !decide (cmp = CmpResult.LESS)) ||
  (decide (compOp = SM_LE) && !(decide (cmp = CmpResult.LESS) || decide (cmp = CmpResult.EQUAL))) ||
  (decide (compOp = SM_GT) && !decide (cmp = CmpResult.GREATER)) ||
  (decide (compOp = SM_GE) && !(decide (cmp = CmpResult.GREATER) || decide (cmp = CmpResult.EQUAL)))

/-- The function `edubtm_FetchNext`. `next` is the content of `*next` on entry. -/
def edubtm_FetchNext (x : Env) (st : Store) (kdesc : KeyDesc) (kval : KeyValue) (compOp : Int)
    (current next : BtreeCursor) : FetchResult :=
  if !kdescSupported kdesc then ⟨ErrCode.eNOTSUPPORTED_EDUBTM, st, next⟩
  else
    let curLeaf := current.leaf
    let next := { next with flag := CURSOR_ON }
    match BfM_GetTrain st curLeaf with
    | .error e => ⟨e, st, next⟩
    | .ok (st1, apage) =>
      let d := fetchDirection compOp current.slotNo next.flag
      let loc := fetchBoundary st1 curLeaf apage d.1 d.2
      let next := { next with flag := loc.flag }
      if loc.e ≠ ErrCode.eNOERROR then ⟨loc.e, loc.st, next⟩
      else if loc.flag = CURSOR_EOS then
        match BfM_FreeTrain loc.st curLeaf with
        | .error e => ⟨e, loc.st, next⟩
        | .ok st2 => ⟨ErrCode.eNOERROR, st2, next⟩
      else
        let next : BtreeCursor :=
          { flag := loc.flag
            oid := leafEntryOid x.ALIGN x.OBJECTID_SIZE loc.apage loc.idx
            key := leafEntryKey x.MAXKEYLEN loc.apage loc.idx
            leaf := loc.nextLeaf
            slotNo := loc.idx }
        let cmp := x.edubtm_KeyCompare kdesc next.key kval
        let next := if stopFails compOp cmp then { next with flag := CURSOR_EOS } else next
        match BfM_FreeTrain loc.st loc.nextLeaf with
        | .error e => ⟨e, loc.st, next⟩
        | .ok st2 => ⟨ErrCode.eNOERROR, st2, next⟩

/-- The function `EduBtM_FetchNext`. A null pointer argument is `none`; the last
component of the result is the content of `*next` on return. -/
def EduBtM_FetchNext (x : Env) (st : Store) (root : Option PageID) (kdesc : Option KeyDesc)
    (kval : Option KeyValue) (compOp : Int) (current next : Option BtreeCursor) :
    ErrCode × Store × Option BtreeCursor :=
  match root, kdesc, kval, current, next with
  | some _, some kdesc, some kval, some current, some next =>
    if current.flag ≠ CURSOR_ON ∧ current.flag ≠ CURSOR_EOS then (ErrCode.eBADCURSOR, st, some next)
    else if current.flag = CURSOR_EOS then (ErrCode.eNOERROR, st, some next)
    else if !kdescSupported kdesc then (ErrCode.eNOTSUPPORTED_EDUBTM, st, some next)
    else
      let r := edubtm_FetchNext x st kdesc kval compOp current next
      (r.e, r.st, some r.next)
  | _, _, _, _, _ => (ErrCode.eBADPARAMETER_BTM, st, next)

/-! ## `edubtm_Insert.c` -/

/-- Outcome of `edubtm_InsertLeaf` and `edubtm_InsertInternal`: error code, store, the
page behind the pointer `page`, and the out-parameters `*f`, `*h` and `*item`. -/
structure PageInsertResult where
  e : ErrCode
  st : Store
  page : BtreePage
  f : Bool
  h : Bool
  item : InternalItem

/-- The loop `for (i = nSlots-1; i >= idx; i--) slot[-(i+1)] = slot[-i]`, run from `i`
for at most `n` iterations. -/
def shiftSlots (idx : Int) : Nat → Int → (Int → Int) → (Int → Int)
  | 0, _, slot => slot
  | n + 1, i, slot =>
    if i ≥ idx then shiftSlots idx n (i - 1) (setCell slot (i + 1) (slot i)) else slot

/-- Lines 251-254 of `edubtm_InsertLeaf`: the number `len` of key bytes copied. -/
def insertKeyLen (kdesc : KeyDesc) (kval : KeyValue) : Int :=
  if (kdesc.part 0).type = SM_INT then (kdesc.part 0).length else kval.len

/-- The function `edubtm_InsertLeaf`. `f`, `h` and `item` are the contents of the
out-parameters on entry. -/
def edubtm_InsertLeaf (x : Env) (st : Store) (catObjForFile : ObjectID) (pid : PageID)
    (page : BtreePage) (kdesc : KeyDesc) (kval : KeyValue) (oid : ObjectID)
    (f h : Bool) (item : InternalItem) : PageInsertResult :=
  if !kdescSupported kdesc then ⟨ErrCode.eNOTSUPPORTED_EDUBTM, st, page, f, h, item⟩
  else
    let s := x.btm_BinarySearchLeaf page kdesc kval
    if s.1 = true then ⟨ErrCode.eDUPLICATEDKEY_BTM, st, page, false, false, item⟩
    else
      let len : Int := insertKeyLen kdesc kval
      let alignedKlen := toTwo (ALIGNED_LENGTH x.ALIGN len)
      let entryLen := toTwo (2 * 2 + alignedKlen + (x.OBJECTID_SIZE : Int))
      let neededSpace := toTwo (entryLen + 2)
      if BL_FREE x page ≥ neededSpace then
        let page := if BL_CFREE x page < neededSpace then x.edubtm_CompactLeafPage page NIL
          else page
        let idx := toTwo (s.2 + 1)
        let data := wrTwo page.data page.free 1
        let data := wrTwo data (page.free + 2) kval.len
        let data := wrBytes data (page.free + 4) (bytesOf kval.val len.toNat)
        let data := wrBytes data (page.free + 4 + alignedKlen) (bytesOf oid.bytes x.OBJECTID_SIZE)
        let slot := shiftSlots idx (page.nSlots - idx).toNat (page.nSlots - 1) page.slot
        let slot := setCell slot idx page.free
        ⟨ErrCode.eNOERROR, st,
          { page with
            data := data
            slot := slot
            free := toTwo (page.free + entryLen)
            nSlots := toTwo (page.nSlots + 1) },
          false, false, item⟩
      else
        let leaf : LeafItem := ⟨oid, 1, kval.len, kval.val⟩
        let r := x.edubtm_SplitLeaf st catObjForFile pid page s.2 leaf
        ⟨ErrCode.eNOERROR, r.st, r.page, false, true, r.item⟩

/-- The function `edubtm_InsertInternal`. `h` and `ritem` are the contents of the
out-parameters on entry; the field `f` of the result is not used. -/
def edubtm_InsertInternal (x : Env) (st : Store) (catObjForFile : ObjectID)
    (page : BtreePage) (item : InternalItem) (high : Int) (_h : Bool) (ritem : InternalItem) :
    PageInsertResult :=
  let alignedKlen := toTwo (ALIGNED_LENGTH x.ALIGN item.klen)
  let entryLen := toTwo ((x.SHORTPAGEID_SIZE : Int) + 2 + alignedKlen)
  let neededSpace := toTwo (entryLen + 2)
  if BI_FREE x page ≥ neededSpace then
    let page := if BI_CFREE x page < neededSpace then x.edubtm_CompactInternalPage page NIL
      else page
    let high := toTwo (high + 1)
    let data := wrBytes page.data page.free (encInt x.SHORTPAGEID_SIZE item.spid)
    let data := wrTwo data (page.free + (x.SHORTPAGEID_SIZE : Int)) item.klen
    let data := wrBytes data (page.free + (x.SHORTPAGEID_SIZE : Int) + 2)
      (bytesOf item.kval item.klen.toNat)
    let slot := shiftSlots high (page.nSlots - high).toNat (page.nSlots - 1) page.slot
    let slot := setCell slot high page.free
    ⟨ErrCode.eNOERROR, st,
      { page with
        data := data
        slot := slot
        free := toTwo (page.free + entryLen)
        nSlots := toTwo (page.nSlots + 1) },
      false, false, ritem⟩
  else
    let r := x.edubtm_SplitInternal st catObjForFile page high item
    if r.e ≠ ErrCode.eNOERROR then ⟨r.e, r.st, r.page, false, true, r.item⟩
    else ⟨ErrCode.eNOERROR, r.st, r.page, false, true, r.item⟩

/-- Outcome of `edubtm_Insert`: error code, store, and the out-parameters `*f`, `*h`,
`*item`. -/
structure InsertResult where
  e : ErrCode
  st : Store
  f : Bool
  h : Bool
  item : InternalItem

/-- The page the pointer `apage` points to after calls that may have written the frame
of `pid`. -/
def Store.frame (st : Store) (pid : PageID) (apage : BtreePage) : BtreePage :=
  (st.page pid).getD apage

/-- The child page number `iEntry->spid` of the internal entry of logical slot `idx`. -/
def internalEntrySpid (spidSize : Nat) (p : BtreePage) (idx : Int) : Int :=
  decInt (rdBytes p.data (p.slot idx) spidSize)

/-- Lines 169-175 of `edubtm_Insert`: mark the root dirty, release it, return. -/
def insertEpilogue (st : Store) (root : PageID) (f h : Bool) (item : InternalItem) :
    InsertResult :=
  match BfM_SetDirty st root with
  | .error e => ⟨e, st, f, h, item⟩
  | .ok st1 =>
    match BfM_FreeTrain st1 root with
    | .error e => ⟨e, st1, f, h, item⟩
    | .ok st2 => ⟨ErrCode.eNOERROR, st2, f, h, item⟩

/-- The function `edubtm_Insert`. The first argument bounds the depth of the recursion
(`none` when it is exceeded); `f`, `h` and `item` are the contents of the out-parameters
on entry. The local `litem` starts as the zero item. -/
def edubtm_Insert (x : Env) : Nat → Store → ObjectID → PageID → KeyDesc → KeyValue →
    ObjectID → Bool → Bool → InternalItem → Option InsertResult
  | 0, _, _, _, _, _, _, _, _, _ => none
  | fuel + 1, st, catObjForFile, root, kdesc, kval, oid, f, h, item =>
    if !kdescSupported kdesc then some ⟨ErrCode.eNOTSUPPORTED_EDUBTM, st, f, h, item⟩
    else
      match BfM_GetTrain st root with
      | .error e => some ⟨e, st, false, false, item⟩
      | .ok (st1, apage) =>
        if apage.type &&& INTERNAL ≠ 0 then
          let idx := (x.edubtm_BinarySearchInternal apage kdesc kval).2
          let newPid :=
            if idx ≥ 0 then MAKE_PAGEID root.volNo (internalEntrySpid x.SHORTPAGEID_SIZE apage idx)
            else MAKE_PAGEID root.volNo apage.p0
          match edubtm_Insert x fuel st1 catObjForFile newPid kdesc kval oid false false
              ⟨0, 0, []⟩ with
          | none => none
          | some r =>
            if r.e ≠ ErrCode.eNOERROR then some ⟨r.e, r.st, false, false, item⟩
            else if r.h = true then
              let apage := r.st.frame root apage
              let tKey : KeyValue := ⟨r.item.klen, r.item.kval⟩
              let idx := (x.edubtm_BinarySearchInternal apage kdesc tKey).2
              let q := edubtm_InsertInternal x r.st catObjForFile apage r.item idx false item
              let st2 := q.st.setPage root q.page
              if q.e ≠ ErrCode.eNOERROR then some ⟨q.e, st2, false, q.h, q.item⟩
              else insertEpilogue st2 root false q.h q.item
            else insertEpilogue r.st root false false item
        else if apage.type &&& LEAF ≠ 0 then
          let q := edubtm_InsertLeaf x st1 catObjForFile root apage kdesc kval oid false false item
          let st2 := q.st.setPage root q.page
          if q.e ≠ ErrCode.eNOERROR then some ⟨q.e, st2, q.f, q.h, q.item⟩
          else insertEpilogue st2 root q.f q.h q.item
        else insertEpilogue st1 root false false item

/-! ## Routines outside the two source files, modelled from the spec -/

/-- The bytes of a key: the first `len` bytes of `val`. -/
def keyBytes (k : KeyValue) : List Nat := bytesOf k.val k.len.toNat

/-- Modelled from the spec: byte-lexicographic comparison of two strings, "up to the
shorter length then by length". -/
def compareString : List Nat → List Nat → CmpResult
  | [], [] => CmpResult.EQUAL
  | [], _ :: _ => CmpResult.LESS
  | _ :: _, [] => CmpResult.GREATER
  | a :: as, b :: bs =>
    if a % 256 < b % 256 then CmpResult.LESS
    else if b % 256 < a % 256 then CmpResult.GREATER
    else compareString as bs

/-- Modelled from the spec: the comparison of section 4.1 on the bytes of two keys,
"part-by-part in descriptor order; integer parts compare numerically, variable-length
string parts compare byte-lexicographically". A string part is a `Two` length followed by
its bytes. -/
def compareParts : List KeyPart → List Nat → List Nat → CmpResult
  | [], _, _ => CmpResult.EQUAL
  | p :: ps, a, b =>
    if p.type = SM_INT then
      let n := p.length.toNat
      if decInt (bytesOf a n) < decInt (bytesOf b n) then CmpResult.LESS
      else if decInt (bytesOf b n) < decInt (bytesOf a n) then CmpResult.GREATER
      else compareParts ps (a.drop n) (b.drop n)
    else
      let la := decNat (bytesOf a 2)
      let lb := decNat (bytesOf b 2)
      match compareString (bytesOf (a.drop 2) la) (bytesOf (b.drop 2) lb) with
      | CmpResult.EQUAL => compareParts ps (a.drop (2 + la)) (b.drop (2 + lb))
      | r => r

/-- Modelled from the spec: the key comparator `compare(a, b, desc)` of section 4.1
(`edubtm_KeyCompare`, not among the sources). -/
def specKeyCompare (kdesc : KeyDesc) (a b : KeyValue) : CmpResult :=
  compareParts (kdesc.kpart.take kdesc.nparts.toNat) (keyBytes a) (keyBytes b)

/-- The keys of a leaf read through its slot directory, logical index 0 to `nSlots - 1`. -/
def leafKeys (maxKeyLen : Nat) (p : BtreePage) : List KeyValue :=
  (List.range p.nSlots.toNat).map fun (i : Nat) => leafEntryKey maxKeyLen p (i : Int)

/-- Modelled from the spec: the leaf binary search of section 4.3 (`btm_BinarySearchLeaf`,
not among the sources): "found=true iff an entry with exactly this key exists;
logicalIndex is that entry's index if found, else the index at which a new entry with this
key would be inserted (i.e., first index whose key is ≥ the search key)". -/
def specBinarySearchLeaf (cmp : KeyDesc → KeyValue → KeyValue → CmpResult) (maxKeyLen : Nat)
    (p : BtreePage) (kdesc : KeyDesc) (kval : KeyValue) : Bool × Int :=
  let keys := leafKeys maxKeyLen p
  if keys.any (fun k => decide (cmp kdesc k kval = CmpResult.EQUAL)) then
    (true, (keys.findIdx (fun k => decide (cmp kdesc k kval = CmpResult.EQUAL)) : Int))
  else
    (false, (keys.findIdx (fun k => decide (cmp kdesc k kval ≠ CmpResult.LESS)) : Int))

/-- The leaf binary search with the index convention that the `idx++` of
`edubtm_InsertLeaf` presupposes: found as above, and otherwise the index of the last entry
whose key is less than the search key, `-1` if there is none. -/
def predBinarySearchLeaf (cmp : KeyDesc → KeyValue → KeyValue → CmpResult) (maxKeyLen : Nat)
    (p : BtreePage) (kdesc : KeyDesc) (kval : KeyValue) : Bool × Int :=
  let keys := leafKeys maxKeyLen p
  if keys.any (fun k => decide (cmp kdesc k kval = CmpResult.EQUAL)) then
    (true, (keys.findIdx (fun k => decide (cmp kdesc k kval = CmpResult.EQUAL)) : Int))
  else
    (false, (keys.findIdx (fun k => decide (cmp kdesc k kval ≠ CmpResult.LESS)) : Int) - 1)

/-- The key of the internal entry of logical slot `idx` (`klen` follows `spid`). -/
def internalEntryKey (spidSize maxKeyLen : Nat) (p : BtreePage) (idx : Int) : KeyValue :=
  ⟨rdTwo p.data (p.slot idx + (spidSize : Int)),
    rdBytes p.data (p.slot idx + (spidSize : Int) + 2) maxKeyLen⟩

/-- The keys of an internal page read through its slot directory. -/
def internalKeys (spidSize maxKeyLen : Nat) (p : BtreePage) : List KeyValue :=
  (List.range p.nSlots.toNat).map fun (i : Nat) => internalEntryKey spidSize maxKeyLen p (i : Int)

/-- Modelled from the spec: the internal binary search of section 4.3
(`edubtm_BinarySearchInternal`, not among the sources): "the last entry whose key is ≤ the
search key, or no entry if the key is less than every entry's key" (index `-1`). -/
def specBinarySearchInternal (cmp : KeyDesc → KeyValue → KeyValue → CmpResult)
    (spidSize maxKeyLen : Nat) (p : BtreePage) (kdesc : KeyDesc) (kval : KeyValue) : Bool × Int :=
  let keys := internalKeys spidSize maxKeyLen p
  (keys.any (fun k => decide (cmp kdesc k kval = CmpResult.EQUAL)),
    (keys.findIdx (fun k => decide (cmp kdesc k kval = CmpResult.GREATER)) : Int) - 1)

/-- Modelled from the spec: `compact(page)` of section 4.2, one step per live entry:
"rewrites all live entries contiguously from the start of the entry area in slot order".
`entryLen` gives the length of the entry at an offset of the old page. -/
def compactLoop (entryLen : Mem → Int → Int) (old : BtreePage) :
    Nat → Int → BtreePage → BtreePage
  | 0, _, acc => acc
  | n + 1, i, acc =>
    let len := entryLen old.data (old.slot i)
    compactLoop entryLen old n (i + 1)
      { acc with
        data := wrBytes acc.data acc.free (rdBytes old.data (old.slot i) len.toNat)
        slot := setCell acc.slot i acc.free
        free := acc.free + len }

/-- Length of the leaf entry stored at offset `off`. -/
def leafEntryLen (align oidSize : Nat) (m : Mem) (off : Int) : Int :=
  2 * 2 + toTwo (ALIGNED_LENGTH align (rdTwo m (off + 2))) + (oidSize : Int)

/-- Length of the internal entry stored at offset `off`. -/
def internalEntryLen (align spidSize : Nat) (m : Mem) (off : Int) : Int :=
  (spidSize : Int) + 2 + toTwo (ALIGNED_LENGTH align (rdTwo m (off + (spidSize : Int))))

/-- Modelled from the spec: `compact(page)` for a leaf (`edubtm_CompactLeafPage`, not among
the sources): "updates freeSpaceOffset, sets compactFreeBytes == freeBytes. Does not change
slot count or logical order." -/
def specCompactLeafPage (align oidSize : Nat) (p : BtreePage) (_slotNo : Int) : BtreePage :=
  { compactLoop (leafEntryLen align oidSize) p p.nSlots.toNat 0 { p with free := 0 } with
    unused := 0 }

/-- Modelled from the spec: `compact(page)` for an internal page
(`edubtm_CompactInternalPage`, not among the sources). -/
def specCompactInternalPage (align spidSize : Nat) (p : BtreePage) (_slotNo : Int) : BtreePage :=
  { compactLoop (internalEntryLen align spidSize) p p.nSlots.toNat 0 { p with free := 0 } with
    unused := 0 }

/-- A split routine whose allocator has no page left: it fails and changes nothing. -/
def splitLeafNoSpace (st : Store) (_cat : ObjectID) (_pid : PageID) (page : BtreePage)
    (_idx : Int) (_leaf : LeafItem) : SplitResult :=
  ⟨ErrCode.eEXTERNAL 4, st, page, ⟨0, 0, []⟩⟩

/-- A split routine for internal pages whose allocator has no page left. -/
def splitInternalNoSpace (st : Store) (_cat : ObjectID) (page : BtreePage)
    (_high : Int) (_item : InternalItem) : SplitResult :=
  ⟨ErrCode.eEXTERNAL 4, st, page, ⟨0, 0, []⟩⟩

/-- An environment with the sizes of a 4096-byte page, 4-byte alignment, 12-byte object
identifiers and the routines of the spec; `leafSearch` is the leaf binary search used. -/
def envWith (leafSearch : (KeyDesc → KeyValue → KeyValue → CmpResult) → Nat →
    BtreePage → KeyDesc → KeyValue → Bool × Int) : Env where
  ALIGN := 4
  OBJECTID_SIZE := 12
  SHORTPAGEID_SIZE := 4
  MAXKEYLEN := 256
  BL_SPACE := 4056
  BI_SPACE := 4064
  edubtm_KeyCompare := specKeyCompare
  btm_BinarySearchLeaf := leafSearch specKeyCompare 256
  edubtm_BinarySearchInternal := specBinarySearchInternal specKeyCompare 4 256
  edubtm_CompactLeafPage := specCompactLeafPage 4 12
  edubtm_CompactInternalPage := specCompactInternalPage 4 4
  edubtm_SplitLeaf := splitLeafNoSpace
  edubtm_SplitInternal := splitInternalNoSpace

/-- The environment whose leaf binary search is the one of section 4.3 of the spec. -/
def specEnv : Env := envWith specBinarySearchLeaf

/-- The environment whose leaf binary search returns the predecessor index. -/
def predEnv : Env := envWith predBinarySearchLeaf

/-! ## Example data -/

/-- Byte memory holding the list `bs` from offset 0, zero elsewhere. -/
def memOf (bs : List Nat) : Mem := fun a => if 0 ≤ a then bs.getD a.toNat 0 else 0

/-- The descriptor of a key made of one 4-byte integer. -/
def exKdesc : KeyDesc := ⟨0, 1, [⟨SM_INT, 0, 4⟩]⟩

/-- The key value of the integer `n` under `exKdesc`. -/
def exKey (n : Int) : KeyValue := ⟨4, encInt 4 n⟩

/-- A 12-byte object identifier numbered `n`. -/
def exOid (n : Int) : ObjectID := ⟨encInt 12 n⟩

/-- The 20 bytes of the leaf entry of the integer key `n`: `nObjects = 1`, `klen = 4`,
the key, the object identifier `exOid n`. -/
def exEntry (n : Int) : List Nat := encInt 2 1 ++ encInt 2 4 ++ encInt 4 n ++ (exOid n).bytes

/-- A leaf holding the integer keys `ks` in this order, entry `i` at offset `20 * i`, with
the given sibling links. -/
def exLeaf (ks : List Int) (prevPage nextPage : Int) : BtreePage where
  type := LEAF
  p0 := 0
  nSlots := ks.length
  free := 20 * ks.length
  unused := 0
  prevPage := prevPage
  nextPage := nextPage
  data := memOf (ks.flatMap exEntry)
  slot := fun (i : Int) => if 0 ≤ i ∧ i < ks.length then 20 * i else 0

/-- The 10 bytes of the internal entry with child page `child` and integer key `n`. -/
def exInternalEntry (child n : Int) : List Nat := encInt 4 child ++ encInt 2 4 ++ encInt 4 n

/-- An internal page with leftmost child `p0` and the entries `es` (child, key) in this
order, entry `i` at offset `10 * i`. -/
def exInternal (p0 : Int) (es : List (Int × Int)) : BtreePage where
  type := INTERNAL
  p0 := p0
  nSlots := es.length
  free := 10 * es.length
  unused := 0
  prevPage := NIL
  nextPage := NIL
  data := memOf (es.flatMap fun e => exInternalEntry e.1 e.2)
  slot := fun (i : Int) => if 0 ≤ i ∧ i < es.length then 10 * i else 0

/-- A two-level tree: root 1 with leftmost child 10 and the entry (11, key 5); leaf 10
holds 1, 3 and leaf 11 holds 5, 7. -/
def exTree : List (Int × BtreePage) :=
  [(1, exInternal 10 [(11, 5)]), (10, exLeaf [1, 3] NIL 11), (11, exLeaf [5, 7] 10 NIL)]

/-- A store holding the pages listed (volume 0), nothing pinned, nothing dirty. -/
def exStore (pages : List (Int × BtreePage)) : Store where
  page := fun pid => if pid.volNo = 0 then (pages.lookup pid.pageNo) else none
  fixed := fun _ => 0
  dirty := fun _ => false

/-- A cursor positioned on slot `slotNo` of page `pageNo`, on the integer key `n`. -/
def exCursor (pageNo slotNo n : Int) : BtreeCursor :=
  ⟨CURSOR_ON, exOid n, exKey n, ⟨pageNo, 0⟩, slotNo⟩

/-- A cursor in state EndOfScan. -/
def exCursorEOS : BtreeCursor := ⟨CURSOR_EOS, exOid 0, exKey 0, ⟨0, 0⟩, 0⟩

/-! ## Notions used to state the claims -/

/-- Error codes that the page store can produce. -/
def viaStore (e : ErrCode) : Prop := e = ErrCode.eNOERROR ∨ ∃ c, e = ErrCode.eEXTERNAL c

/-- The state in which `edubtm_FetchNext` reaches "Make next cursor" (line 229) from the
positioned cursor `current`: the candidate entry is slot `idx` of `apage`. `none` when
the function returns before (an error, or EndOfScan at a boundary or for `SM_EQ`). -/
def fetchCandidate (st : Store) (compOp : Int) (current : BtreeCursor) : Option Located :=
  match BfM_GetTrain st current.leaf with
  | .error _ => none
  | .ok (st1, apage) =>
    let d := fetchDirection compOp current.slotNo CURSOR_ON
    let loc := fetchBoundary st1 current.leaf apage d.1 d.2
    if loc.e = ErrCode.eNOERROR ∧ loc.flag ≠ CURSOR_EOS then some loc else none

/-- The leaf that the descent of `edubtm_Insert` reaches from `root` in at most `n`
levels, following at each internal page the child the function recurses into. -/
def insertPath (x : Env) (page : PageID → Option BtreePage) (kdesc : KeyDesc) (kval : KeyValue) :
    Nat → PageID → Option (PageID × BtreePage)
  | 0, _ => none
  | n + 1, root =>
    match page root with
    | none => none
    | some p =>
      if p.type &&& INTERNAL ≠ 0 then
        let idx := (x.edubtm_BinarySearchInternal p kdesc kval).2
        insertPath x page kdesc kval n
          (if idx ≥ 0 then MAKE_PAGEID root.volNo (internalEntrySpid x.SHORTPAGEID_SIZE p idx)
           else MAKE_PAGEID root.volNo p.p0)
      else if p.type &&& LEAF ≠ 0 then some (root, p)
      else none

/-- The Positioned cursor on slot `i` of the leaf `e.2` stored as page `e.1` of volume `vol`,
with the key and object identifier of that entry. -/
def cursorAt (x : Env) (vol : Int) (e : Int × BtreePage) (i : Nat) : BtreeCursor :=
  ⟨CURSOR_ON, leafEntryOid x.ALIGN x.OBJECTID_SIZE e.2 (i : Int),
    leafEntryKey x.MAXKEYLEN e.2 (i : Int), ⟨e.1, vol⟩, (i : Int)⟩

/-- The cursors on the entries of one leaf, logical slot 0 first. -/
def leafCursors (x : Env) (vol : Int) (e : Int × BtreePage) : List BtreeCursor :=
  (List.range e.2.nSlots.toNat).map (cursorAt x vol e)

/-- The cursors on the entries of a list of leaves, in the order of the list. -/
def chainCursors (x : Env) (vol : Int) (chain : List (Int × BtreePage)) : List BtreeCursor :=
  chain.flatMap (leafCursors x vol)

/-- A list of leaves (page number, page) of volume `vol` linked by the header field `link`:
every leaf is in the store and has between 1 and 32767 slots, the link of each leaf is the
page number of the leaf after it in the list, and the link of the last leaf is `NIL`. -/
def Linked (link : BtreePage → Int) (st : Store) (vol : Int) : List (Int × BtreePage) → Prop
  | [] => True
  | [e] => st.page ⟨e.1, vol⟩ = some e.2 ∧ (0 < e.2.nSlots ∧ e.2.nSlots ≤ 32767) ∧ link e.2 = NIL
  | e :: e2 :: rest =>
    st.page ⟨e.1, vol⟩ = some e.2 ∧ (0 < e.2.nSlots ∧ e.2.nSlots ≤ 32767) ∧
      (link e.2 = e2.1 ∧ e2.1 ≠ NIL) ∧ Linked link st vol (e2 :: rest)

/-- A well-formed leaf chain: `nextPage` links the list forward and `prevPage` links it
backward. -/
def LeafChain (st : Store) (vol : Int) (chain : List (Int × BtreePage)) : Prop :=
  Linked (fun p => p.nextPage) st vol chain ∧ Linked (fun p => p.prevPage) st vol chain.reverse

/-- Repeated calls of `EduBtM_FetchNext`, each given the cursor returned by the previous
call (as `current` and as `next`), at most `n` calls: the Positioned cursors returned, in
order, and the error code and cursor of the call that ended the scan (`none` when `n`
calls did not end it). -/
def scan (x : Env) (root : PageID) (kdesc : KeyDesc) (kval : KeyValue) (compOp : Int) :
    Nat → Store → BtreeCursor → List BtreeCursor × Option (ErrCode × BtreeCursor)
  | 0, _, _ => ([], none)
  | n + 1, st, cur =>
    let r := EduBtM_FetchNext x st (some root) (some kdesc) (some kval) compOp (some cur)
      (some cur)
    let nxt := r.2.2.getD cur
    if r.1 = ErrCode.eNOERROR ∧ nxt.flag = CURSOR_ON then
      (nxt :: (scan x root kdesc kval compOp n r.2.1 nxt).1,
        (scan x root kdesc kval compOp n r.2.1 nxt).2)
    else ([], some (r.1, nxt))

/-- The number of links followed from page `n` until a leaf whose link is `NIL`, within
`k` pages. -/
def stepsToNil (link : BtreePage → Int) (st : Store) (vol : Int) : Nat → Int → Option Nat
  | 0, _ => none
  | k + 1, n =>
    match st.page ⟨n, vol⟩ with
    | none => none
    | some p => if link p = NIL then some 0 else (stepsToNil link st vol k (link p)).map (· + 1)

/-- The two leaves of `exTree` as a chain. -/
def exChain : List (Int × BtreePage) := [(10, exLeaf [1, 3] NIL 11), (11, exLeaf [5, 7] 10 NIL)]

/-- Lines 255-257 of `edubtm_InsertLeaf`: the value of `neededSpace`. -/
def leafNeededSpace (x : Env) (kdesc : KeyDesc) (kval : KeyValue) : Int :=
  toTwo (toTwo (2 * 2 + toTwo (ALIGNED_LENGTH x.ALIGN (insertKeyLen kdesc kval))
    + (x.OBJECTID_SIZE : Int)) + 2)

/-- A key value reduced to its length and its bytes. -/
def canonKey (k : KeyValue) : KeyValue := ⟨k.len, keyBytes k⟩

/-- Inserting pairs one after the other with `edubtm_InsertLeaf`; `none` as soon as a call
returns an error or reports a split. -/
def insertLeafSeq (x : Env) (st : Store) (cat : ObjectID) (pid : PageID) (kdesc : KeyDesc) :
    BtreePage → List (KeyValue × ObjectID) → Option BtreePage
  | p, [] => some p
  | p, kv :: rest =>
    if (edubtm_InsertLeaf x st cat pid p kdesc kv.1 kv.2 false false ⟨0, 0, []⟩).e
        = ErrCode.eNOERROR ∧
       (edubtm_InsertLeaf x st cat pid p kdesc kv.1 kv.2 false false ⟨0, 0, []⟩).h = false then
      insertLeafSeq x st cat pid kdesc
        (edubtm_InsertLeaf x st cat pid p kdesc kv.1 kv.2 false false ⟨0, 0, []⟩).page rest
    else none

/-- Every insert of the sequence finds enough total free space: `BL_FREE(page)` is at least
`neededSpace` when the call is made. -/
def EnoughRoom (x : Env) (st : Store) (cat : ObjectID) (pid : PageID) (kdesc : KeyDesc) :
    BtreePage → List (KeyValue × ObjectID) → Prop
  | _, [] => True
  | p, kv :: rest =>
    BL_FREE x p ≥ leafNeededSpace x kdesc kv.1 ∧
    EnoughRoom x st cat pid kdesc
      (edubtm_InsertLeaf x st cat pid p kdesc kv.1 kv.2 false false ⟨0, 0, []⟩).page rest

/-- Sizes for which the `Two` arithmetic of an insert does not wrap. -/
def SizesOK (x : Env) : Prop :=
  0 < x.ALIGN ∧ (x.MAXKEYLEN : Int) + x.ALIGN + x.OBJECTID_SIZE + 6 ≤ 32767 ∧
    x.BL_SPACE ≤ 32767

/-- A key whose bytes are all copied by the insert: its length is between 0 and the
number of bytes copied, which is at most `MAXKEYLEN`. -/
def KeyOK (x : Env) (kdesc : KeyDesc) (k : KeyValue) : Prop :=
  0 ≤ k.len ∧ k.len ≤ insertKeyLen kdesc k ∧ insertKeyLen kdesc k ≤ x.MAXKEYLEN

/-- The comparator is a strict order on key values that looks only at the length and the
bytes of a key. -/
structure CmpLaws (cmp : KeyValue → KeyValue → CmpResult) : Prop where
  canon : ∀ a b, cmp a b = cmp (canonKey a) (canonKey b)
  antisymm : ∀ a b, cmp a b = CmpResult.GREATER → cmp b a = CmpResult.LESS
  trans : ∀ a b c, cmp a b = CmpResult.LESS → cmp b c = CmpResult.LESS →
    cmp a c = CmpResult.LESS

/-- Layout of a leaf filled by inserts only: no fragmented space, and the key of every
live entry lies below the free-space offset. -/
def LeafInv (x : Env) (p : BtreePage) : Prop :=
  0 ≤ p.nSlots ∧ 0 ≤ p.free ∧ p.unused = 0 ∧
  ∀ i : Nat, (i : Int) < p.nSlots →
    0 ≤ rdTwo p.data (p.slot i + 2) ∧ rdTwo p.data (p.slot i + 2) ≤ x.MAXKEYLEN ∧
    p.slot i + 4 + rdTwo p.data (p.slot i + 2) ≤ p.free

/-- The page that `edubtm_InsertLeaf` leaves when it stores the pair at logical index `i`
without compaction. -/
def pageWithEntry (x : Env) (p : BtreePage) (kdesc : KeyDesc) (kval : KeyValue)
    (oid : ObjectID) (i : Int) : BtreePage :=
  { p with
    data := wrBytes (wrBytes (wrTwo (wrTwo p.data p.free 1) (p.free + 2) kval.len)
        (p.free + 4) (bytesOf kval.val (insertKeyLen kdesc kval).toNat))
      (p.free + 4 + ALIGNED_LENGTH x.ALIGN (insertKeyLen kdesc kval))
      (bytesOf oid.bytes x.OBJECTID_SIZE)
    slot := fun j => if j = i then p.free else if i < j ∧ j ≤ p.nSlots then p.slot (j - 1)
      else p.slot j
    free := p.free + (4 + ALIGNED_LENGTH x.ALIGN (insertKeyLen kdesc kval) + x.OBJECTID_SIZE)
    nSlots := p.nSlots + 1 }

/-- Three pairs with the integer keys 5, 7 and 3. -/
def exPairs : List (KeyValue × ObjectID) :=
  [(exKey 5, exOid 5), (exKey 7, exOid 7), (exKey 3, exOid 3)]

/-! ## Further notions and example data -/

/-- Some part of the descriptor, among its first `nparts` parts, has a type that is neither
`SM_INT` nor `SM_VARSTRING`. -/
def HasUnsupportedPart (kdesc : KeyDesc) : Prop :=
  ∃ i : Nat, (i : Int) < kdesc.nparts ∧
    (kdesc.part i).type ≠ SM_INT ∧ (kdesc.part i).type ≠ SM_VARSTRING

/-- A descriptor whose second part has the type tag 3. -/
def exBadKdesc : KeyDesc := ⟨0, 2, [⟨SM_INT, 0, 4⟩, ⟨3, 4, 4⟩]⟩

/-- The environment `predEnv` with a page so small that two 20-byte entries and their slots
leave a leaf 6 free bytes: 50 bytes for the entry area and slot directory of a leaf. The
split routines are those of `predEnv`, which fail for want of a new page. -/
def smallEnv : Env := { predEnv with BL_SPACE := 50 }

/-- The item `leaf` that `edubtm_InsertLeaf` hands to `edubtm_SplitLeaf` (lines 284-286). -/
def splitLeafItem (kval : KeyValue) (oid : ObjectID) : LeafItem := ⟨oid, 1, kval.len, kval.val⟩

/-- Lines 262-263 of `edubtm_InsertLeaf`: the page after the conditional call of
`edubtm_CompactLeafPage`. -/
def leafAfterCompaction (x : Env) (p : BtreePage) (kdesc : KeyDesc) (kval : KeyValue) :
    BtreePage :=
  if BL_CFREE x p < leafNeededSpace x kdesc kval then x.edubtm_CompactLeafPage p NIL else p

/-- The leaf holding 1, 3 after the entry of key 1 was removed: one slot, on the entry at
offset 20, and the 20 bytes before it unused. -/
def exHoleLeaf : BtreePage :=
  { exLeaf [1, 3] NIL NIL with
    nSlots := 1
    unused := 20
    slot := fun (i : Int) => if i = 0 then 20 else 0 }

/-- The descriptor of a key made of two 4-byte integers. -/
def exPairKdesc : KeyDesc := ⟨0, 2, [⟨SM_INT, 0, 4⟩, ⟨SM_INT, 4, 4⟩]⟩

/-- The key value of the pair `(a, b)` under `exPairKdesc`: 8 bytes. -/
def exPairKey (a b : Int) : KeyValue := ⟨8, encInt 4 a ++ encInt 4 b⟩

/-- The 24 bytes of the leaf entry of the pair `k`: `nObjects = 1`, `klen = 8`, the two
integers, the object identifier `exOid k.1`. -/
def exPairEntry (k : Int × Int) : List Nat :=
  encInt 2 1 ++ encInt 2 8 ++ encInt 4 k.1 ++ encInt 4 k.2 ++ (exOid k.1).bytes

/-- A leaf holding the pairs `ks` in this order, entry `i` at offset `24 * i`. -/
def exPairLeaf (ks : List (Int × Int)) (prevPage nextPage : Int) : BtreePage where
  type := LEAF
  p0 := 0
  nSlots := ks.length
  free := 24 * ks.length
  unused := 0
  prevPage := prevPage
  nextPage := nextPage
  data := memOf (ks.flatMap exPairEntry)
  slot := fun (i : Int) => if 0 ≤ i ∧ i < ks.length then 24 * i else 0

/-- Modelled from the spec: the required space of a leaf insert in the words of section
4.4, "key bytes length-aligned + fixed entry header + ObjectId size + slot cell", the key
bytes being those of the inserted key value and the header the two 2-byte fields. -/
def specNeededSpace (x : Env) (kval : KeyValue) : Int :=
  ALIGNED_LENGTH x.ALIGN kval.len + 2 * 2 + x.OBJECTID_SIZE + 2

/-- The stores left by the page-store calls of `fetchHop` that succeed, in the order of the
calls: the release of `curLeaf`, then the acquisition of `nextLeaf`. -/
def fetchHopTrace (st : Store) (curLeaf nextLeaf : PageID) : List Store :=
  match BfM_FreeTrain st curLeaf with
  | .error _ => []
  | .ok st1 =>
    match BfM_GetTrain st1 nextLeaf with
    | .error _ => [st1]
    | .ok (st2, _) => [st1, st2]

/-- The stores left by the page-store calls of lines 180-220 of `edubtm_FetchNext`
(`fetchBoundary`) that succeed. -/
def fetchBoundaryTrace (st : Store) (curLeaf : PageID) (apage : BtreePage) (idx flag : Int) :
    List Store :=
  if flag = CURSOR_EOS then []
  else if idx < 0 then
    if apage.prevPage ≠ NIL then
      fetchHopTrace st curLeaf (MAKE_PAGEID curLeaf.volNo apage.prevPage)
    else []
  else if idx ≥ apage.nSlots then
    if apage.nextPage ≠ NIL then
      fetchHopTrace st curLeaf (MAKE_PAGEID curLeaf.volNo apage.nextPage)
    else []
  else fetchHopTrace st curLeaf curLeaf

/-- The stores left by the calls of `BfM_GetTrain` and `BfM_FreeTrain` that
`edubtm_FetchNext` makes and that succeed, in the order of the calls (lines 171, 187-189,
203-205, 216-218, 224 and 244). -/
def fetchNextTrace (st : Store) (kdesc : KeyDesc) (compOp : Int) (current : BtreeCursor) :
    List Store :=
  if !kdescSupported kdesc then []
  else
    match BfM_GetTrain st current.leaf with
    | .error _ => []
    | .ok (st1, apage) =>
      let d := fetchDirection compOp current.slotNo CURSOR_ON
      let loc := fetchBoundary st1 current.leaf apage d.1 d.2
      st1 :: (fetchBoundaryTrace st1 current.leaf apage d.1 d.2 ++
        (if loc.e ≠ ErrCode.eNOERROR then []
         else if loc.flag = CURSOR_EOS then
           match BfM_FreeTrain loc.st current.leaf with
           | .error _ => []
           | .ok st2 => [st2]
         else
           match BfM_FreeTrain loc.st loc.nextLeaf with
           | .error _ => []
           | .ok st2 => [st2]))

/-- Lines 343-345 of `edubtm_InsertInternal`: the value of `neededSpace`. -/
def internalNeededSpace (x : Env) (item : InternalItem) : Int :=
  toTwo (toTwo ((x.SHORTPAGEID_SIZE : Int) + 2 + toTwo (ALIGNED_LENGTH x.ALIGN item.klen)) + 2)

/-- Lines 350-351 of `edubtm_InsertInternal`: the page after the conditional call of
`edubtm_CompactInternalPage`. -/
def internalAfterCompaction (x : Env) (p : BtreePage) (item : InternalItem) : BtreePage :=
  if BI_CFREE x p < internalNeededSpace x item then x.edubtm_CompactInternalPage p NIL else p

/-- The page that `edubtm_InsertInternal` leaves when it stores the item at logical index
`i` of the page `p`. -/
def internalWithEntry (x : Env) (p : BtreePage) (item : InternalItem) (i : Int) : BtreePage :=
  { p with
    data := wrBytes (wrTwo (wrBytes p.data p.free (encInt x.SHORTPAGEID_SIZE item.spid))
        (p.free + (x.SHORTPAGEID_SIZE : Int)) item.klen)
      (p.free + (x.SHORTPAGEID_SIZE : Int) + 2) (bytesOf item.kval item.klen.toNat)
    slot := fun j => if j = i then p.free else if i < j ∧ j ≤ p.nSlots then p.slot (j - 1)
      else p.slot j
    free := p.free + ((x.SHORTPAGEID_SIZE : Int) + 2 + ALIGNED_LENGTH x.ALIGN item.klen)
    nSlots := p.nSlots + 1 }

/-- The child page numbers of an internal page read through its slot directory. -/
def internalSpids (spidSize : Nat) (p : BtreePage) : List Int :=
  (List.range p.nSlots.toNat).map fun (i : Nat) => internalEntrySpid spidSize p (i : Int)

/-- Sizes for which the `Two` arithmetic of an internal insert does not wrap. -/
def InternalSizesOK (x : Env) : Prop :=
  0 < x.ALIGN ∧ (x.MAXKEYLEN : Int) + x.ALIGN + x.SHORTPAGEID_SIZE + 4 ≤ 32767 ∧
    x.BI_SPACE ≤ 32767

/-- Layout of an internal page: every live entry (child page number, key length, key
bytes) lies below the free-space offset and its key length is between 0 and
`MAXKEYLEN`. -/
def InternalInv (x : Env) (p : BtreePage) : Prop :=
  0 ≤ p.nSlots ∧ 0 ≤ p.free ∧
  ∀ i : Nat, (i : Int) < p.nSlots →
    0 ≤ rdTwo p.data (p.slot i + (x.SHORTPAGEID_SIZE : Int)) ∧
    rdTwo p.data (p.slot i + (x.SHORTPAGEID_SIZE : Int)) ≤ x.MAXKEYLEN ∧
    p.slot i + (x.SHORTPAGEID_SIZE : Int) + 2
      + rdTwo p.data (p.slot i + (x.SHORTPAGEID_SIZE : Int)) ≤ p.free

/-- The key carried by an item handed to the parent. -/
def itemKey (item : InternalItem) : KeyValue := ⟨item.klen, item.kval⟩

/-- Lines 131-142 of `edubtm_Insert`: the child page the insert descends into from the
internal page `apage`. -/
def insertChild (x : Env) (root : PageID) (apage : BtreePage) (kdesc : KeyDesc)
    (kval : KeyValue) : PageID :=
  if (x.edubtm_BinarySearchInternal apage kdesc kval).2 ≥ 0 then
    MAKE_PAGEID root.volNo
      (internalEntrySpid x.SHORTPAGEID_SIZE apage (x.edubtm_BinarySearchInternal apage kdesc kval).2)
  else MAKE_PAGEID root.volNo apage.p0

/-- Modelled from the spec (leaf split of section 4.4.1): the bytes of the leaf entries of
a page, in slot order. -/
def leafEntryBytes (align oidSize : Nat) (p : BtreePage) : List (List Nat) :=
  (List.range p.nSlots.toNat).map fun (i : Nat) =>
    rdBytes p.data (p.slot i) (leafEntryLen align oidSize p.data (p.slot i)).toNat

/-- Modelled from the spec (leaf split of section 4.4.1): the bytes of the leaf entry built
from a `LeafItem`. -/
def leafItemBytes (align oidSize : Nat) (it : LeafItem) : List Nat :=
  encInt 2 it.nObjects ++ encInt 2 it.klen
    ++ bytesOf it.kval (ALIGNED_LENGTH align it.klen).toNat ++ bytesOf it.oid.bytes oidSize

/-- Modelled from the spec (leaf split of section 4.4.1): the page `p` with the entry area
and the slot directory rebuilt from the entries `es`, stored contiguously in this order. -/
def withEntries (p : BtreePage) (es : List (List Nat)) : BtreePage :=
  { p with
    nSlots := es.length
    free := es.flatten.length
    unused := 0
    data := memOf es.flatten
    slot := fun (i : Int) =>
      if 0 ≤ i ∧ i < es.length then ((es.take i.toNat).flatten.length : Int) else 0 }

/-- Modelled from the spec (leaf split of section 4.4.1, "the split point is chosen to
balance used bytes between the two halves"): the least number of leading entries that hold
at least half of the bytes. -/
def splitPoint (es : List (List Nat)) : Nat :=
  (List.range es.length).findIdx fun (k : Nat) =>
    decide (es.flatten.length ≤ 2 * (es.take k).flatten.length)

/-- Modelled from the spec: the leaf split of section 4.4.1 (`edubtm_SplitLeaf`, not among
the sources), without overflow pages, for an allocator that supplies the page number
`newPage`: the entries of the page and the new item (placed after the index the search
returned) are divided between the page and the new right sibling so as to "balance used
bytes between the two halves", the sibling chain is relinked, and "the separator key placed
in the promoted InternalItem is the smallest key of the new (right) sibling". -/
def specSplitLeaf (align oidSize maxKeyLen : Nat) (newPage : Int) (st : Store) (_cat : ObjectID)
    (pid : PageID) (page : BtreePage) (idx : Int) (leaf : LeafItem) : SplitResult :=
  let es := leafEntryBytes align oidSize page
  let all := es.take (idx + 1).toNat ++ leafItemBytes align oidSize leaf
    :: es.drop (idx + 1).toNat
  let k := splitPoint all
  let left := withEntries { page with nextPage := newPage } (all.take k)
  let right := withEntries { page with prevPage := pid.pageNo } (all.drop k)
  let st1 := st.setPage (MAKE_PAGEID pid.volNo newPage) right
  let st2 :=
    match st1.page (MAKE_PAGEID pid.volNo page.nextPage) with
    | some nb =>
      if page.nextPage ≠ NIL then
        st1.setPage (MAKE_PAGEID pid.volNo page.nextPage) { nb with prevPage := newPage }
      else st1
    | none => st1
  ⟨ErrCode.eNOERROR, st2, left,
    ⟨newPage, (leafEntryKey maxKeyLen right 0).len, keyBytes (leafEntryKey maxKeyLen right 0)⟩⟩

/-- The environment `smallEnv` with the leaf split of the spec; the allocator supplies
page 12. -/
def splitEnv : Env := { smallEnv with edubtm_SplitLeaf := specSplitLeaf 4 12 256 12 }

/-- The result of the recursive call of the example in `splitEnv`: the insert of 4 into
leaf 10 of the example tree, called from the root. -/
def exChildResult : InsertResult :=
  (edubtm_Insert splitEnv 1 ((exStore exTree).pin ⟨1, 0⟩) (exOid 0) ⟨10, 0⟩ exKdesc (exKey 4)
    (exOid 4) false false ⟨0, 0, []⟩).getD
    ⟨ErrCode.eNOERROR, exStore exTree, false, false, ⟨0, 0, []⟩⟩

/-- The result of the same recursive call in `predEnv`, where leaf 10 has room. -/
def exChildResultFit : InsertResult :=
  (edubtm_Insert predEnv 1 ((exStore exTree).pin ⟨1, 0⟩) (exOid 0) ⟨10, 0⟩ exKdesc (exKey 4)
    (exOid 4) false false ⟨0, 0, []⟩).getD
    ⟨ErrCode.eNOERROR, exStore exTree, false, false, ⟨0, 0, []⟩⟩

/-! ## Checked slot access, descent and key ranges -/

/-- The entry read at lines 230-233 of `edubtm_FetchNext` with the bounds of the slot array
checked: `none` when `idx` is outside `[0, nSlots)`. -/
def leafEntryChecked (x : Env) (p : BtreePage) (idx : Int) : Option (KeyValue × ObjectID) :=
  if 0 ≤ idx ∧ idx < p.nSlots then
    some (leafEntryKey x.MAXKEYLEN p idx, leafEntryOid x.ALIGN x.OBJECTID_SIZE p idx)
  else none

/-- The function `edubtm_FetchNext` with the read of the entry checked: `none` when the
function reaches "Make next cursor" with an index outside the slot array of the page it
holds, and the result of `edubtm_FetchNext` otherwise. -/
def edubtm_FetchNextChecked (x : Env) (st : Store) (kdesc : KeyDesc) (kval : KeyValue)
    (compOp : Int) (current next : BtreeCursor) : Option FetchResult :=
  if !kdescSupported kdesc then some (edubtm_FetchNext x st kdesc kval compOp current next)
  else
    match fetchCandidate st compOp current with
    | none => some (edubtm_FetchNext x st kdesc kval compOp current next)
    | some loc =>
      (leafEntryChecked x loc.apage loc.idx).map fun _ =>
        edubtm_FetchNext x st kdesc kval compOp current next

/-- The leaf holding the pair (1, 1) after `edubtm_InsertLeaf` has stored the pair (7, 9)
with the object identifier `exOid 7` (environment `predEnv`). -/
def exPairInserted : BtreePage :=
  (edubtm_InsertLeaf predEnv (exStore [(10, exPairLeaf [(1, 1)] NIL NIL)]) (exOid 0) ⟨10, 0⟩
    (exPairLeaf [(1, 1)] NIL NIL) exPairKdesc (exPairKey 7 9) (exOid 7) false false
    ⟨0, 0, []⟩).page

/-- Lines 144-175 of `edubtm_Insert` on an internal root: what the function returns, given
the result `r` of its recursive call on the child. -/
def insertAfterChild (x : Env) (catObjForFile : ObjectID) (root : PageID) (apage : BtreePage)
    (kdesc : KeyDesc) (item : InternalItem) (r : InsertResult) : InsertResult :=
  if r.e ≠ ErrCode.eNOERROR then ⟨r.e, r.st, false, false, item⟩
  else if r.h = true then
    let apage := r.st.frame root apage
    let tKey : KeyValue := ⟨r.item.klen, r.item.kval⟩
    let idx := (x.edubtm_BinarySearchInternal apage kdesc tKey).2
    let q := edubtm_InsertInternal x r.st catObjForFile apage r.item idx false item
    let st2 := q.st.setPage root q.page
    if q.e ≠ ErrCode.eNOERROR then ⟨q.e, st2, false, q.h, q.item⟩
    else insertEpilogue st2 root false q.h q.item
  else insertEpilogue r.st root false false item

/-- Lines 134-142 of `edubtm_Insert`: the page identifier made from the index `idx` that the
internal binary search returned, the child of entry `idx` when `idx >= 0` and the leftmost
child `p0` otherwise. -/
def internalChild (x : Env) (root : PageID) (apage : BtreePage) (idx : Int) : PageID :=
  if idx ≥ 0 then MAKE_PAGEID root.volNo (internalEntrySpid x.SHORTPAGEID_SIZE apage idx)
  else MAKE_PAGEID root.volNo apage.p0

/-- Modelled from the spec: the InternalPage invariant, "for slot i, all keys in the subtree
rooted at entry i's child are ≥ entry i's key and < entry i+1's key (entry 0's effective
lower bound is `leftmostChild`'s subtree, unbounded below)". The key `kval` lies in the key
range of the child of logical index `j` of the internal page `p`; `j = -1` is the leftmost
child. -/
def InChildRange (x : Env) (kdesc : KeyDesc) (p : BtreePage) (kval : KeyValue) (j : Int) : Prop :=
  (0 ≤ j → x.edubtm_KeyCompare kdesc (internalEntryKey x.SHORTPAGEID_SIZE x.MAXKEYLEN p j) kval
    ≠ CmpResult.GREATER) ∧
  (j + 1 < p.nSlots →
    x.edubtm_KeyCompare kdesc kval (internalEntryKey x.SHORTPAGEID_SIZE x.MAXKEYLEN p (j + 1))
      = CmpResult.LESS)

instance instDecidableInChildRange (x : Env) (kdesc : KeyDesc) (p : BtreePage) (kval : KeyValue)
    (j : Int) :
    Decidable (InChildRange x kdesc p kval j) := by
  unfold InChildRange
  infer_instance

/-- Modelled from the spec: the leaves whose key range contains `kval`, found from `root`
in at most `n` levels by following, at every internal page, each child (the leftmost child
and the child of every entry) whose key range contains `kval`. -/
def keyRangeLeaves (x : Env) (page : PageID → Option BtreePage) (kdesc : KeyDesc)
    (kval : KeyValue) : Nat → PageID → List (PageID × BtreePage)
  | 0, _ => []
  | n + 1, root =>
    match page root with
    | none => []
    | some p =>
      if p.type &&& INTERNAL ≠ 0 then
        ((List.range (p.nSlots.toNat + 1)).filter fun (i : Nat) =>
            decide (InChildRange x kdesc p kval ((i : Int) - 1))).flatMap fun (i : Nat) =>
          keyRangeLeaves x page kdesc kval n (internalChild x root p ((i : Int) - 1))
      else if p.type &&& LEAF ≠ 0 then [(root, p)]
      else []

/-- Modelled from the spec: the LeafEntry record of the data model, "`{objectCount,
keyLength, keyBytes (length-aligned), objectId | overflowPointer}`". The bytes at offset
`off` of the entry area of `p` are a leaf entry that stores the key `k` (of length at most
`MAXKEYLEN`) and the object identifier `o`: the `Two` object count, then the `Two` key
length `k.len`, then the `k.len` bytes of the key, and after the aligned key length the
bytes of `o` (the fields `nObjects`, `klen`, `kval` of `btm_LeafEntry` and the object
identifier at `kval + alignedKlen`, as lines 267-271 of `edubtm_InsertLeaf` write them). -/
def LeafEntryAt (x : Env) (p : BtreePage) (off : Int) (k : KeyValue) (o : ObjectID) : Prop :=
  0 ≤ k.len ∧ k.len ≤ x.MAXKEYLEN ∧
  rdTwo p.data (off + 2) = k.len ∧
  rdBytes p.data (off + 4) k.len.toNat = keyBytes k ∧
  rdBytes p.data (off + 4 + ALIGNED_LENGTH x.ALIGN k.len) x.OBJECTID_SIZE = o.bytes

instance instDecidableLeafEntryAt (x : Env) (p : BtreePage) (off : Int) (k : KeyValue)
    (o : ObjectID) : Decidable (LeafEntryAt x p off k o) := by
  unfold LeafEntryAt
  infer_instance

/-! # Lemmas -/

theorem toTwo_of_range {v : Int} (h1 : -32768 ≤ v) (h2 : v < 32768) : toTwo v = v := by
  unfold toTwo; omega

theorem setCell_same {α β : Type} [DecidableEq α] (f : α → β) (a : α) (v : β) :
    setCell f a v a = v := by simp [setCell]

theorem setCell_other {α β : Type} [DecidableEq α] (f : α → β) (a b : α) (v : β) (h : b ≠ a) :
    setCell f a v b = f b := by simp [setCell, h]

theorem setCell_restore {α β : Type} [DecidableEq α] (f : α → β) (a : α) (v : β) :
    setCell (setCell f a v) a (f a) = f := by
  funext b
  by_cases h : b = a <;> simp [setCell, h]

theorem setCell_self {α β : Type} [DecidableEq α] (f : α → β) (a : α) :
    setCell f a (f a) = f := by
  funext b
  by_cases h : b = a <;> simp [setCell, h]

theorem getTrain_of_page {st : Store} {pid : PageID} {p : BtreePage} (hp : st.page pid = some p) :
    BfM_GetTrain st pid
      = .ok ({ st with fixed := setCell st.fixed pid (st.fixed pid + 1) }, p) := by
  simp [BfM_GetTrain, hp]

/-- Acquiring a page and releasing it leaves the store as it was. -/
theorem freeTrain_after_getTrain (st : Store) (pid : PageID) :
    BfM_FreeTrain { st with fixed := setCell st.fixed pid (st.fixed pid + 1) } pid = .ok st := by
  simp [BfM_FreeTrain, setCell_same, setCell_restore]

/-- On a cursor in state EndOfScan `EduBtM_FetchNext` succeeds and writes nothing. -/
theorem fetchNext_on_EOS_leaves_next (x : Env) (st : Store) (root : PageID) (kdesc : KeyDesc)
    (kval : KeyValue) (compOp : Int) (current next : BtreeCursor)
    (hflag : current.flag = CURSOR_EOS) :
    EduBtM_FetchNext x st (some root) (some kdesc) (some kval) compOp (some current) (some next)
      = (ErrCode.eNOERROR, st, some next) := by
  simp [EduBtM_FetchNext, hflag]

theorem getTrain_error {st : Store} {pid : PageID} {e : ErrCode}
    (h : BfM_GetTrain st pid = .error e) : e = ErrCode.eEXTERNAL 1 := by
  unfold BfM_GetTrain at h
  split at h
  · injection h with h; exact h.symm
  · cases h

theorem freeTrain_error {st : Store} {pid : PageID} {e : ErrCode}
    (h : BfM_FreeTrain st pid = .error e) : e = ErrCode.eEXTERNAL 2 := by
  unfold BfM_FreeTrain at h
  split at h
  · injection h with h; exact h.symm
  · cases h

theorem fetchHop_error (st : Store) (curLeaf nextLeaf : PageID) (apage : BtreePage)
    (idx flag : Int) (newIdx : BtreePage → Int) :
    viaStore (fetchHop st curLeaf nextLeaf apage idx flag newIdx).e := by
  unfold fetchHop
  split
  · next e h => exact Or.inr ⟨2, freeTrain_error h⟩
  · split
    · next e h => exact Or.inr ⟨1, getTrain_error h⟩
    · exact Or.inl rfl

theorem fetchBoundary_error (st : Store) (curLeaf : PageID) (apage : BtreePage)
    (idx flag : Int) : viaStore (fetchBoundary st curLeaf apage idx flag).e := by
  unfold fetchBoundary
  split
  · exact Or.inl rfl
  · split
    · split
      · exact fetchHop_error _ _ _ _ _ _ _
      · exact Or.inl rfl
    · split
      · split
        · exact fetchHop_error _ _ _ _ _ _ _
        · exact Or.inl rfl
      · exact fetchHop_error _ _ _ _ _ _ _

theorem fetchNext_error (x : Env) (st : Store) (kdesc : KeyDesc) (kval : KeyValue)
    (compOp : Int) (current next : BtreeCursor) :
    (edubtm_FetchNext x st kdesc kval compOp current next).e = ErrCode.eNOTSUPPORTED_EDUBTM ∨
    viaStore (edubtm_FetchNext x st kdesc kval compOp current next).e := by
  unfold edubtm_FetchNext
  split
  · exact Or.inl rfl
  · right
    dsimp only
    split
    · next e h => exact Or.inr ⟨1, getTrain_error h⟩
    · next st1 apage h =>
      split
      · exact fetchBoundary_error _ _ _ _ _
      · split
        · split
          · next e h => exact Or.inr ⟨2, freeTrain_error h⟩
          · exact Or.inl rfl
        · split
          · next e h => exact Or.inr ⟨2, freeTrain_error h⟩
          · exact Or.inl rfl

/-- No path of `edubtm_FetchNext` returns `eBADCOMPOP_BTM`. -/
theorem fetchNext_never_BADCOMPOP (x : Env) (st : Store) (kdesc : KeyDesc) (kval : KeyValue)
    (compOp : Int) (current next : BtreeCursor) :
    (edubtm_FetchNext x st kdesc kval compOp current next).e ≠ ErrCode.eBADCOMPOP_BTM := by
  intro h
  rcases fetchNext_error x st kdesc kval compOp current next with h1 | h1 | ⟨c, h1⟩ <;>
    rw [h] at h1 <;> cases h1

theorem setPage_same {st : Store} {pid : PageID} {p : BtreePage} (hp : st.page pid = some p) :
    st.setPage pid p = st := by
  cases st with
  | mk page fixed dirty =>
    simp only [Store.setPage] at *
    congr
    funext b
    by_cases h : b = pid <;> simp [setCell, h, hp]

/-- On a root page that is neither internal nor leaf `edubtm_Insert` marks the page dirty
and succeeds. -/
theorem insert_other_kind (x : Env) (fuel : Nat) (st : Store) (cat : ObjectID) (root : PageID)
    (kdesc : KeyDesc) (kval : KeyValue) (oid : ObjectID) (f h : Bool) (item : InternalItem)
    (p : BtreePage) (hk : kdescSupported kdesc = true) (hp : st.page root = some p)
    (hI : p.type &&& INTERNAL = 0) (hL : p.type &&& LEAF = 0) :
    edubtm_Insert x (fuel + 1) st cat root kdesc kval oid f h item
      = some ⟨ErrCode.eNOERROR, { st with dirty := setCell st.dirty root true }, false, false,
          item⟩ := by
  simp [edubtm_Insert, hk, getTrain_of_page hp, hI, hL, insertEpilogue, BfM_SetDirty,
    BfM_FreeTrain, setCell_same, setCell_restore]

theorem insertLeaf_duplicate_eq (x : Env) (st : Store) (cat : ObjectID) (pid : PageID)
    (page : BtreePage) (kdesc : KeyDesc) (kval : KeyValue) (oid : ObjectID) (f h : Bool)
    (item : InternalItem) (hk : kdescSupported kdesc = true)
    (hfound : (x.btm_BinarySearchLeaf page kdesc kval).1 = true) :
    edubtm_InsertLeaf x st cat pid page kdesc kval oid f h item
      = ⟨ErrCode.eDUPLICATEDKEY_BTM, st, page, false, false, item⟩ := by
  simp [edubtm_InsertLeaf, hk, hfound]

theorem insertPath_mono (x : Env) (page : PageID → Option BtreePage) (kdesc : KeyDesc)
    (kval : KeyValue) (n : Nat) : ∀ (root : PageID) (r : PageID × BtreePage),
    insertPath x page kdesc kval n root = some r →
    insertPath x page kdesc kval (n + 1) root = some r := by
  induction n with
  | zero => intro root r h; simp [insertPath] at h
  | succ n ih =>
    intro root r h
    rw [insertPath] at h
    rw [insertPath]
    cases hp : page root with
    | none => simp [hp] at h
    | some p =>
      simp only [hp] at h ⊢
      by_cases hI : p.type &&& INTERNAL ≠ 0
      · rw [if_pos hI] at h ⊢
        exact ih _ _ h
      · rw [if_neg hI] at h ⊢
        exact h

theorem insertPath_le (x : Env) (page : PageID → Option BtreePage) (kdesc : KeyDesc)
    (kval : KeyValue) (n m : Nat) (hnm : n ≤ m) (root : PageID) (r : PageID × BtreePage)
    (h : insertPath x page kdesc kval n root = some r) :
    insertPath x page kdesc kval m root = some r := by
  induction hnm with
  | refl => exact h
  | step _ ih => exact insertPath_mono x page kdesc kval _ root r ih

/-- On the duplicate path the store keeps every page and every dirty flag. -/
theorem insert_duplicate_aux (x : Env) (cat : ObjectID) (kdesc : KeyDesc) (kval : KeyValue)
    (oid : ObjectID) (hk : kdescSupported kdesc = true) (n : Nat) :
    ∀ (st : Store) (root : PageID) (f h : Bool) (item : InternalItem) (pid : PageID)
      (leaf : BtreePage),
      insertPath x st.page kdesc kval n root = some (pid, leaf) →
      (x.btm_BinarySearchLeaf leaf kdesc kval).1 = true →
      ∃ r, edubtm_Insert x n st cat root kdesc kval oid f h item = some r ∧
        r.e = ErrCode.eDUPLICATEDKEY_BTM ∧ r.st.page = st.page ∧ r.st.dirty = st.dirty := by
  induction n with
  | zero => intro st root f h item pid leaf hpath; simp [insertPath] at hpath
  | succ n ih =>
    intro st root f h item pid leaf hpath hfound
    rw [insertPath] at hpath
    cases hp : st.page root with
    | none => simp [hp] at hpath
    | some p =>
      simp only [hp] at hpath
      by_cases hI : p.type &&& INTERNAL ≠ 0
      · rw [if_pos hI] at hpath
        obtain ⟨r, hr, he, hpg, hd⟩ :=
          ih { st with fixed := setCell st.fixed root (st.fixed root + 1) } _ false false
            ⟨0, 0, []⟩ pid leaf hpath hfound
        refine ⟨⟨r.e, r.st, false, false, item⟩, ?_, he, hpg, hd⟩
        simp [edubtm_Insert, hk, getTrain_of_page hp, hI, hr, he]
      · rw [if_neg hI] at hpath
        by_cases hL : p.type &&& LEAF ≠ 0
        · rw [if_pos hL] at hpath
          injection hpath with hpath
          injection hpath with h1 h2
          subst h1; subst h2
          refine ⟨⟨ErrCode.eDUPLICATEDKEY_BTM,
            { st with fixed := setCell st.fixed root (st.fixed root + 1) }, false, false, item⟩,
            ?_, rfl, rfl, rfl⟩
          have hI2 : p.type &&& INTERNAL = 0 := by simpa using hI
          have hsp : ({ st with fixed := setCell st.fixed root (st.fixed root + 1) } :
              Store).setPage root p
              = { st with fixed := setCell st.fixed root (st.fixed root + 1) } :=
            setPage_same hp
          simp [edubtm_Insert, hk, getTrain_of_page hp, hI2, hL,
            insertLeaf_duplicate_eq x _ cat root p kdesc kval oid false false item hk hfound, hsp]
        · simp [hL] at hpath

theorem fetchHop_ok {st : Store} {curLeaf nextLeaf : PageID} {apage : BtreePage}
    {idx flag : Int} {newIdx : BtreePage → Int}
    (h : (fetchHop st curLeaf nextLeaf apage idx flag newIdx).e = ErrCode.eNOERROR) :
    (fetchHop st curLeaf nextLeaf apage idx flag newIdx).st.fixed nextLeaf ≠ 0 ∧
    (fetchHop st curLeaf nextLeaf apage idx flag newIdx).flag = flag ∧
    (fetchHop st curLeaf nextLeaf apage idx flag newIdx).nextLeaf = nextLeaf := by
  unfold fetchHop at h ⊢
  cases hf : BfM_FreeTrain st curLeaf with
  | error e =>
    rw [hf] at h
    have := freeTrain_error hf
    simp at h
    rw [this] at h; cases h
  | ok st1 =>
    rw [hf] at h
    simp only []
    unfold BfM_GetTrain at h ⊢
    cases hg : st1.page nextLeaf with
    | none => simp [hg] at h
    | some np => simp [hg, setCell_same]

theorem fetchBoundary_candidate {st : Store} {curLeaf : PageID} {apage : BtreePage} {idx : Int}
    (h : (fetchBoundary st curLeaf apage idx CURSOR_ON).e = ErrCode.eNOERROR)
    (hflag : (fetchBoundary st curLeaf apage idx CURSOR_ON).flag ≠ CURSOR_EOS) :
    (fetchBoundary st curLeaf apage idx CURSOR_ON).st.fixed
        (fetchBoundary st curLeaf apage idx CURSOR_ON).nextLeaf ≠ 0 ∧
    (fetchBoundary st curLeaf apage idx CURSOR_ON).flag = CURSOR_ON := by
  have hne : CURSOR_ON ≠ CURSOR_EOS := by decide
  unfold fetchBoundary at h hflag ⊢
  rw [if_neg hne] at h hflag ⊢
  by_cases h1 : idx < 0
  · rw [if_pos h1] at h hflag ⊢
    by_cases h2 : apage.prevPage ≠ NIL
    · rw [if_pos h2] at h hflag ⊢
      obtain ⟨a, b, c⟩ := fetchHop_ok h
      rw [c] ; exact ⟨a, b⟩
    · rw [if_neg h2] at hflag; exact absurd rfl hflag
  · rw [if_neg h1] at h hflag ⊢
    by_cases h3 : idx ≥ apage.nSlots
    · rw [if_pos h3] at h hflag ⊢
      by_cases h2 : apage.nextPage ≠ NIL
      · rw [if_pos h2] at h hflag ⊢
        obtain ⟨a, b, c⟩ := fetchHop_ok h
        rw [c] ; exact ⟨a, b⟩
      · rw [if_neg h2] at hflag; exact absurd rfl hflag
    · rw [if_neg h3] at h hflag ⊢
      obtain ⟨a, b, c⟩ := fetchHop_ok h
      rw [c] ; exact ⟨a, b⟩

theorem fetchDirection_flag_ON_of_candidate (compOp slotNo : Int) :
    (fetchDirection compOp slotNo CURSOR_ON).2 = CURSOR_ON ∨
    ((fetchDirection compOp slotNo CURSOR_ON).2 = CURSOR_EOS ∧ compOp = SM_EQ) := by
  unfold fetchDirection
  by_cases h : compOp = SM_EQ
  · right; simp [h]
  · left
    rw [if_neg h]
    split
    · rfl
    · split <;> rfl

/-- The result of `edubtm_FetchNext` once a candidate entry is located. -/
theorem fetchNext_of_candidate (x : Env) (st : Store) (kdesc : KeyDesc) (kval : KeyValue)
    (compOp : Int) (current next : BtreeCursor) (loc : Located)
    (hk : kdescSupported kdesc = true)
    (hcand : fetchCandidate st compOp current = some loc) :
    ∃ st2, BfM_FreeTrain loc.st loc.nextLeaf = .ok st2 ∧
      edubtm_FetchNext x st kdesc kval compOp current next =
        ⟨ErrCode.eNOERROR, st2,
          { flag := if stopFails compOp
                (x.edubtm_KeyCompare kdesc (leafEntryKey x.MAXKEYLEN loc.apage loc.idx) kval) = true
              then CURSOR_EOS else CURSOR_ON
            oid := leafEntryOid x.ALIGN x.OBJECTID_SIZE loc.apage loc.idx
            key := leafEntryKey x.MAXKEYLEN loc.apage loc.idx
            leaf := loc.nextLeaf
            slotNo := loc.idx }⟩ := by
  unfold fetchCandidate at hcand
  cases hg : BfM_GetTrain st current.leaf with
  | error e => simp [hg] at hcand
  | ok v =>
    obtain ⟨st1, apage⟩ := v
    simp only [hg] at hcand
    split at hcand
    · next hc =>
      injection hcand with hcand
      obtain ⟨he, hfl⟩ := hc
      rcases fetchDirection_flag_ON_of_candidate compOp current.slotNo with hd | ⟨hd, -⟩
      · rw [hd] at hcand he hfl
        obtain ⟨hfix, hON⟩ := fetchBoundary_candidate he hfl
        rw [hcand] at hfix hON he
        refine ⟨_, by simp [BfM_FreeTrain, hfix]; rfl, ?_⟩
        have hne : loc.flag ≠ CURSOR_EOS := by rw [hON]; decide
        unfold edubtm_FetchNext
        simp only [hk, hg, hd, hcand, he, hne, hON]
        have hcne : CURSOR_ON ≠ CURSOR_EOS := by decide
        simp [BfM_FreeTrain, hfix, hcne]
        split <;> rfl
      · rw [hd] at hfl
        simp [fetchBoundary] at hfl
    · cases hcand

/-- Release of `curLeaf`, acquisition of `nextLeaf`: the explicit state when `nextLeaf` is in
the store and `curLeaf` was acquired from `st`. -/
theorem fetchHop_eq (st : Store) (curLeaf nextLeaf : PageID) (apage q : BtreePage)
    (idx flag : Int) (newIdx : BtreePage → Int) (hq : st.page nextLeaf = some q) :
    fetchHop (st.pin curLeaf) curLeaf nextLeaf apage idx flag newIdx
      = ⟨ErrCode.eNOERROR, st.pin nextLeaf, q, nextLeaf, newIdx q, flag⟩ := by
  unfold fetchHop
  rw [freeTrain_after_getTrain]
  simp only []
  rw [getTrain_of_page hq]

theorem fetchDirection_forward {compOp : Int} (slotNo flag : Int)
    (hop : compOp = SM_LT ∨ compOp = SM_LE ∨ compOp = SM_EOF) :
    fetchDirection compOp slotNo flag = (toTwo (slotNo + 1), flag) := by
  rcases hop with h | h | h <;> subst h <;>
    simp [fetchDirection, SM_EQ, SM_LT, SM_LE, SM_EOF]

theorem fetchDirection_backward {compOp : Int} (slotNo flag : Int)
    (hop : compOp = SM_GT ∨ compOp = SM_GE ∨ compOp = SM_BOF) :
    fetchDirection compOp slotNo flag = (toTwo (slotNo - 1), flag) := by
  rcases hop with h | h | h <;> subst h <;>
    simp [fetchDirection, SM_EQ, SM_LT, SM_LE, SM_EOF, SM_GT, SM_GE, SM_BOF]

theorem fetchCandidate_forward (st : Store) (compOp : Int) (current : BtreeCursor)
    (p q : BtreePage) (hp : st.page current.leaf = some p)
    (hn : 0 < p.nSlots ∧ p.nSlots ≤ 32767) (hs : current.slotNo = p.nSlots - 1)
    (hop : compOp = SM_LT ∨ compOp = SM_LE ∨ compOp = SM_EOF)
    (hnext : p.nextPage ≠ NIL)
    (hq : st.page (MAKE_PAGEID current.leaf.volNo p.nextPage) = some q) :
    fetchCandidate st compOp current
      = some ⟨ErrCode.eNOERROR, st.pin (MAKE_PAGEID current.leaf.volNo p.nextPage),
          q, MAKE_PAGEID current.leaf.volNo p.nextPage, 0, CURSOR_ON⟩ := by
  have hd : fetchDirection compOp current.slotNo CURSOR_ON = (p.nSlots, CURSOR_ON) := by
    have h2 : toTwo (p.nSlots - 1 + 1) = p.nSlots := by rw [toTwo_of_range] <;> omega
    rw [fetchDirection_forward _ _ hop, hs, h2]
  have hne : CURSOR_ON ≠ CURSOR_EOS := by decide
  unfold fetchCandidate
  rw [getTrain_of_page hp]
  simp only [hd]
  unfold fetchBoundary
  rw [if_neg hne, if_neg (show ¬ p.nSlots < 0 by omega), if_pos (show p.nSlots ≥ p.nSlots by omega),
    if_pos hnext]
  rw [fetchHop_eq _ _ _ _ _ _ _ _ hq]
  simp [hne]

theorem fetchCandidate_backward (st : Store) (compOp : Int) (current : BtreeCursor)
    (p q : BtreePage) (hp : st.page current.leaf = some p)
    (hs : current.slotNo = 0)
    (hop : compOp = SM_GT ∨ compOp = SM_GE ∨ compOp = SM_BOF)
    (hprev : p.prevPage ≠ NIL)
    (hq : st.page (MAKE_PAGEID current.leaf.volNo p.prevPage) = some q)
    (hqn : 0 < q.nSlots ∧ q.nSlots ≤ 32767) :
    fetchCandidate st compOp current
      = some ⟨ErrCode.eNOERROR, st.pin (MAKE_PAGEID current.leaf.volNo p.prevPage),
          q, MAKE_PAGEID current.leaf.volNo p.prevPage, q.nSlots - 1, CURSOR_ON⟩ := by
  have hd : fetchDirection compOp current.slotNo CURSOR_ON = (-1, CURSOR_ON) := by
    rw [fetchDirection_backward _ _ hop, hs]; rfl
  have hne : CURSOR_ON ≠ CURSOR_EOS := by decide
  unfold fetchCandidate
  rw [getTrain_of_page hp]
  simp only [hd]
  unfold fetchBoundary
  rw [if_neg hne, if_pos (show (-1 : Int) < 0 by omega), if_pos hprev]
  rw [fetchHop_eq _ _ _ _ _ _ _ _ hq]
  simp only [hne, ne_eq, not_false_eq_true, and_self, if_true]
  rw [toTwo_of_range] <;> omega

/-- At a boundary without sibling the navigator returns EndOfScan. -/
theorem fetchNext_boundary_EOS (x : Env) (st : Store) (kdesc : KeyDesc) (kval : KeyValue)
    (compOp : Int) (current next : BtreeCursor) (p : BtreePage)
    (hk : kdescSupported kdesc = true) (hp : st.page current.leaf = some p)
    (h : (fetchDirection compOp current.slotNo CURSOR_ON).2 = CURSOR_ON ∧
      (((fetchDirection compOp current.slotNo CURSOR_ON).1 < 0 ∧ p.prevPage = NIL) ∨
       (0 ≤ (fetchDirection compOp current.slotNo CURSOR_ON).1 ∧
        (fetchDirection compOp current.slotNo CURSOR_ON).1 ≥ p.nSlots ∧ p.nextPage = NIL))) :
    edubtm_FetchNext x st kdesc kval compOp current next
      = ⟨ErrCode.eNOERROR, st, { next with flag := CURSOR_EOS }⟩ := by
  have hne : CURSOR_ON ≠ CURSOR_EOS := by decide
  obtain ⟨hfl, hb⟩ := h
  have hloc : fetchBoundary (st.pin current.leaf) current.leaf p
      (fetchDirection compOp current.slotNo CURSOR_ON).1 CURSOR_ON
      = ⟨ErrCode.eNOERROR, st.pin current.leaf, p, current.leaf,
          (fetchDirection compOp current.slotNo CURSOR_ON).1, CURSOR_EOS⟩ := by
    unfold fetchBoundary
    rw [if_neg hne]
    rcases hb with ⟨h1, h2⟩ | ⟨h1, h2, h3⟩
    · rw [if_pos h1, if_neg (by simpa using h2)]
    · rw [if_neg (by omega), if_pos h2, if_neg (by simpa using h3)]
  unfold edubtm_FetchNext
  simp only [hk, getTrain_of_page hp, hfl, hloc]
  simp [freeTrain_after_getTrain]

theorem stopFails_forward_ok {compOp : Int} {cmp : CmpResult}
    (h : compOp = SM_EOF ∨ (compOp = SM_LT ∧ cmp = CmpResult.LESS) ∨
      (compOp = SM_LE ∧ (cmp = CmpResult.LESS ∨ cmp = CmpResult.EQUAL))) :
    stopFails compOp cmp = false := by
  rcases h with h | ⟨h, h2⟩ | ⟨h, h2 | h2⟩ <;> subst h
  · cases cmp <;> decide
  all_goals subst h2; decide

theorem stopFails_backward_ok {compOp : Int} {cmp : CmpResult}
    (h : compOp = SM_BOF ∨ (compOp = SM_GT ∧ cmp = CmpResult.GREATER) ∨
      (compOp = SM_GE ∧ (cmp = CmpResult.GREATER ∨ cmp = CmpResult.EQUAL))) :
    stopFails compOp cmp = false := by
  rcases h with h | ⟨h, h2⟩ | ⟨h, h2 | h2⟩ <;> subst h
  · cases cmp <;> decide
  all_goals subst h2; decide

/-- The result of `edubtm_FetchNext` when the candidate is in the page `q` acquired as
`leaf` and meets the stop condition. -/
theorem fetchNext_of_candidate_ok (x : Env) (st : Store) (kdesc : KeyDesc) (kval : KeyValue)
    (compOp : Int) (current next : BtreeCursor) (q : BtreePage) (leaf : PageID) (idx : Int)
    (hk : kdescSupported kdesc = true)
    (hcand : fetchCandidate st compOp current
      = some ⟨ErrCode.eNOERROR, st.pin leaf, q, leaf, idx, CURSOR_ON⟩)
    (hstop : stopFails compOp
      (x.edubtm_KeyCompare kdesc (leafEntryKey x.MAXKEYLEN q idx) kval) = false) :
    edubtm_FetchNext x st kdesc kval compOp current next
      = ⟨ErrCode.eNOERROR, st,
          ⟨CURSOR_ON, leafEntryOid x.ALIGN x.OBJECTID_SIZE q idx, leafEntryKey x.MAXKEYLEN q idx,
            leaf, idx⟩⟩ := by
  obtain ⟨st2, hfree, hr⟩ := fetchNext_of_candidate x st kdesc kval compOp current next _ hk hcand
  rw [freeTrain_after_getTrain] at hfree
  injection hfree with hfree
  rw [hr, ← hfree]
  simp [hstop]

theorem fetchCandidate_same_forward (st : Store) (compOp : Int) (current : BtreeCursor)
    (p : BtreePage) (hp : st.page current.leaf = some p)
    (hn : p.nSlots ≤ 32767) (hs : 0 ≤ current.slotNo ∧ current.slotNo + 1 < p.nSlots)
    (hop : compOp = SM_LT ∨ compOp = SM_LE ∨ compOp = SM_EOF) :
    fetchCandidate st compOp current
      = some ⟨ErrCode.eNOERROR, st.pin current.leaf, p, current.leaf, current.slotNo + 1,
          CURSOR_ON⟩ := by
  have h2 : toTwo (current.slotNo + 1) = current.slotNo + 1 := by
    rw [toTwo_of_range] <;> omega
  have hd : fetchDirection compOp current.slotNo CURSOR_ON
      = (current.slotNo + 1, CURSOR_ON) := by
    rw [fetchDirection_forward _ _ hop, h2]
  have hne : CURSOR_ON ≠ CURSOR_EOS := by decide
  unfold fetchCandidate
  rw [getTrain_of_page hp]
  simp only [hd]
  unfold fetchBoundary
  rw [if_neg hne, if_neg (show ¬ current.slotNo + 1 < 0 by omega),
    if_neg (show ¬ current.slotNo + 1 ≥ p.nSlots by omega)]
  rw [fetchHop_eq _ _ _ _ _ _ _ _ hp]
  simp [hne]

theorem fetchCandidate_same_backward (st : Store) (compOp : Int) (current : BtreeCursor)
    (p : BtreePage) (hp : st.page current.leaf = some p)
    (hn : p.nSlots ≤ 32767) (hs : 1 ≤ current.slotNo ∧ current.slotNo < p.nSlots)
    (hop : compOp = SM_GT ∨ compOp = SM_GE ∨ compOp = SM_BOF) :
    fetchCandidate st compOp current
      = some ⟨ErrCode.eNOERROR, st.pin current.leaf, p, current.leaf, current.slotNo - 1,
          CURSOR_ON⟩ := by
  have h2 : toTwo (current.slotNo - 1) = current.slotNo - 1 := by
    rw [toTwo_of_range] <;> omega
  have hd : fetchDirection compOp current.slotNo CURSOR_ON
      = (current.slotNo - 1, CURSOR_ON) := by
    rw [fetchDirection_backward _ _ hop, h2]
  have hne : CURSOR_ON ≠ CURSOR_EOS := by decide
  unfold fetchCandidate
  rw [getTrain_of_page hp]
  simp only [hd]
  unfold fetchBoundary
  rw [if_neg hne, if_neg (show ¬ current.slotNo - 1 < 0 by omega),
    if_neg (show ¬ current.slotNo - 1 ≥ p.nSlots by omega)]
  rw [fetchHop_eq _ _ _ _ _ _ _ _ hp]
  simp [hne]

/-- `EduBtM_FetchNext` on a Positioned cursor with a supported descriptor is
`edubtm_FetchNext`. -/
theorem EduBtM_FetchNext_positioned (x : Env) (st : Store) (root : PageID) (kdesc : KeyDesc)
    (kval : KeyValue) (compOp : Int) (current next : BtreeCursor)
    (hk : kdescSupported kdesc = true) (hflag : current.flag = CURSOR_ON) :
    EduBtM_FetchNext x st (some root) (some kdesc) (some kval) compOp (some current) (some next)
      = ((edubtm_FetchNext x st kdesc kval compOp current next).e,
          (edubtm_FetchNext x st kdesc kval compOp current next).st,
          some (edubtm_FetchNext x st kdesc kval compOp current next).next) := by
  have hne : CURSOR_ON ≠ CURSOR_EOS := by decide
  simp [EduBtM_FetchNext, hflag, hk, hne]

/-- One step of the scan that returns the Positioned cursor `nxt` and the store `st`. -/
theorem scan_step (x : Env) (root : PageID) (kdesc : KeyDesc) (kval : KeyValue) (compOp : Int)
    (n : Nat) (st : Store) (cur nxt : BtreeCursor)
    (hk : kdescSupported kdesc = true) (hflag : cur.flag = CURSOR_ON)
    (hr : edubtm_FetchNext x st kdesc kval compOp cur cur = ⟨ErrCode.eNOERROR, st, nxt⟩)
    (hn : nxt.flag = CURSOR_ON) :
    scan x root kdesc kval compOp (n + 1) st cur
      = (nxt :: (scan x root kdesc kval compOp n st nxt).1,
          (scan x root kdesc kval compOp n st nxt).2) := by
  rw [scan, EduBtM_FetchNext_positioned x st root kdesc kval compOp cur cur hk hflag, hr]
  simp [hn]

/-- The step of the scan that ends it with the cursor `nxt` in state EndOfScan. -/
theorem scan_stop (x : Env) (root : PageID) (kdesc : KeyDesc) (kval : KeyValue) (compOp : Int)
    (n : Nat) (st : Store) (cur nxt : BtreeCursor)
    (hk : kdescSupported kdesc = true) (hflag : cur.flag = CURSOR_ON)
    (hr : edubtm_FetchNext x st kdesc kval compOp cur cur = ⟨ErrCode.eNOERROR, st, nxt⟩)
    (hn : nxt.flag = CURSOR_EOS) :
    scan x root kdesc kval compOp (n + 1) st cur = ([], some (ErrCode.eNOERROR, nxt)) := by
  have hne : CURSOR_EOS ≠ CURSOR_ON := by decide
  rw [scan, EduBtM_FetchNext_positioned x st root kdesc kval compOp cur cur hk hflag, hr]
  simp [hn, hne]

/-- With `SM_EOF` or `SM_BOF` the stop condition never fails. -/
theorem stopFails_unbounded {compOp : Int} (h : compOp = SM_EOF ∨ compOp = SM_BOF)
    (cmp : CmpResult) : stopFails compOp cmp = false := by
  rcases h with h | h <;> subst h <;> cases cmp <;> decide

/-- Forward step inside a leaf. -/
theorem fetchNext_EOF_same_leaf (x : Env) (st : Store) (kdesc : KeyDesc) (kval : KeyValue)
    (vol : Int) (e : Int × BtreePage) (s : Nat) (hk : kdescSupported kdesc = true)
    (hp : st.page ⟨e.1, vol⟩ = some e.2) (hn : e.2.nSlots ≤ 32767)
    (hs : (s : Int) + 1 < e.2.nSlots) :
    edubtm_FetchNext x st kdesc kval SM_EOF (cursorAt x vol e s) (cursorAt x vol e s)
      = ⟨ErrCode.eNOERROR, st, cursorAt x vol e (s + 1)⟩ := by
  have hc := fetchCandidate_same_forward st SM_EOF (cursorAt x vol e s) e.2 hp hn
    ⟨by simp [cursorAt], by simpa [cursorAt] using hs⟩ (Or.inr (Or.inr rfl))
  rw [fetchNext_of_candidate_ok x st kdesc kval SM_EOF _ _ e.2 _ _ hk hc
    (stopFails_unbounded (Or.inl rfl) _)]
  simp [cursorAt]

/-- Backward step inside a leaf. -/
theorem fetchNext_BOF_same_leaf (x : Env) (st : Store) (kdesc : KeyDesc) (kval : KeyValue)
    (vol : Int) (e : Int × BtreePage) (s : Nat) (hk : kdescSupported kdesc = true)
    (hp : st.page ⟨e.1, vol⟩ = some e.2) (hn : e.2.nSlots ≤ 32767)
    (hs : ((s + 1 : Nat) : Int) < e.2.nSlots) :
    edubtm_FetchNext x st kdesc kval SM_BOF (cursorAt x vol e (s + 1)) (cursorAt x vol e (s + 1))
      = ⟨ErrCode.eNOERROR, st, cursorAt x vol e s⟩ := by
  have hc := fetchCandidate_same_backward st SM_BOF (cursorAt x vol e (s + 1)) e.2 hp hn
    ⟨by simp [cursorAt], by simpa [cursorAt] using hs⟩ (Or.inr (Or.inr rfl))
  rw [fetchNext_of_candidate_ok x st kdesc kval SM_BOF _ _ e.2 _ _ hk hc
    (stopFails_unbounded (Or.inr rfl) _)]
  simp [cursorAt]

/-- The forward scan inside a leaf: from slot `s`, `k` calls return the cursors on the
slots `s + 1, ..., s + k`. -/
theorem scan_forward_in_leaf (x : Env) (root : PageID) (kdesc : KeyDesc) (kval : KeyValue)
    (vol : Int) (st : Store) (e : Int × BtreePage) (hk : kdescSupported kdesc = true)
    (hp : st.page ⟨e.1, vol⟩ = some e.2) (hn : e.2.nSlots ≤ 32767) :
    ∀ (k s fuel : Nat), (s : Int) + k < e.2.nSlots →
      scan x root kdesc kval SM_EOF (k + fuel) st (cursorAt x vol e s)
        = ((List.range' (s + 1) k).map (cursorAt x vol e)
              ++ (scan x root kdesc kval SM_EOF fuel st (cursorAt x vol e (s + k))).1,
            (scan x root kdesc kval SM_EOF fuel st (cursorAt x vol e (s + k))).2) := by
  intro k
  induction k with
  | zero => intro s fuel _; simp
  | succ k ih =>
    intro s fuel hs
    have hstep := fetchNext_EOF_same_leaf x st kdesc kval vol e s hk hp hn (by omega)
    have hfuel : k + 1 + fuel = (k + fuel) + 1 := by omega
    rw [hfuel, scan_step x root kdesc kval SM_EOF (k + fuel) st _ _ hk rfl hstep rfl,
      ih (s + 1) fuel (by push_cast; omega)]
    have h3 : s + 1 + k = s + (k + 1) := by omega
    simp [List.range'_succ, h3]

/-- The backward scan inside a leaf: from slot `s`, `s` calls return the cursors on the
slots `s - 1, ..., 0`. -/
theorem scan_backward_in_leaf (x : Env) (root : PageID) (kdesc : KeyDesc) (kval : KeyValue)
    (vol : Int) (st : Store) (e : Int × BtreePage) (hk : kdescSupported kdesc = true)
    (hp : st.page ⟨e.1, vol⟩ = some e.2) (hn : e.2.nSlots ≤ 32767) :
    ∀ (s fuel : Nat), (s : Int) < e.2.nSlots →
      scan x root kdesc kval SM_BOF (s + fuel) st (cursorAt x vol e s)
        = (((List.range s).map (cursorAt x vol e)).reverse
              ++ (scan x root kdesc kval SM_BOF fuel st (cursorAt x vol e 0)).1,
            (scan x root kdesc kval SM_BOF fuel st (cursorAt x vol e 0)).2) := by
  intro s
  induction s with
  | zero => intro fuel _; simp
  | succ s ih =>
    intro fuel hs
    have hstep := fetchNext_BOF_same_leaf x st kdesc kval vol e s hk hp hn hs
    have hfuel : s + 1 + fuel = (s + fuel) + 1 := by omega
    rw [hfuel, scan_step x root kdesc kval SM_BOF (s + fuel) st _ _ hk rfl hstep rfl,
      ih fuel (by push_cast at hs; omega)]
    simp [List.range_succ]

theorem leafCursors_eq (x : Env) (vol : Int) (e : Int × BtreePage) (n : Nat)
    (hn : e.2.nSlots = ((n + 1 : Nat) : Int)) :
    leafCursors x vol e
      = cursorAt x vol e 0 :: (List.range' 1 n).map (cursorAt x vol e) := by
  have : e.2.nSlots.toNat = n + 1 := by omega
  rw [leafCursors, this, List.range_eq_range', List.range'_succ]
  simp

theorem leafCursors_reverse_eq (x : Env) (vol : Int) (e : Int × BtreePage) (n : Nat)
    (hn : e.2.nSlots = ((n + 1 : Nat) : Int)) :
    (leafCursors x vol e).reverse
      = cursorAt x vol e n :: ((List.range n).map (cursorAt x vol e)).reverse := by
  have : e.2.nSlots.toNat = n + 1 := by omega
  rw [leafCursors, this, List.range_succ]
  simp

/-- The forward scan over a chain linked by `nextPage`, from the first entry of its first
leaf: it returns the cursors on all further entries and ends in EndOfScan. -/
theorem scan_forward_chain (x : Env) (root : PageID) (kdesc : KeyDesc) (kval : KeyValue)
    (vol : Int) (st : Store) (hk : kdescSupported kdesc = true) :
    ∀ (chain : List (Int × BtreePage)) (e : Int × BtreePage),
      Linked (fun p => p.nextPage) st vol (e :: chain) →
      ∀ extra : Nat, ∃ fin,
        scan x root kdesc kval SM_EOF ((chainCursors x vol (e :: chain)).length + extra) st
            (cursorAt x vol e 0)
          = ((chainCursors x vol (e :: chain)).tail, some (ErrCode.eNOERROR, fin)) ∧
        fin.flag = CURSOR_EOS := by
  intro chain
  induction chain with
  | nil =>
    intro e hl extra
    obtain ⟨hp, ⟨hn0, hn1⟩, hnil⟩ := hl
    obtain ⟨n, hn⟩ : ∃ n : Nat, e.2.nSlots = ((n + 1 : Nat) : Int) :=
      ⟨(e.2.nSlots - 1).toNat, by push_cast; omega⟩
    have hlen : (chainCursors x vol [e]).length + extra = n + (extra + 1) := by
      simp [chainCursors, leafCursors_eq x vol e n hn]; omega
    have hEOS := fetchNext_boundary_EOS x st kdesc kval SM_EOF (cursorAt x vol e (0 + n))
      (cursorAt x vol e (0 + n)) e.2 hk hp (by
        have h2 : toTwo ((cursorAt x vol e (0 + n)).slotNo + 1) = e.2.nSlots := by
          rw [toTwo_of_range] <;> simp [cursorAt] <;> omega
        have hd : fetchDirection SM_EOF (cursorAt x vol e (0 + n)).slotNo CURSOR_ON
            = (e.2.nSlots, CURSOR_ON) := by
          rw [fetchDirection_forward _ _ (Or.inr (Or.inr rfl)), h2]
        rw [hd]
        exact ⟨rfl, Or.inr ⟨by show 0 ≤ e.2.nSlots; omega,
          by show e.2.nSlots ≥ e.2.nSlots; omega, hnil⟩⟩)
    refine ⟨{ cursorAt x vol e (0 + n) with flag := CURSOR_EOS }, ?_, rfl⟩
    rw [hlen, scan_forward_in_leaf x root kdesc kval vol st e hk hp hn1 n 0 (extra + 1)
      (by push_cast at hn; omega),
      scan_stop x root kdesc kval SM_EOF extra st _ _ hk rfl hEOS rfl]
    simp [chainCursors, leafCursors_eq x vol e n hn]
  | cons e2 rest ih =>
    intro e hl extra
    obtain ⟨hp, ⟨hn0, hn1⟩, ⟨hlink, hne⟩, hrest⟩ := hl
    replace hlink : e.2.nextPage = e2.1 := hlink
    obtain ⟨n, hn⟩ : ∃ n : Nat, e.2.nSlots = ((n + 1 : Nat) : Int) :=
      ⟨(e.2.nSlots - 1).toNat, by push_cast; omega⟩
    have hp2 : st.page ⟨e2.1, vol⟩ = some e2.2 := by
      cases rest with
      | nil => exact hrest.1
      | cons _ _ => exact hrest.1
    have hn2 : 0 < e2.2.nSlots ∧ e2.2.nSlots ≤ 32767 := by
      cases rest with
      | nil => exact hrest.2.1
      | cons _ _ => exact hrest.2.1
    obtain ⟨fin, hfin, hflag⟩ := ih e2 hrest extra
    have hlen : (chainCursors x vol (e :: e2 :: rest)).length + extra
        = n + (((chainCursors x vol (e2 :: rest)).length + extra) + 1) := by
      simp [chainCursors, leafCursors_eq x vol e n hn]; omega
    have hcross : edubtm_FetchNext x st kdesc kval SM_EOF (cursorAt x vol e (0 + n))
        (cursorAt x vol e (0 + n)) = ⟨ErrCode.eNOERROR, st, cursorAt x vol e2 0⟩ := by
      have hc := fetchCandidate_forward st SM_EOF (cursorAt x vol e (0 + n)) e.2 e2.2 hp
        ⟨hn0, hn1⟩ (by simp [cursorAt]; omega) (Or.inr (Or.inr rfl))
        (by show e.2.nextPage ≠ NIL; rw [hlink]; exact hne)
        (by show st.page (MAKE_PAGEID vol e.2.nextPage) = some e2.2; rw [hlink]; exact hp2)
      rw [fetchNext_of_candidate_ok x st kdesc kval SM_EOF _ _ e2.2 _ _ hk hc
        (stopFails_unbounded (Or.inl rfl) _)]
      simp [cursorAt, MAKE_PAGEID, hlink]
    obtain ⟨n2, hn2e⟩ : ∃ n2 : Nat, e2.2.nSlots = ((n2 + 1 : Nat) : Int) :=
      ⟨(e2.2.nSlots - 1).toNat, by push_cast; omega⟩
    refine ⟨fin, ?_, hflag⟩
    rw [hlen, scan_forward_in_leaf x root kdesc kval vol st e hk hp hn1 n 0 _
      (by push_cast at hn; omega),
      scan_step x root kdesc kval SM_EOF _ st _ _ hk rfl hcross rfl, hfin]
    simp [chainCursors, leafCursors_eq x vol e n hn, leafCursors_eq x vol e2 n2 hn2e]

/-- The cursors on the entries of a list of leaves, last slot of the first leaf first. -/
theorem scan_backward_chain (x : Env) (root : PageID) (kdesc : KeyDesc) (kval : KeyValue)
    (vol : Int) (st : Store) (hk : kdescSupported kdesc = true) :
    ∀ (chain : List (Int × BtreePage)) (e : Int × BtreePage),
      Linked (fun p => p.prevPage) st vol (e :: chain) →
      ∀ extra : Nat, ∃ fin,
        scan x root kdesc kval SM_BOF
            (((e :: chain).flatMap fun e => (leafCursors x vol e).reverse).length + extra) st
            (cursorAt x vol e (e.2.nSlots.toNat - 1))
          = (((e :: chain).flatMap fun e => (leafCursors x vol e).reverse).tail,
              some (ErrCode.eNOERROR, fin)) ∧
        fin.flag = CURSOR_EOS := by
  intro chain
  induction chain with
  | nil =>
    intro e hl extra
    obtain ⟨hp, ⟨hn0, hn1⟩, hnil⟩ := hl
    replace hnil : e.2.prevPage = NIL := hnil
    obtain ⟨n, hn⟩ : ∃ n : Nat, e.2.nSlots = ((n + 1 : Nat) : Int) :=
      ⟨(e.2.nSlots - 1).toNat, by push_cast; omega⟩
    have hn' : e.2.nSlots.toNat - 1 = n := by omega
    have hlen : ([e].flatMap fun e => (leafCursors x vol e).reverse).length + extra
        = n + (extra + 1) := by
      simp [leafCursors_reverse_eq x vol e n hn]; omega
    have hEOS := fetchNext_boundary_EOS x st kdesc kval SM_BOF (cursorAt x vol e 0)
      (cursorAt x vol e 0) e.2 hk hp (by
        have hd : fetchDirection SM_BOF (cursorAt x vol e 0).slotNo CURSOR_ON
            = (-1, CURSOR_ON) := by
          rw [fetchDirection_backward _ _ (Or.inr (Or.inr rfl))]; rfl
        rw [hd]
        exact ⟨rfl, Or.inl ⟨by show (-1 : Int) < 0; omega, hnil⟩⟩)
    refine ⟨{ cursorAt x vol e 0 with flag := CURSOR_EOS }, ?_, rfl⟩
    rw [hn', hlen, scan_backward_in_leaf x root kdesc kval vol st e hk hp hn1 n (extra + 1)
      (by push_cast at hn; omega),
      scan_stop x root kdesc kval SM_BOF extra st _ _ hk rfl hEOS rfl]
    simp [leafCursors_reverse_eq x vol e n hn]
  | cons e2 rest ih =>
    intro e hl extra
    obtain ⟨hp, ⟨hn0, hn1⟩, ⟨hlink, hne⟩, hrest⟩ := hl
    replace hlink : e.2.prevPage = e2.1 := hlink
    obtain ⟨n, hn⟩ : ∃ n : Nat, e.2.nSlots = ((n + 1 : Nat) : Int) :=
      ⟨(e.2.nSlots - 1).toNat, by push_cast; omega⟩
    have hn' : e.2.nSlots.toNat - 1 = n := by omega
    have hp2 : st.page ⟨e2.1, vol⟩ = some e2.2 := by
      cases rest with
      | nil => exact hrest.1
      | cons _ _ => exact hrest.1
    have hn2 : 0 < e2.2.nSlots ∧ e2.2.nSlots ≤ 32767 := by
      cases rest with
      | nil => exact hrest.2.1
      | cons _ _ => exact hrest.2.1
    obtain ⟨n2, hn2e⟩ : ∃ n2 : Nat, e2.2.nSlots = ((n2 + 1 : Nat) : Int) :=
      ⟨(e2.2.nSlots - 1).toNat, by push_cast; omega⟩
    have hn2' : e2.2.nSlots.toNat - 1 = n2 := by omega
    obtain ⟨fin, hfin, hflag⟩ := ih e2 hrest extra
    rw [hn2'] at hfin
    have hlen : ((e :: e2 :: rest).flatMap fun e => (leafCursors x vol e).reverse).length + extra
        = n + ((((e2 :: rest).flatMap fun e => (leafCursors x vol e).reverse).length + extra)
            + 1) := by
      simp [leafCursors_reverse_eq x vol e n hn]; omega
    have hcross : edubtm_FetchNext x st kdesc kval SM_BOF (cursorAt x vol e 0)
        (cursorAt x vol e 0) = ⟨ErrCode.eNOERROR, st, cursorAt x vol e2 n2⟩ := by
      have hc := fetchCandidate_backward st SM_BOF (cursorAt x vol e 0) e.2 e2.2 hp
        (by simp [cursorAt]) (Or.inr (Or.inr rfl))
        (by show e.2.prevPage ≠ NIL; rw [hlink]; exact hne)
        (by show st.page (MAKE_PAGEID vol e.2.prevPage) = some e2.2; rw [hlink]; exact hp2)
        hn2
      rw [fetchNext_of_candidate_ok x st kdesc kval SM_BOF _ _ e2.2 _ _ hk hc
        (stopFails_unbounded (Or.inr rfl) _)]
      have h3 : e2.2.nSlots - 1 = (n2 : Int) := by push_cast at hn2e; omega
      simp [cursorAt, MAKE_PAGEID, hlink, h3]
    refine ⟨fin, ?_, hflag⟩
    rw [hn', hlen, scan_backward_in_leaf x root kdesc kval vol st e hk hp hn1 n _
      (by push_cast at hn; omega),
      scan_step x root kdesc kval SM_BOF _ st _ _ hk rfl hcross rfl, hfin]
    simp [leafCursors_reverse_eq x vol e n hn, leafCursors_reverse_eq x vol e2 n2 hn2e]

theorem scan_fuel_split {a b : Nat} (h : a ≤ b) : ∃ extra, b = a + extra := ⟨b - a, by omega⟩

theorem rdBytes_congr {m m2 : Mem} {off : Int} {n : Nat}
    (h : ∀ a, off ≤ a → a < off + n → m2 a = m a) : rdBytes m2 off n = rdBytes m off n := by
  unfold rdBytes
  apply List.map_congr_left
  intro i hi
  have := List.mem_range.mp hi
  apply h <;> omega

theorem wrBytes_outside {m : Mem} {off : Int} {bs : List Nat} {a : Int}
    (h : a < off ∨ off + bs.length ≤ a) : wrBytes m off bs a = m a := by
  unfold wrBytes
  rw [if_neg]
  omega

theorem rdBytes_length (m : Mem) (off : Int) (n : Nat) : (rdBytes m off n).length = n := by
  simp [rdBytes]

theorem bytesOf_length (src : List Nat) (n : Nat) : (bytesOf src n).length = n := by
  simp [bytesOf]

theorem encInt_length (n : Nat) (v : Int) : (encInt n v).length = n := by
  simp [encInt]

theorem rdBytes_wrBytes_prefix (m : Mem) (off : Int) (bs : List Nat) (n : Nat)
    (hn : n ≤ bs.length) : rdBytes (wrBytes m off bs) off n = bs.take n := by
  apply List.ext_getElem
  · simp [rdBytes, hn]
  · intro i h1 h2
    simp only [rdBytes, List.getElem_map, List.getElem_range, wrBytes]
    have hi : i < n := by simpa [rdBytes] using h1
    rw [if_pos (by omega)]
    simp only [add_sub_cancel_left, Int.toNat_ofNat, List.getElem_take]
    rw [List.getD_eq_getElem _ _ (by omega)]

theorem bytesOf_take (src : List Nat) (n k : Nat) (h : k ≤ n) :
    (bytesOf src n).take k = bytesOf src k := by
  unfold bytesOf
  rw [← List.map_take]
  congr 1
  rw [List.take_range, min_eq_left h]

theorem bytesOf_rdBytes (m : Mem) (off : Int) (n k : Nat) (h : k ≤ n) :
    bytesOf (rdBytes m off n) k = rdBytes m off k := by
  unfold bytesOf rdBytes
  apply List.map_congr_left
  intro i hi
  have := List.mem_range.mp hi
  rw [List.getD_eq_getElem _ _ (by simp; omega)]
  simp

theorem decInt_encInt_two (v : Int) (h1 : -32768 ≤ v) (h2 : v < 32768) :
    decInt (encInt 2 v) = v := by
  have e : encInt 2 v = [(v % 256).toNat, ((v / 256) % 256).toNat] := by
    simp [encInt, List.range_succ]
  rw [e]
  simp only [decInt, decNat, List.length_cons, List.length_nil]
  have a1 : ((v % 256).toNat : Int) = v % 256 := Int.toNat_of_nonneg (by omega)
  have a2 : (((v / 256) % 256).toNat : Int) = (v / 256) % 256 := Int.toNat_of_nonneg (by omega)
  have b1 : ((v % 256).toNat % 256 : Nat) = (v % 256).toNat := Nat.mod_eq_of_lt (by omega)
  have b2 : (((v / 256) % 256).toNat % 256 : Nat) = ((v / 256) % 256).toNat :=
    Nat.mod_eq_of_lt (by omega)
  rw [b1, b2]
  push_cast
  rw [a1, a2]
  norm_num
  split <;> omega

theorem rdTwo_wrTwo (m : Mem) (off v : Int) (h1 : -32768 ≤ v) (h2 : v < 32768) :
    rdTwo (wrTwo m off v) off = v := by
  unfold rdTwo wrTwo
  have := rdBytes_wrBytes_prefix m off (encInt 2 v) 2 (by simp [encInt_length])
  rw [this, List.take_of_length_le (by simp [encInt_length])]
  exact decInt_encInt_two v h1 h2

theorem shiftSlots_eq (idx : Int) : ∀ (n : Nat) (i : Int) (slot : Int → Int),
    shiftSlots idx n i slot
      = fun j => if idx ≤ j - 1 ∧ i - n < j - 1 ∧ j - 1 ≤ i then slot (j - 1) else slot j := by
  intro n
  induction n with
  | zero =>
    intro i slot
    funext j
    simp only [shiftSlots]
    rw [if_neg]
    push_cast
    omega
  | succ n ih =>
    intro i slot
    funext j
    simp only [shiftSlots]
    by_cases hi : i ≥ idx
    · rw [if_pos hi, ih]
      simp only [setCell]
      push_cast
      by_cases h1 : idx ≤ j - 1 ∧ i - 1 - (n : Int) < j - 1 ∧ j - 1 ≤ i - 1
      · rw [if_pos h1, if_neg (by omega), if_pos (by omega)]
      · rw [if_neg h1]
        by_cases h2 : j = i + 1
        · rw [if_pos h2, if_pos (by omega), h2]
          congr 1
          omega
        · rw [if_neg h2, if_neg (by omega)]
    · rw [if_neg hi, if_neg (by omega)]

/-- The slot directory written by an insert at logical index `idx` into `n` slots. -/
theorem insert_slot_eq (slot : Int → Int) (n idx v : Int) (h1 : idx ≤ n) :
    setCell (shiftSlots idx (n - idx).toNat (n - 1) slot) idx v
      = fun j => if j = idx then v else if idx < j ∧ j ≤ n then slot (j - 1) else slot j := by
  rw [shiftSlots_eq]
  funext j
  simp only [setCell]
  by_cases hj : j = idx
  · rw [if_pos hj, if_pos hj]
  · rw [if_neg hj, if_neg hj]
    have : ((n - idx).toNat : Int) = n - idx := Int.toNat_of_nonneg (by omega)
    by_cases h2 : idx < j ∧ j ≤ n
    · rw [if_pos h2, if_pos (by omega)]
    · rw [if_neg h2, if_neg (by omega)]

/-- Reading `n + 1` cells of a directory into which one cell was inserted at index `i`. -/
theorem map_range_insert {α : Type} (f g : Nat → α) (v : α) (n i : Nat) (hi : i ≤ n)
    (hlt : ∀ j, j < i → g j = f j) (heq : g i = v) (hgt : ∀ j, i ≤ j → j < n → g (j + 1) = f j) :
    (List.range (n + 1)).map g
      = ((List.range n).map f).take i ++ v :: ((List.range n).map f).drop i := by
  apply List.ext_getElem
  · simp; omega
  · intro j h1 h2
    simp only [List.getElem_map, List.getElem_range]
    by_cases hj : j < i
    · rw [List.getElem_append_left (by simp; omega)]
      simp [hlt j hj]
    · rw [List.getElem_append_right (by simp; omega)]
      simp only [List.length_take, List.length_map, List.length_range, min_eq_left hi]
      by_cases hj2 : j = i
      · subst hj2; simp [heq]
      · obtain ⟨d, rfl⟩ : ∃ d, j = i + 1 + d := ⟨j - i - 1, by omega⟩
        have h3 : i + 1 + d - i = d + 1 := by omega
        have h4 : i + 1 + d = (i + d) + 1 := by omega
        simp only [h3, List.getElem_cons_succ, List.getElem_drop, List.getElem_map,
          List.getElem_range]
        rw [h4, hgt (i + d) (by omega) (by simp at h1; omega)]

theorem ALIGNED_LENGTH_bounds (a : Nat) (l : Int) (ha : 0 < a) :
    l ≤ ALIGNED_LENGTH a l ∧ ALIGNED_LENGTH a l < l + a := by
  unfold ALIGNED_LENGTH
  have h1 : 0 ≤ l % (a : Int) := Int.emod_nonneg _ (by omega)
  have h2 : l % (a : Int) < a := Int.emod_lt_of_pos _ (by omega)
  split <;> omega

theorem leafNeededSpace_eq (x : Env) (kdesc : KeyDesc) (k : KeyValue) (hx : SizesOK x)
    (hkey : KeyOK x kdesc k) :
    toTwo (ALIGNED_LENGTH x.ALIGN (insertKeyLen kdesc k))
        = ALIGNED_LENGTH x.ALIGN (insertKeyLen kdesc k) ∧
    toTwo (2 * 2 + ALIGNED_LENGTH x.ALIGN (insertKeyLen kdesc k) + (x.OBJECTID_SIZE : Int))
        = 4 + ALIGNED_LENGTH x.ALIGN (insertKeyLen kdesc k) + x.OBJECTID_SIZE ∧
    leafNeededSpace x kdesc k
        = 4 + ALIGNED_LENGTH x.ALIGN (insertKeyLen kdesc k) + x.OBJECTID_SIZE + 2 := by
  obtain ⟨ha, hsz, hsp⟩ := hx
  obtain ⟨h0, h1, h2⟩ := hkey
  obtain ⟨b1, b2⟩ := ALIGNED_LENGTH_bounds x.ALIGN (insertKeyLen kdesc k) ha
  have e1 : toTwo (ALIGNED_LENGTH x.ALIGN (insertKeyLen kdesc k))
      = ALIGNED_LENGTH x.ALIGN (insertKeyLen kdesc k) := by
    rw [toTwo_of_range] <;> omega
  have e2 : toTwo (2 * 2 + ALIGNED_LENGTH x.ALIGN (insertKeyLen kdesc k) + (x.OBJECTID_SIZE : Int))
      = 4 + ALIGNED_LENGTH x.ALIGN (insertKeyLen kdesc k) + x.OBJECTID_SIZE := by
    rw [toTwo_of_range] <;> omega
  refine ⟨e1, e2, ?_⟩
  unfold leafNeededSpace
  rw [e1, e2, toTwo_of_range] <;> omega

/-- The result of `edubtm_InsertLeaf` on the path without split and without compaction. -/
theorem insertLeaf_no_split_eq (x : Env) (st : Store) (cat : ObjectID) (pid : PageID)
    (p : BtreePage) (kdesc : KeyDesc) (k : KeyValue) (oid : ObjectID) (f h : Bool)
    (item : InternalItem) (hx : SizesOK x) (hk : kdescSupported kdesc = true)
    (hkey : KeyOK x kdesc k) (hn : 0 ≤ p.nSlots) (hfree : 0 ≤ p.free) (hun : p.unused = 0)
    (hfound : (x.btm_BinarySearchLeaf p kdesc k).1 = false)
    (hidx : -1 ≤ (x.btm_BinarySearchLeaf p kdesc k).2 ∧
      (x.btm_BinarySearchLeaf p kdesc k).2 < p.nSlots)
    (hroom : BL_FREE x p ≥ leafNeededSpace x kdesc k) :
    edubtm_InsertLeaf x st cat pid p kdesc k oid f h item
      = ⟨ErrCode.eNOERROR, st,
          pageWithEntry x p kdesc k oid ((x.btm_BinarySearchLeaf p kdesc k).2 + 1),
          false, false, item⟩ := by
  obtain ⟨e1, e2, e3⟩ := leafNeededSpace_eq x kdesc k hx hkey
  have hx' := hx
  obtain ⟨ha, hsz, hsp⟩ := hx
  obtain ⟨h0, h1, h2⟩ := hkey
  obtain ⟨b1, b2⟩ := ALIGNED_LENGTH_bounds x.ALIGN (insertKeyLen kdesc k) ha
  have hroom2 := hroom
  rw [e3] at hroom2
  unfold BL_FREE BL_CFREE at hroom2
  have e4 : toTwo ((x.btm_BinarySearchLeaf p kdesc k).2 + 1)
      = (x.btm_BinarySearchLeaf p kdesc k).2 + 1 := by
    rw [toTwo_of_range] <;> omega
  have e5 : toTwo (p.free + (4 + ALIGNED_LENGTH x.ALIGN (insertKeyLen kdesc k)
      + (x.OBJECTID_SIZE : Int)))
      = p.free + (4 + ALIGNED_LENGTH x.ALIGN (insertKeyLen kdesc k) + x.OBJECTID_SIZE) := by
    rw [toTwo_of_range] <;> omega
  have e6 : toTwo (p.nSlots + 1) = p.nSlots + 1 := by
    rw [toTwo_of_range] <;> omega
  have hcf : ¬ BL_CFREE x p < leafNeededSpace x kdesc k := by
    have : BL_FREE x p = BL_CFREE x p := by unfold BL_FREE; omega
    rw [← this]; omega
  unfold leafNeededSpace at hroom hcf
  unfold edubtm_InsertLeaf
  simp only [hk, hfound, Bool.not_true, Bool.false_eq_true, if_false, hroom, hcf, if_true]
  simp only [e1, e2, e4, e5, e6]
  unfold pageWithEntry
  congr 2
  rw [insert_slot_eq _ _ _ _ (by omega)]

theorem rdTwo_congr {m m2 : Mem} {off : Int}
    (h : ∀ a, off ≤ a → a < off + 2 → m2 a = m a) : rdTwo m2 off = rdTwo m off := by
  unfold rdTwo
  rw [rdBytes_congr (n := 2) (by exact_mod_cast h)]

/-- The canonical key read from a slot depends only on the bytes of the key. -/
theorem canonKey_leafEntryKey_congr (maxKeyLen : Nat) (p q : BtreePage) (i j : Int)
    (hslot : q.slot j = p.slot i)
    (hlen : 0 ≤ rdTwo p.data (p.slot i + 2) ∧ rdTwo p.data (p.slot i + 2) ≤ maxKeyLen)
    (hdata : ∀ a, p.slot i + 2 ≤ a → a < p.slot i + 4 + rdTwo p.data (p.slot i + 2) →
      q.data a = p.data a) :
    canonKey (leafEntryKey maxKeyLen q j) = canonKey (leafEntryKey maxKeyLen p i) := by
  have hl : rdTwo q.data (p.slot i + 2) = rdTwo p.data (p.slot i + 2) :=
    rdTwo_congr (fun a h1 h2 => hdata a h1 (by omega))
  simp only [canonKey, leafEntryKey, keyBytes, hslot, hl, KeyValue.mk.injEq, true_and]
  have hk : (rdTwo p.data (p.slot i + 2)).toNat ≤ maxKeyLen := by omega
  rw [bytesOf_rdBytes _ _ _ _ hk, bytesOf_rdBytes _ _ _ _ hk]
  apply rdBytes_congr
  intro a h1 h2
  apply hdata a (by omega)
  have : ((rdTwo p.data (p.slot i + 2)).toNat : Int) = rdTwo p.data (p.slot i + 2) :=
    Int.toNat_of_nonneg hlen.1
  omega

theorem pageWithEntry_data_below (x : Env) (p : BtreePage) (kdesc : KeyDesc) (k : KeyValue)
    (oid : ObjectID) (i : Int) (hx : SizesOK x) (hkey : KeyOK x kdesc k) (a : Int)
    (ha : a < p.free) : (pageWithEntry x p kdesc k oid i).data a = p.data a := by
  obtain ⟨b1, b2⟩ := ALIGNED_LENGTH_bounds x.ALIGN (insertKeyLen kdesc k) hx.1
  obtain ⟨h0, h1, h2⟩ := hkey
  unfold pageWithEntry
  simp only
  rw [wrBytes_outside (Or.inl (by omega)), wrBytes_outside (Or.inl (by omega))]
  unfold wrTwo
  rw [wrBytes_outside (Or.inl (by omega)), wrBytes_outside (Or.inl (by omega))]

theorem pageWithEntry_new_klen (x : Env) (p : BtreePage) (kdesc : KeyDesc) (k : KeyValue)
    (oid : ObjectID) (i : Int) (hx : SizesOK x) (hkey : KeyOK x kdesc k) :
    rdTwo (pageWithEntry x p kdesc k oid i).data (p.free + 2) = k.len := by
  obtain ⟨b1, b2⟩ := ALIGNED_LENGTH_bounds x.ALIGN (insertKeyLen kdesc k) hx.1
  obtain ⟨ha, hsz, hsp⟩ := hx
  obtain ⟨h0, h1, h2⟩ := hkey
  have e : rdTwo (pageWithEntry x p kdesc k oid i).data (p.free + 2)
      = rdTwo (wrTwo (wrTwo p.data p.free 1) (p.free + 2) k.len) (p.free + 2) := by
    apply rdTwo_congr
    intro a a1 a2
    unfold pageWithEntry
    simp only
    rw [wrBytes_outside (Or.inl (by omega)), wrBytes_outside (Or.inl (by omega))]
  rw [e, rdTwo_wrTwo _ _ _ (by omega) (by omega)]

theorem pageWithEntry_new_bytes (x : Env) (p : BtreePage) (kdesc : KeyDesc) (k : KeyValue)
    (oid : ObjectID) (i : Int) (hx : SizesOK x) (hkey : KeyOK x kdesc k) :
    rdBytes (pageWithEntry x p kdesc k oid i).data (p.free + 4) k.len.toNat
      = bytesOf k.val k.len.toNat := by
  obtain ⟨b1, b2⟩ := ALIGNED_LENGTH_bounds x.ALIGN (insertKeyLen kdesc k) hx.1
  obtain ⟨h0, h1, h2⟩ := hkey
  have hkl : (k.len.toNat : Int) = k.len := Int.toNat_of_nonneg h0
  have e : rdBytes (pageWithEntry x p kdesc k oid i).data (p.free + 4) k.len.toNat
      = rdBytes (wrBytes (wrTwo (wrTwo p.data p.free 1) (p.free + 2) k.len) (p.free + 4)
          (bytesOf k.val (insertKeyLen kdesc k).toNat)) (p.free + 4) k.len.toNat := by
    apply rdBytes_congr
    intro a a1 a2
    unfold pageWithEntry
    simp only
    rw [wrBytes_outside (Or.inl (by omega))]
  rw [e, rdBytes_wrBytes_prefix _ _ _ _ (by rw [bytesOf_length]; omega),
    bytesOf_take _ _ _ (by omega)]

theorem canonKey_pageWithEntry_new (x : Env) (p : BtreePage) (kdesc : KeyDesc) (k : KeyValue)
    (oid : ObjectID) (i : Int) (hx : SizesOK x) (hkey : KeyOK x kdesc k) :
    canonKey (leafEntryKey x.MAXKEYLEN (pageWithEntry x p kdesc k oid i) i) = canonKey k := by
  have hs : (pageWithEntry x p kdesc k oid i).slot i = p.free := by
    simp [pageWithEntry]
  have hl := pageWithEntry_new_klen x p kdesc k oid i hx hkey
  have hb := pageWithEntry_new_bytes x p kdesc k oid i hx hkey
  obtain ⟨h0, h1, h2⟩ := hkey
  simp only [canonKey, leafEntryKey, keyBytes, hs, hl, KeyValue.mk.injEq, true_and]
  rw [bytesOf_rdBytes _ _ _ _ (by omega), hb]

/-- The slot cells of the page after an insert at logical index `i`. -/
theorem pageWithEntry_slot (x : Env) (p : BtreePage) (kdesc : KeyDesc) (k : KeyValue)
    (oid : ObjectID) (i : Nat) (j : Nat) :
    (j < i → (pageWithEntry x p kdesc k oid i).slot j = p.slot j) ∧
    ((pageWithEntry x p kdesc k oid i).slot i = p.free) ∧
    (i ≤ j → (j : Int) < p.nSlots →
      (pageWithEntry x p kdesc k oid i).slot ((j + 1 : Nat) : Int) = p.slot j) := by
  refine ⟨?_, ?_, ?_⟩
  · intro h
    simp only [pageWithEntry]
    rw [if_neg (by omega), if_neg (by omega)]
  · simp [pageWithEntry]
  · intro h1 h2
    simp only [pageWithEntry]
    rw [if_neg (by push_cast; omega), if_pos (by push_cast; omega)]
    congr 1
    push_cast; omega

/-- The canonical keys of the page after an insert at logical index `i`. -/
theorem pageWithEntry_keys (x : Env) (p : BtreePage) (kdesc : KeyDesc) (k : KeyValue)
    (oid : ObjectID) (i : Nat) (hx : SizesOK x) (hkey : KeyOK x kdesc k)
    (hinv : LeafInv x p) (hi : (i : Int) ≤ p.nSlots) :
    (leafKeys x.MAXKEYLEN (pageWithEntry x p kdesc k oid i)).map canonKey
      = ((leafKeys x.MAXKEYLEN p).map canonKey).take i
          ++ canonKey k :: ((leafKeys x.MAXKEYLEN p).map canonKey).drop i := by
  obtain ⟨hn, hfree, hun, hent⟩ := hinv
  have hcnt : (pageWithEntry x p kdesc k oid i).nSlots.toNat = p.nSlots.toNat + 1 := by
    simp only [pageWithEntry]; omega
  unfold leafKeys
  rw [hcnt, List.map_map, List.map_map]
  have hold : ∀ (j j2 : Nat), (j : Int) < p.nSlots →
      (pageWithEntry x p kdesc k oid i).slot j2 = p.slot j →
      canonKey (leafEntryKey x.MAXKEYLEN (pageWithEntry x p kdesc k oid i) j2)
        = canonKey (leafEntryKey x.MAXKEYLEN p j) := by
    intro j j2 hj hs
    obtain ⟨c1, c2, c3⟩ := hent j hj
    apply canonKey_leafEntryKey_congr _ _ _ _ _ hs ⟨c1, c2⟩
    intro a a1 a2
    exact pageWithEntry_data_below x p kdesc k oid i hx hkey a (by omega)
  apply map_range_insert
  · omega
  · intro j hj
    exact hold j j (by omega) ((pageWithEntry_slot x p kdesc k oid i j).1 hj)
  · exact canonKey_pageWithEntry_new x p kdesc k oid i hx hkey
  · intro j h1 h2
    have hj : (j : Int) < p.nSlots := by omega
    exact hold j (j + 1) hj ((pageWithEntry_slot x p kdesc k oid i j).2.2 h1 hj)

/-- The page after an insert keeps the layout invariant. -/
theorem pageWithEntry_inv (x : Env) (p : BtreePage) (kdesc : KeyDesc) (k : KeyValue)
    (oid : ObjectID) (i : Nat) (hx : SizesOK x) (hkey : KeyOK x kdesc k)
    (hinv : LeafInv x p) (hi : (i : Int) ≤ p.nSlots) :
    LeafInv x (pageWithEntry x p kdesc k oid i) := by
  obtain ⟨hn, hfree, hun, hent⟩ := hinv
  obtain ⟨b1, b2⟩ := ALIGNED_LENGTH_bounds x.ALIGN (insertKeyLen kdesc k) hx.1
  have hkey2 := hkey
  obtain ⟨h0, h1, h2⟩ := hkey2
  have hfree2 : (pageWithEntry x p kdesc k oid i).free
      = p.free + (4 + ALIGNED_LENGTH x.ALIGN (insertKeyLen kdesc k) + x.OBJECTID_SIZE) := rfl
  refine ⟨by simp only [pageWithEntry]; omega, by rw [hfree2]; omega, hun, ?_⟩
  intro j hj
  have hj2 : (j : Int) < p.nSlots + 1 := hj
  have hold : ∀ (j0 : Nat), (j0 : Int) < p.nSlots →
      (pageWithEntry x p kdesc k oid i).slot j = p.slot j0 →
      0 ≤ rdTwo (pageWithEntry x p kdesc k oid i).data
          ((pageWithEntry x p kdesc k oid i).slot j + 2) ∧
      rdTwo (pageWithEntry x p kdesc k oid i).data
          ((pageWithEntry x p kdesc k oid i).slot j + 2) ≤ x.MAXKEYLEN ∧
      (pageWithEntry x p kdesc k oid i).slot j + 4 +
          rdTwo (pageWithEntry x p kdesc k oid i).data
            ((pageWithEntry x p kdesc k oid i).slot j + 2)
        ≤ (pageWithEntry x p kdesc k oid i).free := by
    intro j0 hj0 hs
    obtain ⟨c1, c2, c3⟩ := hent j0 hj0
    have hl : rdTwo (pageWithEntry x p kdesc k oid i).data (p.slot j0 + 2)
        = rdTwo p.data (p.slot j0 + 2) :=
      rdTwo_congr (fun a a1 a2 =>
        pageWithEntry_data_below x p kdesc k oid i hx hkey a (by linarith))
    rw [hs, hl, hfree2]
    exact ⟨c1, c2, by linarith⟩
  rcases Nat.lt_trichotomy j i with h | h | h
  · exact hold j (by omega) ((pageWithEntry_slot x p kdesc k oid i j).1 h)
  · subst h
    rw [(pageWithEntry_slot x p kdesc k oid j j).2.1,
      pageWithEntry_new_klen x p kdesc k oid j hx hkey, hfree2]
    exact ⟨h0, by omega, by omega⟩
  · obtain ⟨j0, rfl⟩ : ∃ j0, j = j0 + 1 := ⟨j - 1, by omega⟩
    have hj0 : (j0 : Int) < p.nSlots := by push_cast at hj2; omega
    exact hold j0 hj0 ((pageWithEntry_slot x p kdesc k oid i j0).2.2 (by omega) hj0)

theorem cmp_cases (c : CmpResult) :
    c = CmpResult.EQUAL ∨ c = CmpResult.LESS ∨ c = CmpResult.GREATER := by
  cases c <;> simp

/-- Inserting a new key before the first key that is not less keeps a list ascending. -/
theorem sorted_insert (cmp : KeyValue → KeyValue → CmpResult) (laws : CmpLaws cmp)
    (k : KeyValue) : ∀ (L : List KeyValue),
    L.Pairwise (fun a b => cmp a b = CmpResult.LESS) →
    (∀ K ∈ L, cmp K k ≠ CmpResult.EQUAL) →
    (L.take (L.findIdx fun K => decide (cmp K k ≠ CmpResult.LESS))
        ++ k :: L.drop (L.findIdx fun K => decide (cmp K k ≠ CmpResult.LESS))).Pairwise
      (fun a b => cmp a b = CmpResult.LESS) := by
  intro L
  induction L with
  | nil => intro _ _; simp
  | cons K L ih =>
    intro hs hnew
    obtain ⟨hK, hL⟩ := List.pairwise_cons.mp hs
    rw [List.findIdx_cons]
    by_cases hP : cmp K k = CmpResult.LESS
    · simp only [hP, ne_eq, not_true_eq_false, decide_False, cond_false, List.take_succ_cons,
        List.drop_succ_cons, List.cons_append]
      refine List.pairwise_cons.mpr ⟨?_, ih hL (fun K2 h2 => hnew K2 (List.mem_cons_of_mem _ h2))⟩
      intro b hb
      rcases List.mem_append.mp hb with h | h
      · exact hK b (List.mem_of_mem_take h)
      · rcases List.mem_cons.mp h with h | h
        · rw [h]; exact hP
        · exact hK b (List.mem_of_mem_drop h)
    · simp only [hP, ne_eq, not_false_eq_true, decide_True, cond_true, List.take_zero,
        List.drop_zero, List.nil_append]
      have hkK : cmp k K = CmpResult.LESS := by
        apply laws.antisymm
        rcases cmp_cases (cmp K k) with h | h | h
        · exact absurd h (hnew K (List.mem_cons_self _ _))
        · exact absurd h hP
        · exact h
      refine List.pairwise_cons.mpr ⟨?_, hs⟩
      intro b hb
      rcases List.mem_cons.mp hb with h | h
      · rw [h]; exact hkK
      · exact laws.trans k K b hkK (hK b h)

/-- A list of keys is ascending exactly when the list of its canonical keys is. -/
theorem pairwise_canon (cmp : KeyValue → KeyValue → CmpResult) (laws : CmpLaws cmp)
    (L : List KeyValue) :
    (L.map canonKey).Pairwise (fun a b => cmp a b = CmpResult.LESS) ↔
      L.Pairwise (fun a b => cmp a b = CmpResult.LESS) := by
  rw [List.pairwise_map]
  constructor <;> intro h <;> refine h.imp ?_ <;> intro a b hab
  · rw [laws.canon]; exact hab
  · rw [← laws.canon]; exact hab

theorem canonKey_idem (k : KeyValue) : canonKey (canonKey k) = canonKey k := by
  simp only [canonKey, keyBytes, KeyValue.mk.injEq, true_and]
  unfold bytesOf
  apply List.map_congr_left
  intro i hi
  have := List.mem_range.mp hi
  rw [List.getD_eq_getElem _ _ (by simp; omega)]
  simp

theorem findIdx_canon (cmp : KeyValue → KeyValue → CmpResult) (laws : CmpLaws cmp)
    (k : KeyValue) (L : List KeyValue) :
    (L.map canonKey).findIdx (fun K => decide (cmp K (canonKey k) ≠ CmpResult.LESS))
      = L.findIdx (fun K => decide (cmp K k ≠ CmpResult.LESS)) := by
  induction L with
  | nil => rfl
  | cons K L ih =>
    rw [List.map_cons, List.findIdx_cons, List.findIdx_cons, ih]
    have : cmp (canonKey K) (canonKey k) = cmp K k := (laws.canon K k).symm
    rw [this]

theorem leafKeys_length (maxKeyLen : Nat) (p : BtreePage) :
    (leafKeys maxKeyLen p).length = p.nSlots.toNat := by
  simp [leafKeys]

/-- The predecessor search on a page that does not hold the key. -/
theorem predBinarySearchLeaf_absent (cmp : KeyDesc → KeyValue → KeyValue → CmpResult)
    (maxKeyLen : Nat) (p : BtreePage) (kdesc : KeyDesc) (k : KeyValue)
    (hnew : ∀ K ∈ leafKeys maxKeyLen p, cmp kdesc K k ≠ CmpResult.EQUAL) :
    predBinarySearchLeaf cmp maxKeyLen p kdesc k
      = (false, (((leafKeys maxKeyLen p).findIdx
          fun K => decide (cmp kdesc K k ≠ CmpResult.LESS) : Nat) : Int) - 1) := by
  unfold predBinarySearchLeaf
  have : (leafKeys maxKeyLen p).any (fun K => decide (cmp kdesc K k = CmpResult.EQUAL))
      = false := by
    rw [List.any_eq_false]
    intro K hK
    simpa using hnew K hK
  simp only [this, Bool.false_eq_true, if_false]

/-- One insert without split: the invariant, the order and the keys of the page. -/
theorem insertLeaf_step (x : Env) (st : Store) (cat : ObjectID) (pid : PageID)
    (p : BtreePage) (kdesc : KeyDesc) (k : KeyValue) (oid : ObjectID) (f h : Bool)
    (item : InternalItem) (hx : SizesOK x)
    (hbs : x.btm_BinarySearchLeaf = predBinarySearchLeaf x.edubtm_KeyCompare x.MAXKEYLEN)
    (laws : CmpLaws (x.edubtm_KeyCompare kdesc)) (hk : kdescSupported kdesc = true)
    (hkey : KeyOK x kdesc k) (hinv : LeafInv x p)
    (hs : (leafKeys x.MAXKEYLEN p).Pairwise
      fun a b => x.edubtm_KeyCompare kdesc a b = CmpResult.LESS)
    (hnew : ∀ K ∈ leafKeys x.MAXKEYLEN p, x.edubtm_KeyCompare kdesc K k ≠ CmpResult.EQUAL)
    (hroom : BL_FREE x p ≥ leafNeededSpace x kdesc k) :
    ∃ q, edubtm_InsertLeaf x st cat pid p kdesc k oid f h item
        = ⟨ErrCode.eNOERROR, st, q, false, false, item⟩ ∧
      LeafInv x q ∧
      (leafKeys x.MAXKEYLEN q).Pairwise
        (fun a b => x.edubtm_KeyCompare kdesc a b = CmpResult.LESS) ∧
      ((leafKeys x.MAXKEYLEN q).map canonKey).Perm
        (canonKey k :: (leafKeys x.MAXKEYLEN p).map canonKey) := by
  have hsearch := predBinarySearchLeaf_absent x.edubtm_KeyCompare x.MAXKEYLEN p kdesc k hnew
  rw [← hbs] at hsearch
  generalize hi : ((leafKeys x.MAXKEYLEN p).findIdx
      fun K => decide (x.edubtm_KeyCompare kdesc K k ≠ CmpResult.LESS)) = i at hsearch
  have hile : i ≤ (leafKeys x.MAXKEYLEN p).length := by
    rw [← hi]; exact List.findIdx_le_length _
  rw [leafKeys_length] at hile
  have hn := hinv.1
  have hi2 : (i : Int) ≤ p.nSlots := by omega
  have hres := insertLeaf_no_split_eq x st cat pid p kdesc k oid f h item hx hk hkey hn
    hinv.2.1 hinv.2.2.1 (by rw [hsearch]) (by rw [hsearch]; constructor <;> (simp; try omega)) hroom
  rw [hsearch] at hres
  simp only [sub_add_cancel] at hres
  have hkeys := pageWithEntry_keys x p kdesc k oid i hx hkey hinv hi2
  refine ⟨_, hres, pageWithEntry_inv x p kdesc k oid i hx hkey hinv hi2, ?_, ?_⟩
  · rw [← pairwise_canon _ laws, hkeys]
    have hfi := findIdx_canon _ laws k (leafKeys x.MAXKEYLEN p)
    rw [hi] at hfi
    have := sorted_insert _ laws (canonKey k) ((leafKeys x.MAXKEYLEN p).map canonKey)
      ((pairwise_canon _ laws _).mpr hs)
      (by
        intro K hK
        obtain ⟨K0, hK0, rfl⟩ := List.mem_map.mp hK
        rw [← laws.canon]
        exact hnew K0 hK0)
    rw [hfi] at this
    exact this
  · rw [hkeys]
    refine List.perm_middle.trans (List.Perm.cons _ ?_)
    rw [List.take_append_drop]

/-- The inserts of a sequence of new keys into a leaf that satisfies the invariant. -/
theorem insertLeafSeq_aux (x : Env) (st : Store) (cat : ObjectID) (pid : PageID)
    (kdesc : KeyDesc) (hx : SizesOK x)
    (hbs : x.btm_BinarySearchLeaf = predBinarySearchLeaf x.edubtm_KeyCompare x.MAXKEYLEN)
    (laws : CmpLaws (x.edubtm_KeyCompare kdesc)) (hk : kdescSupported kdesc = true) :
    ∀ (kvs : List (KeyValue × ObjectID)) (p : BtreePage) (done : List KeyValue),
      LeafInv x p →
      (leafKeys x.MAXKEYLEN p).Pairwise
        (fun a b => x.edubtm_KeyCompare kdesc a b = CmpResult.LESS) →
      ((leafKeys x.MAXKEYLEN p).map canonKey).Perm (done.map canonKey) →
      (∀ kv ∈ kvs, KeyOK x kdesc kv.1) →
      (∀ d ∈ done, ∀ kv ∈ kvs, x.edubtm_KeyCompare kdesc d kv.1 ≠ CmpResult.EQUAL) →
      (kvs.map Prod.fst).Pairwise
        (fun a b => x.edubtm_KeyCompare kdesc a b ≠ CmpResult.EQUAL) →
      EnoughRoom x st cat pid kdesc p kvs →
      ∀ n, n ≤ kvs.length →
        ∃ q, insertLeafSeq x st cat pid kdesc p (kvs.take n) = some q ∧
          (leafKeys x.MAXKEYLEN q).Pairwise
            (fun a b => x.edubtm_KeyCompare kdesc a b = CmpResult.LESS) ∧
          ((leafKeys x.MAXKEYLEN q).map canonKey).Perm
            (((kvs.take n).map Prod.fst).map canonKey ++ done.map canonKey) := by
  intro kvs
  induction kvs with
  | nil =>
    intro p done _ hs hperm _ _ _ _ n _
    exact ⟨p, by simp [insertLeafSeq], hs, by simpa using hperm⟩
  | cons kv rest ih =>
    intro p done hinv hs hperm hkeys hdone hdist hroom n hn
    cases n with
    | zero => exact ⟨p, by simp [insertLeafSeq], hs, by simpa using hperm⟩
    | succ n =>
      have hnew : ∀ K ∈ leafKeys x.MAXKEYLEN p,
          x.edubtm_KeyCompare kdesc K kv.1 ≠ CmpResult.EQUAL := by
        intro K hK
        have h1 : canonKey K ∈ done.map canonKey :=
          hperm.subset (List.mem_map_of_mem _ hK)
        obtain ⟨d, hd, hdc⟩ := List.mem_map.mp h1
        have h2 := hdone d hd kv (List.mem_cons_self _ _)
        rw [laws.canon, hdc, ← laws.canon] at h2
        exact h2
      obtain ⟨q, hq, hqinv, hqs, hqperm⟩ :=
        insertLeaf_step x st cat pid p kdesc kv.1 kv.2 false false ⟨0, 0, []⟩ hx hbs laws hk
          (hkeys kv (List.mem_cons_self _ _)) hinv hs hnew hroom.1
      have hroom2 := hroom.2
      rw [hq] at hroom2
      obtain ⟨hkv, hrest⟩ := List.pairwise_cons.mp hdist
      obtain ⟨r, hr, hrs, hrperm⟩ :=
        ih q (kv.1 :: done) hqinv hqs
          (hqperm.trans (List.Perm.cons _ hperm))
          (fun kv2 h2 => hkeys kv2 (List.mem_cons_of_mem _ h2))
          (by
            intro d hd kv2 h2
            rcases List.mem_cons.mp hd with h3 | h3
            · rw [h3]; exact hkv kv2.1 (List.mem_map_of_mem _ h2)
            · exact hdone d h3 kv2 (List.mem_cons_of_mem _ h2))
          hrest hroom2 n (by simpa using hn)
      refine ⟨r, ?_, hrs, ?_⟩
      · rw [List.take_succ_cons, insertLeafSeq, hq]
        simpa using hr
      · rw [List.take_succ_cons]
        refine hrperm.trans ?_
        simp only [List.map_cons, List.cons_append]
        exact List.perm_middle

theorem keyBytes_canonKey (k : KeyValue) : keyBytes (canonKey k) = keyBytes k := by
  have := canonKey_idem k
  simp only [canonKey, KeyValue.mk.injEq, true_and] at this
  exact this

theorem specKeyCompare_exKdesc (a b : KeyValue) :
    specKeyCompare exKdesc a b
      = if decInt (bytesOf (keyBytes a) 4) < decInt (bytesOf (keyBytes b) 4) then CmpResult.LESS
        else if decInt (bytesOf (keyBytes b) 4) < decInt (bytesOf (keyBytes a) 4) then
          CmpResult.GREATER
        else CmpResult.EQUAL := by
  simp [specKeyCompare, exKdesc, compareParts]

theorem specKeyCompare_exKdesc_laws : CmpLaws (specKeyCompare exKdesc) where
  canon := by
    intro a b
    simp only [specKeyCompare, keyBytes_canonKey]
  antisymm := by
    intro a b h
    rw [specKeyCompare_exKdesc] at h ⊢
    split at h
    · cases h
    · split at h
      · next h2 => rw [if_pos h2]
      · cases h
  trans := by
    intro a b c h1 h2
    rw [specKeyCompare_exKdesc] at h1 h2 ⊢
    split at h1
    · next g1 =>
      split at h2
      · next g2 => rw [if_pos (lt_trans g1 g2)]
      · split at h2 <;> cases h2
    · split at h1 <;> cases h1

theorem predEnv_sizesOK : SizesOK predEnv := by
  refine ⟨?_, ?_, ?_⟩ <;> decide

theorem predEnv_compare : predEnv.edubtm_KeyCompare = specKeyCompare := rfl

theorem Linked_tail (link : BtreePage → Int) (st : Store) (vol : Int) (e : Int × BtreePage)
    (rest : List (Int × BtreePage)) (h : Linked link st vol (e :: rest)) :
    Linked link st vol rest := by
  cases rest with
  | nil => trivial
  | cons e2 rest => exact h.2.2.2

theorem Linked_suffix (link : BtreePage → Int) (st : Store) (vol : Int) :
    ∀ (l1 l2 : List (Int × BtreePage)), Linked link st vol (l1 ++ l2) → Linked link st vol l2 := by
  intro l1
  induction l1 with
  | nil => intro l2 h; exact h
  | cons e l1 ih => intro l2 h; exact ih l2 (Linked_tail link st vol e _ h)

theorem Linked_steps (link : BtreePage → Int) (st : Store) (vol : Int) :
    ∀ (rest : List (Int × BtreePage)) (e : Int × BtreePage),
      Linked link st vol (e :: rest) →
      stepsToNil link st vol (rest.length + 1) e.1 = some rest.length := by
  intro rest
  induction rest with
  | nil =>
    intro e h
    obtain ⟨hp, -, hnil⟩ := h
    simp [stepsToNil, hp, hnil]
  | cons e2 rest ih =>
    intro e h
    obtain ⟨hp, -, ⟨hlink, hne⟩, hrest⟩ := h
    have := ih e2 hrest
    rw [stepsToNil]
    simp only [hp, hlink, hne, if_false, this, List.length_cons, Option.map_some']

theorem stepsToNil_mono (link : BtreePage → Int) (st : Store) (vol : Int) :
    ∀ (k : Nat) (n : Int) (d : Nat), stepsToNil link st vol k n = some d →
      stepsToNil link st vol (k + 1) n = some d := by
  intro k
  induction k with
  | zero => intro n d h; simp [stepsToNil] at h
  | succ k ih =>
    intro n d h
    rw [stepsToNil] at h ⊢
    cases hp : st.page ⟨n, vol⟩ with
    | none => simp [hp] at h
    | some p =>
      simp only [hp] at h ⊢
      by_cases hl : link p = NIL
      · rw [if_pos hl] at h ⊢; exact h
      · rw [if_neg hl] at h ⊢
        cases hs : stepsToNil link st vol k (link p) with
        | none => simp [hs] at h
        | some d2 =>
          rw [hs] at h
          rw [ih _ _ hs]
          exact h

theorem stepsToNil_le (link : BtreePage → Int) (st : Store) (vol : Int) (k m : Nat)
    (hkm : k ≤ m) (n : Int) (d : Nat) (h : stepsToNil link st vol k n = some d) :
    stepsToNil link st vol m n = some d := by
  induction hkm with
  | refl => exact h
  | step _ ih => exact stepsToNil_mono link st vol _ n d ih

/-- The page numbers of a linked list of leaves are pairwise distinct. -/
theorem Linked_nodup (link : BtreePage → Int) (st : Store) (vol : Int) :
    ∀ (chain : List (Int × BtreePage)), Linked link st vol chain →
      (chain.map Prod.fst).Nodup := by
  intro chain
  induction chain with
  | nil => intro _; exact List.nodup_nil
  | cons e rest ih =>
    intro h
    rw [List.map_cons, List.nodup_cons]
    refine ⟨?_, ih (Linked_tail link st vol e rest h)⟩
    intro hmem
    obtain ⟨e2, he2, heq⟩ := List.mem_map.mp hmem
    obtain ⟨l1, l2, hsplit⟩ := List.append_of_mem he2
    have hsuf : Linked link st vol (e2 :: l2) := by
      apply Linked_suffix link st vol l1
      rw [← hsplit]
      exact Linked_tail link st vol e rest h
    have h1 := Linked_steps link st vol rest e h
    have h2 := stepsToNil_le link st vol (l2.length + 1) (rest.length + 1)
      (by rw [hsplit]; simp; omega) e2.1 l2.length (Linked_steps link st vol l2 e2 hsuf)
    rw [heq, h1] at h2
    injection h2 with h2
    rw [hsplit] at h2
    simp at h2
    omega

theorem leafCursors_leaf (x : Env) (vol : Int) (e : Int × BtreePage) (c : BtreeCursor)
    (h : c ∈ leafCursors x vol e) : c.leaf = ⟨e.1, vol⟩ := by
  obtain ⟨i, -, rfl⟩ := List.mem_map.mp h
  rfl

theorem leafCursors_nodup (x : Env) (vol : Int) (e : Int × BtreePage) :
    (leafCursors x vol e).Nodup := by
  apply List.Nodup.map_on _ (List.nodup_range _)
  intro i _ j _ hij
  have : (cursorAt x vol e i).slotNo = (cursorAt x vol e j).slotNo := by rw [hij]
  simpa [cursorAt] using this

/-- The cursors on the entries of a linked list of leaves are pairwise distinct. -/
theorem chainCursors_nodup (x : Env) (link : BtreePage → Int) (st : Store) (vol : Int)
    (chain : List (Int × BtreePage)) (h : Linked link st vol chain) :
    (chainCursors x vol chain).Nodup := by
  have hn := Linked_nodup link st vol chain h
  unfold chainCursors
  rw [List.nodup_flatMap]
  refine ⟨fun e _ => leafCursors_nodup x vol e, ?_⟩
  have hn2 : (chain.map Prod.fst).Pairwise (fun a b => a ≠ b) := hn
  rw [List.pairwise_map] at hn2
  refine hn2.imp ?_
  intro a b hab c hca hcb
  have h1 := leafCursors_leaf x vol a c hca
  have h2 := leafCursors_leaf x vol b c hcb
  rw [h1] at h2
  injection h2 with h3
  exact hab h3

theorem kdescSupported_false_iff (kdesc : KeyDesc) :
    kdescSupported kdesc = false ↔ HasUnsupportedPart kdesc := by
  unfold kdescSupported HasUnsupportedPart
  rw [← Bool.not_eq_true, List.all_eq_true]
  push_neg
  constructor
  · rintro ⟨i, hi, h⟩
    have := List.mem_range.mp hi
    refine ⟨i, by omega, ?_⟩
    simpa using h
  · rintro ⟨i, hi, h1, h2⟩
    refine ⟨i, List.mem_range.mpr (by omega), ?_⟩
    simp [h1, h2]

theorem kdescSupported_true_iff (kdesc : KeyDesc) :
    kdescSupported kdesc = true ↔ ¬ HasUnsupportedPart kdesc := by
  rw [← kdescSupported_false_iff]; simp

theorem exBadKdesc_unsupported : HasUnsupportedPart exBadKdesc :=
  ⟨1, by decide, by decide, by decide⟩

theorem EduBtM_FetchNext_all_args (x : Env) (st : Store) (root : PageID) (kdesc : KeyDesc)
    (kval : KeyValue) (compOp : Int) (current next : BtreeCursor) :
    EduBtM_FetchNext x st (some root) (some kdesc) (some kval) compOp (some current) (some next)
      = if current.flag ≠ CURSOR_ON ∧ current.flag ≠ CURSOR_EOS then
          (ErrCode.eBADCURSOR, st, some next)
        else if current.flag = CURSOR_EOS then (ErrCode.eNOERROR, st, some next)
        else if !kdescSupported kdesc then (ErrCode.eNOTSUPPORTED_EDUBTM, st, some next)
        else ((edubtm_FetchNext x st kdesc kval compOp current next).e,
          (edubtm_FetchNext x st kdesc kval compOp current next).st,
          some (edubtm_FetchNext x st kdesc kval compOp current next).next) := rfl

theorem EduBtM_FetchNext_missing (x : Env) (st : Store) (root : Option PageID)
    (kdesc : Option KeyDesc) (kval : Option KeyValue) (compOp : Int)
    (current next : Option BtreeCursor)
    (h : root = none ∨ kdesc = none ∨ kval = none ∨ current = none ∨ next = none) :
    EduBtM_FetchNext x st root kdesc kval compOp current next
      = (ErrCode.eBADPARAMETER_BTM, st, next) := by
  unfold EduBtM_FetchNext
  rcases h with h | h | h | h | h <;> subst h
  · rfl
  · cases root <;> rfl
  · cases root <;> cases kdesc <;> rfl
  · cases root <;> cases kdesc <;> cases kval <;> rfl
  · cases root <;> cases kdesc <;> cases kval <;> cases current <;> rfl

theorem fetchNext_error_codes (x : Env) (st : Store) (kdesc : KeyDesc) (kval : KeyValue)
    (compOp : Int) (current next : BtreeCursor) :
    (edubtm_FetchNext x st kdesc kval compOp current next).e ≠ ErrCode.eBADPARAMETER_BTM ∧
    (edubtm_FetchNext x st kdesc kval compOp current next).e ≠ ErrCode.eBADCURSOR := by
  constructor <;> intro h <;>
    rcases fetchNext_error x st kdesc kval compOp current next with h1 | h1 | ⟨c, h1⟩ <;>
    rw [h] at h1 <;> cases h1

theorem fetchNext_unsupported (x : Env) (st : Store) (kdesc : KeyDesc) (kval : KeyValue)
    (compOp : Int) (current next : BtreeCursor) (h : kdescSupported kdesc = false) :
    edubtm_FetchNext x st kdesc kval compOp current next
      = ⟨ErrCode.eNOTSUPPORTED_EDUBTM, st, next⟩ := by
  unfold edubtm_FetchNext
  simp [h]

theorem insertEpilogue_error (st : Store) (root : PageID) (f h : Bool) (item : InternalItem) :
    viaStore (insertEpilogue st root f h item).e := by
  unfold insertEpilogue
  split
  · next e he =>
    right
    unfold BfM_SetDirty at he
    split at he
    · injection he with he; exact ⟨3, he.symm⟩
    · cases he
  · split
    · next e he => exact Or.inr ⟨2, freeTrain_error he⟩
    · exact Or.inl rfl

theorem viaStore_ne_NOTSUPPORTED {e : ErrCode} (h : viaStore e) :
    e ≠ ErrCode.eNOTSUPPORTED_EDUBTM := by
  rcases h with h | ⟨c, h⟩ <;> rw [h] <;> simp

theorem insertLeaf_supported_error (x : Env) (st : Store) (cat : ObjectID) (pid : PageID)
    (page : BtreePage) (kdesc : KeyDesc) (kval : KeyValue) (oid : ObjectID) (f h : Bool)
    (item : InternalItem) (hk : kdescSupported kdesc = true) :
    (edubtm_InsertLeaf x st cat pid page kdesc kval oid f h item).e = ErrCode.eDUPLICATEDKEY_BTM ∨
    (edubtm_InsertLeaf x st cat pid page kdesc kval oid f h item).e = ErrCode.eNOERROR := by
  unfold edubtm_InsertLeaf
  simp only [hk, Bool.not_true, Bool.false_eq_true, if_false]
  split
  · exact Or.inl rfl
  · split <;> exact Or.inr rfl

theorem insertInternal_error (x : Env) (st : Store) (cat : ObjectID) (page : BtreePage)
    (item : InternalItem) (high : Int) (h : Bool) (ritem : InternalItem) :
    (edubtm_InsertInternal x st cat page item high h ritem).e = ErrCode.eNOERROR ∨
    (edubtm_InsertInternal x st cat page item high h ritem).e
      = (x.edubtm_SplitInternal st cat page high item).e := by
  unfold edubtm_InsertInternal
  dsimp only
  split
  · exact Or.inl rfl
  · split
    · exact Or.inr rfl
    · exact Or.inl rfl

theorem insert_supported_error (x : Env)
    (hsplit : ∀ s c p i it, (x.edubtm_SplitInternal s c p i it).e ≠ ErrCode.eNOTSUPPORTED_EDUBTM)
    (cat : ObjectID) (kdesc : KeyDesc) (kval : KeyValue) (oid : ObjectID)
    (hk : kdescSupported kdesc = true) :
    ∀ (fuel : Nat) (st : Store) (root : PageID) (f h : Bool) (item : InternalItem)
      (r : InsertResult),
      edubtm_Insert x fuel st cat root kdesc kval oid f h item = some r →
      r.e ≠ ErrCode.eNOTSUPPORTED_EDUBTM := by
  intro fuel
  induction fuel with
  | zero => intro st root f h item r hr; simp [edubtm_Insert] at hr
  | succ fuel ih =>
    intro st root f h item r hr
    unfold edubtm_Insert at hr
    simp only [hk, Bool.not_true, Bool.false_eq_true, if_false] at hr
    split at hr
    · next e he =>
      injection hr with hr; subst hr
      rw [getTrain_error he]; simp
    · next st1 apage he =>
      split at hr
      · split at hr
        · cases hr
        · next r1 hr1 =>
          have ih1 := ih _ _ _ _ _ _ hr1
          split at hr
          · injection hr with hr; subst hr; exact ih1
          · split at hr
            · split at hr
              · next hq =>
                injection hr with hr; subst hr
                dsimp only
                rcases insertInternal_error x r1.st cat (r1.st.frame root apage) r1.item
                  (x.edubtm_BinarySearchInternal (r1.st.frame root apage) kdesc
                    ⟨r1.item.klen, r1.item.kval⟩).2 false item with h1 | h1
                · exact absurd h1 hq
                · rw [h1]; exact hsplit _ _ _ _ _
              · rw [← Option.some.inj hr]
                exact viaStore_ne_NOTSUPPORTED (insertEpilogue_error _ _ _ _ _)
            · rw [← Option.some.inj hr]
              exact viaStore_ne_NOTSUPPORTED (insertEpilogue_error _ _ _ _ _)
      · split at hr
        · split at hr
          · injection hr with hr; subst hr
            dsimp only
            rcases insertLeaf_supported_error x st1 cat root apage kdesc kval oid false false item
              hk with h1 | h1 <;> rw [h1] <;> simp
          · rw [← Option.some.inj hr]
            exact viaStore_ne_NOTSUPPORTED (insertEpilogue_error _ _ _ _ _)
        · rw [← Option.some.inj hr]
          exact viaStore_ne_NOTSUPPORTED (insertEpilogue_error _ _ _ _ _)

/-- The result of `edubtm_InsertLeaf` on the split path. -/
theorem insertLeaf_split_eq (x : Env) (st : Store) (cat : ObjectID) (pid : PageID)
    (page : BtreePage) (kdesc : KeyDesc) (kval : KeyValue) (oid : ObjectID) (f h : Bool)
    (item : InternalItem) (hk : kdescSupported kdesc = true)
    (habs : (x.btm_BinarySearchLeaf page kdesc kval).1 = false)
    (hfull : BL_FREE x page < leafNeededSpace x kdesc kval) :
    edubtm_InsertLeaf x st cat pid page kdesc kval oid f h item
      = ⟨ErrCode.eNOERROR,
          (x.edubtm_SplitLeaf st cat pid page (x.btm_BinarySearchLeaf page kdesc kval).2
            (splitLeafItem kval oid)).st,
          (x.edubtm_SplitLeaf st cat pid page (x.btm_BinarySearchLeaf page kdesc kval).2
            (splitLeafItem kval oid)).page,
          false, true,
          (x.edubtm_SplitLeaf st cat pid page (x.btm_BinarySearchLeaf page kdesc kval).2
            (splitLeafItem kval oid)).item⟩ := by
  unfold leafNeededSpace at hfull
  have hfull2 := not_le.mpr hfull
  unfold edubtm_InsertLeaf splitLeafItem
  simp only [hk, habs, Bool.not_true, Bool.false_eq_true, if_false, ge_iff_le, hfull2]

/-- The result of `edubtm_Insert` on a root that is a leaf. -/
theorem insert_leaf_root_eq (x : Env) (fuel : Nat) (st : Store) (cat : ObjectID) (root : PageID)
    (page : BtreePage) (kdesc : KeyDesc) (kval : KeyValue) (oid : ObjectID) (f h : Bool)
    (item : InternalItem) (hk : kdescSupported kdesc = true)
    (hp : st.page root = some page) (hI : page.type &&& INTERNAL = 0)
    (hL : page.type &&& LEAF ≠ 0) :
    edubtm_Insert x (fuel + 1) st cat root kdesc kval oid f h item
      = if (edubtm_InsertLeaf x (st.pin root) cat root page kdesc kval oid false false item).e
            ≠ ErrCode.eNOERROR then
          some ⟨(edubtm_InsertLeaf x (st.pin root) cat root page kdesc kval oid false false item).e,
            (edubtm_InsertLeaf x (st.pin root) cat root page kdesc kval oid false false
                item).st.setPage root
              (edubtm_InsertLeaf x (st.pin root) cat root page kdesc kval oid false false
                item).page,
            (edubtm_InsertLeaf x (st.pin root) cat root page kdesc kval oid false false item).f,
            (edubtm_InsertLeaf x (st.pin root) cat root page kdesc kval oid false false item).h,
            (edubtm_InsertLeaf x (st.pin root) cat root page kdesc kval oid false false
              item).item⟩
        else insertEpilogue
          ((edubtm_InsertLeaf x (st.pin root) cat root page kdesc kval oid false false
              item).st.setPage root
            (edubtm_InsertLeaf x (st.pin root) cat root page kdesc kval oid false false
              item).page) root
          (edubtm_InsertLeaf x (st.pin root) cat root page kdesc kval oid false false item).f
          (edubtm_InsertLeaf x (st.pin root) cat root page kdesc kval oid false false item).h
          (edubtm_InsertLeaf x (st.pin root) cat root page kdesc kval oid false false
            item).item := by
  unfold edubtm_Insert
  rw [getTrain_of_page hp]
  simp only [hk, Bool.not_true, Bool.false_eq_true, if_false]
  rw [if_neg (by rw [hI]; simp), if_pos hL]

theorem insertEpilogue_pinned (st : Store) (root : PageID) (f h : Bool) (item : InternalItem)
    (hpin : st.fixed root ≠ 0) :
    insertEpilogue st root f h item
      = ⟨ErrCode.eNOERROR,
          { st with
            dirty := setCell st.dirty root true
            fixed := setCell st.fixed root (st.fixed root - 1) }, f, h, item⟩ := by
  simp [insertEpilogue, BfM_SetDirty, BfM_FreeTrain, hpin]

/-- Sizes of the new leaf entry when the number of key bytes copied is between 0 and
`MAXKEYLEN`. -/
theorem leafNeededSpace_eq2 (x : Env) (kdesc : KeyDesc) (k : KeyValue) (hx : SizesOK x)
    (hlen : 0 ≤ insertKeyLen kdesc k ∧ insertKeyLen kdesc k ≤ x.MAXKEYLEN) :
    toTwo (ALIGNED_LENGTH x.ALIGN (insertKeyLen kdesc k))
        = ALIGNED_LENGTH x.ALIGN (insertKeyLen kdesc k) ∧
    toTwo (2 * 2 + ALIGNED_LENGTH x.ALIGN (insertKeyLen kdesc k) + (x.OBJECTID_SIZE : Int))
        = 4 + ALIGNED_LENGTH x.ALIGN (insertKeyLen kdesc k) + x.OBJECTID_SIZE ∧
    leafNeededSpace x kdesc k
        = 4 + ALIGNED_LENGTH x.ALIGN (insertKeyLen kdesc k) + x.OBJECTID_SIZE + 2 := by
  obtain ⟨ha, hsz, hsp⟩ := hx
  obtain ⟨h1, h2⟩ := hlen
  obtain ⟨b1, b2⟩ := ALIGNED_LENGTH_bounds x.ALIGN (insertKeyLen kdesc k) ha
  have e1 : toTwo (ALIGNED_LENGTH x.ALIGN (insertKeyLen kdesc k))
      = ALIGNED_LENGTH x.ALIGN (insertKeyLen kdesc k) := by
    rw [toTwo_of_range] <;> omega
  have e2 : toTwo (2 * 2 + ALIGNED_LENGTH x.ALIGN (insertKeyLen kdesc k) + (x.OBJECTID_SIZE : Int))
      = 4 + ALIGNED_LENGTH x.ALIGN (insertKeyLen kdesc k) + x.OBJECTID_SIZE := by
    rw [toTwo_of_range] <;> omega
  refine ⟨e1, e2, ?_⟩
  unfold leafNeededSpace
  rw [e1, e2, toTwo_of_range] <;> omega

/-- The result of `edubtm_InsertLeaf` on the path without split: the new entry is stored in
the page left by the conditional compaction, at the index after the one the search
returned. -/
theorem insertLeaf_fit_eq (x : Env) (st : Store) (cat : ObjectID) (pid : PageID)
    (p : BtreePage) (kdesc : KeyDesc) (k : KeyValue) (oid : ObjectID) (f h : Bool)
    (item : InternalItem) (hx : SizesOK x) (hk : kdescSupported kdesc = true)
    (hlen : 0 ≤ insertKeyLen kdesc k ∧ insertKeyLen kdesc k ≤ x.MAXKEYLEN)
    (hfound : (x.btm_BinarySearchLeaf p kdesc k).1 = false)
    (hroom : BL_FREE x p ≥ leafNeededSpace x kdesc k)
    (hpc : 0 ≤ (leafAfterCompaction x p kdesc k).nSlots ∧
      0 ≤ (leafAfterCompaction x p kdesc k).free ∧
      BL_CFREE x (leafAfterCompaction x p kdesc k) ≥ leafNeededSpace x kdesc k)
    (hidx : -1 ≤ (x.btm_BinarySearchLeaf p kdesc k).2 ∧
      (x.btm_BinarySearchLeaf p kdesc k).2 < (leafAfterCompaction x p kdesc k).nSlots) :
    edubtm_InsertLeaf x st cat pid p kdesc k oid f h item
      = ⟨ErrCode.eNOERROR, st,
          pageWithEntry x (leafAfterCompaction x p kdesc k) kdesc k oid
            ((x.btm_BinarySearchLeaf p kdesc k).2 + 1),
          false, false, item⟩ := by
  obtain ⟨e1, e2, e3⟩ := leafNeededSpace_eq2 x kdesc k hx hlen
  obtain ⟨ha, hsz, hsp⟩ := hx
  obtain ⟨h1, h2⟩ := hlen
  obtain ⟨b1, b2⟩ := ALIGNED_LENGTH_bounds x.ALIGN (insertKeyLen kdesc k) ha
  obtain ⟨c1, c2, c3⟩ := hpc
  have hpcdef : (if BL_CFREE x p < toTwo (toTwo (2 * 2 + toTwo (ALIGNED_LENGTH x.ALIGN
      (insertKeyLen kdesc k)) + (x.OBJECTID_SIZE : Int)) + 2) then x.edubtm_CompactLeafPage p NIL
      else p) = leafAfterCompaction x p kdesc k := rfl
  generalize leafAfterCompaction x p kdesc k = pc at *
  rw [e3] at c3
  unfold BL_CFREE at c3
  have e4 : toTwo ((x.btm_BinarySearchLeaf p kdesc k).2 + 1)
      = (x.btm_BinarySearchLeaf p kdesc k).2 + 1 := by
    rw [toTwo_of_range] <;> omega
  have e5 : toTwo (pc.free + (4 + ALIGNED_LENGTH x.ALIGN (insertKeyLen kdesc k)
      + (x.OBJECTID_SIZE : Int)))
      = pc.free + (4 + ALIGNED_LENGTH x.ALIGN (insertKeyLen kdesc k) + x.OBJECTID_SIZE) := by
    rw [toTwo_of_range] <;> omega
  have e6 : toTwo (pc.nSlots + 1) = pc.nSlots + 1 := by
    rw [toTwo_of_range] <;> omega
  unfold leafNeededSpace at hroom
  unfold edubtm_InsertLeaf
  simp only [hk, hfound, Bool.not_true, Bool.false_eq_true, if_false, hroom, if_true]
  rw [hpcdef]
  simp only [e1, e2, e4, e5, e6]
  unfold pageWithEntry
  congr 2
  rw [insert_slot_eq _ _ _ _ (by omega)]

/-- `edubtm_InsertLeaf` sets `h` exactly when `BL_FREE(page) >= neededSpace` fails. -/
theorem insertLeaf_split_iff (x : Env) (st : Store) (cat : ObjectID) (pid : PageID)
    (p : BtreePage) (kdesc : KeyDesc) (k : KeyValue) (oid : ObjectID) (f h : Bool)
    (item : InternalItem) (hk : kdescSupported kdesc = true)
    (hfound : (x.btm_BinarySearchLeaf p kdesc k).1 = false) :
    (edubtm_InsertLeaf x st cat pid p kdesc k oid f h item).h = true ↔
      BL_FREE x p < leafNeededSpace x kdesc k := by
  constructor
  · intro hh
    by_contra hc
    have hroom : BL_FREE x p ≥ leafNeededSpace x kdesc k := not_lt.mp hc
    unfold leafNeededSpace at hroom
    unfold edubtm_InsertLeaf at hh
    simp only [hk, hfound, Bool.not_true, Bool.false_eq_true, if_false, hroom, if_true] at hh
  · intro hfull
    rw [insertLeaf_split_eq x st cat pid p kdesc k oid f h item hk hfound hfull]

/-- The fields of the entry that `pageWithEntry` stores at the old free-space offset. -/
theorem pageWithEntry_entry (x : Env) (p : BtreePage) (kdesc : KeyDesc) (k : KeyValue)
    (oid : ObjectID) (i : Int) (hx : SizesOK x) (hlen : 0 ≤ insertKeyLen kdesc k)
    (hkl : -32768 ≤ k.len ∧ k.len < 32768) :
    rdTwo (pageWithEntry x p kdesc k oid i).data p.free = 1 ∧
    rdTwo (pageWithEntry x p kdesc k oid i).data (p.free + 2) = k.len ∧
    rdBytes (pageWithEntry x p kdesc k oid i).data (p.free + 4) (insertKeyLen kdesc k).toNat
      = bytesOf k.val (insertKeyLen kdesc k).toNat ∧
    rdBytes (pageWithEntry x p kdesc k oid i).data
        (p.free + 4 + ALIGNED_LENGTH x.ALIGN (insertKeyLen kdesc k)) x.OBJECTID_SIZE
      = bytesOf oid.bytes x.OBJECTID_SIZE := by
  obtain ⟨b1, b2⟩ := ALIGNED_LENGTH_bounds x.ALIGN (insertKeyLen kdesc k) hx.1
  have hl : ((insertKeyLen kdesc k).toNat : Int) = insertKeyLen kdesc k :=
    Int.toNat_of_nonneg hlen
  refine ⟨?_, ?_, ?_, ?_⟩
  · have e : rdTwo (pageWithEntry x p kdesc k oid i).data p.free
        = rdTwo (wrTwo p.data p.free 1) p.free := by
      apply rdTwo_congr
      intro a a1 a2
      unfold pageWithEntry
      simp only
      rw [wrBytes_outside (Or.inl (by omega)), wrBytes_outside (Or.inl (by omega))]
      unfold wrTwo
      rw [wrBytes_outside (Or.inl (by omega))]
    rw [e, rdTwo_wrTwo _ _ _ (by omega) (by omega)]
  · have e : rdTwo (pageWithEntry x p kdesc k oid i).data (p.free + 2)
        = rdTwo (wrTwo (wrTwo p.data p.free 1) (p.free + 2) k.len) (p.free + 2) := by
      apply rdTwo_congr
      intro a a1 a2
      unfold pageWithEntry
      simp only
      rw [wrBytes_outside (Or.inl (by omega)), wrBytes_outside (Or.inl (by omega))]
    rw [e, rdTwo_wrTwo _ _ _ hkl.1 hkl.2]
  · have e : rdBytes (pageWithEntry x p kdesc k oid i).data (p.free + 4)
          (insertKeyLen kdesc k).toNat
        = rdBytes (wrBytes (wrTwo (wrTwo p.data p.free 1) (p.free + 2) k.len) (p.free + 4)
            (bytesOf k.val (insertKeyLen kdesc k).toNat)) (p.free + 4)
            (insertKeyLen kdesc k).toNat := by
      apply rdBytes_congr
      intro a a1 a2
      unfold pageWithEntry
      simp only
      rw [wrBytes_outside (Or.inl (by omega))]
    rw [e, rdBytes_wrBytes_prefix _ _ _ _ (by rw [bytesOf_length]),
      List.take_of_length_le (by rw [bytesOf_length])]
  · unfold pageWithEntry
    simp only
    rw [ rdBytes_wrBytes_prefix _ _ _ _ (by rw [bytesOf_length]),
      List.take_of_length_le (by rw [bytesOf_length])]

theorem smallEnv_sizesOK : SizesOK smallEnv := by
  unfold SizesOK; decide

theorem getTrain_ok {st st1 : Store} {pid : PageID} {p : BtreePage}
    (h : BfM_GetTrain st pid = .ok (st1, p)) : st1 = st.pin pid := by
  unfold BfM_GetTrain at h
  split at h
  · cases h
  · injection h with h
    injection h with h1 h2
    exact h1.symm

/-- The three outcomes of a hop from a store in which `curLeaf` was acquired. -/
theorem fetchHop_cases (st : Store) (curLeaf nextLeaf : PageID) (apage : BtreePage)
    (idx flag : Int) (newIdx : BtreePage → Int) :
    ((fetchHop (st.pin curLeaf) curLeaf nextLeaf apage idx flag newIdx).e = ErrCode.eNOERROR ∧
      (fetchHop (st.pin curLeaf) curLeaf nextLeaf apage idx flag newIdx).flag = flag ∧
      (fetchHop (st.pin curLeaf) curLeaf nextLeaf apage idx flag newIdx).nextLeaf = nextLeaf ∧
      (fetchHop (st.pin curLeaf) curLeaf nextLeaf apage idx flag newIdx).st = st.pin nextLeaf ∧
      fetchHopTrace (st.pin curLeaf) curLeaf nextLeaf = [st, st.pin nextLeaf]) ∨
    ((fetchHop (st.pin curLeaf) curLeaf nextLeaf apage idx flag newIdx).e ≠ ErrCode.eNOERROR ∧
      (fetchHop (st.pin curLeaf) curLeaf nextLeaf apage idx flag newIdx).st = st ∧
      fetchHopTrace (st.pin curLeaf) curLeaf nextLeaf = [st]) := by
  unfold fetchHop fetchHopTrace
  rw [freeTrain_after_getTrain]
  simp only
  cases hg : BfM_GetTrain st nextLeaf with
  | error e =>
    right
    have := getTrain_error hg
    subst this
    exact ⟨by simp, rfl, rfl⟩
  | ok v =>
    obtain ⟨st2, np⟩ := v
    left
    have := getTrain_ok hg
    subst this
    exact ⟨rfl, rfl, rfl, rfl, rfl⟩

/-- The outcomes of the boundary step from a store in which `curLeaf` was acquired. -/
theorem fetchBoundary_cases (st : Store) (curLeaf : PageID) (apage : BtreePage)
    (idx flag : Int) :
    ((fetchBoundary (st.pin curLeaf) curLeaf apage idx flag).e = ErrCode.eNOERROR ∧
      (fetchBoundary (st.pin curLeaf) curLeaf apage idx flag).flag = CURSOR_EOS ∧
      (fetchBoundary (st.pin curLeaf) curLeaf apage idx flag).st = st.pin curLeaf ∧
      fetchBoundaryTrace (st.pin curLeaf) curLeaf apage idx flag = []) ∨
    ((fetchBoundary (st.pin curLeaf) curLeaf apage idx flag).e = ErrCode.eNOERROR ∧
      (fetchBoundary (st.pin curLeaf) curLeaf apage idx flag).flag ≠ CURSOR_EOS ∧
      (fetchBoundary (st.pin curLeaf) curLeaf apage idx flag).st
        = st.pin (fetchBoundary (st.pin curLeaf) curLeaf apage idx flag).nextLeaf ∧
      fetchBoundaryTrace (st.pin curLeaf) curLeaf apage idx flag
        = [st, st.pin (fetchBoundary (st.pin curLeaf) curLeaf apage idx flag).nextLeaf]) ∨
    ((fetchBoundary (st.pin curLeaf) curLeaf apage idx flag).e ≠ ErrCode.eNOERROR ∧
      (fetchBoundary (st.pin curLeaf) curLeaf apage idx flag).st = st ∧
      fetchBoundaryTrace (st.pin curLeaf) curLeaf apage idx flag = [st]) := by
  have hop : ∀ (nextLeaf : PageID) (newIdx : BtreePage → Int), flag ≠ CURSOR_EOS →
      ((fetchHop (st.pin curLeaf) curLeaf nextLeaf apage idx flag newIdx).e = ErrCode.eNOERROR ∧
        (fetchHop (st.pin curLeaf) curLeaf nextLeaf apage idx flag newIdx).flag ≠ CURSOR_EOS ∧
        (fetchHop (st.pin curLeaf) curLeaf nextLeaf apage idx flag newIdx).st
          = st.pin (fetchHop (st.pin curLeaf) curLeaf nextLeaf apage idx flag newIdx).nextLeaf ∧
        fetchHopTrace (st.pin curLeaf) curLeaf nextLeaf
          = [st, st.pin (fetchHop (st.pin curLeaf) curLeaf nextLeaf apage idx flag
              newIdx).nextLeaf]) ∨
      ((fetchHop (st.pin curLeaf) curLeaf nextLeaf apage idx flag newIdx).e ≠ ErrCode.eNOERROR ∧
        (fetchHop (st.pin curLeaf) curLeaf nextLeaf apage idx flag newIdx).st = st ∧
        fetchHopTrace (st.pin curLeaf) curLeaf nextLeaf = [st]) := by
    intro nextLeaf newIdx hf
    rcases fetchHop_cases st curLeaf nextLeaf apage idx flag newIdx with
      ⟨a, b, c, d, e⟩ | ⟨a, b, c⟩
    · left
      exact ⟨a, by rw [b]; exact hf, by rw [c]; exact d, by rw [c]; exact e⟩
    · right
      exact ⟨a, b, c⟩
  unfold fetchBoundary fetchBoundaryTrace
  by_cases h0 : flag = CURSOR_EOS
  · rw [if_pos h0, if_pos h0]
    left
    exact ⟨rfl, h0, rfl, rfl⟩
  · rw [if_neg h0, if_neg h0]
    by_cases h1 : idx < 0
    · rw [if_pos h1, if_pos h1]
      by_cases h2 : apage.prevPage ≠ NIL
      · rw [if_pos h2, if_pos h2]
        exact Or.inr (hop _ _ h0)
      · rw [if_neg h2, if_neg h2]
        left
        exact ⟨rfl, rfl, rfl, rfl⟩
    · rw [if_neg h1, if_neg h1]
      by_cases h3 : idx ≥ apage.nSlots
      · rw [if_pos h3, if_pos h3]
        by_cases h2 : apage.nextPage ≠ NIL
        · rw [if_pos h2, if_pos h2]
          exact Or.inr (hop _ _ h0)
        · rw [if_neg h2, if_neg h2]
          left
          exact ⟨rfl, rfl, rfl, rfl⟩
      · rw [if_neg h3, if_neg h3]
        exact Or.inr (hop _ _ h0)

/-- The shapes of the trace of `edubtm_FetchNext` and its final store. -/
theorem fetchNext_trace_cases (x : Env) (st : Store) (kdesc : KeyDesc) (kval : KeyValue)
    (compOp : Int) (current next : BtreeCursor) :
    (edubtm_FetchNext x st kdesc kval compOp current next).st = st ∧
    (fetchNextTrace st kdesc compOp current = [] ∨
      fetchNextTrace st kdesc compOp current = [st.pin current.leaf, st] ∨
      ∃ nextLeaf, fetchNextTrace st kdesc compOp current
        = [st.pin current.leaf, st, st.pin nextLeaf, st]) := by
  unfold edubtm_FetchNext fetchNextTrace
  by_cases hk : (!kdescSupported kdesc) = true
  · rw [if_pos hk, if_pos hk]
    exact ⟨rfl, Or.inl rfl⟩
  · rw [if_neg hk, if_neg hk]
    dsimp only
    cases hg : BfM_GetTrain st current.leaf with
    | error e => exact ⟨rfl, Or.inl rfl⟩
    | ok v =>
      obtain ⟨st1, apage⟩ := v
      have := getTrain_ok hg
      subst this
      dsimp only
      rcases fetchBoundary_cases st current.leaf apage
          (fetchDirection compOp current.slotNo CURSOR_ON).1
          (fetchDirection compOp current.slotNo CURSOR_ON).2 with
        ⟨a, b, c, d⟩ | ⟨a, b, c, d⟩ | ⟨a, b, c⟩
      · simp only [a, b, c, d, freeTrain_after_getTrain, ne_eq, not_true_eq_false, if_false,
          if_true, List.nil_append]
        exact ⟨trivial, Or.inr (Or.inl trivial)⟩
      · simp only [a, b, c, d, freeTrain_after_getTrain, ne_eq, not_true_eq_false, if_false,
          List.cons_append, List.nil_append]
        exact ⟨trivial, Or.inr (Or.inr ⟨_, rfl⟩)⟩
      · simp only [a, b, c, ne_eq, not_false_eq_true, if_true, List.append_nil]
        exact ⟨trivial, Or.inr (Or.inl trivial)⟩

/-- The last store of the trace is the store that `edubtm_FetchNext` returns. -/
theorem fetchNext_trace_last (x : Env) (st : Store) (kdesc : KeyDesc) (kval : KeyValue)
    (compOp : Int) (current next : BtreeCursor) :
    (st :: fetchNextTrace st kdesc compOp current).getLast (List.cons_ne_nil _ _)
      = (edubtm_FetchNext x st kdesc kval compOp current next).st := by
  obtain ⟨h1, h2 | h2 | ⟨n, h2⟩⟩ := fetchNext_trace_cases x st kdesc kval compOp current next
  all_goals simp [h1, h2]

theorem internalNeededSpace_eq (x : Env) (item : InternalItem) (hx : InternalSizesOK x)
    (hlen : 0 ≤ item.klen ∧ item.klen ≤ x.MAXKEYLEN) :
    toTwo (ALIGNED_LENGTH x.ALIGN item.klen) = ALIGNED_LENGTH x.ALIGN item.klen ∧
    toTwo ((x.SHORTPAGEID_SIZE : Int) + 2 + ALIGNED_LENGTH x.ALIGN item.klen)
        = (x.SHORTPAGEID_SIZE : Int) + 2 + ALIGNED_LENGTH x.ALIGN item.klen ∧
    internalNeededSpace x item
        = (x.SHORTPAGEID_SIZE : Int) + 2 + ALIGNED_LENGTH x.ALIGN item.klen + 2 := by
  obtain ⟨ha, hsz, hsp⟩ := hx
  obtain ⟨h1, h2⟩ := hlen
  obtain ⟨b1, b2⟩ := ALIGNED_LENGTH_bounds x.ALIGN item.klen ha
  have e1 : toTwo (ALIGNED_LENGTH x.ALIGN item.klen) = ALIGNED_LENGTH x.ALIGN item.klen := by
    rw [toTwo_of_range] <;> omega
  have e2 : toTwo ((x.SHORTPAGEID_SIZE : Int) + 2 + ALIGNED_LENGTH x.ALIGN item.klen)
      = (x.SHORTPAGEID_SIZE : Int) + 2 + ALIGNED_LENGTH x.ALIGN item.klen := by
    rw [toTwo_of_range] <;> omega
  refine ⟨e1, e2, ?_⟩
  unfold internalNeededSpace
  rw [e1, e2, toTwo_of_range] <;> omega

/-- The result of `edubtm_InsertInternal` on the path without split. -/
theorem insertInternal_fit_eq (x : Env) (st : Store) (cat : ObjectID) (p : BtreePage)
    (item : InternalItem) (high : Int) (h : Bool) (ritem : InternalItem)
    (hx : InternalSizesOK x) (hlen : 0 ≤ item.klen ∧ item.klen ≤ x.MAXKEYLEN)
    (hroom : BI_FREE x p ≥ internalNeededSpace x item)
    (hpc : 0 ≤ (internalAfterCompaction x p item).nSlots ∧
      0 ≤ (internalAfterCompaction x p item).free ∧
      BI_CFREE x (internalAfterCompaction x p item) ≥ internalNeededSpace x item)
    (hidx : -1 ≤ high ∧ high < (internalAfterCompaction x p item).nSlots) :
    edubtm_InsertInternal x st cat p item high h ritem
      = ⟨ErrCode.eNOERROR, st, internalWithEntry x (internalAfterCompaction x p item) item
          (high + 1), false, false, ritem⟩ := by
  obtain ⟨e1, e2, e3⟩ := internalNeededSpace_eq x item hx hlen
  obtain ⟨ha, hsz, hsp⟩ := hx
  obtain ⟨h1, h2⟩ := hlen
  obtain ⟨b1, b2⟩ := ALIGNED_LENGTH_bounds x.ALIGN item.klen ha
  obtain ⟨c1, c2, c3⟩ := hpc
  have hpcdef : (if BI_CFREE x p < toTwo (toTwo ((x.SHORTPAGEID_SIZE : Int) + 2
      + toTwo (ALIGNED_LENGTH x.ALIGN item.klen)) + 2) then x.edubtm_CompactInternalPage p NIL
      else p) = internalAfterCompaction x p item := rfl
  generalize internalAfterCompaction x p item = pc at *
  rw [e3] at c3
  unfold BI_CFREE at c3
  have e4 : toTwo (high + 1) = high + 1 := by
    rw [toTwo_of_range] <;> omega
  have e5 : toTwo (pc.free + ((x.SHORTPAGEID_SIZE : Int) + 2 + ALIGNED_LENGTH x.ALIGN item.klen))
      = pc.free + ((x.SHORTPAGEID_SIZE : Int) + 2 + ALIGNED_LENGTH x.ALIGN item.klen) := by
    rw [toTwo_of_range] <;> omega
  have e6 : toTwo (pc.nSlots + 1) = pc.nSlots + 1 := by
    rw [toTwo_of_range] <;> omega
  unfold internalNeededSpace at hroom
  unfold edubtm_InsertInternal
  simp only [hroom, if_true]
  rw [hpcdef]
  simp only [e1, e2, e4, e5, e6]
  unfold internalWithEntry
  congr 2
  rw [insert_slot_eq _ _ _ _ (by omega)]

theorem internalWithEntry_data_below (x : Env) (p : BtreePage) (item : InternalItem) (i : Int)
    (a : Int) (ha : a < p.free) : (internalWithEntry x p item i).data a = p.data a := by
  unfold internalWithEntry
  simp only
  rw [wrBytes_outside (Or.inl (by omega))]
  unfold wrTwo
  rw [wrBytes_outside (Or.inl (by omega)), wrBytes_outside (Or.inl (by omega))]

/-- The fields of the entry that `internalWithEntry` stores at the old free-space offset. -/
theorem internalWithEntry_entry (x : Env) (p : BtreePage) (item : InternalItem) (i : Int)
    (hkl : 0 ≤ item.klen ∧ item.klen < 32768) :
    rdBytes (internalWithEntry x p item i).data p.free x.SHORTPAGEID_SIZE
      = encInt x.SHORTPAGEID_SIZE item.spid ∧
    rdTwo (internalWithEntry x p item i).data (p.free + (x.SHORTPAGEID_SIZE : Int)) = item.klen ∧
    rdBytes (internalWithEntry x p item i).data (p.free + (x.SHORTPAGEID_SIZE : Int) + 2)
        item.klen.toNat
      = bytesOf item.kval item.klen.toNat := by
  refine ⟨?_, ?_, ?_⟩
  · have e : rdBytes (internalWithEntry x p item i).data p.free x.SHORTPAGEID_SIZE
        = rdBytes (wrBytes p.data p.free (encInt x.SHORTPAGEID_SIZE item.spid)) p.free
            x.SHORTPAGEID_SIZE := by
      apply rdBytes_congr
      intro a a1 a2
      unfold internalWithEntry
      simp only
      rw [wrBytes_outside (Or.inl (by omega))]
      unfold wrTwo
      rw [wrBytes_outside (Or.inl (by omega))]
    rw [e, rdBytes_wrBytes_prefix _ _ _ _ (by rw [encInt_length]),
      List.take_of_length_le (by rw [encInt_length])]
  · have e : rdTwo (internalWithEntry x p item i).data (p.free + (x.SHORTPAGEID_SIZE : Int))
        = rdTwo (wrTwo (wrBytes p.data p.free (encInt x.SHORTPAGEID_SIZE item.spid))
            (p.free + (x.SHORTPAGEID_SIZE : Int)) item.klen)
            (p.free + (x.SHORTPAGEID_SIZE : Int)) := by
      apply rdTwo_congr
      intro a a1 a2
      unfold internalWithEntry
      simp only
      rw [wrBytes_outside (Or.inl (by omega))]
    rw [e, rdTwo_wrTwo _ _ _ (by omega) (by omega)]
  · unfold internalWithEntry
    simp only
    rw [ rdBytes_wrBytes_prefix _ _ _ _ (by rw [bytesOf_length]),
      List.take_of_length_le (by rw [bytesOf_length])]

/-- The canonical key read from a slot of an internal page depends only on the bytes of
the key. -/
theorem canonKey_internalEntryKey_congr (spidSize maxKeyLen : Nat) (p q : BtreePage) (i j : Int)
    (hslot : q.slot j = p.slot i)
    (hlen : 0 ≤ rdTwo p.data (p.slot i + (spidSize : Int)) ∧
      rdTwo p.data (p.slot i + (spidSize : Int)) ≤ maxKeyLen)
    (hdata : ∀ a, p.slot i + (spidSize : Int) ≤ a →
      a < p.slot i + (spidSize : Int) + 2 + rdTwo p.data (p.slot i + (spidSize : Int)) →
      q.data a = p.data a) :
    canonKey (internalEntryKey spidSize maxKeyLen q j)
      = canonKey (internalEntryKey spidSize maxKeyLen p i) := by
  have hl : rdTwo q.data (p.slot i + (spidSize : Int))
      = rdTwo p.data (p.slot i + (spidSize : Int)) :=
    rdTwo_congr (fun a h1 h2 => hdata a h1 (by omega))
  simp only [canonKey, internalEntryKey, keyBytes, hslot, hl, KeyValue.mk.injEq, true_and]
  have hk : (rdTwo p.data (p.slot i + (spidSize : Int))).toNat ≤ maxKeyLen := by omega
  rw [bytesOf_rdBytes _ _ _ _ hk, bytesOf_rdBytes _ _ _ _ hk]
  apply rdBytes_congr
  intro a h1 h2
  apply hdata a (by omega)
  have : ((rdTwo p.data (p.slot i + (spidSize : Int))).toNat : Int)
      = rdTwo p.data (p.slot i + (spidSize : Int)) := Int.toNat_of_nonneg hlen.1
  omega

theorem canonKey_internalWithEntry_new (x : Env) (p : BtreePage) (item : InternalItem) (i : Int)
    (hlen : 0 ≤ item.klen ∧ item.klen ≤ x.MAXKEYLEN) (hm : (x.MAXKEYLEN : Int) < 32768) :
    canonKey (internalEntryKey x.SHORTPAGEID_SIZE x.MAXKEYLEN (internalWithEntry x p item i) i)
      = canonKey (itemKey item) := by
  have hs : (internalWithEntry x p item i).slot i = p.free := by
    simp [internalWithEntry]
  obtain ⟨-, hl, hb⟩ := internalWithEntry_entry x p item i ⟨hlen.1, by omega⟩
  simp only [canonKey, internalEntryKey, keyBytes, itemKey, hs, hl, KeyValue.mk.injEq, true_and]
  rw [bytesOf_rdBytes _ _ _ _ (by omega), hb]

/-- The slot cells of an internal page after an insert at logical index `i`. -/
theorem internalWithEntry_slot (x : Env) (p : BtreePage) (item : InternalItem) (i : Nat)
    (j : Nat) :
    (j < i → (internalWithEntry x p item i).slot j = p.slot j) ∧
    ((internalWithEntry x p item i).slot i = p.free) ∧
    (i ≤ j → (j : Int) < p.nSlots →
      (internalWithEntry x p item i).slot ((j + 1 : Nat) : Int) = p.slot j) := by
  refine ⟨?_, ?_, ?_⟩
  · intro h
    simp only [internalWithEntry]
    rw [if_neg (by omega), if_neg (by omega)]
  · simp [internalWithEntry]
  · intro h1 h2
    simp only [internalWithEntry]
    rw [if_neg (by push_cast; omega), if_pos (by push_cast; omega)]
    congr 1
    push_cast; omega

/-- The canonical keys of an internal page after an insert at logical index `i`. -/
theorem internalWithEntry_keys (x : Env) (p : BtreePage) (item : InternalItem) (i : Nat)
    (hx : InternalSizesOK x) (hlen : 0 ≤ item.klen ∧ item.klen ≤ x.MAXKEYLEN)
    (hinv : InternalInv x p) (hi : (i : Int) ≤ p.nSlots) :
    (internalKeys x.SHORTPAGEID_SIZE x.MAXKEYLEN (internalWithEntry x p item i)).map canonKey
      = ((internalKeys x.SHORTPAGEID_SIZE x.MAXKEYLEN p).map canonKey).take i
          ++ canonKey (itemKey item)
            :: ((internalKeys x.SHORTPAGEID_SIZE x.MAXKEYLEN p).map canonKey).drop i := by
  obtain ⟨hn, hfree, hent⟩ := hinv
  have hcnt : (internalWithEntry x p item i).nSlots.toNat = p.nSlots.toNat + 1 := by
    simp only [internalWithEntry]; omega
  unfold internalKeys
  rw [hcnt, List.map_map, List.map_map]
  have hold : ∀ (j j2 : Nat), (j : Int) < p.nSlots →
      (internalWithEntry x p item i).slot j2 = p.slot j →
      canonKey (internalEntryKey x.SHORTPAGEID_SIZE x.MAXKEYLEN (internalWithEntry x p item i) j2)
        = canonKey (internalEntryKey x.SHORTPAGEID_SIZE x.MAXKEYLEN p j) := by
    intro j j2 hj hs
    obtain ⟨c1, c2, c3⟩ := hent j hj
    apply canonKey_internalEntryKey_congr _ _ _ _ _ _ hs ⟨c1, c2⟩
    intro a a1 a2
    exact internalWithEntry_data_below x p item i a (by linarith)
  apply map_range_insert
  · omega
  · intro j hj
    exact hold j j (by omega) ((internalWithEntry_slot x p item i j).1 hj)
  · exact canonKey_internalWithEntry_new x p item i hlen (by have := hx.2.1; omega)
  · intro j h1 h2
    have hj : (j : Int) < p.nSlots := by omega
    exact hold j (j + 1) hj ((internalWithEntry_slot x p item i j).2.2 h1 hj)

/-- The child page numbers, as stored bytes, of an internal page after an insert at logical
index `i`. -/
theorem internalWithEntry_spids (x : Env) (p : BtreePage) (item : InternalItem) (i : Nat)
    (hlen : 0 ≤ item.klen ∧ item.klen ≤ x.MAXKEYLEN) (hm : (x.MAXKEYLEN : Int) < 32768)
    (hinv : InternalInv x p) (hi : (i : Int) ≤ p.nSlots) :
    internalSpids x.SHORTPAGEID_SIZE (internalWithEntry x p item i)
      = (internalSpids x.SHORTPAGEID_SIZE p).take i
          ++ decInt (encInt x.SHORTPAGEID_SIZE item.spid)
            :: (internalSpids x.SHORTPAGEID_SIZE p).drop i := by
  obtain ⟨hn, hfree, hent⟩ := hinv
  have hcnt : (internalWithEntry x p item i).nSlots.toNat = p.nSlots.toNat + 1 := by
    simp only [internalWithEntry]; omega
  unfold internalSpids
  rw [hcnt]
  have hold : ∀ (j j2 : Nat), (j : Int) < p.nSlots →
      (internalWithEntry x p item i).slot j2 = p.slot j →
      internalEntrySpid x.SHORTPAGEID_SIZE (internalWithEntry x p item i) j2
        = internalEntrySpid x.SHORTPAGEID_SIZE p j := by
    intro j j2 hj hs
    obtain ⟨c1, c2, c3⟩ := hent j hj
    unfold internalEntrySpid
    rw [hs]
    congr 1
    apply rdBytes_congr
    intro a a1 a2
    exact internalWithEntry_data_below x p item i a (by linarith)
  apply map_range_insert
  · omega
  · intro j hj
    exact hold j j (by omega) ((internalWithEntry_slot x p item i j).1 hj)
  · unfold internalEntrySpid
    rw [(internalWithEntry_slot x p item i i).2.1,
      (internalWithEntry_entry x p item i ⟨hlen.1, by omega⟩).1]
  · intro j h1 h2
    have hj : (j : Int) < p.nSlots := by omega
    exact hold j (j + 1) hj ((internalWithEntry_slot x p item i j).2.2 h1 hj)

theorem emod_mul_split (v a b : Int) (ha : 0 < a) (hb : 0 < b) :
    v % (a * b) = v % a + a * ((v / a) % b) := by
  have h1 := Int.emod_add_ediv v a
  have h2 := Int.emod_add_ediv (v / a) b
  have r0 := Int.emod_nonneg v (ne_of_gt ha)
  have r1 := Int.emod_lt_of_pos v ha
  have s0 := Int.emod_nonneg (v / a) (ne_of_gt hb)
  have s1 := Int.emod_lt_of_pos (v / a) hb
  have e : v = (v % a + a * ((v / a) % b)) + (a * b) * (v / a / b) := by
    have : a * (v / a) = a * ((v / a) % b) + a * b * (v / a / b) := by
      rw [mul_assoc, ← mul_add, h2]
    linarith
  have hlt : v % a + a * ((v / a) % b) < a * b := by
    have : a * ((v / a) % b) ≤ a * (b - 1) :=
      mul_le_mul_of_nonneg_left (by omega) (le_of_lt ha)
    have : a * (b - 1) = a * b - a := by ring
    linarith
  have hge : 0 ≤ v % a + a * ((v / a) % b) := by
    have : 0 ≤ a * ((v / a) % b) := mul_nonneg (le_of_lt ha) s0
    linarith
  conv_lhs => rw [e]
  rw [Int.add_mul_emod_self_left, Int.emod_eq_of_lt hge hlt]

theorem ediv_mul_split (v a b : Int) (ha : 0 < a) (hb : 0 < b) :
    v / (a * b) = v / a / b := by
  have h0 := Int.emod_add_ediv v (a * b)
  have h1 := Int.emod_add_ediv v a
  have h2 := Int.emod_add_ediv (v / a) b
  have h3 := emod_mul_split v a b ha hb
  have e : a * (v / a) = a * ((v / a) % b) + a * b * (v / a / b) := by
    rw [mul_assoc, ← mul_add, h2]
  have e2 : a * b * (v / (a * b)) = a * b * (v / a / b) := by linarith
  exact mul_left_cancel₀ (ne_of_gt (mul_pos ha hb)) e2

theorem encInt_succ (n : Nat) (v : Int) :
    encInt (n + 1) v = (v % 256).toNat :: encInt n (v / 256) := by
  unfold encInt
  rw [List.range_succ_eq_map, List.map_cons, List.map_map]
  congr 1
  · simp
  · apply List.map_congr_left
    intro i _
    simp only [Function.comp, Nat.succ_eq_add_one]
    rw [pow_succ, mul_comm, ediv_mul_split v 256 _ (by norm_num) (by positivity)]

theorem decNat_encInt (n : Nat) : ∀ v : Int, (decNat (encInt n v) : Int) = v % (256 : Int) ^ n := by
  induction n with
  | zero => intro v; simp [encInt, decNat]
  | succ n ih =>
    intro v
    rw [encInt_succ, decNat]
    push_cast
    rw [ih (v / 256)]
    have h0 : 0 ≤ v % 256 := Int.emod_nonneg v (by norm_num)
    have h1 : v % 256 < 256 := Int.emod_lt_of_pos v (by norm_num)
    have a1 : ((v % 256).toNat : Int) = v % 256 := Int.toNat_of_nonneg h0
    rw [a1, Int.emod_emod_of_dvd _ (dvd_refl _), pow_succ, mul_comm ((256 : Int) ^ n) 256,
      emod_mul_split v 256 ((256 : Int) ^ n) (by norm_num) (by positivity)]

/-- Decoding the little-endian image of a value that fits in `n` bytes gives the value. -/
theorem decInt_encInt (n : Nat) (v : Int) (h1 : -((256 : Int) ^ n) ≤ 2 * v)
    (h2 : 2 * v < (256 : Int) ^ n) : decInt (encInt n v) = v := by
  unfold decInt
  simp only [encInt_length]
  rw [decNat_encInt]
  have hM : (0 : Int) < (256 : Int) ^ n := by positivity
  generalize (256 : Int) ^ n = M at *
  by_cases hv : 0 ≤ v
  · rw [Int.emod_eq_of_lt hv (by linarith)]
    rw [if_pos h2]
  · have e : v % M = v + M := by
      rw [← Int.add_emod_self, Int.emod_eq_of_lt (by linarith) (by linarith)]
    rw [e, if_neg (by linarith)]
    ring

/-- Inserting a key before the first key that is greater: the keys before it are not
greater, the keys after it are greater, and an ascending list stays ascending. -/
theorem sorted_insert_after (cmp : KeyValue → KeyValue → CmpResult) (laws : CmpLaws cmp)
    (k : KeyValue) : ∀ (L : List KeyValue),
    L.Pairwise (fun a b => cmp a b = CmpResult.LESS) →
    (∀ K ∈ L.take (L.findIdx fun K => decide (cmp K k = CmpResult.GREATER)),
      cmp K k ≠ CmpResult.GREATER) ∧
    (∀ K ∈ L.drop (L.findIdx fun K => decide (cmp K k = CmpResult.GREATER)),
      cmp k K = CmpResult.LESS) ∧
    (L.take (L.findIdx fun K => decide (cmp K k = CmpResult.GREATER))
        ++ k :: L.drop (L.findIdx fun K => decide (cmp K k = CmpResult.GREATER))).Pairwise
      (fun a b => cmp a b ≠ CmpResult.GREATER) ∧
    ((∀ K ∈ L, cmp K k ≠ CmpResult.EQUAL) →
      (L.take (L.findIdx fun K => decide (cmp K k = CmpResult.GREATER))
          ++ k :: L.drop (L.findIdx fun K => decide (cmp K k = CmpResult.GREATER))).Pairwise
        (fun a b => cmp a b = CmpResult.LESS)) := by
  intro L
  induction L with
  | nil => intro _; simp
  | cons K L ih =>
    intro hs
    obtain ⟨hK, hL⟩ := List.pairwise_cons.mp hs
    obtain ⟨i1, i2, i3, i4⟩ := ih hL
    rw [List.findIdx_cons]
    by_cases hP : cmp K k = CmpResult.GREATER
    · simp only [hP, decide_True, cond_true, List.take_zero, List.drop_zero, List.nil_append]
      have hkK : cmp k K = CmpResult.LESS := laws.antisymm K k hP
      have hall : ∀ b ∈ K :: L, cmp k b = CmpResult.LESS := by
        intro b hb
        rcases List.mem_cons.mp hb with h | h
        · rw [h]; exact hkK
        · exact laws.trans k K b hkK (hK b h)
      refine ⟨by simp, hall, ?_, ?_⟩
      · refine List.pairwise_cons.mpr ⟨fun b hb => by rw [hall b hb]; simp, ?_⟩
        exact hs.imp (fun h => by rw [h]; simp)
      · intro _
        exact List.pairwise_cons.mpr ⟨hall, hs⟩
    · simp only [hP, decide_False, cond_false, List.take_succ_cons, List.drop_succ_cons,
        List.cons_append]
      refine ⟨?_, i2, ?_, ?_⟩
      · intro K2 h2
        rcases List.mem_cons.mp h2 with h | h
        · rw [h]; exact hP
        · exact i1 K2 h
      · refine List.pairwise_cons.mpr ⟨?_, i3⟩
        intro b hb
        rcases List.mem_append.mp hb with h | h
        · rw [hK b (List.mem_of_mem_take h)]; simp
        · rcases List.mem_cons.mp h with h | h
          · rw [h]; exact hP
          · rw [hK b (List.mem_of_mem_drop h)]; simp
      · intro hne
        refine List.pairwise_cons.mpr
          ⟨?_, i4 (fun K2 h2 => hne K2 (List.mem_cons_of_mem _ h2))⟩
        intro b hb
        rcases List.mem_append.mp hb with h | h
        · exact hK b (List.mem_of_mem_take h)
        · rcases List.mem_cons.mp h with h | h
          · rw [h]
            rcases cmp_cases (cmp K k) with h3 | h3 | h3
            · exact absurd h3 (hne K (List.mem_cons_self _ _))
            · exact h3
            · exact absurd h3 hP
          · exact hK b (List.mem_of_mem_drop h)

theorem pairwise_canon_rel (cmp : KeyValue → KeyValue → CmpResult) (laws : CmpLaws cmp)
    (c : CmpResult) (L : List KeyValue) :
    (L.map canonKey).Pairwise (fun a b => cmp a b ≠ c) ↔
      L.Pairwise (fun a b => cmp a b ≠ c) := by
  rw [List.pairwise_map]
  constructor <;> intro h <;> refine h.imp ?_ <;> intro a b hab
  · rw [laws.canon]; exact hab
  · rw [← laws.canon]; exact hab

theorem findIdx_canon_greater (cmp : KeyValue → KeyValue → CmpResult) (laws : CmpLaws cmp)
    (k : KeyValue) (L : List KeyValue) :
    (L.map canonKey).findIdx (fun K => decide (cmp K (canonKey k) = CmpResult.GREATER))
      = L.findIdx (fun K => decide (cmp K k = CmpResult.GREATER)) := by
  induction L with
  | nil => rfl
  | cons K L ih =>
    rw [List.map_cons, List.findIdx_cons, List.findIdx_cons, ih]
    have : cmp (canonKey K) (canonKey k) = cmp K k := (laws.canon K k).symm
    rw [this]

theorem internalKeys_length (spidSize maxKeyLen : Nat) (p : BtreePage) :
    (internalKeys spidSize maxKeyLen p).length = p.nSlots.toNat := by
  simp [internalKeys]

/-- The result of `edubtm_Insert` on a root that is an internal page, in terms of the
result `r` of the recursive call. -/
theorem insert_internal_root_eq (x : Env) (fuel : Nat) (st : Store) (cat : ObjectID)
    (root : PageID) (apage : BtreePage) (kdesc : KeyDesc) (kval : KeyValue) (oid : ObjectID)
    (f h : Bool) (item : InternalItem) (r : InsertResult)
    (hk : kdescSupported kdesc = true) (hp : st.page root = some apage)
    (hI : apage.type &&& INTERNAL ≠ 0)
    (hr : edubtm_Insert x fuel (st.pin root) cat (insertChild x root apage kdesc kval) kdesc
      kval oid false false ⟨0, 0, []⟩ = some r) :
    edubtm_Insert x (fuel + 1) st cat root kdesc kval oid f h item
      = if r.e ≠ ErrCode.eNOERROR then some ⟨r.e, r.st, false, false, item⟩
        else if r.h = true then
          if (edubtm_InsertInternal x r.st cat (r.st.frame root apage) r.item
              (x.edubtm_BinarySearchInternal (r.st.frame root apage) kdesc (itemKey r.item)).2
              false item).e ≠ ErrCode.eNOERROR then
            some ⟨(edubtm_InsertInternal x r.st cat (r.st.frame root apage) r.item
                (x.edubtm_BinarySearchInternal (r.st.frame root apage) kdesc (itemKey r.item)).2
                false item).e,
              (edubtm_InsertInternal x r.st cat (r.st.frame root apage) r.item
                (x.edubtm_BinarySearchInternal (r.st.frame root apage) kdesc (itemKey r.item)).2
                false item).st.setPage root
                (edubtm_InsertInternal x r.st cat (r.st.frame root apage) r.item
                  (x.edubtm_BinarySearchInternal (r.st.frame root apage) kdesc
                    (itemKey r.item)).2 false item).page,
              false,
              (edubtm_InsertInternal x r.st cat (r.st.frame root apage) r.item
                (x.edubtm_BinarySearchInternal (r.st.frame root apage) kdesc (itemKey r.item)).2
                false item).h,
              (edubtm_InsertInternal x r.st cat (r.st.frame root apage) r.item
                (x.edubtm_BinarySearchInternal (r.st.frame root apage) kdesc (itemKey r.item)).2
                false item).item⟩
          else insertEpilogue
            ((edubtm_InsertInternal x r.st cat (r.st.frame root apage) r.item
                (x.edubtm_BinarySearchInternal (r.st.frame root apage) kdesc (itemKey r.item)).2
                false item).st.setPage root
              (edubtm_InsertInternal x r.st cat (r.st.frame root apage) r.item
                (x.edubtm_BinarySearchInternal (r.st.frame root apage) kdesc
                  (itemKey r.item)).2 false item).page) root false
            (edubtm_InsertInternal x r.st cat (r.st.frame root apage) r.item
              (x.edubtm_BinarySearchInternal (r.st.frame root apage) kdesc (itemKey r.item)).2
              false item).h
            (edubtm_InsertInternal x r.st cat (r.st.frame root apage) r.item
              (x.edubtm_BinarySearchInternal (r.st.frame root apage) kdesc (itemKey r.item)).2
              false item).item
        else insertEpilogue r.st root false false item := by
  unfold insertChild at hr
  conv_lhs => unfold edubtm_Insert
  rw [getTrain_of_page hp]
  simp only [hk, Bool.not_true, Bool.false_eq_true, if_false]
  rw [if_pos hI]
  simp only [hr, itemKey]

theorem splitEnv_internalInv :
    InternalInv splitEnv (internalAfterCompaction splitEnv (exInternal 10 [(11, 5)])
      exChildResult.item) := by
  have hn : (internalAfterCompaction splitEnv (exInternal 10 [(11, 5)])
      exChildResult.item).nSlots = 1 := by decide
  refine ⟨by decide, by decide, ?_⟩
  intro i hi
  rw [hn] at hi
  have : i = 0 := by omega
  subst this
  decide

theorem splitEnv_laws : CmpLaws (splitEnv.edubtm_KeyCompare exKdesc) := by
  rw [show splitEnv.edubtm_KeyCompare = specKeyCompare from rfl]
  exact specKeyCompare_exKdesc_laws

/-- A hop from a store in which `curLeaf` was acquired either reaches the page `nextLeaf` of
the store or fails. -/
theorem fetchHop_result (st : Store) (curLeaf nextLeaf : PageID) (apage : BtreePage)
    (idx flag : Int) (newIdx : BtreePage → Int) :
    (∃ q, st.page nextLeaf = some q ∧
      fetchHop (st.pin curLeaf) curLeaf nextLeaf apage idx flag newIdx
        = ⟨ErrCode.eNOERROR, st.pin nextLeaf, q, nextLeaf, newIdx q, flag⟩) ∨
    (fetchHop (st.pin curLeaf) curLeaf nextLeaf apage idx flag newIdx).e ≠ ErrCode.eNOERROR := by
  cases hq : st.page nextLeaf with
  | some q => exact Or.inl ⟨q, rfl, fetchHop_eq st curLeaf nextLeaf apage q idx flag newIdx hq⟩
  | none =>
    right
    unfold fetchHop
    rw [freeTrain_after_getTrain]
    simp [BfM_GetTrain, hq]

/-- The candidate located from a cursor inside its leaf is an entry of the page held. -/
theorem fetchCandidate_in_range (st : Store) (compOp : Int) (current : BtreeCursor)
    (p : BtreePage) (hp : st.page current.leaf = some p) (hn : p.nSlots ≤ 32767)
    (hs : 0 ≤ current.slotNo ∧ current.slotNo < p.nSlots)
    (hop : compOp = SM_EQ ∨ compOp = SM_LT ∨ compOp = SM_LE ∨ compOp = SM_GT ∨
      compOp = SM_GE ∨ compOp = SM_EOF ∨ compOp = SM_BOF)
    (hnext : ∀ q, st.page (MAKE_PAGEID current.leaf.volNo p.nextPage) = some q → 0 < q.nSlots)
    (hprev : ∀ q, st.page (MAKE_PAGEID current.leaf.volNo p.prevPage) = some q →
      0 < q.nSlots ∧ q.nSlots ≤ 32767)
    (loc : Located) (hloc : fetchCandidate st compOp current = some loc) :
    st.page loc.nextLeaf = some loc.apage ∧ 0 ≤ loc.idx ∧ loc.idx < loc.apage.nSlots := by
  have hne : CURSOR_ON ≠ CURSOR_EOS := by decide
  unfold fetchCandidate at hloc
  rw [getTrain_of_page hp] at hloc
  simp only at hloc
  have hop2 : compOp = SM_EQ ∨ (compOp = SM_LT ∨ compOp = SM_LE ∨ compOp = SM_EOF) ∨
      (compOp = SM_GT ∨ compOp = SM_GE ∨ compOp = SM_BOF) := by tauto
  rcases hop2 with h | h | h
  · subst h
    simp [fetchDirection, fetchBoundary] at hloc
  · have h2 : toTwo (current.slotNo + 1) = current.slotNo + 1 := by
      rw [toTwo_of_range] <;> omega
    rw [fetchDirection_forward _ _ h, h2] at hloc
    unfold fetchBoundary at hloc
    simp only at hloc
    rw [if_neg hne, if_neg (show ¬ current.slotNo + 1 < 0 by omega)] at hloc
    by_cases hb : current.slotNo + 1 ≥ p.nSlots
    · rw [if_pos hb] at hloc
      by_cases hnx : p.nextPage ≠ NIL
      · rw [if_pos hnx] at hloc
        rcases fetchHop_result st current.leaf (MAKE_PAGEID current.leaf.volNo p.nextPage) p
            (current.slotNo + 1) CURSOR_ON (fun _ => 0) with ⟨q, hq, he⟩ | he
        · rw [he] at hloc
          simp only [hne, ne_eq, not_false_eq_true, and_self, if_true] at hloc
          injection hloc with hloc
          subst hloc
          exact ⟨hq, le_refl _, hnext q hq⟩
        · rw [if_neg (fun h => he h.1)] at hloc
          cases hloc
      · rw [if_neg hnx] at hloc
        simp at hloc
    · rw [if_neg hb] at hloc
      rw [fetchHop_eq st current.leaf current.leaf p p _ _ _ hp] at hloc
      simp only [hne, ne_eq, not_false_eq_true, and_self, if_true] at hloc
      injection hloc with hloc
      subst hloc
      exact ⟨hp, by simp only; omega, by simp only; omega⟩
  · have h2 : toTwo (current.slotNo - 1) = current.slotNo - 1 := by
      rw [toTwo_of_range] <;> omega
    rw [fetchDirection_backward _ _ h, h2] at hloc
    unfold fetchBoundary at hloc
    simp only at hloc
    rw [if_neg hne] at hloc
    by_cases hb : current.slotNo - 1 < 0
    · rw [if_pos hb] at hloc
      by_cases hpv : p.prevPage ≠ NIL
      · rw [if_pos hpv] at hloc
        rcases fetchHop_result st current.leaf (MAKE_PAGEID current.leaf.volNo p.prevPage) p
            (current.slotNo - 1) CURSOR_ON (fun np => toTwo (np.nSlots - 1)) with ⟨q, hq, he⟩ | he
        · rw [he] at hloc
          simp only [hne, ne_eq, not_false_eq_true, and_self, if_true] at hloc
          injection hloc with hloc
          subst hloc
          obtain ⟨q1, q2⟩ := hprev q hq
          have h3 : toTwo (q.nSlots - 1) = q.nSlots - 1 := by
            rw [toTwo_of_range] <;> omega
          exact ⟨hq, by simp only; omega, by simp only; omega⟩
        · rw [if_neg (fun h => he h.1)] at hloc
          cases hloc
      · rw [if_neg hpv] at hloc
        simp at hloc
    · rw [if_neg hb, if_neg (show ¬ current.slotNo - 1 ≥ p.nSlots by omega)] at hloc
      rw [fetchHop_eq st current.leaf current.leaf p p _ _ _ hp] at hloc
      simp only [hne, ne_eq, not_false_eq_true, and_self, if_true] at hloc
      injection hloc with hloc
      subst hloc
      exact ⟨hp, by simp only; omega, by simp only; omega⟩

/-- Forward step with `SM_EOF` inside a leaf, from any cursor on slot `s` of the leaf,
whatever its other fields and whatever `next` holds on entry. -/
theorem fetchNext_EOF_step (x : Env) (st : Store) (kdesc : KeyDesc) (kval : KeyValue)
    (vol : Int) (e : Int × BtreePage) (s : Nat) (c next : BtreeCursor)
    (hk : kdescSupported kdesc = true)
    (hl : c.leaf = ⟨e.1, vol⟩) (hc : c.slotNo = (s : Int))
    (hp : st.page ⟨e.1, vol⟩ = some e.2) (hn : e.2.nSlots ≤ 32767)
    (hs : (s : Int) + 1 < e.2.nSlots) :
    edubtm_FetchNext x st kdesc kval SM_EOF c next
      = ⟨ErrCode.eNOERROR, st, cursorAt x vol e (s + 1)⟩ := by
  have hp2 : st.page c.leaf = some e.2 := by rw [hl]; exact hp
  have hcand := fetchCandidate_same_forward st SM_EOF c e.2 hp2 hn
    ⟨by rw [hc]; omega, by rw [hc]; exact hs⟩ (Or.inr (Or.inr rfl))
  rw [fetchNext_of_candidate_ok x st kdesc kval SM_EOF _ _ e.2 _ _ hk hcand
    (stopFails_unbounded (Or.inl rfl) _)]
  simp [cursorAt, hl, hc]

/-- Backward step with `SM_BOF` inside a leaf, from any cursor on slot `s + 1` of the leaf,
whatever its other fields and whatever `next` holds on entry. -/
theorem fetchNext_BOF_step (x : Env) (st : Store) (kdesc : KeyDesc) (kval : KeyValue)
    (vol : Int) (e : Int × BtreePage) (s : Nat) (c next : BtreeCursor)
    (hk : kdescSupported kdesc = true)
    (hl : c.leaf = ⟨e.1, vol⟩) (hc : c.slotNo = ((s + 1 : Nat) : Int))
    (hp : st.page ⟨e.1, vol⟩ = some e.2) (hn : e.2.nSlots ≤ 32767)
    (hs : ((s + 1 : Nat) : Int) < e.2.nSlots) :
    edubtm_FetchNext x st kdesc kval SM_BOF c next
      = ⟨ErrCode.eNOERROR, st, cursorAt x vol e s⟩ := by
  have hp2 : st.page c.leaf = some e.2 := by rw [hl]; exact hp
  have hcand := fetchCandidate_same_backward st SM_BOF c e.2 hp2 hn
    ⟨by rw [hc]; push_cast; omega, by rw [hc]; exact hs⟩ (Or.inr (Or.inr rfl))
  rw [fetchNext_of_candidate_ok x st kdesc kval SM_BOF _ _ e.2 _ _ hk hcand
    (stopFails_unbounded (Or.inr rfl) _)]
  simp [cursorAt, hl, hc]

/-- Forward step with `SM_EOF` from a cursor on the last slot of a leaf to slot 0 of the
next leaf. -/
theorem fetchNext_EOF_hop (x : Env) (st : Store) (kdesc : KeyDesc) (kval : KeyValue)
    (vol : Int) (e : Int × BtreePage) (q : BtreePage) (c next : BtreeCursor)
    (hk : kdescSupported kdesc = true)
    (hl : c.leaf = ⟨e.1, vol⟩)
    (hp : st.page ⟨e.1, vol⟩ = some e.2) (hn : 0 < e.2.nSlots ∧ e.2.nSlots ≤ 32767)
    (hs : c.slotNo = e.2.nSlots - 1) (hnext : e.2.nextPage ≠ NIL)
    (hq : st.page ⟨e.2.nextPage, vol⟩ = some q) :
    edubtm_FetchNext x st kdesc kval SM_EOF c next
      = ⟨ErrCode.eNOERROR, st, cursorAt x vol (e.2.nextPage, q) 0⟩ := by
  have hp2 : st.page c.leaf = some e.2 := by rw [hl]; exact hp
  have hq2 : st.page (MAKE_PAGEID c.leaf.volNo e.2.nextPage) = some q := by
    rw [hl]; exact hq
  have hcand := fetchCandidate_forward st SM_EOF c e.2 q hp2 hn hs (Or.inr (Or.inr rfl))
    hnext hq2
  rw [fetchNext_of_candidate_ok x st kdesc kval SM_EOF _ _ q _ _ hk hcand
    (stopFails_unbounded (Or.inl rfl) _)]
  simp [cursorAt, MAKE_PAGEID, hl]

/-- Backward step with `SM_BOF` from a cursor on slot 0 of a leaf to the last slot of the
previous leaf. -/
theorem fetchNext_BOF_hop (x : Env) (st : Store) (kdesc : KeyDesc) (kval : KeyValue)
    (vol : Int) (e : Int × BtreePage) (q : BtreePage) (c next : BtreeCursor)
    (hk : kdescSupported kdesc = true)
    (hl : c.leaf = ⟨e.1, vol⟩) (hc : c.slotNo = 0)
    (hp : st.page ⟨e.1, vol⟩ = some e.2) (hprev : e.2.prevPage ≠ NIL)
    (hq : st.page ⟨e.2.prevPage, vol⟩ = some q) (hqn : 0 < q.nSlots ∧ q.nSlots ≤ 32767) :
    edubtm_FetchNext x st kdesc kval SM_BOF c next
      = ⟨ErrCode.eNOERROR, st, cursorAt x vol (e.2.prevPage, q) (q.nSlots.toNat - 1)⟩ := by
  have hp2 : st.page c.leaf = some e.2 := by rw [hl]; exact hp
  have hq2 : st.page (MAKE_PAGEID c.leaf.volNo e.2.prevPage) = some q := by
    rw [hl]; exact hq
  have hcand := fetchCandidate_backward st SM_BOF c e.2 q hp2 hc (Or.inr (Or.inr rfl))
    hprev hq2 hqn
  rw [fetchNext_of_candidate_ok x st kdesc kval SM_BOF _ _ q _ _ hk hcand
    (stopFails_unbounded (Or.inr rfl) _)]
  have h1 : ((q.nSlots.toNat - 1 : Nat) : Int) = q.nSlots - 1 := by omega
  simp [cursorAt, MAKE_PAGEID, h1, hl]

/-- The entry stored by an insert is read back by the decoding of the navigator when the
key length and the number of key bytes copied have the same aligned length and all bytes
of the key are copied: the key has the inserted length and bytes, and the object
identifier is the one inserted. -/
theorem pageWithEntry_round_trip (x : Env) (p : BtreePage) (kdesc : KeyDesc) (k : KeyValue)
    (oid : ObjectID) (i : Int) (hx : SizesOK x) (hkey : KeyOK x kdesc k)
    (hal : ALIGNED_LENGTH x.ALIGN k.len = ALIGNED_LENGTH x.ALIGN (insertKeyLen kdesc k))
    (hoid : oid.bytes.length = x.OBJECTID_SIZE) :
    canonKey (leafEntryKey x.MAXKEYLEN (pageWithEntry x p kdesc k oid i) i) = canonKey k ∧
    leafEntryOid x.ALIGN x.OBJECTID_SIZE (pageWithEntry x p kdesc k oid i) i = oid := by
  refine ⟨canonKey_pageWithEntry_new x p kdesc k oid i hx hkey, ?_⟩
  have hs : (pageWithEntry x p kdesc k oid i).slot i = p.free := by
    simp [pageWithEntry]
  have hl := pageWithEntry_new_klen x p kdesc k oid i hx hkey
  have he := (leafNeededSpace_eq x kdesc k hx hkey).1
  obtain ⟨-, -, -, ho⟩ := pageWithEntry_entry x p kdesc k oid i hx
    (le_trans hkey.1 hkey.2.1) ⟨by have := hkey.1; omega, by
      have := hkey.2.1; have := hkey.2.2; have := hx.2.1; omega⟩
  unfold leafEntryOid
  rw [hs, hl, hal, he, ho]
  have : bytesOf oid.bytes x.OBJECTID_SIZE = oid.bytes := by
    unfold bytesOf
    rw [← hoid]
    apply List.ext_getElem
    · simp
    · intro j h1 h2
      simp only [List.getElem_map, List.getElem_range]
      rw [List.getD_eq_getElem _ _ (by simpa using h1)]
  rw [this]

/-- On an internal root `edubtm_Insert` makes one recursive call, on the child that
`internalChild` makes from the index of the internal binary search, and returns what lines
144-175 make of the result of this call. -/
theorem insert_internal_step (x : Env) (fuel : Nat) (st : Store) (cat : ObjectID)
    (root : PageID) (apage : BtreePage) (kdesc : KeyDesc) (kval : KeyValue) (oid : ObjectID)
    (f h : Bool) (item : InternalItem)
    (hk : kdescSupported kdesc = true) (hp : st.page root = some apage)
    (hI : apage.type &&& INTERNAL ≠ 0) :
    edubtm_Insert x (fuel + 1) st cat root kdesc kval oid f h item
      = (edubtm_Insert x fuel (st.pin root) cat
          (internalChild x root apage (x.edubtm_BinarySearchInternal apage kdesc kval).2)
          kdesc kval oid false false ⟨0, 0, []⟩).map
        (insertAfterChild x cat root apage kdesc item) := by
  conv_lhs => unfold edubtm_Insert
  rw [getTrain_of_page hp]
  simp only [hk, Bool.not_true, Bool.false_eq_true, if_false]
  rw [if_pos hI]
  unfold internalChild
  cases hr : edubtm_Insert x fuel (st.pin root) cat
      (if (x.edubtm_BinarySearchInternal apage kdesc kval).2 ≥ 0 then
        MAKE_PAGEID root.volNo (internalEntrySpid x.SHORTPAGEID_SIZE apage
          (x.edubtm_BinarySearchInternal apage kdesc kval).2)
      else MAKE_PAGEID root.volNo apage.p0) kdesc kval oid false false ⟨0, 0, []⟩ with
  | none => simp only [Option.map_none']
  | some r =>
    simp only [Option.map_some', insertAfterChild]
    split_ifs <;> rfl

/-- When `edubtm_InsertLeaf` succeeds without split on one store, it does so on every store
and leaves the same page. -/
theorem insertLeaf_no_split_indep (x : Env) (s0 : Store) (cat : ObjectID) (pid : PageID)
    (p : BtreePage) (kdesc : KeyDesc) (k : KeyValue) (oid : ObjectID) (it0 : InternalItem)
    (he : (edubtm_InsertLeaf x s0 cat pid p kdesc k oid false false it0).e = ErrCode.eNOERROR)
    (hh : (edubtm_InsertLeaf x s0 cat pid p kdesc k oid false false it0).h = false)
    (s : Store) (it : InternalItem) :
    edubtm_InsertLeaf x s cat pid p kdesc k oid false false it
      = ⟨ErrCode.eNOERROR, s,
          (edubtm_InsertLeaf x s0 cat pid p kdesc k oid false false it0).page,
          false, false, it⟩ := by
  unfold edubtm_InsertLeaf at he hh ⊢
  by_cases hk : kdescSupported kdesc = true
  · simp only [hk, Bool.not_true, Bool.false_eq_true, if_false] at he hh ⊢
    by_cases hf : (x.btm_BinarySearchLeaf p kdesc k).1 = true
    · simp only [hf, if_true] at he
      cases he
    · have hf2 : (x.btm_BinarySearchLeaf p kdesc k).1 = false := by simpa using hf
      simp only [hf2, Bool.false_eq_true, if_false] at he hh ⊢
      by_cases hroom : BL_FREE x p ≥ toTwo (toTwo (2 * 2
          + toTwo (ALIGNED_LENGTH x.ALIGN (insertKeyLen kdesc k)) + (x.OBJECTID_SIZE : Int)) + 2)
      · simp only [hroom, if_true]
      · simp only [hroom, if_false] at hh
        cases hh
  · simp only [hk, Bool.not_false, if_true] at he
    cases he

theorem internalKeys_getElem (spidSize maxKeyLen : Nat) (p : BtreePage) (i : Nat)
    (h : i < (internalKeys spidSize maxKeyLen p).length) :
    (internalKeys spidSize maxKeyLen p)[i] = internalEntryKey spidSize maxKeyLen p (i : Int) := by
  simp [internalKeys]

/-- In an ascending list of keys, the position in front of which `k` lies between its two
neighbours is the index of the first key greater than `k`, and no other position. -/
theorem findIdx_greater_unique (cmp : KeyValue → KeyValue → CmpResult) (laws : CmpLaws cmp)
    (hflip : ∀ a b, cmp a b = CmpResult.LESS → cmp b a = CmpResult.GREATER)
    (k : KeyValue) (L : List KeyValue)
    (hs : L.Pairwise (fun a b => cmp a b = CmpResult.LESS)) (i : Nat) (hi : i ≤ L.length) :
    ((∀ (_ : 0 < i) (h2 : i - 1 < L.length), cmp L[i - 1] k ≠ CmpResult.GREATER) ∧
      (∀ h : i < L.length, cmp k L[i] = CmpResult.LESS)) ↔
    i = L.findIdx (fun K => decide (cmp K k = CmpResult.GREATER)) := by
  have hJl := @List.findIdx_le_length _ (fun K => decide (cmp K k = CmpResult.GREATER)) L
  have hbefore : ∀ (j : Nat) (hj : j < L.length),
      j < L.findIdx (fun K => decide (cmp K k = CmpResult.GREATER)) →
      cmp L[j] k ≠ CmpResult.GREATER := by
    intro j hj hlt
    have := List.not_of_lt_findIdx hlt
    simpa using this
  have hat : ∀ (hj : L.findIdx (fun K => decide (cmp K k = CmpResult.GREATER)) < L.length),
      cmp (L[L.findIdx (fun K => decide (cmp K k = CmpResult.GREATER))]) k
        = CmpResult.GREATER := by
    intro hj
    have := List.findIdx_getElem (w := hj)
    simpa using this
  constructor
  · rintro ⟨h1, h2⟩
    by_contra hne
    rcases Nat.lt_or_gt_of_ne hne with hlt | hgt
    · have hil : i < L.length := lt_of_lt_of_le hlt hJl
      exact hbefore i hil hlt (hflip _ _ (h2 hil))
    · have hJ : L.findIdx (fun K => decide (cmp K k = CmpResult.GREATER)) < L.length :=
        lt_of_lt_of_le hgt hi
      have hg := hat hJ
      have hkJ := laws.antisymm _ _ hg
      have hpos : 0 < i := by omega
      have hil : i - 1 < L.length := by omega
      have h1 := h1 hpos hil
      by_cases heq : L.findIdx (fun K => decide (cmp K k = CmpResult.GREATER)) = i - 1
      · apply h1
        have : L[i - 1] = L[L.findIdx (fun K => decide (cmp K k = CmpResult.GREATER))] := by
          congr 1
          exact heq.symm
        rw [this]
        exact hg
      · have hlt2 : L.findIdx (fun K => decide (cmp K k = CmpResult.GREATER)) < i - 1 := by omega
        have hsorted := (List.pairwise_iff_getElem.mp hs) _ _ hJ hil hlt2
        exact h1 (hflip _ _ (laws.trans _ _ _ hkJ hsorted))
  · intro heq
    subst heq
    refine ⟨?_, ?_⟩
    · intro hpos h2
      exact hbefore _ h2 (by omega)
    · intro h
      exact laws.antisymm _ _ (hat h)

theorem filter_range_single (P : Nat → Prop) [DecidablePred P] (m c : Nat) (hc : c ≤ m)
    (h : ∀ i, i ≤ m → (P i ↔ i = c)) :
    (List.range (m + 1)).filter (fun i => decide (P i)) = [c] := by
  have h1 : (List.range (m + 1)).filter (fun i => decide (P i))
      = (List.range (m + 1)).filter (fun i => decide (i = c)) := by
    apply List.filter_congr
    intro i hi
    have hi2 : i ≤ m := by
      have := List.mem_range.mp hi
      omega
    simp only [decide_eq_decide]
    exact h i hi2
  rw [h1, List.filter_eq, List.count_eq_one_of_mem (List.nodup_range _)
    (List.mem_range.mpr (by omega))]
  rfl

/-- On an internal page with ascending keys, the child ranges that contain `kval` are the
one of the child that the index of the spec's internal search designates. -/
theorem inChildRange_iff (x : Env) (kdesc : KeyDesc) (p : BtreePage) (kval : KeyValue)
    (laws : CmpLaws (x.edubtm_KeyCompare kdesc))
    (hflip : ∀ a b, x.edubtm_KeyCompare kdesc a b = CmpResult.LESS →
      x.edubtm_KeyCompare kdesc b a = CmpResult.GREATER)
    (hord : (internalKeys x.SHORTPAGEID_SIZE x.MAXKEYLEN p).Pairwise
      (fun a b => x.edubtm_KeyCompare kdesc a b = CmpResult.LESS))
    (i : Nat) (hi : i ≤ p.nSlots.toNat) :
    InChildRange x kdesc p kval ((i : Int) - 1) ↔
      i = (internalKeys x.SHORTPAGEID_SIZE x.MAXKEYLEN p).findIdx
        (fun K => decide (x.edubtm_KeyCompare kdesc K kval = CmpResult.GREATER)) := by
  have hlen := internalKeys_length x.SHORTPAGEID_SIZE x.MAXKEYLEN p
  rw [← findIdx_greater_unique (x.edubtm_KeyCompare kdesc) laws hflip kval
    (internalKeys x.SHORTPAGEID_SIZE x.MAXKEYLEN p) hord i (by rw [hlen]; exact hi)]
  unfold InChildRange
  constructor
  · rintro ⟨h1, h2⟩
    refine ⟨?_, ?_⟩
    · intro hpos hl
      rw [internalKeys_getElem]
      have e : (((i - 1 : Nat)) : Int) = (i : Int) - 1 := by omega
      rw [e]
      exact h1 (by omega)
    · intro hl
      rw [internalKeys_getElem]
      have := h2 (by rw [hlen] at hl; omega)
      simpa using this
  · rintro ⟨h1, h2⟩
    refine ⟨?_, ?_⟩
    · intro hpos
      have hp : 0 < i := by omega
      have hl : i - 1 < (internalKeys x.SHORTPAGEID_SIZE x.MAXKEYLEN p).length := by
        rw [hlen]; omega
      have := h1 hp hl
      rw [internalKeys_getElem] at this
      have e : (((i - 1 : Nat)) : Int) = (i : Int) - 1 := by omega
      rw [e] at this
      exact this
    · intro hl
      have hl2 : i < (internalKeys x.SHORTPAGEID_SIZE x.MAXKEYLEN p).length := by
        rw [hlen]; omega
      have := h2 hl2
      rw [internalKeys_getElem] at this
      simpa using this

/-- The leaf that the descent of `edubtm_Insert` reaches is the only leaf whose key range
contains the key, when the internal search is the one of the spec and the keys of every
internal page ascend. -/
theorem insertPath_keyRangeLeaves (x : Env) (page : PageID → Option BtreePage)
    (kdesc : KeyDesc) (kval : KeyValue)
    (hs : ∀ p, (x.edubtm_BinarySearchInternal p kdesc kval).2
      = (specBinarySearchInternal x.edubtm_KeyCompare x.SHORTPAGEID_SIZE x.MAXKEYLEN p kdesc
          kval).2)
    (laws : CmpLaws (x.edubtm_KeyCompare kdesc))
    (hflip : ∀ a b, x.edubtm_KeyCompare kdesc a b = CmpResult.LESS →
      x.edubtm_KeyCompare kdesc b a = CmpResult.GREATER)
    (hord : ∀ pid p, page pid = some p → p.type &&& INTERNAL ≠ 0 →
      (internalKeys x.SHORTPAGEID_SIZE x.MAXKEYLEN p).Pairwise
        (fun a b => x.edubtm_KeyCompare kdesc a b = CmpResult.LESS))
    (n : Nat) : ∀ (root : PageID) (tgt : PageID × BtreePage),
      insertPath x page kdesc kval n root = some tgt →
      keyRangeLeaves x page kdesc kval n root = [tgt] := by
  induction n with
  | zero => intro root tgt hpath; simp [insertPath] at hpath
  | succ n ih =>
    intro root tgt hpath
    rw [insertPath] at hpath
    rw [keyRangeLeaves]
    cases hp : page root with
    | none => simp [hp] at hpath
    | some p =>
      simp only [hp] at hpath ⊢
      by_cases hI : p.type &&& INTERNAL ≠ 0
      · rw [if_pos hI] at hpath ⊢
        have hJ := @List.findIdx_le_length _
          (fun K => decide (x.edubtm_KeyCompare kdesc K kval = CmpResult.GREATER))
          (internalKeys x.SHORTPAGEID_SIZE x.MAXKEYLEN p)
        rw [internalKeys_length] at hJ
        rw [filter_range_single _ p.nSlots.toNat _ hJ
          (fun i hi => inChildRange_iff x kdesc p kval laws hflip (hord root p hp hI) i hi)]
        rw [List.flatMap_singleton]
        apply ih
        rw [← hpath]
        congr 1
        unfold internalChild
        rw [hs p]
        rfl
      · rw [if_neg hI] at hpath ⊢
        by_cases hL : p.type &&& LEAF ≠ 0
        · rw [if_pos hL] at hpath ⊢
          injection hpath with hpath
          rw [hpath]
        · simp [hL] at hpath

/-- When the leaf insert at the leaf the descent reaches succeeds without split,
`edubtm_Insert` returns `eNOERROR`, the content of that leaf is the only page content that
changed, and no pin is left. -/
theorem insert_fit_aux (x : Env) (cat : ObjectID) (kdesc : KeyDesc) (kval : KeyValue)
    (oid : ObjectID) (hk : kdescSupported kdesc = true) (pid : PageID) (leaf q : BtreePage)
    (hq : ∀ (s : Store) (it : InternalItem),
      edubtm_InsertLeaf x s cat pid leaf kdesc kval oid false false it
        = ⟨ErrCode.eNOERROR, s, q, false, false, it⟩)
    (n : Nat) :
    ∀ (st : Store) (root : PageID) (f h : Bool) (item : InternalItem),
      insertPath x st.page kdesc kval n root = some (pid, leaf) →
      ∃ r, edubtm_Insert x n st cat root kdesc kval oid f h item = some r ∧
        r.e = ErrCode.eNOERROR ∧ r.h = false ∧
        r.st.page = setCell st.page pid (some q) ∧ r.st.fixed = st.fixed := by
  induction n with
  | zero => intro st root f h item hpath; simp [insertPath] at hpath
  | succ n ih =>
    intro st root f h item hpath
    rw [insertPath] at hpath
    cases hp : st.page root with
    | none => simp [hp] at hpath
    | some p =>
      simp only [hp] at hpath
      by_cases hI : p.type &&& INTERNAL ≠ 0
      · rw [if_pos hI] at hpath
        obtain ⟨r, hr, he, hh, hpg, hfx⟩ :=
          ih (st.pin root) (internalChild x root p (x.edubtm_BinarySearchInternal p kdesc kval).2)
            false false ⟨0, 0, []⟩ hpath
        have hpin : r.st.fixed root ≠ 0 := by
          rw [hfx]
          simp [setCell_same]
        refine ⟨insertAfterChild x cat root p kdesc item r, ?_, ?_⟩
        · rw [insert_internal_step x n st cat root p kdesc kval oid f h item hk hp hI, hr]
          rfl
        · have hA : insertAfterChild x cat root p kdesc item r
              = insertEpilogue r.st root false false item := by
            unfold insertAfterChild
            rw [if_neg (by rw [he]; simp), if_neg (by rw [hh]; simp)]
          rw [hA, insertEpilogue_pinned _ _ _ _ _ hpin]
          refine ⟨rfl, rfl, hpg, ?_⟩
          show setCell r.st.fixed root (r.st.fixed root - 1) = st.fixed
          rw [hfx]
          simp only [setCell_same, Nat.add_sub_cancel]
          exact setCell_restore st.fixed root _
      · rw [if_neg hI] at hpath
        by_cases hL : p.type &&& LEAF ≠ 0
        · rw [if_pos hL] at hpath
          injection hpath with hpath
          injection hpath with h1 h2
          subst h1; subst h2
          have hI2 : p.type &&& INTERNAL = 0 := by simpa using hI
          rw [insert_leaf_root_eq x n st cat root p kdesc kval oid f h item hk hp hI2 hL]
          rw [hq (st.pin root) item]
          simp only [ne_eq, not_true_eq_false, if_false]
          have hpin : ((st.pin root).setPage root q).fixed root ≠ 0 := by
            simp [Store.setPage, setCell_same]
          rw [insertEpilogue_pinned _ _ _ _ _ hpin]
          refine ⟨_, rfl, rfl, rfl, rfl, ?_⟩
          show setCell (setCell st.fixed root (st.fixed root + 1)) root
            (setCell st.fixed root (st.fixed root + 1) root - 1) = st.fixed
          simp only [setCell_same, Nat.add_sub_cancel]
          exact setCell_restore st.fixed root _
        · simp [hL] at hpath

/-- The index of the spec's internal search on a page with ascending keys: the entries up
to it have keys not greater than the search key, the entries after it have greater keys. -/
theorem specSearch_index (x : Env) (kdesc : KeyDesc) (p : BtreePage) (kval : KeyValue)
    (hs : (x.edubtm_BinarySearchInternal p kdesc kval).2
      = (specBinarySearchInternal x.edubtm_KeyCompare x.SHORTPAGEID_SIZE x.MAXKEYLEN p kdesc
          kval).2)
    (laws : CmpLaws (x.edubtm_KeyCompare kdesc))
    (hord : (internalKeys x.SHORTPAGEID_SIZE x.MAXKEYLEN p).Pairwise
      (fun a b => x.edubtm_KeyCompare kdesc a b = CmpResult.LESS)) :
    -1 ≤ (x.edubtm_BinarySearchInternal p kdesc kval).2 ∧
    (0 ≤ (x.edubtm_BinarySearchInternal p kdesc kval).2 →
      (x.edubtm_BinarySearchInternal p kdesc kval).2 < p.nSlots) ∧
    (∀ i : Nat, (i : Int) ≤ (x.edubtm_BinarySearchInternal p kdesc kval).2 →
      x.edubtm_KeyCompare kdesc (internalEntryKey x.SHORTPAGEID_SIZE x.MAXKEYLEN p i) kval
        ≠ CmpResult.GREATER) ∧
    (∀ i : Nat, (x.edubtm_BinarySearchInternal p kdesc kval).2 < i → (i : Int) < p.nSlots →
      x.edubtm_KeyCompare kdesc kval (internalEntryKey x.SHORTPAGEID_SIZE x.MAXKEYLEN p i)
        = CmpResult.LESS) := by
  have hlen := internalKeys_length x.SHORTPAGEID_SIZE x.MAXKEYLEN p
  have hJ := @List.findIdx_le_length _
    (fun K => decide (x.edubtm_KeyCompare kdesc K kval = CmpResult.GREATER))
    (internalKeys x.SHORTPAGEID_SIZE x.MAXKEYLEN p)
  have hidx : (x.edubtm_BinarySearchInternal p kdesc kval).2
      = ((internalKeys x.SHORTPAGEID_SIZE x.MAXKEYLEN p).findIdx
          (fun K => decide (x.edubtm_KeyCompare kdesc K kval = CmpResult.GREATER)) : Int) - 1 := by
    rw [hs]; rfl
  rw [hidx]
  generalize hJdef : (internalKeys x.SHORTPAGEID_SIZE x.MAXKEYLEN p).findIdx
    (fun K => decide (x.edubtm_KeyCompare kdesc K kval = CmpResult.GREATER)) = J at *
  rw [hlen] at hJ
  refine ⟨by omega, by omega, ?_, ?_⟩
  · intro i hi
    have hiJ : i < J := by omega
    have hil : i < (internalKeys x.SHORTPAGEID_SIZE x.MAXKEYLEN p).length := by
      rw [hlen]; omega
    have hlt : i < (internalKeys x.SHORTPAGEID_SIZE x.MAXKEYLEN p).findIdx
        (fun K => decide (x.edubtm_KeyCompare kdesc K kval = CmpResult.GREATER)) := by
      rw [hJdef]; exact hiJ
    have := List.not_of_lt_findIdx hlt
    rw [internalKeys_getElem] at this
    simpa using this
  · intro i hi hin
    have hil : i < (internalKeys x.SHORTPAGEID_SIZE x.MAXKEYLEN p).length := by
      rw [hlen]; omega
    have hmem : (internalKeys x.SHORTPAGEID_SIZE x.MAXKEYLEN p)[i]
        ∈ (internalKeys x.SHORTPAGEID_SIZE x.MAXKEYLEN p).drop J := by
      rw [List.mem_iff_getElem]
      refine ⟨i - J, by rw [List.length_drop]; omega, ?_⟩
      rw [List.getElem_drop]
      congr 1
      omega
    have h2 := (sorted_insert_after (x.edubtm_KeyCompare kdesc) laws kval
      (internalKeys x.SHORTPAGEID_SIZE x.MAXKEYLEN p) hord).2.1
    rw [hJdef] at h2
    have := h2 _ hmem
    rw [internalKeys_getElem] at this
    exact this

theorem specKeyCompare_exKdesc_flip (a b : KeyValue)
    (h : specKeyCompare exKdesc a b = CmpResult.LESS) :
    specKeyCompare exKdesc b a = CmpResult.GREATER := by
  rw [specKeyCompare_exKdesc] at h ⊢
  split at h
  · next g => rw [if_neg (not_lt.mpr (le_of_lt g)), if_pos g]
  · split at h <;> cases h

theorem exTree_internal_sorted (pid : PageID) (p : BtreePage)
    (hp : (exStore exTree).page pid = some p) (hI : p.type &&& INTERNAL ≠ 0) :
    (internalKeys predEnv.SHORTPAGEID_SIZE predEnv.MAXKEYLEN p).Pairwise
      (fun a b => predEnv.edubtm_KeyCompare exKdesc a b = CmpResult.LESS) := by
  have h1 : p = exInternal 10 [(11, 5)] := by
    simp only [exStore, exTree] at hp
    split at hp
    · simp only [List.lookup] at hp
      split at hp
      · injection hp with hp; exact hp.symm
      · split at hp
        · injection hp with hp
          rw [← hp] at hI
          exact absurd (by decide) hI
        · split at hp
          · injection hp with hp
            rw [← hp] at hI
            exact absurd (by decide) hI
          · cases hp
    · cases hp
  subst h1
  have : internalKeys predEnv.SHORTPAGEID_SIZE predEnv.MAXKEYLEN (exInternal 10 [(11, 5)])
      = [internalEntryKey predEnv.SHORTPAGEID_SIZE predEnv.MAXKEYLEN (exInternal 10 [(11, 5)]) 0] := by
    rfl
  rw [this]
  exact List.pairwise_singleton _ _

theorem predEnv_laws : CmpLaws (predEnv.edubtm_KeyCompare exKdesc) := by
  rw [predEnv_compare]
  exact specKeyCompare_exKdesc_laws

theorem predEnv_flip (a b : KeyValue)
    (h : predEnv.edubtm_KeyCompare exKdesc a b = CmpResult.LESS) :
    predEnv.edubtm_KeyCompare exKdesc b a = CmpResult.GREATER := by
  rw [predEnv_compare] at h ⊢
  exact specKeyCompare_exKdesc_flip a b h

/-- The key and the object identifier that `edubtm_FetchNext` copies from the slot `idx` of
a page are the key (length and bytes) and the object identifier that the entry at the
offset of that slot stores. -/
theorem leafEntryAt_decode (x : Env) (p : BtreePage) (idx : Int) (k : KeyValue) (o : ObjectID)
    (hx : SizesOK x) (h : LeafEntryAt x p (p.slot idx) k o) :
    leafEntryOid x.ALIGN x.OBJECTID_SIZE p idx = o ∧
    (leafEntryKey x.MAXKEYLEN p idx).len = k.len ∧
    keyBytes (leafEntryKey x.MAXKEYLEN p idx) = keyBytes k := by
  obtain ⟨h0, h1, hl, hb, ho⟩ := h
  obtain ⟨ha, hsz, -⟩ := hx
  obtain ⟨b1, b2⟩ := ALIGNED_LENGTH_bounds x.ALIGN k.len ha
  refine ⟨?_, ?_, ?_⟩
  · unfold leafEntryOid
    rw [hl, toTwo_of_range (by omega) (by omega), ho]
  · simp only [leafEntryKey]
    exact hl
  · unfold keyBytes leafEntryKey
    simp only
    rw [hl, bytesOf_rdBytes _ _ _ _ (by omega), hb]
    rfl

theorem leafEntryAt_canon (x : Env) (p : BtreePage) (idx : Int) (k : KeyValue) (o : ObjectID)
    (hx : SizesOK x) (h : LeafEntryAt x p (p.slot idx) k o) :
    canonKey (leafEntryKey x.MAXKEYLEN p idx) = canonKey k := by
  obtain ⟨-, h1, h2⟩ := leafEntryAt_decode x p idx k o hx h
  unfold canonKey
  rw [h1, h2]

/-- The entry that `edubtm_InsertLeaf` writes on the path without split (lines 267-271) is
a leaf entry storing the inserted key and object identifier, when the bytes copied cover
the key and have the aligned length of the key. -/
theorem pageWithEntry_leafEntryAt (x : Env) (p : BtreePage) (kdesc : KeyDesc) (k : KeyValue)
    (oid : ObjectID) (i : Int) (hx : SizesOK x) (hkey : KeyOK x kdesc k)
    (hal : ALIGNED_LENGTH x.ALIGN k.len = ALIGNED_LENGTH x.ALIGN (insertKeyLen kdesc k))
    (hoid : oid.bytes.length = x.OBJECTID_SIZE) :
    LeafEntryAt x (pageWithEntry x p kdesc k oid i) p.free k oid := by
  obtain ⟨-, h2, -, h4⟩ := pageWithEntry_entry x p kdesc k oid i hx
    (le_trans hkey.1 hkey.2.1) ⟨by have := hkey.1; omega, by
      have := hkey.2.1; have := hkey.2.2; have := hx.2.1; omega⟩
  have hb : bytesOf oid.bytes x.OBJECTID_SIZE = oid.bytes := by
    unfold bytesOf
    rw [← hoid]
    apply List.ext_getElem
    · simp
    · intro j h1 h2
      simp only [List.getElem_map, List.getElem_range]
      rw [List.getD_eq_getElem _ _ (by simpa using h1)]
  refine ⟨hkey.1, le_trans hkey.2.1 hkey.2.2, h2, ?_, ?_⟩
  · exact pageWithEntry_new_bytes x p kdesc k oid i hx hkey
  · rw [hal, h4, hb]

/-! # The claims -/

/-! ## C1 -/

/-- C1 (amended): pairs whose keys are pairwise distinct under the comparator are inserted
one after the other with `edubtm_InsertLeaf` into an initially empty leaf, every insert
finding enough total free space. When the leaf binary search returns, for an absent key,
the index of the last entry whose key is less than it (`predBinarySearchLeaf`, `-1` if
none), the comparator is a strict order that looks only at the length and bytes of a key,
and all the bytes of every key are copied (`KeyOK`), then after each insert (after every
prefix `kvs.take n`) no call has failed or reported a split, the keys read through the slot
directory from logical index 0 to `nSlots - 1` are strictly ascending, and they are exactly
the keys inserted so far, each once. -/
theorem insertLeaf_keeps_keys_sorted (x : Env) (st : Store) (cat : ObjectID) (pid : PageID)
    (kdesc : KeyDesc) (p0 : BtreePage) (kvs : List (KeyValue × ObjectID))
    (hx : SizesOK x)
    (hbs : x.btm_BinarySearchLeaf = predBinarySearchLeaf x.edubtm_KeyCompare x.MAXKEYLEN)
    (laws : CmpLaws (x.edubtm_KeyCompare kdesc)) (hk : kdescSupported kdesc = true)
    (hempty : p0.nSlots = 0 ∧ p0.free = 0 ∧ p0.unused = 0)
    (hkeys : ∀ kv ∈ kvs, KeyOK x kdesc kv.1)
    (hdist : (kvs.map Prod.fst).Pairwise
      (fun a b => x.edubtm_KeyCompare kdesc a b ≠ CmpResult.EQUAL))
    (hroom : EnoughRoom x st cat pid kdesc p0 kvs) :
    ∀ n, n ≤ kvs.length →
      ∃ q, insertLeafSeq x st cat pid kdesc p0 (kvs.take n) = some q ∧
        (leafKeys x.MAXKEYLEN q).Pairwise
          (fun a b => x.edubtm_KeyCompare kdesc a b = CmpResult.LESS) ∧
        ((leafKeys x.MAXKEYLEN q).map canonKey).Perm
          (((kvs.take n).map Prod.fst).map canonKey) := by
  intro n hn
  obtain ⟨h1, h2, h3⟩ := hempty
  have hinv : LeafInv x p0 := by
    refine ⟨by omega, by omega, h3, ?_⟩
    intro i hi
    omega
  have hnil : leafKeys x.MAXKEYLEN p0 = [] := by simp [leafKeys, h1]
  obtain ⟨q, hq, hqs, hqperm⟩ :=
    insertLeafSeq_aux x st cat pid kdesc hx hbs laws hk kvs p0 [] hinv
      (by rw [hnil]; exact List.Pairwise.nil) (by rw [hnil])
      hkeys (by intro d hd; cases hd) hdist hroom n hn
  exact ⟨q, hq, hqs, by simpa using hqperm⟩

/-- C1, witness: the amended statement at the inserts of the integer keys 5, 7 and 3 into an
empty leaf of the environment `predEnv`. -/
theorem insertLeaf_keeps_keys_sorted_witness :
    ∃ q, insertLeafSeq predEnv (exStore []) ⟨[]⟩ ⟨10, 0⟩ exKdesc (exLeaf [] NIL NIL)
        (exPairs.take 3) = some q ∧
      (leafKeys predEnv.MAXKEYLEN q).Pairwise
        (fun a b => predEnv.edubtm_KeyCompare exKdesc a b = CmpResult.LESS) ∧
      ((leafKeys predEnv.MAXKEYLEN q).map canonKey).Perm
        (((exPairs.take 3).map Prod.fst).map canonKey) :=
  insertLeaf_keeps_keys_sorted predEnv (exStore []) ⟨[]⟩ ⟨10, 0⟩ exKdesc (exLeaf [] NIL NIL)
    exPairs predEnv_sizesOK rfl (by rw [predEnv_compare]; exact specKeyCompare_exKdesc_laws)
    (by decide) ⟨rfl, rfl, rfl⟩
    (by
      intro kv hkv
      simp only [exPairs, List.mem_cons, List.mem_singleton, List.not_mem_nil, or_false] at hkv
      rcases hkv with h | h | h <;> subst h <;> refine ⟨?_, ?_, ?_⟩ <;> decide)
    (by decide)
    ⟨by decide!, by decide!, by decide!, trivial⟩
    3 (by decide)

/-- C1, counterexample: with the leaf binary search as the spec defines it (`specEnv`), the
inserts of the distinct keys 5 and 7 into an empty leaf both find enough total free space
and report no split, and the keys then read through the slot directory from index 0 to
`nSlots - 1` are 5 and 5; so the page reached is not one whose keys are strictly ascending
and are exactly 5 and 7. -/
theorem insertLeaf_spec_search_loses_key :
    EnoughRoom specEnv (exStore []) ⟨[]⟩ ⟨10, 0⟩ exKdesc (exLeaf [] NIL NIL)
        [(exKey 5, exOid 5), (exKey 7, exOid 7)] ∧
    specEnv.edubtm_KeyCompare exKdesc (exKey 5) (exKey 7) = CmpResult.LESS ∧
    (insertLeafSeq specEnv (exStore []) ⟨[]⟩ ⟨10, 0⟩ exKdesc (exLeaf [] NIL NIL)
        [(exKey 5, exOid 5), (exKey 7, exOid 7)]).map
          (fun q => (leafKeys specEnv.MAXKEYLEN q).map canonKey)
      = some [canonKey (exKey 5), canonKey (exKey 5)] ∧
    ¬ ∃ q, insertLeafSeq specEnv (exStore []) ⟨[]⟩ ⟨10, 0⟩ exKdesc (exLeaf [] NIL NIL)
          [(exKey 5, exOid 5), (exKey 7, exOid 7)] = some q ∧
        (leafKeys specEnv.MAXKEYLEN q).Pairwise
          (fun a b => specEnv.edubtm_KeyCompare exKdesc a b = CmpResult.LESS) ∧
        ((leafKeys specEnv.MAXKEYLEN q).map canonKey).Perm
          ([exKey 5, exKey 7].map canonKey) := by
  have hkeys : (insertLeafSeq specEnv (exStore []) ⟨[]⟩ ⟨10, 0⟩ exKdesc (exLeaf [] NIL NIL)
        [(exKey 5, exOid 5), (exKey 7, exOid 7)]).map
          (fun q => (leafKeys specEnv.MAXKEYLEN q).map canonKey)
      = some [canonKey (exKey 5), canonKey (exKey 5)] := by decide!
  refine ⟨⟨by decide!, by decide!, trivial⟩, by decide!, hkeys, ?_⟩
  rintro ⟨q, hq, -, hperm⟩
  rw [hq] at hkeys
  simp only [Option.map_some', Option.some.injEq] at hkeys
  rw [hkeys] at hperm
  revert hperm
  decide

/-! ## C2 -/

/-- C2: with a supported key descriptor, for every leaf page on which the leaf binary search
reports the key found, `edubtm_InsertLeaf` returns `eDUPLICATEDKEY_BTM` and the page it
leaves is the page it was given (slot count, free-space offset, slot directory and entry
bytes included); and for every store in which the descent of `edubtm_Insert` from `root`
reaches, in `n` levels, a leaf on which the search reports the key found, `edubtm_Insert`
with recursion bound at least `n` returns `eDUPLICATEDKEY_BTM` and the content of every
page of the store is what it was. -/
theorem insert_duplicate_unchanged (x : Env) (st : Store) (catObjForFile : ObjectID)
    (kdesc : KeyDesc) (kval : KeyValue) (oid : ObjectID) (hk : kdescSupported kdesc = true) :
    (∀ (pid : PageID) (page : BtreePage) (f h : Bool) (item : InternalItem),
      (x.btm_BinarySearchLeaf page kdesc kval).1 = true →
      (edubtm_InsertLeaf x st catObjForFile pid page kdesc kval oid f h item).e
          = ErrCode.eDUPLICATEDKEY_BTM ∧
        (edubtm_InsertLeaf x st catObjForFile pid page kdesc kval oid f h item).page = page) ∧
    (∀ (n fuel : Nat) (root pid : PageID) (leaf : BtreePage) (f h : Bool) (item : InternalItem),
      insertPath x st.page kdesc kval n root = some (pid, leaf) →
      (x.btm_BinarySearchLeaf leaf kdesc kval).1 = true →
      n ≤ fuel →
      ∃ r, edubtm_Insert x fuel st catObjForFile root kdesc kval oid f h item = some r ∧
        r.e = ErrCode.eDUPLICATEDKEY_BTM ∧ r.st.page = st.page) := by
  constructor
  · intro pid page f h item hfound
    rw [insertLeaf_duplicate_eq x st catObjForFile pid page kdesc kval oid f h item hk hfound]
    exact ⟨rfl, rfl⟩
  · intro n fuel root pid leaf f h item hpath hfound hfuel
    obtain ⟨r, hr, he, hpg, -⟩ :=
      insert_duplicate_aux x catObjForFile kdesc kval oid hk fuel st root f h item pid leaf
        (insertPath_le x st.page kdesc kval n fuel hfuel root _ hpath) hfound
    exact ⟨r, hr, he, hpg⟩

/-- C2, witness: the key 7 in the leaf 11 of the two-level tree `exTree`. -/
theorem insert_duplicate_unchanged_witness :
    ((edubtm_InsertLeaf predEnv (exStore exTree) ⟨[]⟩ ⟨11, 0⟩ (exLeaf [5, 7] 10 NIL) exKdesc
        (exKey 7) (exOid 7) false false ⟨0, 0, []⟩).e = ErrCode.eDUPLICATEDKEY_BTM ∧
      (edubtm_InsertLeaf predEnv (exStore exTree) ⟨[]⟩ ⟨11, 0⟩ (exLeaf [5, 7] 10 NIL) exKdesc
        (exKey 7) (exOid 7) false false ⟨0, 0, []⟩).page = exLeaf [5, 7] 10 NIL) ∧
    ∃ r, edubtm_Insert predEnv 2 (exStore exTree) ⟨[]⟩ ⟨1, 0⟩ exKdesc (exKey 7) (exOid 7)
        false false ⟨0, 0, []⟩ = some r ∧
      r.e = ErrCode.eDUPLICATEDKEY_BTM ∧ r.st.page = (exStore exTree).page :=
  ⟨(insert_duplicate_unchanged predEnv (exStore exTree) ⟨[]⟩ exKdesc (exKey 7) (exOid 7)
      (by decide)).1 ⟨11, 0⟩ (exLeaf [5, 7] 10 NIL) false false ⟨0, 0, []⟩ (by decide),
   (insert_duplicate_unchanged predEnv (exStore exTree) ⟨[]⟩ exKdesc (exKey 7) (exOid 7)
      (by decide)).2 2 2 ⟨1, 0⟩ ⟨11, 0⟩ (exLeaf [5, 7] 10 NIL) false false ⟨0, 0, []⟩
      rfl (by decide) (Nat.le_refl 2)⟩

/-! ## C3 -/

/-- C3: on a well-formed leaf chain (`LeafChain`: every leaf in the store with 1 to 32767
slots, `nextPage` and `prevPage` linking the list both ways) whose keys are ascending along
the chain, with a supported descriptor and any stop key: repeated calls of
`EduBtM_FetchNext` with `SM_EOF` from the cursor on the first entry return the cursors on
all the other entries, each once and in ascending key order, and then a cursor in state
EndOfScan; repeated calls with `SM_BOF` from the cursor on the last entry return the
cursors on all the other entries in descending key order, and then EndOfScan. The start
cursor followed by the cursors visited is the list of all entries of the chain, forward and
reversed respectively, and no cursor occurs twice in it. `fuel` bounds the number of calls
and is at least the number of entries. -/
theorem scan_visits_every_key (x : Env) (st : Store) (root : PageID) (kdesc : KeyDesc)
    (kval : KeyValue) (vol : Int) (first : Int × BtreePage) (chain : List (Int × BtreePage))
    (fuel : Nat) (hk : kdescSupported kdesc = true)
    (hchain : LeafChain st vol (first :: chain))
    (hasc : ((chainCursors x vol (first :: chain)).map fun c => c.key).Pairwise
      fun a b => x.edubtm_KeyCompare kdesc a b = CmpResult.LESS)
    (hfuel : (chainCursors x vol (first :: chain)).length ≤ fuel) :
    (∃ visited fin,
      scan x root kdesc kval SM_EOF fuel st (cursorAt x vol first 0)
        = (visited, some (ErrCode.eNOERROR, fin)) ∧
      fin.flag = CURSOR_EOS ∧
      cursorAt x vol first 0 :: visited = chainCursors x vol (first :: chain) ∧
      (cursorAt x vol first 0 :: visited).Nodup ∧
      (visited.map fun c => c.key).Pairwise
        fun a b => x.edubtm_KeyCompare kdesc a b = CmpResult.LESS) ∧
    (∃ visited fin,
      scan x root kdesc kval SM_BOF fuel st
          (cursorAt x vol ((first :: chain).getLast (List.cons_ne_nil _ _))
            (((first :: chain).getLast (List.cons_ne_nil _ _)).2.nSlots.toNat - 1))
        = (visited, some (ErrCode.eNOERROR, fin)) ∧
      fin.flag = CURSOR_EOS ∧
      cursorAt x vol ((first :: chain).getLast (List.cons_ne_nil _ _))
          (((first :: chain).getLast (List.cons_ne_nil _ _)).2.nSlots.toNat - 1) :: visited
        = (chainCursors x vol (first :: chain)).reverse ∧
      (cursorAt x vol ((first :: chain).getLast (List.cons_ne_nil _ _))
          (((first :: chain).getLast (List.cons_ne_nil _ _)).2.nSlots.toNat - 1)
        :: visited).Nodup ∧
      (visited.map fun c => c.key).Pairwise
        fun a b => x.edubtm_KeyCompare kdesc b a = CmpResult.LESS) := by
  obtain ⟨hfwd, hbwd⟩ := hchain
  have hnodup := chainCursors_nodup x (fun p => p.nextPage) st vol (first :: chain) hfwd
  obtain ⟨extra, hextra⟩ := scan_fuel_split hfuel
  constructor
  · obtain ⟨fin, hscan, hflag⟩ :=
      scan_forward_chain x root kdesc kval vol st hk chain first hfwd extra
    have hn : 0 < first.2.nSlots := by
      cases chain with
      | nil => exact hfwd.2.1.1
      | cons _ _ => exact hfwd.2.1.1
    obtain ⟨n, hn⟩ : ∃ n : Nat, first.2.nSlots = ((n + 1 : Nat) : Int) :=
      ⟨(first.2.nSlots - 1).toNat, by push_cast; omega⟩
    have hcons : cursorAt x vol first 0 :: (chainCursors x vol (first :: chain)).tail
        = chainCursors x vol (first :: chain) := by
      simp [chainCursors, leafCursors_eq x vol first n hn]
    refine ⟨_, fin, by rw [hextra]; exact hscan, hflag, hcons, by rw [hcons]; exact hnodup, ?_⟩
    rw [← hcons, List.map_cons] at hasc
    exact (List.pairwise_cons.mp hasc).2
  · obtain ⟨l, rest, hrev⟩ : ∃ l rest, (first :: chain).reverse = l :: rest := by
      cases h : (first :: chain).reverse with
      | nil => simp at h
      | cons l rest => exact ⟨l, rest, rfl⟩
    have hlast : (first :: chain).getLast (List.cons_ne_nil _ _) = l := by
      have h2 : first :: chain = rest.reverse ++ [l] := by
        rw [← List.reverse_cons, ← hrev, List.reverse_reverse]
      simp [h2]
    rw [hlast]
    rw [hrev] at hbwd
    have hall : (chainCursors x vol (first :: chain)).reverse
        = (l :: rest).flatMap fun e => (leafCursors x vol e).reverse := by
      rw [chainCursors, List.reverse_flatMap, hrev]; rfl
    obtain ⟨fin, hscan, hflag⟩ :=
      scan_backward_chain x root kdesc kval vol st hk rest l hbwd
        (extra)
    have hlenEq : ((l :: rest).flatMap fun e => (leafCursors x vol e).reverse).length
        = (chainCursors x vol (first :: chain)).length := by
      rw [← hall, List.length_reverse]
    rw [hlenEq, ← hextra] at hscan
    have hn : 0 < l.2.nSlots := by
      cases rest with
      | nil => exact hbwd.2.1.1
      | cons _ _ => exact hbwd.2.1.1
    obtain ⟨n, hn⟩ : ∃ n : Nat, l.2.nSlots = ((n + 1 : Nat) : Int) :=
      ⟨(l.2.nSlots - 1).toNat, by push_cast; omega⟩
    have hn' : l.2.nSlots.toNat - 1 = n := by omega
    have hcons : cursorAt x vol l (l.2.nSlots.toNat - 1)
          :: ((l :: rest).flatMap fun e => (leafCursors x vol e).reverse).tail
        = (chainCursors x vol (first :: chain)).reverse := by
      rw [hall, hn']
      simp [leafCursors_reverse_eq x vol l n hn]
    refine ⟨_, fin, hscan, hflag, hcons,
      by rw [hcons]; exact List.nodup_reverse.mpr hnodup, ?_⟩
    have h2 : ((chainCursors x vol (first :: chain)).reverse.map fun c => c.key).Pairwise
        fun a b => x.edubtm_KeyCompare kdesc b a = CmpResult.LESS := by
      rw [List.map_reverse, List.pairwise_reverse]
      exact hasc
    rw [← hcons, List.map_cons] at h2
    exact (List.pairwise_cons.mp h2).2

/-- C3, witness: the chain of the leaves 10 (keys 1, 3) and 11 (keys 5, 7) of `exTree`. -/
theorem scan_visits_every_key_witness :
    (∃ visited fin,
      scan predEnv ⟨1, 0⟩ exKdesc (exKey 0) SM_EOF 4 (exStore exTree)
          (cursorAt predEnv 0 (10, exLeaf [1, 3] NIL 11) 0)
        = (visited, some (ErrCode.eNOERROR, fin)) ∧
      fin.flag = CURSOR_EOS ∧
      cursorAt predEnv 0 (10, exLeaf [1, 3] NIL 11) 0 :: visited
        = chainCursors predEnv 0 exChain ∧
      (cursorAt predEnv 0 (10, exLeaf [1, 3] NIL 11) 0 :: visited).Nodup ∧
      (visited.map fun c => c.key).Pairwise
        fun a b => predEnv.edubtm_KeyCompare exKdesc a b = CmpResult.LESS) ∧
    (∃ visited fin,
      scan predEnv ⟨1, 0⟩ exKdesc (exKey 0) SM_BOF 4 (exStore exTree)
          (cursorAt predEnv 0 (11, exLeaf [5, 7] 10 NIL) 1)
        = (visited, some (ErrCode.eNOERROR, fin)) ∧
      fin.flag = CURSOR_EOS ∧
      cursorAt predEnv 0 (11, exLeaf [5, 7] 10 NIL) 1 :: visited
        = (chainCursors predEnv 0 exChain).reverse ∧
      (cursorAt predEnv 0 (11, exLeaf [5, 7] 10 NIL) 1 :: visited).Nodup ∧
      (visited.map fun c => c.key).Pairwise
        fun a b => predEnv.edubtm_KeyCompare exKdesc b a = CmpResult.LESS) :=
  scan_visits_every_key predEnv (exStore exTree) ⟨1, 0⟩ exKdesc (exKey 0) 0
    (10, exLeaf [1, 3] NIL 11) [(11, exLeaf [5, 7] 10 NIL)] 4 (by decide)
    ⟨⟨rfl, ⟨by decide, by decide⟩, ⟨rfl, by decide⟩, rfl, ⟨by decide, by decide⟩, rfl⟩,
     ⟨rfl, ⟨by decide, by decide⟩, ⟨rfl, by decide⟩, rfl, ⟨by decide, by decide⟩, rfl⟩⟩
    (by decide) (by decide)

/-! ## C4 -/

/-- C4: for a Positioned cursor for which `edubtm_FetchNext` locates a candidate entry
(`fetchCandidate`: no error and no boundary exhaustion), with a supported descriptor, the
call succeeds and the state of the cursor returned is Positioned or EndOfScan; with
`SM_LT`, `SM_LE`, `SM_GT`, `SM_GE` it is Positioned if and only if the comparator puts the
candidate's key in that relation to the stop key; with `SM_EOF` and `SM_BOF` it is
Positioned whatever the stop key. -/
theorem fetchNext_stop_condition (x : Env) (st : Store) (kdesc : KeyDesc) (kval : KeyValue)
    (compOp : Int) (current next : BtreeCursor) (loc : Located)
    (hk : kdescSupported kdesc = true)
    (hcand : fetchCandidate st compOp current = some loc) :
    (edubtm_FetchNext x st kdesc kval compOp current next).e = ErrCode.eNOERROR ∧
    ((edubtm_FetchNext x st kdesc kval compOp current next).next.flag = CURSOR_ON ∨
      (edubtm_FetchNext x st kdesc kval compOp current next).next.flag = CURSOR_EOS) ∧
    (compOp = SM_LT →
      ((edubtm_FetchNext x st kdesc kval compOp current next).next.flag = CURSOR_ON ↔
        x.edubtm_KeyCompare kdesc (leafEntryKey x.MAXKEYLEN loc.apage loc.idx) kval
          = CmpResult.LESS)) ∧
    (compOp = SM_LE →
      ((edubtm_FetchNext x st kdesc kval compOp current next).next.flag = CURSOR_ON ↔
        (x.edubtm_KeyCompare kdesc (leafEntryKey x.MAXKEYLEN loc.apage loc.idx) kval
            = CmpResult.LESS ∨
          x.edubtm_KeyCompare kdesc (leafEntryKey x.MAXKEYLEN loc.apage loc.idx) kval
            = CmpResult.EQUAL))) ∧
    (compOp = SM_GT →
      ((edubtm_FetchNext x st kdesc kval compOp current next).next.flag = CURSOR_ON ↔
        x.edubtm_KeyCompare kdesc (leafEntryKey x.MAXKEYLEN loc.apage loc.idx) kval
          = CmpResult.GREATER)) ∧
    (compOp = SM_GE →
      ((edubtm_FetchNext x st kdesc kval compOp current next).next.flag = CURSOR_ON ↔
        (x.edubtm_KeyCompare kdesc (leafEntryKey x.MAXKEYLEN loc.apage loc.idx) kval
            = CmpResult.GREATER ∨
          x.edubtm_KeyCompare kdesc (leafEntryKey x.MAXKEYLEN loc.apage loc.idx) kval
            = CmpResult.EQUAL))) ∧
    (compOp = SM_EOF ∨ compOp = SM_BOF →
      (edubtm_FetchNext x st kdesc kval compOp current next).next.flag = CURSOR_ON) := by
  obtain ⟨st2, -, hr⟩ := fetchNext_of_candidate x st kdesc kval compOp current next loc hk hcand
  rw [hr]
  generalize x.edubtm_KeyCompare kdesc (leafEntryKey x.MAXKEYLEN loc.apage loc.idx) kval = cmp
  refine ⟨rfl, ?_, ?_, ?_, ?_, ?_, ?_⟩
  · dsimp only
    split
    · exact Or.inr rfl
    · exact Or.inl rfl
  · intro h; subst h; cases cmp <;> dsimp only <;> decide
  · intro h; subst h; cases cmp <;> dsimp only <;> decide
  · intro h; subst h; cases cmp <;> dsimp only <;> decide
  · intro h; subst h; cases cmp <;> dsimp only <;> decide
  · intro h
    rcases h with h | h <;> subst h <;> cases cmp <;> dsimp only <;> decide

/-- C4, witness: the cursor on key 5 of the leaf holding 1, 3, 5, 7, 9, stop key 10 and
`SM_LT`; the candidate is slot 3. -/
theorem fetchNext_stop_condition_witness :
    (edubtm_FetchNext specEnv (exStore [(10, exLeaf [1, 3, 5, 7, 9] NIL NIL)]) exKdesc (exKey 10)
      SM_LT (exCursor 10 2 5) (exCursor 10 2 5)).e = ErrCode.eNOERROR ∧
    ((edubtm_FetchNext specEnv (exStore [(10, exLeaf [1, 3, 5, 7, 9] NIL NIL)]) exKdesc (exKey 10)
      SM_LT (exCursor 10 2 5) (exCursor 10 2 5)).next.flag = CURSOR_ON ↔
      specEnv.edubtm_KeyCompare exKdesc
        (leafEntryKey specEnv.MAXKEYLEN (exLeaf [1, 3, 5, 7, 9] NIL NIL) 3) (exKey 10)
        = CmpResult.LESS) :=
  have h := fetchNext_stop_condition specEnv (exStore [(10, exLeaf [1, 3, 5, 7, 9] NIL NIL)])
    exKdesc (exKey 10) SM_LT (exCursor 10 2 5) (exCursor 10 2 5)
    ⟨ErrCode.eNOERROR,
      { exStore [(10, exLeaf [1, 3, 5, 7, 9] NIL NIL)] with
        fixed := setCell (setCell (setCell (fun _ => 0) ⟨10, 0⟩ 1) ⟨10, 0⟩ 0) ⟨10, 0⟩ 1 },
      exLeaf [1, 3, 5, 7, 9] NIL NIL, ⟨10, 0⟩, 3, CURSOR_ON⟩
    (by decide) rfl
  ⟨h.1, h.2.2.1 rfl⟩

/-- C4, the scenario of the spec: from key 5 in a single leaf holding 1, 3, 5, 7, 9, with stop
key 10 and `SM_LT`, the navigator returns 7, then 9, then EndOfScan, then EndOfScan again
(each call is given the previous cursor as `current` and as `next`). -/
theorem fetchNext_scenario_1_3_5_7_9 :
    let st := exStore [(10, exLeaf [1, 3, 5, 7, 9] NIL NIL)]
    let step := fun (c : Option BtreeCursor) =>
      (EduBtM_FetchNext specEnv st (some ⟨10, 0⟩) (some exKdesc) (some (exKey 10)) SM_LT c c)
    let view := fun (r : ErrCode × Store × Option BtreeCursor) =>
      (r.1, r.2.2.map fun c => (c.flag, c.slotNo, decInt (keyBytes c.key)))
    let c1 := step (some (exCursor 10 2 5))
    let c2 := step c1.2.2
    let c3 := step c2.2.2
    let c4 := step c3.2.2
    view c1 = (ErrCode.eNOERROR, some (CURSOR_ON, 3, 7)) ∧
    view c2 = (ErrCode.eNOERROR, some (CURSOR_ON, 4, 9)) ∧
    (view c3).1 = ErrCode.eNOERROR ∧ c3.2.2.map (fun c => c.flag) = some CURSOR_EOS ∧
    (view c4).1 = ErrCode.eNOERROR ∧ c4.2.2.map (fun c => c.flag) = some CURSOR_EOS := by
  decide

/-! ## C5 -/

/-- C5: for a Positioned cursor on a leaf `p` with 1 to 32767 slots and a supported
descriptor. On the last slot with `SM_LT`, `SM_LE` or `SM_EOF`: if `nextPage` is `NIL` the
result is EndOfScan; if it is not and the next leaf `q` is in the store, the candidate is
slot 0 of `q`, and for `SM_EOF`, and for `SM_LT`/`SM_LE` when the key of that entry meets
the stop condition, the result is the Positioned cursor with leaf `nextPage`, slot 0 and
the key and object identifier of that entry: whenever the entry at the offset of that slot
stores the key `k` and the object identifier `o` (`LeafEntryAt`, sizes without 16-bit wrap,
a comparator that looks only at the length and the bytes of a key) and `k` meets the stop
condition, the cursor's object identifier is `o` and its key has the length and the bytes
of `k`. On slot 0 with `SM_GT`, `SM_GE` or `SM_BOF`: if `prevPage` is `NIL` the result is
EndOfScan; otherwise the candidate is the last slot of the previous leaf, with the same
result. -/
theorem fetchNext_leaf_boundary (x : Env) (st : Store) (kdesc : KeyDesc) (kval : KeyValue)
    (compOp : Int) (current next : BtreeCursor) (p : BtreePage)
    (hk : kdescSupported kdesc = true) (hp : st.page current.leaf = some p)
    (hn : 0 < p.nSlots ∧ p.nSlots ≤ 32767) :
    (current.slotNo = p.nSlots - 1 → (compOp = SM_LT ∨ compOp = SM_LE ∨ compOp = SM_EOF) →
      (p.nextPage = NIL →
        edubtm_FetchNext x st kdesc kval compOp current next
          = ⟨ErrCode.eNOERROR, st, { next with flag := CURSOR_EOS }⟩) ∧
      (∀ q : BtreePage, p.nextPage ≠ NIL →
        st.page (MAKE_PAGEID current.leaf.volNo p.nextPage) = some q →
        fetchCandidate st compOp current
          = some ⟨ErrCode.eNOERROR, st.pin (MAKE_PAGEID current.leaf.volNo p.nextPage), q,
              MAKE_PAGEID current.leaf.volNo p.nextPage, 0, CURSOR_ON⟩ ∧
        ((compOp = SM_EOF ∨
          (compOp = SM_LT ∧
            x.edubtm_KeyCompare kdesc (leafEntryKey x.MAXKEYLEN q 0) kval = CmpResult.LESS) ∨
          (compOp = SM_LE ∧
            (x.edubtm_KeyCompare kdesc (leafEntryKey x.MAXKEYLEN q 0) kval = CmpResult.LESS ∨
             x.edubtm_KeyCompare kdesc (leafEntryKey x.MAXKEYLEN q 0) kval
               = CmpResult.EQUAL))) →
          edubtm_FetchNext x st kdesc kval compOp current next
            = ⟨ErrCode.eNOERROR, st,
                ⟨CURSOR_ON, leafEntryOid x.ALIGN x.OBJECTID_SIZE q 0,
                  leafEntryKey x.MAXKEYLEN q 0,
                  MAKE_PAGEID current.leaf.volNo p.nextPage, 0⟩⟩) ∧
        (∀ (k : KeyValue) (o : ObjectID), SizesOK x →
          (∀ a b, x.edubtm_KeyCompare kdesc a b
            = x.edubtm_KeyCompare kdesc (canonKey a) (canonKey b)) →
          LeafEntryAt x q (q.slot 0) k o →
          (compOp = SM_EOF ∨
            (compOp = SM_LT ∧ x.edubtm_KeyCompare kdesc k kval = CmpResult.LESS) ∨
            (compOp = SM_LE ∧
              (x.edubtm_KeyCompare kdesc k kval = CmpResult.LESS ∨
               x.edubtm_KeyCompare kdesc k kval = CmpResult.EQUAL))) →
          (edubtm_FetchNext x st kdesc kval compOp current next).e = ErrCode.eNOERROR ∧
          (edubtm_FetchNext x st kdesc kval compOp current next).st = st ∧
          (edubtm_FetchNext x st kdesc kval compOp current next).next.flag = CURSOR_ON ∧
          (edubtm_FetchNext x st kdesc kval compOp current next).next.leaf
            = MAKE_PAGEID current.leaf.volNo p.nextPage ∧
          (edubtm_FetchNext x st kdesc kval compOp current next).next.slotNo = 0 ∧
          (edubtm_FetchNext x st kdesc kval compOp current next).next.oid = o ∧
          (edubtm_FetchNext x st kdesc kval compOp current next).next.key.len = k.len ∧
          keyBytes (edubtm_FetchNext x st kdesc kval compOp current next).next.key
            = keyBytes k))) ∧
    (current.slotNo = 0 → (compOp = SM_GT ∨ compOp = SM_GE ∨ compOp = SM_BOF) →
      (p.prevPage = NIL →
        edubtm_FetchNext x st kdesc kval compOp current next
          = ⟨ErrCode.eNOERROR, st, { next with flag := CURSOR_EOS }⟩) ∧
      (∀ q : BtreePage, p.prevPage ≠ NIL →
        st.page (MAKE_PAGEID current.leaf.volNo p.prevPage) = some q →
        0 < q.nSlots ∧ q.nSlots ≤ 32767 →
        fetchCandidate st compOp current
          = some ⟨ErrCode.eNOERROR, st.pin (MAKE_PAGEID current.leaf.volNo p.prevPage), q,
              MAKE_PAGEID current.leaf.volNo p.prevPage, q.nSlots - 1, CURSOR_ON⟩ ∧
        ((compOp = SM_BOF ∨
          (compOp = SM_GT ∧
            x.edubtm_KeyCompare kdesc (leafEntryKey x.MAXKEYLEN q (q.nSlots - 1)) kval
              = CmpResult.GREATER) ∨
          (compOp = SM_GE ∧
            (x.edubtm_KeyCompare kdesc (leafEntryKey x.MAXKEYLEN q (q.nSlots - 1)) kval
               = CmpResult.GREATER ∨
             x.edubtm_KeyCompare kdesc (leafEntryKey x.MAXKEYLEN q (q.nSlots - 1)) kval
               = CmpResult.EQUAL))) →
          edubtm_FetchNext x st kdesc kval compOp current next
            = ⟨ErrCode.eNOERROR, st,
                ⟨CURSOR_ON, leafEntryOid x.ALIGN x.OBJECTID_SIZE q (q.nSlots - 1),
                  leafEntryKey x.MAXKEYLEN q (q.nSlots - 1),
                  MAKE_PAGEID current.leaf.volNo p.prevPage, q.nSlots - 1⟩⟩) ∧
        (∀ (k : KeyValue) (o : ObjectID), SizesOK x →
          (∀ a b, x.edubtm_KeyCompare kdesc a b
            = x.edubtm_KeyCompare kdesc (canonKey a) (canonKey b)) →
          LeafEntryAt x q (q.slot (q.nSlots - 1)) k o →
          (compOp = SM_BOF ∨
            (compOp = SM_GT ∧ x.edubtm_KeyCompare kdesc k kval = CmpResult.GREATER) ∨
            (compOp = SM_GE ∧
              (x.edubtm_KeyCompare kdesc k kval = CmpResult.GREATER ∨
               x.edubtm_KeyCompare kdesc k kval = CmpResult.EQUAL))) →
          (edubtm_FetchNext x st kdesc kval compOp current next).e = ErrCode.eNOERROR ∧
          (edubtm_FetchNext x st kdesc kval compOp current next).st = st ∧
          (edubtm_FetchNext x st kdesc kval compOp current next).next.flag = CURSOR_ON ∧
          (edubtm_FetchNext x st kdesc kval compOp current next).next.leaf
            = MAKE_PAGEID current.leaf.volNo p.prevPage ∧
          (edubtm_FetchNext x st kdesc kval compOp current next).next.slotNo
            = q.nSlots - 1 ∧
          (edubtm_FetchNext x st kdesc kval compOp current next).next.oid = o ∧
          (edubtm_FetchNext x st kdesc kval compOp current next).next.key.len = k.len ∧
          keyBytes (edubtm_FetchNext x st kdesc kval compOp current next).next.key
            = keyBytes k))) := by
  constructor
  · intro hs hop
    have h2 : toTwo (p.nSlots - 1 + 1) = p.nSlots := by rw [toTwo_of_range] <;> omega
    have hd : fetchDirection compOp current.slotNo CURSOR_ON = (p.nSlots, CURSOR_ON) := by
      rw [fetchDirection_forward _ _ hop, hs, h2]
    constructor
    · intro hnil
      apply fetchNext_boundary_EOS x st kdesc kval compOp current next p hk hp
      rw [hd]
      exact ⟨rfl, Or.inr ⟨by show 0 ≤ p.nSlots; omega, by show p.nSlots ≥ p.nSlots; omega, hnil⟩⟩
    · intro q hnext hq
      have hc := fetchCandidate_forward st compOp current p q hp hn hs hop hnext hq
      refine ⟨hc, fun hstop =>
        fetchNext_of_candidate_ok x st kdesc kval compOp current next q _ 0 hk hc
          (stopFails_forward_ok hstop), ?_⟩
      intro k o hx hcanon he hstop
      have hcmp : x.edubtm_KeyCompare kdesc (leafEntryKey x.MAXKEYLEN q 0) kval
          = x.edubtm_KeyCompare kdesc k kval := by
        rw [hcanon, leafEntryAt_canon x q 0 k o hx he, ← hcanon]
      rw [← hcmp] at hstop
      rw [fetchNext_of_candidate_ok x st kdesc kval compOp current next q _ 0 hk hc
        (stopFails_forward_ok hstop)]
      refine ⟨rfl, rfl, rfl, rfl, rfl, ?_⟩
      obtain ⟨h0, h1, hl, hb, ho⟩ := he
      obtain ⟨b1, b2⟩ := ALIGNED_LENGTH_bounds x.ALIGN k.len hx.1
      have hsz := hx.2.1
      refine ⟨?_, ?_, ?_⟩
      · show leafEntryOid x.ALIGN x.OBJECTID_SIZE q 0 = o
        unfold leafEntryOid
        rw [hl, toTwo_of_range (by omega) (by omega), ho]
      · show (leafEntryKey x.MAXKEYLEN q 0).len = k.len
        simp only [leafEntryKey]
        exact hl
      · show keyBytes (leafEntryKey x.MAXKEYLEN q 0) = keyBytes k
        unfold keyBytes leafEntryKey
        simp only
        rw [hl, bytesOf_rdBytes _ _ _ _ (by omega), hb]
        rfl
  · intro hs hop
    have hd : fetchDirection compOp current.slotNo CURSOR_ON = (-1, CURSOR_ON) := by
      rw [fetchDirection_backward _ _ hop, hs]; rfl
    constructor
    · intro hnil
      apply fetchNext_boundary_EOS x st kdesc kval compOp current next p hk hp
      rw [hd]
      exact ⟨rfl, Or.inl ⟨by show (-1 : Int) < 0; omega, hnil⟩⟩
    · intro q hprev hq hqn
      have hc := fetchCandidate_backward st compOp current p q hp hs hop hprev hq hqn
      refine ⟨hc, fun hstop =>
        fetchNext_of_candidate_ok x st kdesc kval compOp current next q _ _ hk hc
          (stopFails_backward_ok hstop), ?_⟩
      intro k o hx hcanon he hstop
      have hcmp : x.edubtm_KeyCompare kdesc (leafEntryKey x.MAXKEYLEN q (q.nSlots - 1)) kval
          = x.edubtm_KeyCompare kdesc k kval := by
        rw [hcanon, leafEntryAt_canon x q (q.nSlots - 1) k o hx he, ← hcanon]
      rw [← hcmp] at hstop
      rw [fetchNext_of_candidate_ok x st kdesc kval compOp current next q _ _ hk hc
        (stopFails_backward_ok hstop)]
      refine ⟨rfl, rfl, rfl, rfl, rfl, ?_⟩
      obtain ⟨h0, h1, hl, hb, ho⟩ := he
      obtain ⟨b1, b2⟩ := ALIGNED_LENGTH_bounds x.ALIGN k.len hx.1
      have hsz := hx.2.1
      refine ⟨?_, ?_, ?_⟩
      · show leafEntryOid x.ALIGN x.OBJECTID_SIZE q (q.nSlots - 1) = o
        unfold leafEntryOid
        rw [hl, toTwo_of_range (by omega) (by omega), ho]
      · show (leafEntryKey x.MAXKEYLEN q (q.nSlots - 1)).len = k.len
        simp only [leafEntryKey]
        exact hl
      · show keyBytes (leafEntryKey x.MAXKEYLEN q (q.nSlots - 1)) = keyBytes k
        unfold keyBytes leafEntryKey
        simp only
        rw [hl, bytesOf_rdBytes _ _ _ _ (by omega), hb]
        rfl

/-- C5, witness: the leaves 10 (keys 1, 3) and 11 (keys 5, 7). From the last slot of leaf 10
with `SM_LE` and stop key 6 the result is the Positioned cursor on slot 0 of leaf 11 with the
object identifier `exOid 5` and the key 5 that this entry stores; from slot 0 of leaf 10
with `SM_GE` the result is EndOfScan; from slot 0 of leaf 11 with `SM_GE` and stop key 2
the result is the cursor on the last slot of leaf 10, with `exOid 3` and the key 3. -/
theorem fetchNext_leaf_boundary_witness :
    ((edubtm_FetchNext predEnv
        (exStore [(10, exLeaf [1, 3] NIL 11), (11, exLeaf [5, 7] 10 NIL)]) exKdesc (exKey 6)
        SM_LE (exCursor 10 1 3) (exCursor 10 1 3)).e = ErrCode.eNOERROR ∧
      (edubtm_FetchNext predEnv
        (exStore [(10, exLeaf [1, 3] NIL 11), (11, exLeaf [5, 7] 10 NIL)]) exKdesc (exKey 6)
        SM_LE (exCursor 10 1 3) (exCursor 10 1 3)).st
        = exStore [(10, exLeaf [1, 3] NIL 11), (11, exLeaf [5, 7] 10 NIL)] ∧
      (edubtm_FetchNext predEnv
        (exStore [(10, exLeaf [1, 3] NIL 11), (11, exLeaf [5, 7] 10 NIL)]) exKdesc (exKey 6)
        SM_LE (exCursor 10 1 3) (exCursor 10 1 3)).next.flag = CURSOR_ON ∧
      (edubtm_FetchNext predEnv
        (exStore [(10, exLeaf [1, 3] NIL 11), (11, exLeaf [5, 7] 10 NIL)]) exKdesc (exKey 6)
        SM_LE (exCursor 10 1 3) (exCursor 10 1 3)).next.leaf
        = MAKE_PAGEID (exCursor 10 1 3).leaf.volNo (exLeaf [1, 3] NIL 11).nextPage ∧
      (edubtm_FetchNext predEnv
        (exStore [(10, exLeaf [1, 3] NIL 11), (11, exLeaf [5, 7] 10 NIL)]) exKdesc (exKey 6)
        SM_LE (exCursor 10 1 3) (exCursor 10 1 3)).next.slotNo = 0 ∧
      (edubtm_FetchNext predEnv
        (exStore [(10, exLeaf [1, 3] NIL 11), (11, exLeaf [5, 7] 10 NIL)]) exKdesc (exKey 6)
        SM_LE (exCursor 10 1 3) (exCursor 10 1 3)).next.oid = exOid 5 ∧
      (edubtm_FetchNext predEnv
        (exStore [(10, exLeaf [1, 3] NIL 11), (11, exLeaf [5, 7] 10 NIL)]) exKdesc (exKey 6)
        SM_LE (exCursor 10 1 3) (exCursor 10 1 3)).next.key.len = (exKey 5).len ∧
      keyBytes (edubtm_FetchNext predEnv
        (exStore [(10, exLeaf [1, 3] NIL 11), (11, exLeaf [5, 7] 10 NIL)]) exKdesc (exKey 6)
        SM_LE (exCursor 10 1 3) (exCursor 10 1 3)).next.key = keyBytes (exKey 5)) ∧
    edubtm_FetchNext predEnv
        (exStore [(10, exLeaf [1, 3] NIL 11), (11, exLeaf [5, 7] 10 NIL)]) exKdesc (exKey 6)
        SM_GE (exCursor 10 0 1) (exCursor 10 0 1)
      = ⟨ErrCode.eNOERROR, exStore [(10, exLeaf [1, 3] NIL 11), (11, exLeaf [5, 7] 10 NIL)],
          { exCursor 10 0 1 with flag := CURSOR_EOS }⟩ ∧
    ((edubtm_FetchNext predEnv
        (exStore [(10, exLeaf [1, 3] NIL 11), (11, exLeaf [5, 7] 10 NIL)]) exKdesc (exKey 2)
        SM_GE (exCursor 11 0 5) (exCursor 11 0 5)).next.slotNo
        = (exLeaf [1, 3] NIL 11).nSlots - 1 ∧
      (edubtm_FetchNext predEnv
        (exStore [(10, exLeaf [1, 3] NIL 11), (11, exLeaf [5, 7] 10 NIL)]) exKdesc (exKey 2)
        SM_GE (exCursor 11 0 5) (exCursor 11 0 5)).next.oid = exOid 3 ∧
      (edubtm_FetchNext predEnv
        (exStore [(10, exLeaf [1, 3] NIL 11), (11, exLeaf [5, 7] 10 NIL)]) exKdesc (exKey 2)
        SM_GE (exCursor 11 0 5) (exCursor 11 0 5)).next.key.len = (exKey 3).len ∧
      keyBytes (edubtm_FetchNext predEnv
        (exStore [(10, exLeaf [1, 3] NIL 11), (11, exLeaf [5, 7] 10 NIL)]) exKdesc (exKey 2)
        SM_GE (exCursor 11 0 5) (exCursor 11 0 5)).next.key = keyBytes (exKey 3)) :=
  ⟨(((fetchNext_leaf_boundary predEnv
        (exStore [(10, exLeaf [1, 3] NIL 11), (11, exLeaf [5, 7] 10 NIL)]) exKdesc (exKey 6)
        SM_LE (exCursor 10 1 3) (exCursor 10 1 3) (exLeaf [1, 3] NIL 11)
        (by decide) rfl (by decide)).1 rfl (Or.inr (Or.inl rfl))).2
        (exLeaf [5, 7] 10 NIL) (by decide) rfl).2.2 (exKey 5) (exOid 5) predEnv_sizesOK
        predEnv_laws.canon (by decide) (Or.inr (Or.inr ⟨rfl, Or.inl (by decide)⟩)),
   ((fetchNext_leaf_boundary predEnv
        (exStore [(10, exLeaf [1, 3] NIL 11), (11, exLeaf [5, 7] 10 NIL)]) exKdesc (exKey 6)
        SM_GE (exCursor 10 0 1) (exCursor 10 0 1) (exLeaf [1, 3] NIL 11)
        (by decide) rfl (by decide)).2 rfl (Or.inr (Or.inl rfl))).1 rfl,
   ((((fetchNext_leaf_boundary predEnv
        (exStore [(10, exLeaf [1, 3] NIL 11), (11, exLeaf [5, 7] 10 NIL)]) exKdesc (exKey 2)
        SM_GE (exCursor 11 0 5) (exCursor 11 0 5) (exLeaf [5, 7] 10 NIL)
        (by decide) rfl (by decide)).2 rfl (Or.inr (Or.inl rfl))).2
        (exLeaf [1, 3] NIL 11) (by decide) rfl (by decide)).2.2 (exKey 3) (exOid 3)
        predEnv_sizesOK predEnv_laws.canon (by decide)
        (Or.inr (Or.inr ⟨rfl, Or.inl (by decide)⟩))).2.2.2.2⟩

/-! ## C6 -/

/-- C6, failing input: `current` in state EndOfScan and `*next` holding a Positioned
cursor. `EduBtM_FetchNext` returns `eNOERROR` and `*next` is still that Positioned
cursor: the function returns before it writes `next`. -/
theorem fetchNext_on_EOS_next_stays_positioned :
    exCursorEOS.flag = CURSOR_EOS ∧ (exCursor 10 4 9).flag = CURSOR_ON ∧
    (EduBtM_FetchNext specEnv (exStore [(10, exLeaf [1, 3, 5, 7, 9] NIL NIL)]) (some ⟨10, 0⟩)
      (some exKdesc) (some (exKey 10)) SM_LT (some exCursorEOS) (some (exCursor 10 4 9))).1
      = ErrCode.eNOERROR ∧
    (EduBtM_FetchNext specEnv (exStore [(10, exLeaf [1, 3, 5, 7, 9] NIL NIL)]) (some ⟨10, 0⟩)
      (some exKdesc) (some (exKey 10)) SM_LT (some exCursorEOS) (some (exCursor 10 4 9))).2.2
      = some (exCursor 10 4 9) := by
  decide

/-! ## C7 -/

/-- C7: for every store, stop key and Positioned cursor whose leaf is in the store, with a
supported descriptor, `EduBtM_FetchNext` with `SM_EQ` returns `eNOERROR`, the store as it
was, and `next` in state EndOfScan, whatever the leaf holds and whatever the slot. -/
theorem fetchNext_equal_is_EOS (x : Env) (st : Store) (root : PageID) (kdesc : KeyDesc)
    (kval : KeyValue) (current next : BtreeCursor) (p : BtreePage)
    (hflag : current.flag = CURSOR_ON) (hk : kdescSupported kdesc = true)
    (hp : st.page current.leaf = some p) :
    EduBtM_FetchNext x st (some root) (some kdesc) (some kval) SM_EQ (some current) (some next)
      = (ErrCode.eNOERROR, st, some { next with flag := CURSOR_EOS }) := by
  have hne : CURSOR_ON ≠ CURSOR_EOS := by decide
  simp [EduBtM_FetchNext, edubtm_FetchNext, hflag, hk, hne, getTrain_of_page hp, fetchDirection,
    fetchBoundary, freeTrain_after_getTrain]

/-- C7, witness: the cursor on key 5 of the leaf holding 1, 3, 5, 7, 9. -/
theorem fetchNext_equal_is_EOS_witness :
    EduBtM_FetchNext specEnv (exStore [(10, exLeaf [1, 3, 5, 7, 9] NIL NIL)]) (some ⟨10, 0⟩)
      (some exKdesc) (some (exKey 5)) SM_EQ (some (exCursor 10 2 5)) (some (exCursor 10 2 5))
      = (ErrCode.eNOERROR, exStore [(10, exLeaf [1, 3, 5, 7, 9] NIL NIL)],
          some { exCursor 10 2 5 with flag := CURSOR_EOS }) :=
  fetchNext_equal_is_EOS specEnv _ ⟨10, 0⟩ exKdesc (exKey 5) (exCursor 10 2 5) (exCursor 10 2 5)
    (exLeaf [1, 3, 5, 7, 9] NIL NIL) (by decide) (by decide) rfl

/-! ## C8 -/

/-- C8, failing input: the operator value 6, which is none of the seven tags, and the
cursor on key 5 (slot 2) of the leaf holding 1, 3, 5, 7, 9. `edubtm_FetchNext` returns
`eNOERROR` and a Positioned cursor on the same slot 2, not `eBADCOMPOP_BTM`. -/
theorem fetchNext_unknown_operator_succeeds :
    (edubtm_FetchNext specEnv (exStore [(10, exLeaf [1, 3, 5, 7, 9] NIL NIL)]) exKdesc (exKey 10) 6
      (exCursor 10 2 5) (exCursor 10 2 5)).e = ErrCode.eNOERROR ∧
    (edubtm_FetchNext specEnv (exStore [(10, exLeaf [1, 3, 5, 7, 9] NIL NIL)]) exKdesc (exKey 10) 6
      (exCursor 10 2 5) (exCursor 10 2 5)).next.flag = CURSOR_ON ∧
    (edubtm_FetchNext specEnv (exStore [(10, exLeaf [1, 3, 5, 7, 9] NIL NIL)]) exKdesc (exKey 10) 6
      (exCursor 10 2 5) (exCursor 10 2 5)).next.slotNo = 2 := by
  decide

/-! ## C9 -/

/-- C9, failing input: a root page whose `type` is 4, with neither the `INTERNAL` nor the
`LEAF` bit. `edubtm_Insert` returns `eNOERROR`, not `eBADBTREEPAGE_BTM`. -/
theorem insert_other_kind_returns_NOERROR :
    ({ exLeaf [1, 3, 5, 7, 9] NIL NIL with type := 4 }).type &&& INTERNAL = 0 ∧
    ({ exLeaf [1, 3, 5, 7, 9] NIL NIL with type := 4 }).type &&& LEAF = 0 ∧
    (edubtm_Insert predEnv 1 (exStore [(10, { exLeaf [1, 3, 5, 7, 9] NIL NIL with type := 4 })])
      ⟨[]⟩ ⟨10, 0⟩ exKdesc (exKey 4) (exOid 4) false false ⟨0, 0, []⟩).map (fun r => r.e)
      = some ErrCode.eNOERROR := by
  decide

/-! ## C10 -/

/-- C10, failing input: the key 7, already in leaf 11 of the tree `exTree`, no page pinned
on entry. `edubtm_Insert` returns `eDUPLICATEDKEY_BTM` and the root 1 and the leaf 11 each
keep one pin. -/
theorem insert_duplicate_leaves_pages_pinned :
    (exStore exTree).fixed ⟨1, 0⟩ = 0 ∧ (exStore exTree).fixed ⟨11, 0⟩ = 0 ∧
    (edubtm_Insert predEnv 2 (exStore exTree) ⟨[]⟩ ⟨1, 0⟩ exKdesc (exKey 7) (exOid 7)
      false false ⟨0, 0, []⟩).map (fun r => (r.e, r.st.fixed ⟨1, 0⟩, r.st.fixed ⟨11, 0⟩))
      = some (ErrCode.eDUPLICATEDKEY_BTM, 1, 1) := by
  decide

/-! ## C11 -/

/-- C11. With the page store as pin counts, for every descriptor, operator and cursor: the
stores left by the successive page-store calls of `edubtm_FetchNext` are none (the call
returns before acquiring a page), or the store with the current leaf pinned followed by
the store on entry (the leaf was released), or these two followed by the store with one
leaf `nextLeaf` pinned and again by the store on entry. So a leaf is acquired only when no
leaf is held, every store of the trace is the store on entry with at most one more pin, and
the store returned, which is the last of the trace, is the store on entry: every pin count
is what it was (in this store the release of an acquired page cannot fail, and a failing
acquisition comes after the release of the previous leaf). -/
theorem fetchNext_holds_one_leaf (x : Env) (st : Store) (kdesc : KeyDesc) (kval : KeyValue)
    (compOp : Int) (current next : BtreeCursor) :
    (fetchNextTrace st kdesc compOp current = [] ∨
      fetchNextTrace st kdesc compOp current = [st.pin current.leaf, st] ∨
      ∃ nextLeaf, fetchNextTrace st kdesc compOp current
        = [st.pin current.leaf, st, st.pin nextLeaf, st]) ∧
    (∀ s ∈ fetchNextTrace st kdesc compOp current, s = st ∨ ∃ pid, s = st.pin pid) ∧
    (st :: fetchNextTrace st kdesc compOp current).getLast (List.cons_ne_nil _ _)
      = (edubtm_FetchNext x st kdesc kval compOp current next).st ∧
    (edubtm_FetchNext x st kdesc kval compOp current next).st = st ∧
    (∀ pid, (edubtm_FetchNext x st kdesc kval compOp current next).st.fixed pid
      = st.fixed pid) := by
  obtain ⟨h1, h2⟩ := fetchNext_trace_cases x st kdesc kval compOp current next
  refine ⟨h2, ?_, fetchNext_trace_last x st kdesc kval compOp current next, h1,
    fun pid => by rw [h1]⟩
  intro s hs
  rcases h2 with h | h | ⟨n, h⟩ <;> rw [h] at hs
  · cases hs
  · simp only [List.mem_cons, List.mem_singleton, List.mem_nil_iff, or_false] at hs
    rcases hs with hs | hs
    · exact Or.inr ⟨_, hs⟩
    · exact Or.inl hs
  · simp only [List.mem_cons, List.mem_singleton, List.mem_nil_iff, or_false] at hs
    rcases hs with hs | hs | hs | hs
    · exact Or.inr ⟨_, hs⟩
    · exact Or.inl hs
    · exact Or.inr ⟨_, hs⟩
    · exact Or.inl hs

/-- The trace of the call that crosses from leaf 10 to leaf 11 of the example chain. -/
theorem fetchNext_trace_example :
    fetchNextTrace (exStore exTree) exKdesc SM_EOF (exCursor 10 1 3)
      = [(exStore exTree).pin ⟨10, 0⟩, exStore exTree, (exStore exTree).pin ⟨11, 0⟩,
          exStore exTree] := by
  obtain ⟨-, h | h | ⟨n, h⟩⟩ := fetchNext_trace_cases predEnv (exStore exTree) exKdesc (exKey 0)
    SM_EOF (exCursor 10 1 3) (exCursor 10 1 3)
  · have : (fetchNextTrace (exStore exTree) exKdesc SM_EOF (exCursor 10 1 3)).length = 4 := by
      decide
    rw [h] at this; cases this
  · have : (fetchNextTrace (exStore exTree) exKdesc SM_EOF (exCursor 10 1 3)).length = 4 := by
      decide
    rw [h] at this; cases this
  · have hn : ((fetchNextTrace (exStore exTree) exKdesc SM_EOF (exCursor 10 1 3)).map
        fun s => s.fixed ⟨11, 0⟩) = [0, 0, 1, 0] := by decide
    rw [h]
    rw [h] at hn
    have hn2 : n = ⟨11, 0⟩ := by
      by_contra hne
      have h0 : ((exStore exTree).pin n).fixed ⟨11, 0⟩ = 0 := by
        simp only [Store.pin, setCell]
        rw [if_neg (fun h => hne h.symm)]
        rfl
      simp only [List.map_cons, List.map_nil, List.cons.injEq] at hn
      have h1 : ((exStore exTree).pin n).fixed ⟨11, 0⟩ = 1 := hn.2.2.1
      rw [h0] at h1
      cases h1
    rw [hn2]
    rfl

/-! ## C12 -/

/-- C12. In `smallEnv` the leaf holding the pair (1, 1) has 24 free bytes in total; the key
(7, 7) is absent and the required space in the words of the spec is 26, more than the free
bytes. `edubtm_InsertLeaf` computes `neededSpace = 22` from the declared length of the
first key part, reports no split, and stores a 20-byte entry as slot 1. -/
theorem insertLeaf_pair_key_no_split :
    kdescSupported exPairKdesc = true ∧
    (smallEnv.btm_BinarySearchLeaf (exPairLeaf [(1, 1)] NIL NIL) exPairKdesc
      (exPairKey 7 7)).1 = false ∧
    BL_FREE smallEnv (exPairLeaf [(1, 1)] NIL NIL) = 24 ∧
    specNeededSpace smallEnv (exPairKey 7 7) = 26 ∧
    leafNeededSpace smallEnv exPairKdesc (exPairKey 7 7) = 22 ∧
    (edubtm_InsertLeaf smallEnv (exStore [(10, exPairLeaf [(1, 1)] NIL NIL)]) (exOid 0) ⟨10, 0⟩
      (exPairLeaf [(1, 1)] NIL NIL) exPairKdesc (exPairKey 7 7) (exOid 7) false false
      ⟨0, 0, []⟩).e = ErrCode.eNOERROR ∧
    (edubtm_InsertLeaf smallEnv (exStore [(10, exPairLeaf [(1, 1)] NIL NIL)]) (exOid 0) ⟨10, 0⟩
      (exPairLeaf [(1, 1)] NIL NIL) exPairKdesc (exPairKey 7 7) (exOid 7) false false
      ⟨0, 0, []⟩).h = false ∧
    (edubtm_InsertLeaf smallEnv (exStore [(10, exPairLeaf [(1, 1)] NIL NIL)]) (exOid 0) ⟨10, 0⟩
      (exPairLeaf [(1, 1)] NIL NIL) exPairKdesc (exPairKey 7 7) (exOid 7) false false
      ⟨0, 0, []⟩).page.nSlots = 2 ∧
    (edubtm_InsertLeaf smallEnv (exStore [(10, exPairLeaf [(1, 1)] NIL NIL)]) (exOid 0) ⟨10, 0⟩
      (exPairLeaf [(1, 1)] NIL NIL) exPairKdesc (exPairKey 7 7) (exOid 7) false false
      ⟨0, 0, []⟩).page.free = 24 + 20 := by
  decide

/-! ## C13 -/

/-- C13. A leaf that must split (supported descriptor, key absent, total free space below
the needed space) and a call of `edubtm_SplitLeaf` that returns an error code:
`edubtm_InsertLeaf` returns `eNOERROR` with `h = TRUE`, and `edubtm_Insert` called on that
leaf as root returns `eNOERROR` with `h = TRUE` as well, not the error code of the split
(the split is taken to leave the root pinned, so that the epilogue succeeds). -/
theorem insertLeaf_drops_split_error (x : Env) (fuel : Nat) (st : Store) (cat : ObjectID)
    (root : PageID) (page : BtreePage) (kdesc : KeyDesc) (kval : KeyValue) (oid : ObjectID)
    (f h : Bool) (item : InternalItem)
    (hk : kdescSupported kdesc = true)
    (hp : st.page root = some page) (hI : page.type &&& INTERNAL = 0)
    (hL : page.type &&& LEAF ≠ 0)
    (habs : (x.btm_BinarySearchLeaf page kdesc kval).1 = false)
    (hfull : BL_FREE x page < leafNeededSpace x kdesc kval)
    (hfail : (x.edubtm_SplitLeaf (st.pin root) cat root page
        (x.btm_BinarySearchLeaf page kdesc kval).2 (splitLeafItem kval oid)).e
      ≠ ErrCode.eNOERROR)
    (hpin : (x.edubtm_SplitLeaf (st.pin root) cat root page
        (x.btm_BinarySearchLeaf page kdesc kval).2 (splitLeafItem kval oid)).st.fixed root ≠ 0) :
    (edubtm_InsertLeaf x (st.pin root) cat root page kdesc kval oid f h item).e
        = ErrCode.eNOERROR ∧
    (edubtm_InsertLeaf x (st.pin root) cat root page kdesc kval oid f h item).h = true ∧
    ∃ r, edubtm_Insert x (fuel + 1) st cat root kdesc kval oid f h item = some r ∧
      r.e = ErrCode.eNOERROR ∧ r.h = true ∧
      r.e ≠ (x.edubtm_SplitLeaf (st.pin root) cat root page
        (x.btm_BinarySearchLeaf page kdesc kval).2 (splitLeafItem kval oid)).e := by
  have h1 := insertLeaf_split_eq x (st.pin root) cat root page kdesc kval oid f h item hk habs
    hfull
  have h2 := insertLeaf_split_eq x (st.pin root) cat root page kdesc kval oid false false item
    hk habs hfull
  refine ⟨by rw [h1], by rw [h1], ?_⟩
  rw [insert_leaf_root_eq x fuel st cat root page kdesc kval oid f h item hk hp hI hL, h2]
  rw [if_neg (by simp)]
  rw [insertEpilogue_pinned _ _ _ _ _ (by simpa [Store.setPage] using hpin)]
  exact ⟨_, rfl, rfl, rfl, fun h => hfail h.symm⟩

/-- C13, witness: the leaf holding 1, 3 is full in `smallEnv`; inserting 5 calls the split,
which fails with the allocator's error code 4. -/
theorem insertLeaf_drops_split_error_witness :
    (smallEnv.edubtm_SplitLeaf ((exStore [(10, exLeaf [1, 3] NIL NIL)]).pin ⟨10, 0⟩)
        (exOid 0) ⟨10, 0⟩ (exLeaf [1, 3] NIL NIL)
        (smallEnv.btm_BinarySearchLeaf (exLeaf [1, 3] NIL NIL) exKdesc (exKey 5)).2
        (splitLeafItem (exKey 5) (exOid 5))).e = ErrCode.eEXTERNAL 4 ∧
    (edubtm_InsertLeaf smallEnv ((exStore [(10, exLeaf [1, 3] NIL NIL)]).pin ⟨10, 0⟩) (exOid 0)
        ⟨10, 0⟩ (exLeaf [1, 3] NIL NIL) exKdesc (exKey 5) (exOid 5) false false ⟨0, 0, []⟩).e
      = ErrCode.eNOERROR ∧
    (edubtm_InsertLeaf smallEnv ((exStore [(10, exLeaf [1, 3] NIL NIL)]).pin ⟨10, 0⟩) (exOid 0)
        ⟨10, 0⟩ (exLeaf [1, 3] NIL NIL) exKdesc (exKey 5) (exOid 5) false false ⟨0, 0, []⟩).h
      = true ∧
    ∃ r, edubtm_Insert smallEnv (0 + 1) (exStore [(10, exLeaf [1, 3] NIL NIL)]) (exOid 0)
        ⟨10, 0⟩ exKdesc (exKey 5) (exOid 5) false false ⟨0, 0, []⟩ = some r ∧
      r.e = ErrCode.eNOERROR ∧ r.h = true ∧
      r.e ≠ (smallEnv.edubtm_SplitLeaf ((exStore [(10, exLeaf [1, 3] NIL NIL)]).pin ⟨10, 0⟩)
        (exOid 0) ⟨10, 0⟩ (exLeaf [1, 3] NIL NIL)
        (smallEnv.btm_BinarySearchLeaf (exLeaf [1, 3] NIL NIL) exKdesc (exKey 5)).2
        (splitLeafItem (exKey 5) (exOid 5))).e :=
  ⟨rfl, insertLeaf_drops_split_error smallEnv 0 (exStore [(10, exLeaf [1, 3] NIL NIL)])
    (exOid 0) ⟨10, 0⟩ (exLeaf [1, 3] NIL NIL) exKdesc (exKey 5) (exOid 5) false false
    ⟨0, 0, []⟩ (by decide) rfl (by decide) (by decide) (by decide) (by decide) (by decide)
    (by decide)⟩

/-! ## C14 -/

/-- C14 (amended). With all arguments present and a descriptor that has an unsupported part:
for a Positioned current cursor `EduBtM_FetchNext` returns `eNOTSUPPORTED_EDUBTM`, with the
store and `next` as given; for a current cursor in state EndOfScan it returns `eNOERROR`;
in both cases the store is as given (no page is acquired). `edubtm_FetchNext` itself
rejects the descriptor before its first call of the page store. -/
theorem fetchNext_key_type_check (x : Env) (st : Store) (root : PageID) (kdesc : KeyDesc)
    (kval : KeyValue) (compOp : Int) (current next : BtreeCursor)
    (hbad : HasUnsupportedPart kdesc) :
    (current.flag = CURSOR_ON →
      EduBtM_FetchNext x st (some root) (some kdesc) (some kval) compOp (some current)
          (some next)
        = (ErrCode.eNOTSUPPORTED_EDUBTM, st, some next)) ∧
    (current.flag = CURSOR_EOS →
      (EduBtM_FetchNext x st (some root) (some kdesc) (some kval) compOp (some current)
          (some next)).1 = ErrCode.eNOERROR ∧
      (EduBtM_FetchNext x st (some root) (some kdesc) (some kval) compOp (some current)
          (some next)).2.1 = st) ∧
    edubtm_FetchNext x st kdesc kval compOp current next
      = ⟨ErrCode.eNOTSUPPORTED_EDUBTM, st, next⟩ := by
  have hk := (kdescSupported_false_iff kdesc).mpr hbad
  refine ⟨?_, ?_, fetchNext_unsupported x st kdesc kval compOp current next hk⟩
  · intro h
    have h2 : current.flag ≠ CURSOR_EOS := by rw [h]; decide
    rw [EduBtM_FetchNext_all_args]
    rw [if_neg (by simp [h]), if_neg h2, if_pos (by simp [hk])]
  · intro h
    have h2 : current.flag ≠ CURSOR_ON := by rw [h]; decide
    rw [EduBtM_FetchNext_all_args]
    rw [if_neg (by simp [h]), if_pos h]
    exact ⟨rfl, rfl⟩

/-- C14, witness: the descriptor `exBadKdesc` with a Positioned cursor and with a cursor in
state EndOfScan. -/
theorem fetchNext_key_type_check_witness :
    EduBtM_FetchNext predEnv (exStore exTree) (some ⟨1, 0⟩) (some exBadKdesc) (some (exKey 10))
        SM_LT (some (exCursor 10 0 1)) (some (exCursor 10 0 1))
      = (ErrCode.eNOTSUPPORTED_EDUBTM, exStore exTree, some (exCursor 10 0 1)) ∧
    ((EduBtM_FetchNext predEnv (exStore exTree) (some ⟨1, 0⟩) (some exBadKdesc)
        (some (exKey 10)) SM_LT (some exCursorEOS) (some (exCursor 10 0 1))).1
        = ErrCode.eNOERROR ∧
      (EduBtM_FetchNext predEnv (exStore exTree) (some ⟨1, 0⟩) (some exBadKdesc)
        (some (exKey 10)) SM_LT (some exCursorEOS) (some (exCursor 10 0 1))).2.1
        = exStore exTree) ∧
    edubtm_FetchNext predEnv (exStore exTree) exBadKdesc (exKey 10) SM_LT (exCursor 10 0 1)
        (exCursor 10 0 1)
      = ⟨ErrCode.eNOTSUPPORTED_EDUBTM, exStore exTree, exCursor 10 0 1⟩ :=
  ⟨(fetchNext_key_type_check predEnv (exStore exTree) ⟨1, 0⟩ exBadKdesc (exKey 10) SM_LT
      (exCursor 10 0 1) (exCursor 10 0 1) exBadKdesc_unsupported).1 rfl,
   (fetchNext_key_type_check predEnv (exStore exTree) ⟨1, 0⟩ exBadKdesc (exKey 10) SM_LT
      exCursorEOS (exCursor 10 0 1) exBadKdesc_unsupported).2.1 rfl,
   (fetchNext_key_type_check predEnv (exStore exTree) ⟨1, 0⟩ exBadKdesc (exKey 10) SM_LT
      (exCursor 10 0 1) (exCursor 10 0 1) exBadKdesc_unsupported).2.2⟩

/-- C14 (counterexample). A current cursor in state EndOfScan and a descriptor whose second
part has an unsupported type: all arguments are present, the cursor state is valid, and
`EduBtM_FetchNext` returns `eNOERROR`, not `eNOTSUPPORTED_EDUBTM`. -/
theorem fetchNext_EOS_skips_key_type_check :
    HasUnsupportedPart exBadKdesc ∧ exCursorEOS.flag = CURSOR_EOS ∧
    (EduBtM_FetchNext predEnv (exStore exTree) (some ⟨1, 0⟩) (some exBadKdesc) (some (exKey 10))
        SM_LT (some exCursorEOS) (some exCursorEOS)).1 = ErrCode.eNOERROR ∧
    (EduBtM_FetchNext predEnv (exStore exTree) (some ⟨1, 0⟩) (some exBadKdesc) (some (exKey 10))
        SM_LT (some exCursorEOS) (some exCursorEOS)).1 ≠ ErrCode.eNOTSUPPORTED_EDUBTM := by
  refine ⟨exBadKdesc_unsupported, rfl, ?_, ?_⟩
  · rw [fetchNext_on_EOS_leaves_next _ _ _ _ _ _ _ _ rfl]
  · rw [fetchNext_on_EOS_leaves_next _ _ _ _ _ _ _ _ rfl]
    decide

/-! ## C15 -/

/-- C15. A descriptor with an unsupported part makes `edubtm_Insert` (and
`edubtm_InsertLeaf`) return `eNOTSUPPORTED_EDUBTM` with the store, the page and the
out-parameters exactly as given: nothing was acquired, written or marked dirty. With no
unsupported part the check passes: `edubtm_InsertLeaf` never returns that code, and neither
does `edubtm_Insert` as long as `edubtm_SplitInternal` does not produce it. -/
theorem insert_key_type_check (x : Env) (fuel : Nat) (st : Store) (cat : ObjectID)
    (root : PageID) (page : BtreePage) (kdesc : KeyDesc) (kval : KeyValue) (oid : ObjectID)
    (f h : Bool) (item : InternalItem) :
    (HasUnsupportedPart kdesc →
      edubtm_Insert x (fuel + 1) st cat root kdesc kval oid f h item
        = some ⟨ErrCode.eNOTSUPPORTED_EDUBTM, st, f, h, item⟩ ∧
      edubtm_InsertLeaf x st cat root page kdesc kval oid f h item
        = ⟨ErrCode.eNOTSUPPORTED_EDUBTM, st, page, f, h, item⟩) ∧
    (¬ HasUnsupportedPart kdesc →
      (edubtm_InsertLeaf x st cat root page kdesc kval oid f h item).e
        ≠ ErrCode.eNOTSUPPORTED_EDUBTM ∧
      ((∀ s c p i it,
          (x.edubtm_SplitInternal s c p i it).e ≠ ErrCode.eNOTSUPPORTED_EDUBTM) →
        ∀ r, edubtm_Insert x fuel st cat root kdesc kval oid f h item = some r →
          r.e ≠ ErrCode.eNOTSUPPORTED_EDUBTM)) := by
  constructor
  · intro hbad
    have hk := (kdescSupported_false_iff kdesc).mpr hbad
    constructor
    · simp [edubtm_Insert, hk]
    · simp [edubtm_InsertLeaf, hk]
  · intro hgood
    have hk := (kdescSupported_true_iff kdesc).mpr hgood
    constructor
    · rcases insertLeaf_supported_error x st cat root page kdesc kval oid f h item hk
        with h1 | h1 <;> rw [h1] <;> simp
    · intro hsplit r hr
      exact insert_supported_error x hsplit cat kdesc kval oid hk fuel st root f h item r hr

/-- C15, witness: the two-level example tree, key 4, with a descriptor whose second part has
the type tag 3, and with the one-integer descriptor. -/
theorem insert_key_type_check_witness :
    (edubtm_Insert predEnv (2 + 1) (exStore exTree) (exOid 0) ⟨1, 0⟩ exBadKdesc (exKey 4)
        (exOid 4) false false ⟨0, 0, []⟩
      = some ⟨ErrCode.eNOTSUPPORTED_EDUBTM, exStore exTree, false, false, ⟨0, 0, []⟩⟩) ∧
    (∀ r, edubtm_Insert predEnv 2 (exStore exTree) (exOid 0) ⟨1, 0⟩ exKdesc (exKey 4)
        (exOid 4) false false ⟨0, 0, []⟩ = some r → r.e ≠ ErrCode.eNOTSUPPORTED_EDUBTM) :=
  ⟨((insert_key_type_check predEnv 2 (exStore exTree) (exOid 0) ⟨1, 0⟩ (exLeaf [1, 3] NIL 11)
      exBadKdesc (exKey 4) (exOid 4) false false ⟨0, 0, []⟩).1 exBadKdesc_unsupported).1,
   ((insert_key_type_check predEnv 2 (exStore exTree) (exOid 0) ⟨1, 0⟩ (exLeaf [1, 3] NIL 11)
      exKdesc (exKey 4) (exOid 4) false false ⟨0, 0, []⟩).2
      ((kdescSupported_true_iff exKdesc).mp (by decide))).2
      (fun _ _ _ _ _ => by simp [predEnv, envWith, splitInternalNoSpace])⟩

/-! ## C16 -/

/-- C16. `EduBtM_FetchNext` returns `eBADPARAMETER_BTM` exactly when one of its five pointer
arguments is null; with all five present it returns `eBADCURSOR` exactly when the flag of
the current cursor is neither `CURSOR_ON` nor `CURSOR_EOS`; and in both cases the store and
the content of `next` are returned as they were given, whatever the store holds. -/
theorem fetchNext_parameter_then_cursor_check (x : Env) (st : Store) (root : Option PageID)
    (kdesc : Option KeyDesc) (kval : Option KeyValue) (compOp : Int)
    (current next : Option BtreeCursor) :
    ((EduBtM_FetchNext x st root kdesc kval compOp current next).1 = ErrCode.eBADPARAMETER_BTM ↔
      (root = none ∨ kdesc = none ∨ kval = none ∨ current = none ∨ next = none)) ∧
    (∀ r d k c n, root = some r → kdesc = some d → kval = some k → current = some c →
      next = some n →
      ((EduBtM_FetchNext x st root kdesc kval compOp current next).1 = ErrCode.eBADCURSOR ↔
        (c.flag ≠ CURSOR_ON ∧ c.flag ≠ CURSOR_EOS))) ∧
    ((EduBtM_FetchNext x st root kdesc kval compOp current next).1 = ErrCode.eBADPARAMETER_BTM ∨
      (EduBtM_FetchNext x st root kdesc kval compOp current next).1 = ErrCode.eBADCURSOR →
      (EduBtM_FetchNext x st root kdesc kval compOp current next).2 = (st, next)) := by
  have key : ∀ r d k c n, root = some r → kdesc = some d → kval = some k → current = some c →
      next = some n →
      (EduBtM_FetchNext x st root kdesc kval compOp current next).1 ≠ ErrCode.eBADPARAMETER_BTM ∧
      ((EduBtM_FetchNext x st root kdesc kval compOp current next).1 = ErrCode.eBADCURSOR ↔
        (c.flag ≠ CURSOR_ON ∧ c.flag ≠ CURSOR_EOS)) ∧
      ((EduBtM_FetchNext x st root kdesc kval compOp current next).1 = ErrCode.eBADCURSOR →
        (EduBtM_FetchNext x st root kdesc kval compOp current next).2 = (st, next)) := by
    intro r d k c n hr hd hk hc hn
    subst hr hd hk hc hn
    rw [EduBtM_FetchNext_all_args]
    obtain ⟨e1, e2⟩ := fetchNext_error_codes x st d k compOp c n
    by_cases h1 : c.flag ≠ CURSOR_ON ∧ c.flag ≠ CURSOR_EOS
    · rw [if_pos h1]
      exact ⟨by simp, by simp [h1], fun _ => rfl⟩
    · rw [if_neg h1]
      by_cases h2 : c.flag = CURSOR_EOS
      · rw [if_pos h2]
        exact ⟨by simp, by simp [h1], by simp⟩
      · rw [if_neg h2]
        by_cases h3 : (!kdescSupported d) = true
        · rw [if_pos h3]
          exact ⟨by simp, by simp [h1], by simp⟩
        · rw [if_neg h3]
          exact ⟨e1, ⟨fun h => absurd h e2, fun h => absurd h h1⟩, fun h => absurd h e2⟩
  by_cases hm : root = none ∨ kdesc = none ∨ kval = none ∨ current = none ∨ next = none
  · have e := EduBtM_FetchNext_missing x st root kdesc kval compOp current next hm
    refine ⟨by simp [e, hm], ?_, by simp [e]⟩
    intro r d k c n hr hd hk hc hn
    subst hr hd hk hc hn
    simp at hm
  · obtain ⟨r, hr⟩ : ∃ r, root = some r := by
      cases root with
      | none => simp at hm
      | some r => exact ⟨r, rfl⟩
    obtain ⟨d, hd⟩ : ∃ d, kdesc = some d := by
      cases kdesc with
      | none => simp at hm
      | some r => exact ⟨r, rfl⟩
    obtain ⟨k, hk⟩ : ∃ k, kval = some k := by
      cases kval with
      | none => simp at hm
      | some r => exact ⟨r, rfl⟩
    obtain ⟨c, hc⟩ : ∃ c, current = some c := by
      cases current with
      | none => simp at hm
      | some r => exact ⟨r, rfl⟩
    obtain ⟨n, hn⟩ : ∃ n, next = some n := by
      cases next with
      | none => simp at hm
      | some r => exact ⟨r, rfl⟩
    obtain ⟨k1, k2, k3⟩ := key r d k c n hr hd hk hc hn
    refine ⟨⟨fun h => absurd h k1, fun h => absurd h hm⟩, ?_, ?_⟩
    · intro r2 d2 kk2 c2 n2 hr2 hd2 hk2 hc2 hn2
      rw [hc] at hc2
      injection hc2 with hc2
      subst hc2
      exact k2
    · rintro (h | h)
      · exact absurd h k1
      · exact k3 h

/-! ## C17 -/

/-- C17. `edubtm_Insert` on an internal page `apage` (root of the call, supported
descriptor) whose recursive call into the chosen child returns `r` without error, leaving
`apage` in the store and pinned.

If `r.h` is false the call succeeds and the page of the root is `apage`, unchanged.

If `r.h` is true, under the conditions listed (sizes without 16-bit wrap, a comparator that
is a strict order, ascending keys, the internal search returning the index of the last
entry not greater than the key, an item whose key length and child page number fit their
fields, enough total free space, and a page `pc` after the conditional compaction that
holds the same entries in a sound layout with enough contiguous space), the call succeeds
without split of the parent and the parent page has one more slot; with `j` the number of
keys before the first key greater than the promoted key, its child page numbers and keys
are those of `apage` with the promoted child page number and key inserted at index `j`;
the keys before index `j` are not greater than the promoted key and the keys from index
`j` on are greater; the keys of the parent are ascending, strictly when no key of `apage`
equals the promoted key. -/
theorem insert_internal_promoted_item (x : Env) (fuel : Nat) (st : Store) (cat : ObjectID)
    (root : PageID) (apage : BtreePage) (kdesc : KeyDesc) (kval : KeyValue) (oid : ObjectID)
    (f h : Bool) (item : InternalItem) (r : InsertResult)
    (hk : kdescSupported kdesc = true) (hp : st.page root = some apage)
    (hI : apage.type &&& INTERNAL ≠ 0)
    (hr : edubtm_Insert x fuel (st.pin root) cat (insertChild x root apage kdesc kval) kdesc
      kval oid false false ⟨0, 0, []⟩ = some r)
    (he : r.e = ErrCode.eNOERROR)
    (hframe : r.st.page root = some apage) (hpin : r.st.fixed root ≠ 0) :
    (r.h = false →
      ∃ res, edubtm_Insert x (fuel + 1) st cat root kdesc kval oid f h item = some res ∧
        res.e = ErrCode.eNOERROR ∧ res.h = false ∧ res.st.page root = some apage) ∧
    (r.h = true → InternalSizesOK x → CmpLaws (x.edubtm_KeyCompare kdesc) →
      (internalKeys x.SHORTPAGEID_SIZE x.MAXKEYLEN apage).Pairwise
        (fun a b => x.edubtm_KeyCompare kdesc a b = CmpResult.LESS) →
      (x.edubtm_BinarySearchInternal apage kdesc (itemKey r.item)).2
        = (specBinarySearchInternal x.edubtm_KeyCompare x.SHORTPAGEID_SIZE x.MAXKEYLEN apage
            kdesc (itemKey r.item)).2 →
      (0 ≤ r.item.klen ∧ r.item.klen ≤ x.MAXKEYLEN) →
      (-((256 : Int) ^ x.SHORTPAGEID_SIZE) ≤ 2 * r.item.spid ∧
        2 * r.item.spid < (256 : Int) ^ x.SHORTPAGEID_SIZE) →
      BI_FREE x apage ≥ internalNeededSpace x r.item →
      (InternalInv x (internalAfterCompaction x apage r.item) ∧
        BI_CFREE x (internalAfterCompaction x apage r.item) ≥ internalNeededSpace x r.item ∧
        (internalAfterCompaction x apage r.item).nSlots = apage.nSlots ∧
        (internalKeys x.SHORTPAGEID_SIZE x.MAXKEYLEN
            (internalAfterCompaction x apage r.item)).map canonKey
          = (internalKeys x.SHORTPAGEID_SIZE x.MAXKEYLEN apage).map canonKey ∧
        internalSpids x.SHORTPAGEID_SIZE (internalAfterCompaction x apage r.item)
          = internalSpids x.SHORTPAGEID_SIZE apage) →
      ∃ res parent,
        edubtm_Insert x (fuel + 1) st cat root kdesc kval oid f h item = some res ∧
        res.e = ErrCode.eNOERROR ∧ res.h = false ∧ res.st.page root = some parent ∧
        parent.nSlots = apage.nSlots + 1 ∧
        internalSpids x.SHORTPAGEID_SIZE parent
          = (internalSpids x.SHORTPAGEID_SIZE apage).take
              ((internalKeys x.SHORTPAGEID_SIZE x.MAXKEYLEN apage).findIdx fun K =>
                decide (x.edubtm_KeyCompare kdesc K (itemKey r.item) = CmpResult.GREATER))
            ++ r.item.spid :: (internalSpids x.SHORTPAGEID_SIZE apage).drop
              ((internalKeys x.SHORTPAGEID_SIZE x.MAXKEYLEN apage).findIdx fun K =>
                decide (x.edubtm_KeyCompare kdesc K (itemKey r.item) = CmpResult.GREATER)) ∧
        (internalKeys x.SHORTPAGEID_SIZE x.MAXKEYLEN parent).map canonKey
          = ((internalKeys x.SHORTPAGEID_SIZE x.MAXKEYLEN apage).map canonKey).take
              ((internalKeys x.SHORTPAGEID_SIZE x.MAXKEYLEN apage).findIdx fun K =>
                decide (x.edubtm_KeyCompare kdesc K (itemKey r.item) = CmpResult.GREATER))
            ++ canonKey (itemKey r.item)
              :: ((internalKeys x.SHORTPAGEID_SIZE x.MAXKEYLEN apage).map canonKey).drop
              ((internalKeys x.SHORTPAGEID_SIZE x.MAXKEYLEN apage).findIdx fun K =>
                decide (x.edubtm_KeyCompare kdesc K (itemKey r.item) = CmpResult.GREATER)) ∧
        (∀ K ∈ (internalKeys x.SHORTPAGEID_SIZE x.MAXKEYLEN apage).take
            ((internalKeys x.SHORTPAGEID_SIZE x.MAXKEYLEN apage).findIdx fun K =>
              decide (x.edubtm_KeyCompare kdesc K (itemKey r.item) = CmpResult.GREATER)),
          x.edubtm_KeyCompare kdesc K (itemKey r.item) ≠ CmpResult.GREATER) ∧
        (∀ K ∈ (internalKeys x.SHORTPAGEID_SIZE x.MAXKEYLEN apage).drop
            ((internalKeys x.SHORTPAGEID_SIZE x.MAXKEYLEN apage).findIdx fun K =>
              decide (x.edubtm_KeyCompare kdesc K (itemKey r.item) = CmpResult.GREATER)),
          x.edubtm_KeyCompare kdesc (itemKey r.item) K = CmpResult.LESS) ∧
        (internalKeys x.SHORTPAGEID_SIZE x.MAXKEYLEN parent).Pairwise
          (fun a b => x.edubtm_KeyCompare kdesc a b ≠ CmpResult.GREATER) ∧
        ((∀ K ∈ internalKeys x.SHORTPAGEID_SIZE x.MAXKEYLEN apage,
            x.edubtm_KeyCompare kdesc K (itemKey r.item) ≠ CmpResult.EQUAL) →
          (internalKeys x.SHORTPAGEID_SIZE x.MAXKEYLEN parent).Pairwise
            (fun a b => x.edubtm_KeyCompare kdesc a b = CmpResult.LESS))) := by
  have hroot := insert_internal_root_eq x fuel st cat root apage kdesc kval oid f h item r hk hp
    hI hr
  have hfr : r.st.frame root apage = apage := by
    unfold Store.frame; rw [hframe]; rfl
  rw [if_neg (by rw [he]; simp), hfr] at hroot
  constructor
  · intro hh
    rw [if_neg (by rw [hh]; simp), insertEpilogue_pinned _ _ _ _ _ hpin] at hroot
    exact ⟨_, hroot, rfl, rfl, hframe⟩
  · intro hh hx laws hsorted hsearch hlen hspid hroom hpc
    obtain ⟨hinv, hcf, hns, hkeys, hspids⟩ := hpc
    rw [if_pos hh] at hroot
    generalize hj : ((internalKeys x.SHORTPAGEID_SIZE x.MAXKEYLEN apage).findIdx fun K =>
      decide (x.edubtm_KeyCompare kdesc K (itemKey r.item) = CmpResult.GREATER)) = j
    have hidx : (x.edubtm_BinarySearchInternal apage kdesc (itemKey r.item)).2 = (j : Int) - 1 := by
      rw [hsearch]
      simp only [specBinarySearchInternal, hj]
    have hjle : j ≤ (internalKeys x.SHORTPAGEID_SIZE x.MAXKEYLEN apage).length := by
      rw [← hj]; exact List.findIdx_le_length _
    rw [internalKeys_length] at hjle
    have hn0 : 0 ≤ apage.nSlots := by rw [← hns]; exact hinv.1
    have hj2 : (j : Int) ≤ (internalAfterCompaction x apage r.item).nSlots := by
      rw [hns]; omega
    have hfit := insertInternal_fit_eq x r.st cat apage r.item
      (x.edubtm_BinarySearchInternal apage kdesc (itemKey r.item)).2 false item hx hlen hroom
      ⟨hinv.1, hinv.2.1, hcf⟩ (by rw [hidx]; constructor <;> omega)
    rw [hidx, sub_add_cancel] at hfit
    rw [hidx, hfit, if_neg (by simp)] at hroot
    rw [insertEpilogue_pinned _ _ _ _ _ (by simpa [Store.setPage] using hpin)] at hroot
    have hk1 := internalWithEntry_keys x (internalAfterCompaction x apage r.item) r.item j hx
      hlen hinv hj2
    rw [hkeys] at hk1
    have hs1 := internalWithEntry_spids x (internalAfterCompaction x apage r.item) r.item j
      hlen (by have := hx.2.1; omega) hinv hj2
    rw [hspids, decInt_encInt _ _ hspid.1 hspid.2] at hs1
    obtain ⟨o1, o2, -, -⟩ := sorted_insert_after _ laws (itemKey r.item) _ hsorted
    rw [hj] at o1 o2
    obtain ⟨-, -, o3, o4⟩ := sorted_insert_after _ laws (canonKey (itemKey r.item))
      ((internalKeys x.SHORTPAGEID_SIZE x.MAXKEYLEN apage).map canonKey)
      ((pairwise_canon _ laws _).mpr hsorted)
    rw [findIdx_canon_greater _ laws, hj] at o3 o4
    refine ⟨_, internalWithEntry x (internalAfterCompaction x apage r.item) r.item j, hroot, rfl,
      rfl, ?_, ?_, hs1, hk1, o1, o2, ?_, ?_⟩
    · simp [Store.setPage, setCell]
    · simp only [internalWithEntry]; rw [hns]
    · rw [← pairwise_canon_rel _ laws, hk1]
      exact o3
    · intro hne
      rw [← pairwise_canon _ laws, hk1]
      apply o4
      intro K hK
      obtain ⟨K0, hK0, rfl⟩ := List.mem_map.mp hK
      rw [← laws.canon]
      exact hne K0 hK0

/-- C17, witness. In `predEnv` leaf 10 of the example tree has room for 4: the child
reports no split and the root page is unchanged. In `splitEnv` the same insert splits
leaf 10 and promotes (page 12, key 4); the root, which held the entry (11, key 5), then
holds (12, key 4) at index 0 and (11, key 5) at index 1. -/
theorem insert_internal_promoted_item_witness :
    (∃ res, edubtm_Insert predEnv (1 + 1) (exStore exTree) (exOid 0) ⟨1, 0⟩ exKdesc (exKey 4)
        (exOid 4) false false ⟨0, 0, []⟩ = some res ∧
      res.e = ErrCode.eNOERROR ∧ res.h = false ∧
      res.st.page ⟨1, 0⟩ = some (exInternal 10 [(11, 5)])) ∧
    (∃ res parent,
      edubtm_Insert splitEnv (1 + 1) (exStore exTree) (exOid 0) ⟨1, 0⟩ exKdesc (exKey 4)
        (exOid 4) false false ⟨0, 0, []⟩ = some res ∧
      res.e = ErrCode.eNOERROR ∧ res.h = false ∧ res.st.page ⟨1, 0⟩ = some parent ∧
      parent.nSlots = 2 ∧
      internalSpids 4 parent = [12, 11] ∧
      (internalKeys 4 256 parent).map canonKey = [canonKey (exKey 4), canonKey (exKey 5)] ∧
      (internalKeys 4 256 parent).Pairwise
        (fun a b => splitEnv.edubtm_KeyCompare exKdesc a b = CmpResult.LESS)) := by
  refine ⟨(insert_internal_promoted_item predEnv 1 (exStore exTree) (exOid 0) ⟨1, 0⟩
    (exInternal 10 [(11, 5)]) exKdesc (exKey 4) (exOid 4) false false ⟨0, 0, []⟩
    exChildResultFit (by decide) rfl (by decide) rfl (by decide) rfl (by decide)).1
    (by decide), ?_⟩
  have a1 : kdescSupported exKdesc = true := by decide
  have a2 : (exInternal 10 [(11, 5)]).type &&& INTERNAL ≠ 0 := by decide
  have a3 : exChildResult.e = ErrCode.eNOERROR := by decide
  have a4 : exChildResult.st.fixed ⟨1, 0⟩ ≠ 0 := by decide
  have a5 : exChildResult.h = true := by decide
  have a6 : InternalSizesOK splitEnv := by unfold InternalSizesOK; decide
  have a7 : (internalKeys splitEnv.SHORTPAGEID_SIZE splitEnv.MAXKEYLEN
      (exInternal 10 [(11, 5)])).Pairwise
      (fun a b => splitEnv.edubtm_KeyCompare exKdesc a b = CmpResult.LESS) := by decide
  have a8 : 0 ≤ exChildResult.item.klen ∧ exChildResult.item.klen ≤ splitEnv.MAXKEYLEN := by
    decide
  have a9 : -((256 : Int) ^ splitEnv.SHORTPAGEID_SIZE) ≤ 2 * exChildResult.item.spid ∧
      2 * exChildResult.item.spid < (256 : Int) ^ splitEnv.SHORTPAGEID_SIZE := by decide
  have a10 : BI_FREE splitEnv (exInternal 10 [(11, 5)])
      ≥ internalNeededSpace splitEnv exChildResult.item := by decide
  have a11 : BI_CFREE splitEnv (internalAfterCompaction splitEnv (exInternal 10 [(11, 5)])
      exChildResult.item) ≥ internalNeededSpace splitEnv exChildResult.item := by decide
  have a12 : ∀ K ∈ internalKeys splitEnv.SHORTPAGEID_SIZE splitEnv.MAXKEYLEN
      (exInternal 10 [(11, 5)]),
      splitEnv.edubtm_KeyCompare exKdesc K (itemKey exChildResult.item) ≠ CmpResult.EQUAL := by
    intro K hK
    have hL : internalKeys splitEnv.SHORTPAGEID_SIZE splitEnv.MAXKEYLEN
        (exInternal 10 [(11, 5)])
        = [internalEntryKey 4 256 (exInternal 10 [(11, 5)]) 0] := rfl
    rw [hL, List.mem_singleton] at hK
    subst hK
    decide
  obtain ⟨res, parent, h1, h2, h3, h4, h5, h6, h7, -, -, -, h8⟩ :=
    (insert_internal_promoted_item splitEnv 1 (exStore exTree) (exOid 0) ⟨1, 0⟩
      (exInternal 10 [(11, 5)]) exKdesc (exKey 4) (exOid 4) false false ⟨0, 0, []⟩
      exChildResult a1 rfl a2 rfl a3 rfl a4).2
      a5 a6 splitEnv_laws a7 rfl a8 a9 a10 ⟨splitEnv_internalInv, a11, rfl, rfl, rfl⟩
  refine ⟨res, parent, h1, h2, h3, h4, by rw [h5]; decide, ?_, ?_, h8 a12⟩
  · exact h6.trans (by decide)
  · exact h7.trans (by decide)

/-! ## C18 -/

/-- C18. A cursor on slot `s` of a leaf `p` (in the store, at most 32767 slots) and a
supported descriptor. With `SM_LT`, `SM_LE` or `SM_EOF` and `s + 1 < nSlots` the candidate is
slot `s + 1` of the same page; with `SM_GT`, `SM_GE` or `SM_BOF` and `s ≥ 1` it is slot
`s - 1`. In both cases the call succeeds, leaves the store as it was, and the cursor returned
has the leaf of `current`, the slot of the candidate, and the key and object identifier of
that entry: whenever the entry at the offset of that slot stores the key `k` and the object
identifier `o` (`LeafEntryAt`, sizes without 16-bit wrap), the cursor's object identifier
is `o` and its key has the length and the bytes of `k`. -/
theorem fetchNext_within_leaf (x : Env) (st : Store) (kdesc : KeyDesc) (kval : KeyValue)
    (compOp : Int) (current next : BtreeCursor) (p : BtreePage)
    (hk : kdescSupported kdesc = true) (hp : st.page current.leaf = some p)
    (hn : p.nSlots ≤ 32767) (hs : 0 ≤ current.slotNo ∧ current.slotNo < p.nSlots) :
    ((compOp = SM_LT ∨ compOp = SM_LE ∨ compOp = SM_EOF) → current.slotNo + 1 < p.nSlots →
      fetchCandidate st compOp current
        = some ⟨ErrCode.eNOERROR, st.pin current.leaf, p, current.leaf, current.slotNo + 1,
            CURSOR_ON⟩ ∧
      (edubtm_FetchNext x st kdesc kval compOp current next).e = ErrCode.eNOERROR ∧
      (edubtm_FetchNext x st kdesc kval compOp current next).st = st ∧
      (edubtm_FetchNext x st kdesc kval compOp current next).next.leaf = current.leaf ∧
      (edubtm_FetchNext x st kdesc kval compOp current next).next.slotNo
        = current.slotNo + 1 ∧
      (edubtm_FetchNext x st kdesc kval compOp current next).next.key
        = leafEntryKey x.MAXKEYLEN p (current.slotNo + 1) ∧
      (edubtm_FetchNext x st kdesc kval compOp current next).next.oid
        = leafEntryOid x.ALIGN x.OBJECTID_SIZE p (current.slotNo + 1) ∧
      (∀ (k : KeyValue) (o : ObjectID), SizesOK x →
        LeafEntryAt x p (p.slot (current.slotNo + 1)) k o →
        (edubtm_FetchNext x st kdesc kval compOp current next).next.oid = o ∧
        (edubtm_FetchNext x st kdesc kval compOp current next).next.key.len = k.len ∧
        keyBytes (edubtm_FetchNext x st kdesc kval compOp current next).next.key
          = keyBytes k)) ∧
    ((compOp = SM_GT ∨ compOp = SM_GE ∨ compOp = SM_BOF) → 1 ≤ current.slotNo →
      fetchCandidate st compOp current
        = some ⟨ErrCode.eNOERROR, st.pin current.leaf, p, current.leaf, current.slotNo - 1,
            CURSOR_ON⟩ ∧
      (edubtm_FetchNext x st kdesc kval compOp current next).e = ErrCode.eNOERROR ∧
      (edubtm_FetchNext x st kdesc kval compOp current next).st = st ∧
      (edubtm_FetchNext x st kdesc kval compOp current next).next.leaf = current.leaf ∧
      (edubtm_FetchNext x st kdesc kval compOp current next).next.slotNo
        = current.slotNo - 1 ∧
      (edubtm_FetchNext x st kdesc kval compOp current next).next.key
        = leafEntryKey x.MAXKEYLEN p (current.slotNo - 1) ∧
      (edubtm_FetchNext x st kdesc kval compOp current next).next.oid
        = leafEntryOid x.ALIGN x.OBJECTID_SIZE p (current.slotNo - 1) ∧
      (∀ (k : KeyValue) (o : ObjectID), SizesOK x →
        LeafEntryAt x p (p.slot (current.slotNo - 1)) k o →
        (edubtm_FetchNext x st kdesc kval compOp current next).next.oid = o ∧
        (edubtm_FetchNext x st kdesc kval compOp current next).next.key.len = k.len ∧
        keyBytes (edubtm_FetchNext x st kdesc kval compOp current next).next.key
          = keyBytes k)) := by
  constructor
  · intro hop hlt
    have hc := fetchCandidate_same_forward st compOp current p hp hn ⟨hs.1, hlt⟩ hop
    obtain ⟨st2, hfree, hr⟩ := fetchNext_of_candidate x st kdesc kval compOp current next _ hk hc
    rw [freeTrain_after_getTrain] at hfree
    injection hfree with hfree
    rw [hr, ← hfree]
    refine ⟨hc, rfl, rfl, rfl, rfl, rfl, rfl, ?_⟩
    intro k o hx he
    obtain ⟨h0, h1, hl, hb, ho⟩ := he
    obtain ⟨b1, b2⟩ := ALIGNED_LENGTH_bounds x.ALIGN k.len hx.1
    have hsz := hx.2.1
    refine ⟨?_, ?_, ?_⟩
    · show leafEntryOid x.ALIGN x.OBJECTID_SIZE p (current.slotNo + 1) = o
      unfold leafEntryOid
      rw [hl, toTwo_of_range (by omega) (by omega), ho]
    · show (leafEntryKey x.MAXKEYLEN p (current.slotNo + 1)).len = k.len
      simp only [leafEntryKey]
      exact hl
    · show keyBytes (leafEntryKey x.MAXKEYLEN p (current.slotNo + 1)) = keyBytes k
      unfold keyBytes leafEntryKey
      simp only
      rw [hl, bytesOf_rdBytes _ _ _ _ (by omega), hb]
      rfl
  · intro hop hge
    have hc := fetchCandidate_same_backward st compOp current p hp hn ⟨hge, hs.2⟩ hop
    obtain ⟨st2, hfree, hr⟩ := fetchNext_of_candidate x st kdesc kval compOp current next _ hk hc
    rw [freeTrain_after_getTrain] at hfree
    injection hfree with hfree
    rw [hr, ← hfree]
    refine ⟨hc, rfl, rfl, rfl, rfl, rfl, rfl, ?_⟩
    intro k o hx he
    obtain ⟨h0, h1, hl, hb, ho⟩ := he
    obtain ⟨b1, b2⟩ := ALIGNED_LENGTH_bounds x.ALIGN k.len hx.1
    have hsz := hx.2.1
    refine ⟨?_, ?_, ?_⟩
    · show leafEntryOid x.ALIGN x.OBJECTID_SIZE p (current.slotNo - 1) = o
      unfold leafEntryOid
      rw [hl, toTwo_of_range (by omega) (by omega), ho]
    · show (leafEntryKey x.MAXKEYLEN p (current.slotNo - 1)).len = k.len
      simp only [leafEntryKey]
      exact hl
    · show keyBytes (leafEntryKey x.MAXKEYLEN p (current.slotNo - 1)) = keyBytes k
      unfold keyBytes leafEntryKey
      simp only
      rw [hl, bytesOf_rdBytes _ _ _ _ (by omega), hb]
      rfl

/-- C18, witness: the cursor on slot 2 (key 5) of the leaf holding 1, 3, 5, 7, 9; forward
with `SM_LE` to slot 3, whose entry stores the key 7 and the object identifier `exOid 7`;
backward with `SM_GE` to slot 1, whose entry stores 3 and `exOid 3`. -/
theorem fetchNext_within_leaf_witness :
    ((edubtm_FetchNext predEnv (exStore [(10, exLeaf [1, 3, 5, 7, 9] NIL NIL)]) exKdesc
        (exKey 10) SM_LE (exCursor 10 2 5) (exCursor 10 2 5)).next.leaf = ⟨10, 0⟩ ∧
      (edubtm_FetchNext predEnv (exStore [(10, exLeaf [1, 3, 5, 7, 9] NIL NIL)]) exKdesc
        (exKey 10) SM_LE (exCursor 10 2 5) (exCursor 10 2 5)).next.slotNo = 2 + 1 ∧
      (edubtm_FetchNext predEnv (exStore [(10, exLeaf [1, 3, 5, 7, 9] NIL NIL)]) exKdesc
        (exKey 10) SM_LE (exCursor 10 2 5) (exCursor 10 2 5)).next.oid = exOid 7 ∧
      (edubtm_FetchNext predEnv (exStore [(10, exLeaf [1, 3, 5, 7, 9] NIL NIL)]) exKdesc
        (exKey 10) SM_LE (exCursor 10 2 5) (exCursor 10 2 5)).next.key.len = (exKey 7).len ∧
      keyBytes (edubtm_FetchNext predEnv (exStore [(10, exLeaf [1, 3, 5, 7, 9] NIL NIL)])
        exKdesc (exKey 10) SM_LE (exCursor 10 2 5) (exCursor 10 2 5)).next.key
        = keyBytes (exKey 7)) ∧
    ((edubtm_FetchNext predEnv (exStore [(10, exLeaf [1, 3, 5, 7, 9] NIL NIL)]) exKdesc
        (exKey 0) SM_GE (exCursor 10 2 5) (exCursor 10 2 5)).next.leaf = ⟨10, 0⟩ ∧
      (edubtm_FetchNext predEnv (exStore [(10, exLeaf [1, 3, 5, 7, 9] NIL NIL)]) exKdesc
        (exKey 0) SM_GE (exCursor 10 2 5) (exCursor 10 2 5)).next.slotNo = 2 - 1 ∧
      (edubtm_FetchNext predEnv (exStore [(10, exLeaf [1, 3, 5, 7, 9] NIL NIL)]) exKdesc
        (exKey 0) SM_GE (exCursor 10 2 5) (exCursor 10 2 5)).next.oid = exOid 3 ∧
      (edubtm_FetchNext predEnv (exStore [(10, exLeaf [1, 3, 5, 7, 9] NIL NIL)]) exKdesc
        (exKey 0) SM_GE (exCursor 10 2 5) (exCursor 10 2 5)).next.key.len = (exKey 3).len ∧
      keyBytes (edubtm_FetchNext predEnv (exStore [(10, exLeaf [1, 3, 5, 7, 9] NIL NIL)])
        exKdesc (exKey 0) SM_GE (exCursor 10 2 5) (exCursor 10 2 5)).next.key
        = keyBytes (exKey 3)) :=
  have hf := (fetchNext_within_leaf predEnv (exStore [(10, exLeaf [1, 3, 5, 7, 9] NIL NIL)])
    exKdesc (exKey 10) SM_LE (exCursor 10 2 5) (exCursor 10 2 5)
    (exLeaf [1, 3, 5, 7, 9] NIL NIL) (by decide) rfl (by decide) (by decide)).1
    (Or.inr (Or.inl rfl)) (by decide)
  have hb := (fetchNext_within_leaf predEnv (exStore [(10, exLeaf [1, 3, 5, 7, 9] NIL NIL)])
    exKdesc (exKey 0) SM_GE (exCursor 10 2 5) (exCursor 10 2 5)
    (exLeaf [1, 3, 5, 7, 9] NIL NIL) (by decide) rfl (by decide) (by decide)).2
    (Or.inr (Or.inl rfl)) (by decide)
  ⟨⟨hf.2.2.2.1, hf.2.2.2.2.1,
      hf.2.2.2.2.2.2.2 (exKey 7) (exOid 7) predEnv_sizesOK (by decide)⟩,
    ⟨hb.2.2.2.1, hb.2.2.2.2.1,
      hb.2.2.2.2.2.2.2 (exKey 3) (exOid 3) predEnv_sizesOK (by decide)⟩⟩

/-! ## C19 -/

/-- C19. A leaf with enough total free space and an absent key (supported descriptor, sizes
without 16-bit wrap, `pc` the page after the conditional compaction, with non-negative
slot count and free offset and enough contiguous free space, search index between -1 and
`pc.nSlots - 1`): the insert succeeds without split; with `i` the insertion index (search
index plus one) the cells below `i` are those of `pc`, the cell `j + 1` is the cell `j` of
`pc` for `i ≤ j < nSlots`, the cell `i` is `pc.free`, where the new entry (object count 1,
key length, key bytes, object identifier) lies; the slot count is `pc.nSlots + 1` and the
free offset `pc.free` plus the entry size. -/
theorem insertLeaf_slot_directory (x : Env) (st : Store) (cat : ObjectID) (pid : PageID)
    (p : BtreePage) (kdesc : KeyDesc) (k : KeyValue) (oid : ObjectID) (f h : Bool)
    (item : InternalItem) (hx : SizesOK x) (hk : kdescSupported kdesc = true)
    (hlen : 0 ≤ insertKeyLen kdesc k ∧ insertKeyLen kdesc k ≤ x.MAXKEYLEN)
    (hkl : -32768 ≤ k.len ∧ k.len < 32768)
    (hfound : (x.btm_BinarySearchLeaf p kdesc k).1 = false)
    (hroom : BL_FREE x p ≥ leafNeededSpace x kdesc k)
    (hpc : 0 ≤ (leafAfterCompaction x p kdesc k).nSlots ∧
      0 ≤ (leafAfterCompaction x p kdesc k).free ∧
      BL_CFREE x (leafAfterCompaction x p kdesc k) ≥ leafNeededSpace x kdesc k)
    (hidx : -1 ≤ (x.btm_BinarySearchLeaf p kdesc k).2 ∧
      (x.btm_BinarySearchLeaf p kdesc k).2 < (leafAfterCompaction x p kdesc k).nSlots) :
    (edubtm_InsertLeaf x st cat pid p kdesc k oid f h item).e = ErrCode.eNOERROR ∧
    (edubtm_InsertLeaf x st cat pid p kdesc k oid f h item).h = false ∧
    (∀ j : Int, j < (x.btm_BinarySearchLeaf p kdesc k).2 + 1 →
      (edubtm_InsertLeaf x st cat pid p kdesc k oid f h item).page.slot j
        = (leafAfterCompaction x p kdesc k).slot j) ∧
    (∀ j : Int, (x.btm_BinarySearchLeaf p kdesc k).2 + 1 ≤ j →
      j < (leafAfterCompaction x p kdesc k).nSlots →
      (edubtm_InsertLeaf x st cat pid p kdesc k oid f h item).page.slot (j + 1)
        = (leafAfterCompaction x p kdesc k).slot j) ∧
    (edubtm_InsertLeaf x st cat pid p kdesc k oid f h item).page.slot
        ((x.btm_BinarySearchLeaf p kdesc k).2 + 1)
      = (leafAfterCompaction x p kdesc k).free ∧
    (rdTwo (edubtm_InsertLeaf x st cat pid p kdesc k oid f h item).page.data
        (leafAfterCompaction x p kdesc k).free = 1 ∧
      rdTwo (edubtm_InsertLeaf x st cat pid p kdesc k oid f h item).page.data
        ((leafAfterCompaction x p kdesc k).free + 2) = k.len ∧
      rdBytes (edubtm_InsertLeaf x st cat pid p kdesc k oid f h item).page.data
          ((leafAfterCompaction x p kdesc k).free + 4) (insertKeyLen kdesc k).toNat
        = bytesOf k.val (insertKeyLen kdesc k).toNat ∧
      rdBytes (edubtm_InsertLeaf x st cat pid p kdesc k oid f h item).page.data
          ((leafAfterCompaction x p kdesc k).free + 4
            + ALIGNED_LENGTH x.ALIGN (insertKeyLen kdesc k)) x.OBJECTID_SIZE
        = bytesOf oid.bytes x.OBJECTID_SIZE) ∧
    (edubtm_InsertLeaf x st cat pid p kdesc k oid f h item).page.nSlots
      = (leafAfterCompaction x p kdesc k).nSlots + 1 ∧
    (edubtm_InsertLeaf x st cat pid p kdesc k oid f h item).page.free
      = (leafAfterCompaction x p kdesc k).free
        + (2 * 2 + ALIGNED_LENGTH x.ALIGN (insertKeyLen kdesc k) + x.OBJECTID_SIZE) := by
  rw [insertLeaf_fit_eq x st cat pid p kdesc k oid f h item hx hk hlen hfound hroom hpc hidx]
  refine ⟨rfl, rfl, ?_, ?_, ?_, ?_, rfl, ?_⟩
  · intro j hj
    simp only [pageWithEntry]
    rw [if_neg (by omega), if_neg (by omega)]
  · intro j h1 h2
    simp only [pageWithEntry]
    rw [if_neg (by omega), if_pos (by omega)]
    congr 1
    omega
  · simp only [pageWithEntry, if_true]
  · exact pageWithEntry_entry x _ kdesc k oid _ hx hlen.1 hkl
  · simp only [pageWithEntry]
    omega

/-- C19, witness: the key 5 into the leaf holding 3, 7, 9 (entries at the offsets 0, 20,
40; free offset 60; no compaction). The insertion index is 1: the cell 0 keeps the offset 0,
the cells 1 and 2 move to the positions 2 and 3 with their offsets 20 and 40, the new cell 1
holds 60, the slot count becomes 4 and the free offset 80. -/
theorem insertLeaf_slot_directory_witness :
    (predEnv.btm_BinarySearchLeaf (exLeaf [3, 7, 9] NIL NIL) exKdesc (exKey 5)).2 + 1 = 1 ∧
    (leafAfterCompaction predEnv (exLeaf [3, 7, 9] NIL NIL) exKdesc (exKey 5)).nSlots = 3 ∧
    (leafAfterCompaction predEnv (exLeaf [3, 7, 9] NIL NIL) exKdesc (exKey 5)).free = 60 ∧
    (edubtm_InsertLeaf predEnv (exStore [(10, exLeaf [3, 7, 9] NIL NIL)]) (exOid 0) ⟨10, 0⟩
      (exLeaf [3, 7, 9] NIL NIL) exKdesc (exKey 5) (exOid 5) false false ⟨0, 0, []⟩).e = ErrCode.eNOERROR ∧
    (edubtm_InsertLeaf predEnv (exStore [(10, exLeaf [3, 7, 9] NIL NIL)]) (exOid 0) ⟨10, 0⟩
      (exLeaf [3, 7, 9] NIL NIL) exKdesc (exKey 5) (exOid 5) false false ⟨0, 0, []⟩).h = false ∧
    (edubtm_InsertLeaf predEnv (exStore [(10, exLeaf [3, 7, 9] NIL NIL)]) (exOid 0) ⟨10, 0⟩
      (exLeaf [3, 7, 9] NIL NIL) exKdesc (exKey 5) (exOid 5) false false ⟨0, 0, []⟩).page.slot 0 = 0 ∧
    (edubtm_InsertLeaf predEnv (exStore [(10, exLeaf [3, 7, 9] NIL NIL)]) (exOid 0) ⟨10, 0⟩
      (exLeaf [3, 7, 9] NIL NIL) exKdesc (exKey 5) (exOid 5) false false ⟨0, 0, []⟩).page.slot 1 = 60 ∧
    (edubtm_InsertLeaf predEnv (exStore [(10, exLeaf [3, 7, 9] NIL NIL)]) (exOid 0) ⟨10, 0⟩
      (exLeaf [3, 7, 9] NIL NIL) exKdesc (exKey 5) (exOid 5) false false ⟨0, 0, []⟩).page.slot 2 = 20 ∧
    (edubtm_InsertLeaf predEnv (exStore [(10, exLeaf [3, 7, 9] NIL NIL)]) (exOid 0) ⟨10, 0⟩
      (exLeaf [3, 7, 9] NIL NIL) exKdesc (exKey 5) (exOid 5) false false ⟨0, 0, []⟩).page.slot 3 = 40 ∧
    (edubtm_InsertLeaf predEnv (exStore [(10, exLeaf [3, 7, 9] NIL NIL)]) (exOid 0) ⟨10, 0⟩
      (exLeaf [3, 7, 9] NIL NIL) exKdesc (exKey 5) (exOid 5) false false ⟨0, 0, []⟩).page.nSlots = 4 ∧
    (edubtm_InsertLeaf predEnv (exStore [(10, exLeaf [3, 7, 9] NIL NIL)]) (exOid 0) ⟨10, 0⟩
      (exLeaf [3, 7, 9] NIL NIL) exKdesc (exKey 5) (exOid 5) false false ⟨0, 0, []⟩).page.free = 80 :=
  have h := insertLeaf_slot_directory predEnv (exStore [(10, exLeaf [3, 7, 9] NIL NIL)])
    (exOid 0) ⟨10, 0⟩ (exLeaf [3, 7, 9] NIL NIL) exKdesc (exKey 5) (exOid 5) false false
    ⟨0, 0, []⟩ predEnv_sizesOK (by decide) (by decide) (by decide) (by decide) (by decide)
    (by decide) (by decide)
  ⟨by decide, by decide, by decide, h.1, h.2.1,
    (h.2.2.1 0 (by decide)).trans (by decide),
    h.2.2.2.2.1.trans (by decide),
    (h.2.2.2.1 1 (by decide) (by decide)).trans (by decide),
    (h.2.2.2.1 2 (by decide) (by decide)).trans (by decide),
    h.2.2.2.2.2.2.1.trans (by decide),
    h.2.2.2.2.2.2.2.trans (by decide)⟩

/-! ## C20 -/

/-- C20. A leaf with non-negative slot count and free offset whose total free bytes are at
least the needed space (supported descriptor, absent key, sizes
without 16-bit wrap, search index in range), and a compaction routine that on this page
behaves as specified (afterwards contiguous free bytes = total free bytes = the total
before, same slot count, free offset not negative). The insert succeeds without split; the
entry is stored in the compacted page exactly when the contiguous free bytes were below
the needed space, and in the page as given otherwise; afterwards the total free bytes are
the previous total minus the needed space and the contiguous free bytes are not negative. -/
theorem insertLeaf_free_space (x : Env) (st : Store) (cat : ObjectID) (pid : PageID)
    (p : BtreePage) (kdesc : KeyDesc) (k : KeyValue) (oid : ObjectID) (f h : Bool)
    (item : InternalItem) (hx : SizesOK x) (hk : kdescSupported kdesc = true)
    (hlen : 0 ≤ insertKeyLen kdesc k ∧ insertKeyLen kdesc k ≤ x.MAXKEYLEN)
    (hfound : (x.btm_BinarySearchLeaf p kdesc k).1 = false)
    (hidx : -1 ≤ (x.btm_BinarySearchLeaf p kdesc k).2 ∧
      (x.btm_BinarySearchLeaf p kdesc k).2 < p.nSlots)
    (hp : 0 ≤ p.nSlots ∧ 0 ≤ p.free)
    (hroom : BL_FREE x p ≥ leafNeededSpace x kdesc k)
    (hcompact : BL_CFREE x (x.edubtm_CompactLeafPage p NIL)
        = BL_FREE x (x.edubtm_CompactLeafPage p NIL) ∧
      BL_FREE x (x.edubtm_CompactLeafPage p NIL) = BL_FREE x p ∧
      (x.edubtm_CompactLeafPage p NIL).nSlots = p.nSlots ∧
      0 ≤ (x.edubtm_CompactLeafPage p NIL).free) :
    (edubtm_InsertLeaf x st cat pid p kdesc k oid f h item).e = ErrCode.eNOERROR ∧
    (edubtm_InsertLeaf x st cat pid p kdesc k oid f h item).h = false ∧
    (BL_CFREE x p < leafNeededSpace x kdesc k →
      (edubtm_InsertLeaf x st cat pid p kdesc k oid f h item).page
        = pageWithEntry x (x.edubtm_CompactLeafPage p NIL) kdesc k oid
            ((x.btm_BinarySearchLeaf p kdesc k).2 + 1)) ∧
    (¬ BL_CFREE x p < leafNeededSpace x kdesc k →
      (edubtm_InsertLeaf x st cat pid p kdesc k oid f h item).page
        = pageWithEntry x p kdesc k oid ((x.btm_BinarySearchLeaf p kdesc k).2 + 1)) ∧
    BL_FREE x (edubtm_InsertLeaf x st cat pid p kdesc k oid f h item).page
      = BL_FREE x p - leafNeededSpace x kdesc k ∧
    0 ≤ BL_CFREE x (edubtm_InsertLeaf x st cat pid p kdesc k oid f h item).page := by
  obtain ⟨e1, e2, e3⟩ := leafNeededSpace_eq2 x kdesc k hx hlen
  obtain ⟨c1, c2, c3, c4⟩ := hcompact
  have hpc : 0 ≤ (leafAfterCompaction x p kdesc k).nSlots ∧
      0 ≤ (leafAfterCompaction x p kdesc k).free ∧
      BL_CFREE x (leafAfterCompaction x p kdesc k) ≥ leafNeededSpace x kdesc k ∧
      (leafAfterCompaction x p kdesc k).nSlots = p.nSlots ∧
      BL_FREE x (leafAfterCompaction x p kdesc k) = BL_FREE x p := by
    unfold leafAfterCompaction
    by_cases hc : BL_CFREE x p < leafNeededSpace x kdesc k
    · rw [if_pos hc]
      exact ⟨by rw [c3]; exact hp.1, c4, by rw [c1, c2]; exact hroom, c3, c2⟩
    · rw [if_neg hc]
      exact ⟨hp.1, hp.2, not_lt.mp hc, rfl, rfl⟩
  obtain ⟨d1, d2, d3, d4, d5⟩ := hpc
  rw [insertLeaf_fit_eq x st cat pid p kdesc k oid f h item hx hk hlen hfound hroom
    ⟨d1, d2, d3⟩ ⟨hidx.1, by rw [d4]; exact hidx.2⟩]
  refine ⟨rfl, rfl, ?_, ?_, ?_, ?_⟩
  · intro hc
    simp only [leafAfterCompaction, if_pos hc]
  · intro hc
    simp only [leafAfterCompaction, if_neg hc]
  · rw [← d5, e3]
    unfold BL_FREE BL_CFREE pageWithEntry
    simp only
    ring
  · rw [e3] at d3
    unfold BL_CFREE at d3 ⊢
    unfold pageWithEntry
    simp only
    linarith

/-- C20, witness: in `smallEnv` the leaf `exHoleLeaf` has 8 contiguous and 28 total free
bytes and the needed space is 22, so the page is compacted; after the insert 6 bytes are
free. -/
theorem insertLeaf_free_space_witness :
    BL_CFREE smallEnv exHoleLeaf < leafNeededSpace smallEnv exKdesc (exKey 5) ∧
    (edubtm_InsertLeaf smallEnv (exStore [(10, exHoleLeaf)]) (exOid 0) ⟨10, 0⟩ exHoleLeaf
      exKdesc (exKey 5) (exOid 5) false false ⟨0, 0, []⟩).page
      = pageWithEntry smallEnv (smallEnv.edubtm_CompactLeafPage exHoleLeaf NIL) exKdesc
          (exKey 5) (exOid 5) ((smallEnv.btm_BinarySearchLeaf exHoleLeaf exKdesc (exKey 5)).2 + 1) ∧
    BL_FREE smallEnv (edubtm_InsertLeaf smallEnv (exStore [(10, exHoleLeaf)]) (exOid 0) ⟨10, 0⟩
      exHoleLeaf exKdesc (exKey 5) (exOid 5) false false ⟨0, 0, []⟩).page
      = BL_FREE smallEnv exHoleLeaf - leafNeededSpace smallEnv exKdesc (exKey 5) ∧
    0 ≤ BL_CFREE smallEnv (edubtm_InsertLeaf smallEnv (exStore [(10, exHoleLeaf)]) (exOid 0)
      ⟨10, 0⟩ exHoleLeaf exKdesc (exKey 5) (exOid 5) false false ⟨0, 0, []⟩).page :=
  have hc : BL_CFREE smallEnv exHoleLeaf < leafNeededSpace smallEnv exKdesc (exKey 5) := by
    decide
  have h := insertLeaf_free_space smallEnv (exStore [(10, exHoleLeaf)]) (exOid 0) ⟨10, 0⟩
    exHoleLeaf exKdesc (exKey 5) (exOid 5) false false ⟨0, 0, []⟩ smallEnv_sizesOK (by decide)
    (by decide) (by decide) (by decide) (by decide) (by decide) (by decide)
  ⟨hc, h.2.2.1 hc, h.2.2.2.2.1, h.2.2.2.2.2⟩

/-! ## C21 -/

/-- C21. With a supported key descriptor: (1) on every internal root and for every key,
`edubtm_Insert` is what lines 144-175 make of the result of one recursive call, the call on
the child made from the index `idx` that the internal binary search returned, which is the
child page stored in entry `idx` when `idx >= 0` and the leftmost child `p0` otherwise; when
the search returns the index of the spec, the comparator is a strict order and the keys of
the page ascend, `idx` is below the slot count, the entries up to `idx` have keys not
greater than the search key and the entries after `idx` have greater keys (for `idx = -1`:
the key is less than every key of the page). (2) With such a search and comparator, and
ascending keys on every internal page of the store, whenever the descent reaches a leaf,
that leaf is the only leaf whose key range (InternalPage invariant) contains the key.
(3) When the leaf insert succeeds without split at the leaf the descent reaches,
`edubtm_Insert` with enough recursion depth returns `eNOERROR` and the content of this leaf
is the only page content it changes. -/
theorem insert_descends_into_key_range (x : Env) (st : Store) (catObjForFile : ObjectID)
    (kdesc : KeyDesc) (kval : KeyValue) (oid : ObjectID)
    (hk : kdescSupported kdesc = true) :
    (∀ (fuel : Nat) (root : PageID) (p : BtreePage) (f h : Bool) (item : InternalItem),
      st.page root = some p → p.type &&& INTERNAL ≠ 0 →
      edubtm_Insert x (fuel + 1) st catObjForFile root kdesc kval oid f h item
        = (edubtm_Insert x fuel (st.pin root) catObjForFile
            (internalChild x root p (x.edubtm_BinarySearchInternal p kdesc kval).2)
            kdesc kval oid false false ⟨0, 0, []⟩).map
          (insertAfterChild x catObjForFile root p kdesc item) ∧
      (0 ≤ (x.edubtm_BinarySearchInternal p kdesc kval).2 →
        internalChild x root p (x.edubtm_BinarySearchInternal p kdesc kval).2
          = MAKE_PAGEID root.volNo (internalEntrySpid x.SHORTPAGEID_SIZE p
              (x.edubtm_BinarySearchInternal p kdesc kval).2)) ∧
      ((x.edubtm_BinarySearchInternal p kdesc kval).2 < 0 →
        internalChild x root p (x.edubtm_BinarySearchInternal p kdesc kval).2
          = MAKE_PAGEID root.volNo p.p0) ∧
      ((x.edubtm_BinarySearchInternal p kdesc kval).2
          = (specBinarySearchInternal x.edubtm_KeyCompare x.SHORTPAGEID_SIZE x.MAXKEYLEN p kdesc
              kval).2 →
        CmpLaws (x.edubtm_KeyCompare kdesc) →
        (internalKeys x.SHORTPAGEID_SIZE x.MAXKEYLEN p).Pairwise
          (fun a b => x.edubtm_KeyCompare kdesc a b = CmpResult.LESS) →
        -1 ≤ (x.edubtm_BinarySearchInternal p kdesc kval).2 ∧
        (0 ≤ (x.edubtm_BinarySearchInternal p kdesc kval).2 →
          (x.edubtm_BinarySearchInternal p kdesc kval).2 < p.nSlots) ∧
        (∀ i : Nat, (i : Int) ≤ (x.edubtm_BinarySearchInternal p kdesc kval).2 →
          x.edubtm_KeyCompare kdesc (internalEntryKey x.SHORTPAGEID_SIZE x.MAXKEYLEN p i) kval
            ≠ CmpResult.GREATER) ∧
        (∀ i : Nat, (x.edubtm_BinarySearchInternal p kdesc kval).2 < i → (i : Int) < p.nSlots →
          x.edubtm_KeyCompare kdesc kval (internalEntryKey x.SHORTPAGEID_SIZE x.MAXKEYLEN p i)
            = CmpResult.LESS))) ∧
    ((∀ p, (x.edubtm_BinarySearchInternal p kdesc kval).2
        = (specBinarySearchInternal x.edubtm_KeyCompare x.SHORTPAGEID_SIZE x.MAXKEYLEN p kdesc
            kval).2) →
      CmpLaws (x.edubtm_KeyCompare kdesc) →
      (∀ a b, x.edubtm_KeyCompare kdesc a b = CmpResult.LESS →
        x.edubtm_KeyCompare kdesc b a = CmpResult.GREATER) →
      (∀ pid p, st.page pid = some p → p.type &&& INTERNAL ≠ 0 →
        (internalKeys x.SHORTPAGEID_SIZE x.MAXKEYLEN p).Pairwise
          (fun a b => x.edubtm_KeyCompare kdesc a b = CmpResult.LESS)) →
      ∀ (n : Nat) (root pid : PageID) (leaf : BtreePage),
        insertPath x st.page kdesc kval n root = some (pid, leaf) →
        keyRangeLeaves x st.page kdesc kval n root = [(pid, leaf)]) ∧
    (∀ (n : Nat) (root pid : PageID) (leaf : BtreePage),
      insertPath x st.page kdesc kval n root = some (pid, leaf) →
      (edubtm_InsertLeaf x st catObjForFile pid leaf kdesc kval oid false false ⟨0, 0, []⟩).e
          = ErrCode.eNOERROR →
      (edubtm_InsertLeaf x st catObjForFile pid leaf kdesc kval oid false false ⟨0, 0, []⟩).h
          = false →
      ∀ (fuel : Nat) (f h : Bool) (item : InternalItem), n ≤ fuel →
        ∃ r, edubtm_Insert x fuel st catObjForFile root kdesc kval oid f h item = some r ∧
          r.e = ErrCode.eNOERROR ∧
          r.st.page = setCell st.page pid (some (edubtm_InsertLeaf x st catObjForFile pid
            leaf kdesc kval oid false false ⟨0, 0, []⟩).page)) := by
  refine ⟨?_, ?_, ?_⟩
  · intro fuel root p f h item hp hI
    refine ⟨insert_internal_step x fuel st catObjForFile root p kdesc kval oid f h item hk hp hI,
      ?_, ?_, ?_⟩
    · intro h0
      unfold internalChild
      rw [if_pos h0]
    · intro h0
      unfold internalChild
      rw [if_neg (by omega)]
    · intro hs laws hord
      exact specSearch_index x kdesc p kval hs laws hord
  · intro hs laws hflip hord n root pid leaf hpath
    exact insertPath_keyRangeLeaves x st.page kdesc kval hs laws hflip hord n root _ hpath
  · intro n root pid leaf hpath he hh fuel f h item hfuel
    obtain ⟨r, hr, hre, -, hpg, -⟩ :=
      insert_fit_aux x catObjForFile kdesc kval oid hk pid leaf _
        (insertLeaf_no_split_indep x st catObjForFile pid leaf kdesc kval oid ⟨0, 0, []⟩ he hh)
        fuel st root f h item (insertPath_le x st.page kdesc kval n fuel hfuel root _ hpath)
    exact ⟨r, hr, hre, hpg⟩

/-- C21, witness: the key 6 in the two-level tree `exTree`. The root holds the entry
(child 11, key 5); the search returns index 0, the insert recurses into page 11, the only
leaf whose key range contains 6, and stores the key there. -/
theorem insert_descends_into_key_range_witness :
    (predEnv.edubtm_BinarySearchInternal (exInternal 10 [(11, 5)]) exKdesc (exKey 6)).2 = 0 ∧
    (edubtm_Insert predEnv 2 (exStore exTree) ⟨[]⟩ ⟨1, 0⟩ exKdesc (exKey 6) (exOid 6) false false
        ⟨0, 0, []⟩
      = (edubtm_Insert predEnv 1 ((exStore exTree).pin ⟨1, 0⟩) ⟨[]⟩
          (internalChild predEnv ⟨1, 0⟩ (exInternal 10 [(11, 5)])
            (predEnv.edubtm_BinarySearchInternal (exInternal 10 [(11, 5)]) exKdesc (exKey 6)).2)
          exKdesc (exKey 6) (exOid 6) false false ⟨0, 0, []⟩).map
        (insertAfterChild predEnv ⟨[]⟩ ⟨1, 0⟩ (exInternal 10 [(11, 5)]) exKdesc ⟨0, 0, []⟩)) ∧
    internalChild predEnv ⟨1, 0⟩ (exInternal 10 [(11, 5)])
        (predEnv.edubtm_BinarySearchInternal (exInternal 10 [(11, 5)]) exKdesc (exKey 6)).2
      = MAKE_PAGEID 0 (internalEntrySpid predEnv.SHORTPAGEID_SIZE (exInternal 10 [(11, 5)])
          (predEnv.edubtm_BinarySearchInternal (exInternal 10 [(11, 5)]) exKdesc (exKey 6)).2) ∧
    internalChild predEnv ⟨1, 0⟩ (exInternal 10 [(11, 5)])
        (predEnv.edubtm_BinarySearchInternal (exInternal 10 [(11, 5)]) exKdesc (exKey 6)).2
      = ⟨11, 0⟩ ∧
    predEnv.edubtm_KeyCompare exKdesc
        (internalEntryKey predEnv.SHORTPAGEID_SIZE predEnv.MAXKEYLEN (exInternal 10 [(11, 5)])
          ((0 : Nat) : Int)) (exKey 6) ≠ CmpResult.GREATER ∧
    keyRangeLeaves predEnv (exStore exTree).page exKdesc (exKey 6) 2 ⟨1, 0⟩
      = [(⟨11, 0⟩, exLeaf [5, 7] 10 NIL)] ∧
    ∃ r, edubtm_Insert predEnv 2 (exStore exTree) ⟨[]⟩ ⟨1, 0⟩ exKdesc (exKey 6) (exOid 6)
        false false ⟨0, 0, []⟩ = some r ∧
      r.e = ErrCode.eNOERROR ∧
      r.st.page = setCell (exStore exTree).page ⟨11, 0⟩
        (some (edubtm_InsertLeaf predEnv (exStore exTree) ⟨[]⟩ ⟨11, 0⟩ (exLeaf [5, 7] 10 NIL)
          exKdesc (exKey 6) (exOid 6) false false ⟨0, 0, []⟩).page) :=
  ⟨by decide,
   ((insert_descends_into_key_range predEnv (exStore exTree) ⟨[]⟩ exKdesc (exKey 6) (exOid 6)
      (by decide)).1 1 ⟨1, 0⟩ (exInternal 10 [(11, 5)]) false false ⟨0, 0, []⟩
      rfl (by decide)).1,
   ((insert_descends_into_key_range predEnv (exStore exTree) ⟨[]⟩ exKdesc (exKey 6) (exOid 6)
      (by decide)).1 1 ⟨1, 0⟩ (exInternal 10 [(11, 5)]) false false ⟨0, 0, []⟩
      rfl (by decide)).2.1 (by decide),
   by decide,
   (((insert_descends_into_key_range predEnv (exStore exTree) ⟨[]⟩ exKdesc (exKey 6) (exOid 6)
      (by decide)).1 1 ⟨1, 0⟩ (exInternal 10 [(11, 5)]) false false ⟨0, 0, []⟩
      rfl (by decide)).2.2.2 rfl predEnv_laws
      (exTree_internal_sorted ⟨1, 0⟩ (exInternal 10 [(11, 5)]) rfl (by decide))).2.2.1 0
      (by decide),
   (insert_descends_into_key_range predEnv (exStore exTree) ⟨[]⟩ exKdesc (exKey 6) (exOid 6)
      (by decide)).2.1 (fun _ => rfl) predEnv_laws predEnv_flip exTree_internal_sorted
      2 ⟨1, 0⟩ ⟨11, 0⟩ (exLeaf [5, 7] 10 NIL) rfl,
   (insert_descends_into_key_range predEnv (exStore exTree) ⟨[]⟩ exKdesc (exKey 6) (exOid 6)
      (by decide)).2.2 2 ⟨1, 0⟩ ⟨11, 0⟩ (exLeaf [5, 7] 10 NIL) rfl
      (by decide) (by decide) 2 false false ⟨0, 0, []⟩ (Nat.le_refl 2)⟩

/-! ## C22 -/

/-- C22. The leaf holding the pair (1, 1) under the descriptor of two 4-byte integers; the
pair (7, 9) with the object identifier `exOid 7` is inserted without split as slot 1. The
call of `edubtm_FetchNext` with `SM_EOF` from slot 0 steps onto slot 1 and returns a
Positioned cursor whose key has length 8 but the bytes of the pair (7, 7), not those of
(7, 9), and whose object identifier is not `exOid 7`. -/
theorem insert_then_fetch_pair_key_differs :
    kdescSupported exPairKdesc = true ∧
    (edubtm_InsertLeaf predEnv (exStore [(10, exPairLeaf [(1, 1)] NIL NIL)]) (exOid 0) ⟨10, 0⟩
      (exPairLeaf [(1, 1)] NIL NIL) exPairKdesc (exPairKey 7 9) (exOid 7) false false
      ⟨0, 0, []⟩).e = ErrCode.eNOERROR ∧
    (edubtm_InsertLeaf predEnv (exStore [(10, exPairLeaf [(1, 1)] NIL NIL)]) (exOid 0) ⟨10, 0⟩
      (exPairLeaf [(1, 1)] NIL NIL) exPairKdesc (exPairKey 7 9) (exOid 7) false false
      ⟨0, 0, []⟩).h = false ∧
    exPairInserted.nSlots = 2 ∧ exPairInserted.slot 1 = 24 ∧
    (edubtm_FetchNext predEnv (exStore [(10, exPairInserted)]) exPairKdesc (exPairKey 0 0)
      SM_EOF (cursorAt predEnv 0 (10, exPairInserted) 0) exCursorEOS).e = ErrCode.eNOERROR ∧
    (edubtm_FetchNext predEnv (exStore [(10, exPairInserted)]) exPairKdesc (exPairKey 0 0)
      SM_EOF (cursorAt predEnv 0 (10, exPairInserted) 0) exCursorEOS).next.flag = CURSOR_ON ∧
    (edubtm_FetchNext predEnv (exStore [(10, exPairInserted)]) exPairKdesc (exPairKey 0 0)
      SM_EOF (cursorAt predEnv 0 (10, exPairInserted) 0) exCursorEOS).next.slotNo = 1 ∧
    (edubtm_FetchNext predEnv (exStore [(10, exPairInserted)]) exPairKdesc (exPairKey 0 0)
      SM_EOF (cursorAt predEnv 0 (10, exPairInserted) 0) exCursorEOS).next.key.len = 8 ∧
    keyBytes (edubtm_FetchNext predEnv (exStore [(10, exPairInserted)]) exPairKdesc
      (exPairKey 0 0) SM_EOF (cursorAt predEnv 0 (10, exPairInserted) 0) exCursorEOS).next.key
      = keyBytes (exPairKey 7 7) ∧
    keyBytes (edubtm_FetchNext predEnv (exStore [(10, exPairInserted)]) exPairKdesc
      (exPairKey 0 0) SM_EOF (cursorAt predEnv 0 (10, exPairInserted) 0) exCursorEOS).next.key
      ≠ keyBytes (exPairKey 7 9) ∧
    (edubtm_FetchNext predEnv (exStore [(10, exPairInserted)]) exPairKdesc (exPairKey 0 0)
      SM_EOF (cursorAt predEnv 0 (10, exPairInserted) 0) exCursorEOS).next.oid ≠ exOid 7 := by
  decide

/-! ## C23 -/

/-- C23. A cursor `c` on slot `i` of a leaf of the store (the function reads only the leaf
and the slot of `c`), a supported descriptor, leaves with 1 to 32767 slots, and sibling
links that are mutually consistent: the next leaf, when there is one, is in the store and
its `prevPage` is the page of `c`, and likewise for the previous leaf. If the call with
`SM_EOF` succeeds and returns a Positioned cursor `n`, the call with `SM_BOF` on `n`
succeeds, leaves the store as it was before the first call, and returns the Positioned
cursor on the leaf and the slot of `c`; the same with the two operators exchanged. When `c`
holds the key and the object identifier that the entry of its slot stores (`LeafEntryAt`,
sizes without 16-bit wrap), the cursor returned has the object identifier of `c` and a key
with the length and the bytes of the key of `c`; it is `c` itself when `c` is Positioned
and holds the copy of the entry that the function makes. The stop keys and the contents of
the `next` arguments on entry are arbitrary. -/
theorem fetchNext_forward_backward_inverse (x : Env) (st : Store) (kdesc : KeyDesc)
    (kv1 kv2 : KeyValue) (vol : Int) (e : Int × BtreePage) (i : Nat) (c nx1 nx2 : BtreeCursor)
    (hk : kdescSupported kdesc = true)
    (hl : c.leaf = ⟨e.1, vol⟩) (hc : c.slotNo = (i : Int))
    (hp : st.page ⟨e.1, vol⟩ = some e.2) (hn : 0 < e.2.nSlots ∧ e.2.nSlots ≤ 32767)
    (hi : (i : Int) < e.2.nSlots) (hpn : e.1 ≠ NIL)
    (hnext : e.2.nextPage ≠ NIL → ∃ q, st.page ⟨e.2.nextPage, vol⟩ = some q ∧
      q.prevPage = e.1 ∧ 0 < q.nSlots ∧ q.nSlots ≤ 32767)
    (hprev : e.2.prevPage ≠ NIL → ∃ q, st.page ⟨e.2.prevPage, vol⟩ = some q ∧
      q.nextPage = e.1 ∧ 0 < q.nSlots ∧ q.nSlots ≤ 32767) :
    ((edubtm_FetchNext x st kdesc kv1 SM_EOF c nx1).e = ErrCode.eNOERROR →
      (edubtm_FetchNext x st kdesc kv1 SM_EOF c nx1).next.flag = CURSOR_ON →
      edubtm_FetchNext x (edubtm_FetchNext x st kdesc kv1 SM_EOF c nx1).st kdesc kv2 SM_BOF
          (edubtm_FetchNext x st kdesc kv1 SM_EOF c nx1).next nx2
        = ⟨ErrCode.eNOERROR, st, cursorAt x vol e i⟩) ∧
    ((edubtm_FetchNext x st kdesc kv1 SM_BOF c nx1).e = ErrCode.eNOERROR →
      (edubtm_FetchNext x st kdesc kv1 SM_BOF c nx1).next.flag = CURSOR_ON →
      edubtm_FetchNext x (edubtm_FetchNext x st kdesc kv1 SM_BOF c nx1).st kdesc kv2 SM_EOF
          (edubtm_FetchNext x st kdesc kv1 SM_BOF c nx1).next nx2
        = ⟨ErrCode.eNOERROR, st, cursorAt x vol e i⟩) ∧
    (cursorAt x vol e i).flag = CURSOR_ON ∧
    (cursorAt x vol e i).leaf = c.leaf ∧ (cursorAt x vol e i).slotNo = c.slotNo ∧
    (SizesOK x → LeafEntryAt x e.2 (e.2.slot (i : Int)) c.key c.oid →
      (cursorAt x vol e i).oid = c.oid ∧ (cursorAt x vol e i).key.len = c.key.len ∧
      keyBytes (cursorAt x vol e i).key = keyBytes c.key) ∧
    (c.flag = CURSOR_ON → c.key = leafEntryKey x.MAXKEYLEN e.2 (i : Int) →
      c.oid = leafEntryOid x.ALIGN x.OBJECTID_SIZE e.2 (i : Int) → cursorAt x vol e i = c) := by
  have hne : CURSOR_EOS ≠ CURSOR_ON := by decide
  have hpc : st.page c.leaf = some e.2 := by rw [hl]; exact hp
  refine ⟨?_, ?_, rfl, by rw [hl]; rfl, by rw [hc]; rfl, ?_, ?_⟩
  · by_cases h : (i : Int) + 1 < e.2.nSlots
    · intro _ _
      rw [fetchNext_EOF_step x st kdesc kv1 vol e i c nx1 hk hl hc hp hn.2 h]
      exact fetchNext_BOF_step x st kdesc kv2 vol e i (cursorAt x vol e (i + 1)) nx2 hk rfl rfl
        hp hn.2 (by push_cast; exact h)
    · have hs : c.slotNo = e.2.nSlots - 1 := by rw [hc]; omega
      by_cases hnx : e.2.nextPage = NIL
      · intro _ hflag
        have h2 : toTwo (c.slotNo + 1) = c.slotNo + 1 := by rw [toTwo_of_range] <;> omega
        rw [fetchNext_boundary_EOS x st kdesc kv1 SM_EOF c nx1 e.2 hk hpc
          (by
            rw [fetchDirection_forward _ _ (Or.inr (Or.inr rfl))]
            simp only [h2]
            exact ⟨trivial, Or.inr ⟨by omega, by omega, hnx⟩⟩)] at hflag
        exact absurd hflag hne
      · intro _ _
        obtain ⟨q, hq, hqp, hqn⟩ := hnext hnx
        rw [fetchNext_EOF_hop x st kdesc kv1 vol e q c nx1 hk hl hp hn hs hnx hq]
        have hq2 : st.page ⟨(e.2.nextPage, q).1, vol⟩ = some (e.2.nextPage, q).2 := hq
        have hprev2 : (e.2.nextPage, q).2.prevPage ≠ NIL := by
          show q.prevPage ≠ NIL
          rw [hqp]; exact hpn
        have hp2 : st.page ⟨(e.2.nextPage, q).2.prevPage, vol⟩ = some e.2 := by
          show st.page ⟨q.prevPage, vol⟩ = some e.2
          rw [hqp]; exact hp
        rw [fetchNext_BOF_hop x st kdesc kv2 vol (e.2.nextPage, q) e.2
          (cursorAt x vol (e.2.nextPage, q) 0) nx2 hk rfl rfl hq2 hprev2 hp2 hn]
        have hi2 : e.2.nSlots.toNat - 1 = i := by omega
        show (⟨ErrCode.eNOERROR, st, cursorAt x vol (q.prevPage, e.2) (e.2.nSlots.toNat - 1)⟩ :
          FetchResult) = _
        rw [hqp, hi2]
  · cases i with
    | succ j =>
      intro _ _
      rw [fetchNext_BOF_step x st kdesc kv1 vol e j c nx1 hk hl hc hp hn.2 hi]
      exact fetchNext_EOF_step x st kdesc kv2 vol e j (cursorAt x vol e j) nx2 hk rfl rfl
        hp hn.2 (by push_cast at hi; exact hi)
    | zero =>
      have hc0 : c.slotNo = 0 := by rw [hc]; rfl
      by_cases hpv : e.2.prevPage = NIL
      · intro _ hflag
        rw [fetchNext_boundary_EOS x st kdesc kv1 SM_BOF c nx1 e.2 hk hpc
          (by
            rw [fetchDirection_backward _ _ (Or.inr (Or.inr rfl)), hc0]
            exact ⟨rfl, Or.inl ⟨by decide, hpv⟩⟩)] at hflag
        exact absurd hflag hne
      · intro _ _
        obtain ⟨q, hq, hqp, hqn⟩ := hprev hpv
        rw [fetchNext_BOF_hop x st kdesc kv1 vol e q c nx1 hk hl hc0 hp hpv hq hqn]
        have hq2 : st.page ⟨(e.2.prevPage, q).1, vol⟩ = some (e.2.prevPage, q).2 := hq
        have hnext2 : (e.2.prevPage, q).2.nextPage ≠ NIL := by
          show q.nextPage ≠ NIL
          rw [hqp]; exact hpn
        have hp2 : st.page ⟨(e.2.prevPage, q).2.nextPage, vol⟩ = some e.2 := by
          show st.page ⟨q.nextPage, vol⟩ = some e.2
          rw [hqp]; exact hp
        have hs2 : (cursorAt x vol (e.2.prevPage, q) (q.nSlots.toNat - 1)).slotNo
            = (e.2.prevPage, q).2.nSlots - 1 := by
          show ((q.nSlots.toNat - 1 : Nat) : Int) = q.nSlots - 1
          omega
        rw [fetchNext_EOF_hop x st kdesc kv2 vol (e.2.prevPage, q) e.2
          (cursorAt x vol (e.2.prevPage, q) (q.nSlots.toNat - 1)) nx2
          hk rfl hq2 hqn hs2 hnext2 hp2]
        show (⟨ErrCode.eNOERROR, st, cursorAt x vol (q.nextPage, e.2) 0⟩ : FetchResult) = _
        rw [hqp]
  · intro hx he
    obtain ⟨h0, h1, hl, hb, ho⟩ := he
    obtain ⟨b1, b2⟩ := ALIGNED_LENGTH_bounds x.ALIGN c.key.len hx.1
    have hsz := hx.2.1
    refine ⟨?_, ?_, ?_⟩
    · show leafEntryOid x.ALIGN x.OBJECTID_SIZE e.2 (i : Int) = c.oid
      unfold leafEntryOid
      rw [hl, toTwo_of_range (by omega) (by omega), ho]
    · show (leafEntryKey x.MAXKEYLEN e.2 (i : Int)).len = c.key.len
      simp only [leafEntryKey]
      exact hl
    · show keyBytes (leafEntryKey x.MAXKEYLEN e.2 (i : Int)) = keyBytes c.key
      unfold keyBytes leafEntryKey
      simp only
      rw [hl, bytesOf_rdBytes _ _ _ _ (by omega), hb]
      rfl
  · intro hf hkey hoid
    cases c with
    | mk flag oid key leaf slotNo =>
      simp only at hf hkey hoid hl hc
      simp only [cursorAt, hf, hkey, hoid, hl, hc]

/-- C23, witness: the cursor on the last slot of leaf 10 of the example tree, holding the
key 3 and the object identifier `exOid 3` that this entry stores: the step with `SM_EOF`
crosses to slot 0 of leaf 11 and the step with `SM_BOF` comes back to leaf 10, slot 1, with
the object identifier `exOid 3` and the length and bytes of the key 3. -/
theorem fetchNext_forward_backward_inverse_witness :
    (edubtm_FetchNext predEnv (exStore exTree) exKdesc (exKey 0) SM_EOF
        (exCursor 10 1 3) exCursorEOS).next.slotNo = 0 ∧
    (edubtm_FetchNext predEnv (exStore exTree) exKdesc (exKey 0) SM_EOF
        (exCursor 10 1 3) exCursorEOS).next.leaf = ⟨11, 0⟩ ∧
    (edubtm_FetchNext predEnv
        (edubtm_FetchNext predEnv (exStore exTree) exKdesc (exKey 0) SM_EOF
          (exCursor 10 1 3) exCursorEOS).st
        exKdesc (exKey 0) SM_BOF
        (edubtm_FetchNext predEnv (exStore exTree) exKdesc (exKey 0) SM_EOF
          (exCursor 10 1 3) exCursorEOS).next exCursorEOS).e = ErrCode.eNOERROR ∧
    (edubtm_FetchNext predEnv
        (edubtm_FetchNext predEnv (exStore exTree) exKdesc (exKey 0) SM_EOF
          (exCursor 10 1 3) exCursorEOS).st
        exKdesc (exKey 0) SM_BOF
        (edubtm_FetchNext predEnv (exStore exTree) exKdesc (exKey 0) SM_EOF
          (exCursor 10 1 3) exCursorEOS).next exCursorEOS).st = exStore exTree ∧
    (edubtm_FetchNext predEnv
        (edubtm_FetchNext predEnv (exStore exTree) exKdesc (exKey 0) SM_EOF
          (exCursor 10 1 3) exCursorEOS).st
        exKdesc (exKey 0) SM_BOF
        (edubtm_FetchNext predEnv (exStore exTree) exKdesc (exKey 0) SM_EOF
          (exCursor 10 1 3) exCursorEOS).next exCursorEOS).next.flag = CURSOR_ON ∧
    (edubtm_FetchNext predEnv
        (edubtm_FetchNext predEnv (exStore exTree) exKdesc (exKey 0) SM_EOF
          (exCursor 10 1 3) exCursorEOS).st
        exKdesc (exKey 0) SM_BOF
        (edubtm_FetchNext predEnv (exStore exTree) exKdesc (exKey 0) SM_EOF
          (exCursor 10 1 3) exCursorEOS).next exCursorEOS).next.leaf = (exCursor 10 1 3).leaf ∧
    (edubtm_FetchNext predEnv
        (edubtm_FetchNext predEnv (exStore exTree) exKdesc (exKey 0) SM_EOF
          (exCursor 10 1 3) exCursorEOS).st
        exKdesc (exKey 0) SM_BOF
        (edubtm_FetchNext predEnv (exStore exTree) exKdesc (exKey 0) SM_EOF
          (exCursor 10 1 3) exCursorEOS).next exCursorEOS).next.slotNo = (exCursor 10 1 3).slotNo ∧
    (edubtm_FetchNext predEnv
        (edubtm_FetchNext predEnv (exStore exTree) exKdesc (exKey 0) SM_EOF
          (exCursor 10 1 3) exCursorEOS).st
        exKdesc (exKey 0) SM_BOF
        (edubtm_FetchNext predEnv (exStore exTree) exKdesc (exKey 0) SM_EOF
          (exCursor 10 1 3) exCursorEOS).next exCursorEOS).next.oid = exOid 3 ∧
    (edubtm_FetchNext predEnv
        (edubtm_FetchNext predEnv (exStore exTree) exKdesc (exKey 0) SM_EOF
          (exCursor 10 1 3) exCursorEOS).st
        exKdesc (exKey 0) SM_BOF
        (edubtm_FetchNext predEnv (exStore exTree) exKdesc (exKey 0) SM_EOF
          (exCursor 10 1 3) exCursorEOS).next exCursorEOS).next.key.len = (exKey 3).len ∧
    keyBytes (edubtm_FetchNext predEnv
        (edubtm_FetchNext predEnv (exStore exTree) exKdesc (exKey 0) SM_EOF
          (exCursor 10 1 3) exCursorEOS).st
        exKdesc (exKey 0) SM_BOF
        (edubtm_FetchNext predEnv (exStore exTree) exKdesc (exKey 0) SM_EOF
          (exCursor 10 1 3) exCursorEOS).next exCursorEOS).next.key = keyBytes (exKey 3) := by
  have h := fetchNext_forward_backward_inverse predEnv (exStore exTree) exKdesc (exKey 0)
    (exKey 0) 0 (10, exLeaf [1, 3] NIL 11) 1 (exCursor 10 1 3) exCursorEOS exCursorEOS
    (by decide) rfl rfl rfl (by decide) (by decide) (by decide)
    (fun _ => ⟨exLeaf [5, 7] 10 NIL, rfl, rfl, by decide, by decide⟩)
    (fun h => absurd rfl h)
  have h1 := h.1 (by decide) (by decide)
  have h2 := h.2.2.2.2.2.1 predEnv_sizesOK (by decide)
  rw [h1]
  exact ⟨by decide, by decide, rfl, rfl, h.2.2.1, h.2.2.2.1, h.2.2.2.2.1, h2.1, h2.2.1, h2.2.2⟩

/-! ## C24 -/

/-- C24. A cursor whose slot lies in `[0, nSlots)` of its leaf `p` (in the store, at most
32767 slots), one of the seven operators, and siblings of `p` that have at least one slot
when they are in the store: whenever `edubtm_FetchNext` reaches "Make next cursor" the page
it holds is the page `nextLeaf` of the store and the index satisfies
`0 ≤ idx < nSlots` of that page; so the embedding with the checked read returns the result
of `edubtm_FetchNext`, never `none`. -/
theorem fetchNext_slot_index_in_range (x : Env) (st : Store) (kdesc : KeyDesc)
    (kval : KeyValue) (compOp : Int) (current next : BtreeCursor) (p : BtreePage)
    (hp : st.page current.leaf = some p) (hn : p.nSlots ≤ 32767)
    (hs : 0 ≤ current.slotNo ∧ current.slotNo < p.nSlots)
    (hop : compOp = SM_EQ ∨ compOp = SM_LT ∨ compOp = SM_LE ∨ compOp = SM_GT ∨
      compOp = SM_GE ∨ compOp = SM_EOF ∨ compOp = SM_BOF)
    (hnext : ∀ q, st.page (MAKE_PAGEID current.leaf.volNo p.nextPage) = some q → 0 < q.nSlots)
    (hprev : ∀ q, st.page (MAKE_PAGEID current.leaf.volNo p.prevPage) = some q →
      0 < q.nSlots ∧ q.nSlots ≤ 32767) :
    (∀ loc, fetchCandidate st compOp current = some loc →
      st.page loc.nextLeaf = some loc.apage ∧ 0 ≤ loc.idx ∧ loc.idx < loc.apage.nSlots) ∧
    edubtm_FetchNextChecked x st kdesc kval compOp current next
      = some (edubtm_FetchNext x st kdesc kval compOp current next) := by
  have key := fetchCandidate_in_range st compOp current p hp hn hs hop hnext hprev
  refine ⟨key, ?_⟩
  unfold edubtm_FetchNextChecked
  split
  · rfl
  · cases hc : fetchCandidate st compOp current with
    | none => rfl
    | some loc =>
      obtain ⟨-, h1, h2⟩ := key loc hc
      simp [leafEntryChecked, h1, h2]

/-- C24, witness: the cursor on the last slot of leaf 10 of the example tree and `SM_EOF`;
the candidate is slot 0 of leaf 11. -/
theorem fetchNext_slot_index_in_range_witness :
    (∀ loc, fetchCandidate (exStore exTree) SM_EOF (exCursor 10 1 3) = some loc →
      (exStore exTree).page loc.nextLeaf = some loc.apage ∧ 0 ≤ loc.idx ∧
      loc.idx < loc.apage.nSlots) ∧
    edubtm_FetchNextChecked predEnv (exStore exTree) exKdesc (exKey 0) SM_EOF (exCursor 10 1 3)
        (exCursor 10 1 3)
      = some (edubtm_FetchNext predEnv (exStore exTree) exKdesc (exKey 0) SM_EOF
          (exCursor 10 1 3) (exCursor 10 1 3)) :=
  fetchNext_slot_index_in_range predEnv (exStore exTree) exKdesc (exKey 0) SM_EOF
    (exCursor 10 1 3) (exCursor 10 1 3) (exLeaf [1, 3] NIL 11) rfl (by decide) (by decide)
    (by decide)
    (fun q hq => by
      have h2 : some (exLeaf [5, 7] 10 NIL) = some q := hq
      injection h2 with h2
      subst h2
      decide)
    (fun q hq => by
      have h2 : (none : Option BtreePage) = some q := hq
      cases h2)

end EduBtM
